import Mathlib

/-!
# Query plan selection and the plan race (`mongo/db/queryoptimizer.cpp`)

A shallow embedding of `QueryPlan`, `QueryPlanGenerator`, `QueryPlanSet`,
`QueryPlanSet::Runner` and `QueryUtilIndexed`, followed by theorems about them.

Conventions of the embedding.

* A `BSONObj` is the list of its elements; the terminating EOO element is the end of
  the list.  Numbers are integers.
* Collaborators whose code lives outside `queryoptimizer.cpp` (field range sets, index
  plugins, the matcher, the operations being raced, the priority queue) are data or
  function fields of the structures below: every theorem holds for all their values.
* C++ exceptions are `Except QueryError`; `verify`, `massert` and `uassert` failures are
  the only errors.
* The plan cache of the namespace is threaded through the functions that write it.
-/

namespace Mongo

/-! ## BSON -/

/-- The value of a BSON element, as far as the optimizer looks at it. -/
inductive BSONValue where
  | number (n : Int)
  | string (s : String)
  | other (code : Nat)
  deriving DecidableEq, Repr

/-- A BSON element other than EOO. -/
structure BSONElement where
  fieldName : String
  value : BSONValue
  deriving DecidableEq, Repr

/-- A BSON object: its elements in order. -/
abbrev BSONObj := List BSONElement

/-- Source `BSONObj::firstElementFieldName`: the empty string for an empty object. -/
def firstElementFieldName : BSONObj → String
  | [] => ""
  | e :: _ => e.fieldName

/-- Source `elementDirection` (queryoptimizer.cpp:34). -/
def elementDirection (e : BSONElement) : Int :=
  match e.value with
  | BSONValue.number n => n
  | _ => 1

/-- Source expression `e.number()`: 0 for an element that is not a number. -/
def BSONElement.number (e : BSONElement) : Int :=
  match e.value with
  | BSONValue.number n => n
  | _ => 0

/-- The first element of a hint object (`_hint.firstElement()`), by its type: EOO when
there is no hint, an index name, an embedded object (a key pattern or `$natural`), or
an element of any other type. -/
inductive HintElement where
  | eoo
  | string (hintstr : String)
  | object (hintobj : BSONObj)
  | other
  deriving DecidableEq, Repr

/-! ## Field ranges (consumed) -/

/-- What the optimizer reads of a `FieldRange`. -/
structure FieldRange where
  universal : Bool
  equality : Bool
  isPointIntervalSet : Bool := false
  nIntervals : Nat := 1
  deriving DecidableEq, Repr

/-- The range of a field the query does not mention. -/
def universalFieldRange : FieldRange :=
  { universal := true, equality := false }

/-- The kind of bound a query pattern records for one field. -/
structure QueryPattern where
  fieldTypes : List (String × Nat)
  sort : BSONObj
  deriving DecidableEq, Repr

/-- A `FieldRangeSet`.  `ranges` is its map from field name to range; the other fields
are the answers of member functions defined outside this file. -/
structure FieldRangeSet where
  ns : String
  ranges : List (String × FieldRange)
  matchPossible : Bool
  matchPossibleForIndex : BSONObj → Bool
  mustBeExactMatchRepresentation : Bool
  pattern : BSONObj → QueryPattern
  simplifiedQuery : BSONObj → BSONObj
  /-- Source expression `FieldRangeVector( frs, keyPattern, direction ).hasAllIndexedRanges()` -/
  frvHasAllIndexedRanges : BSONObj → Int → Bool
  frvStartKey : BSONObj → Int → BSONObj
  frvEndKey : BSONObj → Int → BSONObj
  /-- Source expression `getSpecial()`: the name of the special index type the query asks for, or empty -/
  special : String := ""
  hasSpecialThatNeedsIndex : Bool := false

/-- Lookup in the `_ranges` map. -/
def lookupRange (f : String) : List (String × FieldRange) → Option FieldRange
  | [] => none
  | (k, r) :: rest => if k = f then some r else lookupRange f rest

/-- Modelled from the spec: `FieldRangeSet::range` (queryutil.cpp is not part of the
sources): the range recorded for the field, the universal range when the clause does
not constrain the field. -/
def FieldRangeSet.range (frs : FieldRangeSet) (f : String) : FieldRange :=
  match lookupRange f frs.ranges with
  | some r => r
  | none => universalFieldRange

/-- Modelled from the spec: `FieldRangeSet::numNonUniversalRanges` (queryutil.cpp is
not part of the sources): the number of non-universal (constrained) ranges in the
clause. -/
def FieldRangeSet.numNonUniversalRanges (frs : FieldRangeSet) : Int :=
  ((frs.ranges.filter (fun e => !e.2.universal)).length : Int)

/-- Modelled from the spec: `FieldRangeSet::noNonUniversalRanges` (queryutil.h is not
part of the sources): the clause has no constrained range. -/
def FieldRangeSet.noNonUniversalRanges (frs : FieldRangeSet) : Bool :=
  decide (frs.numNonUniversalRanges = 0)

/-- A `FieldRangeVector`: the value `QueryPlan::init` builds, kept as its constructor
arguments. -/
structure FieldRangeVector where
  frs : FieldRangeSet
  indexKey : BSONObj
  direction : Int

/-- The answer of `FieldRangeVector::hasAllIndexedRanges`, supplied by the field range
set the vector was built from. -/
def FieldRangeVector.hasAllIndexedRanges (v : FieldRangeVector) : Bool :=
  v.frs.frvHasAllIndexedRanges v.indexKey v.direction

/-- The answer of `FieldRangeVector::startKey`. -/
def FieldRangeVector.startKey (v : FieldRangeVector) : BSONObj :=
  v.frs.frvStartKey v.indexKey v.direction

/-- The answer of `FieldRangeVector::endKey`. -/
def FieldRangeVector.endKey (v : FieldRangeVector) : BSONObj :=
  v.frs.frvEndKey v.indexKey v.direction

/-! ## The matcher (consumed) and the `$exists:false` detector -/

/-- The comparison operator of an element matcher: `$exists` or any other. -/
inductive CompareOp where
  | opEXISTS
  | opOther
  deriving DecidableEq, Repr

/-- What the detector reads of an `ElementMatcher`. -/
structure ElementMatcher where
  compareOp : CompareOp
  isNot : Bool
  /-- Source expression `_toMatch.trueValue()` -/
  trueValue : Bool
  deriving DecidableEq, Repr

/-- One callback of `Matcher::visit` on a `MatcherVisitor`: `visitMatcher` carries
the address of the matcher being entered. -/
inductive MatcherVisit where
  | visitMatcher (addr : Nat)
  | visitElementMatcher (em : ElementMatcher)
  deriving DecidableEq, Repr

/-- A `Matcher` as a visitor sees it: its address and the callbacks `visit` makes, in
order (the traversal itself is outside this file). -/
structure Matcher where
  addr : Nat
  visits : List MatcherVisit
  deriving DecidableEq, Repr

/-- State of an `ExistsFalseDetector`. -/
structure ExistsFalseDetector where
  originalMatcher : Nat
  currentMatcher : Option Nat
  foundExistsFalse : Bool
  deriving DecidableEq, Repr

/-- Source `ExistsFalseDetector::ExistsFalseDetector` (queryoptimizer.cpp:385). -/
def ExistsFalseDetector.new (originalMatcher : Matcher) : ExistsFalseDetector :=
  { originalMatcher := originalMatcher.addr, currentMatcher := none, foundExistsFalse := false }

/-- Source `isExistsFalsePredicate` (queryoptimizer.cpp:392). -/
def isExistsFalsePredicate (elementMatcher : ElementMatcher) : Bool :=
  let hasTrueValue := elementMatcher.trueValue
  let hasNotModifier := elementMatcher.isNot
  if hasNotModifier then hasTrueValue else !hasTrueValue

/-- Source `ExistsFalseDetector::visitMatcher` (queryoptimizer.cpp:377). -/
def ExistsFalseDetector.visitMatcher (det : ExistsFalseDetector) (addr : Nat) :
    ExistsFalseDetector :=
  { det with currentMatcher := some addr }

/-- Source `ExistsFalseDetector::visitElementMatcher` (queryoptimizer.cpp:398). -/
def ExistsFalseDetector.visitElementMatcher (det : ExistsFalseDetector)
    (elementMatcher : ElementMatcher) : ExistsFalseDetector :=
  if elementMatcher.compareOp ≠ CompareOp.opEXISTS then det
  else if det.currentMatcher ≠ some det.originalMatcher then
    { det with foundExistsFalse := true }
  else if isExistsFalsePredicate elementMatcher then
    { det with foundExistsFalse := true }
  else det

/-- Dispatch of one callback. -/
def ExistsFalseDetector.accept (det : ExistsFalseDetector) : MatcherVisit → ExistsFalseDetector
  | MatcherVisit.visitMatcher addr => det.visitMatcher addr
  | MatcherVisit.visitElementMatcher em => det.visitElementMatcher em

/-- Source expression `matcher.visit( detector )`. -/
def Matcher.visit (m : Matcher) (det : ExistsFalseDetector) : ExistsFalseDetector :=
  m.visits.foldl ExistsFalseDetector.accept det

/-- A query: the BSON object and the document matcher the predicate layer builds for
it (`CoveredIndexMatcher::docMatcher`). -/
structure Query where
  obj : BSONObj
  docMatcher : Matcher
  deriving DecidableEq, Repr

/-! ## Indexes and namespaces (consumed) -/

/-- The score `IndexDetails::suitability` gives an index for a query and an order. -/
inductive Suitability where
  | USELESS
  | HELPFUL
  | OPTIMAL
  deriving DecidableEq, Repr

/-- What the optimizer reads of an `IndexDetails`, with the multikey bit the
namespace keeps for it. -/
structure IndexDetails where
  indexName : String
  keyPattern : BSONObj
  sparse : Bool
  special : Bool
  getSpecialIndexName : String
  suitability : BSONObj → BSONObj → Suitability
  multikey : Bool
  isIdIndex : Bool := false

/-- What the optimizer reads of a `NamespaceDetails`, the plan cache apart. -/
structure NamespaceDetails where
  indexes : List IndexDetails
  isCapped : Bool := false

/-- The number of indexes of the collection (`NamespaceDetails::nIndexes`). -/
def NamespaceDetails.nIndexes (d : NamespaceDetails) : Nat := d.indexes.length

/-- Source expression `_d->idx( idxNo )`; `none` when there is no such index. -/
def idx (d : Option NamespaceDetails) (idxNo : Int) : Option IndexDetails :=
  match d with
  | none => none
  | some nsd => if idxNo < 0 then none else nsd.indexes[idxNo.toNat]?

/-- Source expression `_d->isMultikey( idxNo )`. -/
def isMultikey (d : Option NamespaceDetails) (idxNo : Int) : Bool :=
  match idx d idxNo with
  | some i => i.multikey
  | none => false

/-- The pair of field range sets of a clause. -/
structure FieldRangeSetPair where
  singleKey : FieldRangeSet
  multiKey : FieldRangeSet

/-- The namespace of the clause (`FieldRangeSetPair::ns`). -/
def FieldRangeSetPair.ns (frsp : FieldRangeSetPair) : String := frsp.singleKey.ns

/-- Modelled from the spec: `FieldRangeSetPair::frsForIndex` (queryutil.cpp is not
part of the sources): the multi-key variant for a table scan and for a multikey
index, the single-key variant otherwise. -/
def FieldRangeSetPair.frsForIndex (frsp : FieldRangeSetPair) (d : Option NamespaceDetails)
    (idxNo : Int) : FieldRangeSet :=
  if idxNo < 0 then frsp.multiKey
  else if isMultikey d idxNo then frsp.multiKey else frsp.singleKey

/-- Modelled from the spec: `FieldRangeSetPair::matchPossible` (queryutil.h is not part
of the sources): whether any document can match the clause. -/
def FieldRangeSetPair.matchPossible (frsp : FieldRangeSetPair) : Bool :=
  frsp.multiKey.matchPossible

/-- Modelled from the spec: `FieldRangeSetPair::noNonUniversalRanges` (queryutil.h is
not part of the sources): the clause has no constrained range. -/
def FieldRangeSetPair.noNonUniversalRanges (frsp : FieldRangeSetPair) : Bool :=
  frsp.multiKey.noNonUniversalRanges

/-- The part of a `ParsedQuery` read here. -/
structure ParsedQuery where
  skip : Int
  numToReturn : Int
  wantMore : Bool
  deriving DecidableEq, Repr

/-- What the optimizer reads from outside this file: the namespace directory,
`cmdLine.noTableScan`, and three functions of the BSON and index libraries. -/
structure Database where
  nsdetails : String → Option NamespaceDetails
  noTableScan : Bool
  /-- Source `BSONElement::woCompare`: negative, zero or positive -/
  woCompare : BSONElement → BSONElement → Int
  /-- Source `BSONObj::extractFieldsUnDotted`, the receiver first -/
  extractFieldsUnDotted : BSONObj → BSONObj → BSONObj
  /-- Source `IndexDetails::isIdIndexPattern` -/
  isIdIndexPattern : BSONObj → Bool

/-! ## Errors -/

/-- The assertion failures the optimizer raises: `massert`, `uassert` (with their
codes), `verify`, the use of an index number the collection does not have, and the
use of a null pointer. -/
inductive QueryError where
  | msgasserted (code : Nat)
  | uasserted (code : Nat)
  | verifyFailed
  | invalidIndex
  | nullPointer
  /-- Not an error of the program: the bound on a loop of the embedding was reached. -/
  | outOfFuel
  deriving DecidableEq, Repr

/-! ## `QueryPlan` -/

/-- The utility classification of a plan (`QueryPlan::Utility`). -/
inductive Utility where
  | Impossible
  | Optimal
  | Helpful
  | Unhelpful
  | Disallowed
  deriving DecidableEq, Repr

/-- The members of a `QueryPlan` that the optimizer reads and writes. -/
structure QueryPlan where
  d : Option NamespaceDetails
  idxNo : Int
  frs : FieldRangeSet
  frsMulti : FieldRangeSet
  originalQuery : Query
  order : BSONObj
  parsedQuery : Option ParsedQuery
  index : Option IndexDetails
  scanAndOrderRequired : Bool
  matcherNecessary : Bool
  direction : Int
  endKeyInclusive : Bool
  utility : Utility
  special : String
  startOrEndSpec : Bool
  startKey : BSONObj
  endKey : BSONObj
  frv : Option FieldRangeVector
  originalFrv : Option FieldRangeVector

/-- Source `QueryPlan::QueryPlan` (queryoptimizer.cpp:88). -/
def QueryPlan.new (d : Option NamespaceDetails) (idxNo : Int) (frsp : FieldRangeSetPair)
    (originalQuery : Query) (order : BSONObj) (parsedQuery : Option ParsedQuery)
    (special : String) : QueryPlan :=
  { d := d
    idxNo := idxNo
    frs := frsp.frsForIndex d idxNo
    frsMulti := frsp.frsForIndex d (-1)
    originalQuery := originalQuery
    order := order
    parsedQuery := parsedQuery
    index := none
    scanAndOrderRequired := true
    matcherNecessary := true
    direction := 0
    endKeyInclusive := false
    utility := Utility.Helpful
    special := special
    startOrEndSpec := false
    startKey := []
    endKey := []
    frv := none
    originalFrv := none }

/-- Modelled from the spec: `QueryPlan::willScanTable` (declared in queryoptimizer.h,
not part of the sources): the plan is a table scan, that is it has no index, and can
match. -/
def QueryPlan.willScanTable (p : QueryPlan) : Bool :=
  decide (p.idxNo < 0) && decide (p.utility ≠ Utility.Impossible)

/-- Modelled from the spec: `QueryPlan::indexed` (declared in queryoptimizer.h, not part
of the sources): the plan has an index, `_index != 0`. -/
def QueryPlan.indexed (p : QueryPlan) : Bool := p.index.isSome

/-- Source `QueryPlan::indexKey` (queryoptimizer.cpp:312). -/
def QueryPlan.indexKey (p : QueryPlan) : BSONObj :=
  match p.index with
  | none => [{ fieldName := "$natural", value := BSONValue.number 1 }]
  | some i => i.keyPattern

/-- Source `QueryPlan::hasPossibleExistsFalsePredicate` (queryoptimizer.cpp:416). -/
def QueryPlan.hasPossibleExistsFalsePredicate (p : QueryPlan) : Bool :=
  let detector := ExistsFalseDetector.new p.originalQuery.docMatcher
  (p.originalQuery.docMatcher.visit detector).foundExistsFalse

/-- The inner `while( 1 )` of the order walk (queryoptimizer.cpp:164): advance `k` to
the index field named like the sort field.  `none` is `goto doneCheckOrder`. -/
def nextOrderKey (frs : FieldRangeSet) (oeName : String) :
    List BSONElement → Option (BSONElement × List BSONElement)
  | [] => none
  | ke :: ks =>
    if oeName = ke.fieldName then some (ke, ks)
    else if !(frs.range ke.fieldName).equality then none
    else nextOrderKey frs oeName ks

/-- The order walk of `QueryPlan::init` (queryoptimizer.cpp:151-178), from the
iterator positions `o` and `k` and the current `_direction`; returns
`(_scanAndOrderRequired, _direction)` at `doneCheckOrder`.  Neither iterator is ever
past its EOO inside the loop, so `!k.moreWithEOO()` never holds there. -/
def checkOrder (frs : FieldRangeSet) :
    List BSONElement → List BSONElement → Int → Bool × Int
  | [], _, direction => (false, direction)
  | oe :: os, k, direction =>
    match nextOrderKey frs oe.fieldName k with
    | none => (true, direction)
    | some (ke, ks) =>
      let d : Int := if elementDirection oe = elementDirection ke then 1 else -1
      if direction = 0 then checkOrder frs os ks d
      else if direction ≠ d then (true, direction)
      else checkOrder frs os ks direction

/-- The index key walk of `QueryPlan::init` (queryoptimizer.cpp:188-209): the final
`optimalIndexedQueryCount`.  (`exactIndexedQueryCount` and `orderFieldsUnindexed` are
computed there and never read.) -/
def optimalIndexedQueryCountFrom (frs : FieldRangeSet) :
    List BSONElement → Int → Bool → Int
  | [], optimalIndexedQueryCount, _ => optimalIndexedQueryCount
  | e :: es, optimalIndexedQueryCount, awaitingLastOptimalField =>
    let fr := frs.range e.fieldName
    if awaitingLastOptimalField then
      optimalIndexedQueryCountFrom frs es
        (if !fr.universal then optimalIndexedQueryCount + 1 else optimalIndexedQueryCount)
        (if !fr.equality then false else awaitingLastOptimalField)
    else
      optimalIndexedQueryCountFrom frs es
        (if !fr.universal then -1 else optimalIndexedQueryCount)
        awaitingLastOptimalField

/-- The part of `QueryPlan::init` from the order walk to the Unhelpful test
(queryoptimizer.cpp:151-249), for a plan that is not special. -/
def QueryPlan.initRanges (p : QueryPlan) (idxKey : BSONObj)
    (originalFrsp : Option FieldRangeSetPair) (startKey endKey : BSONObj) : QueryPlan :=
  let walk := checkOrder p.frs p.order idxKey p.direction
  let scanAndOrderRequired := walk.1
  let direction : Int := if scanAndOrderRequired then 0 else walk.2
  let optimalIndexedQueryCount := optimalIndexedQueryCountFrom p.frs idxKey 0 true
  let utility₁ :=
    if !scanAndOrderRequired && decide (optimalIndexedQueryCount = p.frs.numNonUniversalRanges)
    then Utility.Optimal else p.utility
  let frv : FieldRangeVector := { frs := p.frs, indexKey := idxKey, direction := direction }
  let matcherNecessary :=
    if decide (utility₁ = Utility.Optimal) && p.frs.mustBeExactMatchRepresentation &&
        frv.hasAllIndexedRanges
    then false else p.matcherNecessary
  let originalFrv : FieldRangeVector :=
    match originalFrsp with
    | some ofrsp =>
      { frs := ofrsp.frsForIndex p.d p.idxNo, indexKey := idxKey, direction := direction }
    | none => frv
  let startKey₁ :=
    if p.startOrEndSpec then (if !startKey.isEmpty then startKey else frv.startKey)
    else p.startKey
  let endKey₁ :=
    if p.startOrEndSpec then (if !endKey.isEmpty then endKey else frv.endKey)
    else p.endKey
  let utility₂ :=
    if (scanAndOrderRequired || p.order.isEmpty) &&
        (p.frs.range (firstElementFieldName idxKey)).universal
    then Utility.Unhelpful else utility₁
  { p with
    scanAndOrderRequired := scanAndOrderRequired
    direction := direction
    utility := utility₂
    frv := some frv
    matcherNecessary := matcherNecessary
    originalFrv := some originalFrv
    startKey := startKey₁
    endKey := endKey₁ }

/-- The rest of `QueryPlan::init` once `_index` is set, for a plan that is not
special (queryoptimizer.cpp:151-253).  `_keyFieldsOnly` is not modelled. -/
def QueryPlan.initIndexed (p : QueryPlan) (index : IndexDetails) (idxKey : BSONObj)
    (originalFrsp : Option FieldRangeSetPair) (startKey endKey : BSONObj) : QueryPlan :=
  let p₁ := p.initRanges idxKey originalFrsp startKey endKey
  if index.sparse && p₁.hasPossibleExistsFalsePredicate then
    { p₁ with utility := Utility.Disallowed }
  else p₁

/-- Source `QueryPlan::init` (queryoptimizer.cpp:112). -/
def QueryPlan.init (p₀ : QueryPlan) (originalFrsp : Option FieldRangeSetPair)
    (startKey endKey : BSONObj) : Except QueryError QueryPlan :=
  let p : QueryPlan :=
    { p₀ with
      endKeyInclusive := endKey.isEmpty
      startOrEndSpec := !startKey.isEmpty || !endKey.isEmpty }
  match (if p.idxNo < 0 then some [] else (idx p.d p.idxNo).map (fun i => i.keyPattern)) with
  | none => Except.error QueryError.invalidIndex
  | some idxKey =>
    if !p.frs.matchPossibleForIndex idxKey then
      Except.ok { p with utility := Utility.Impossible, scanAndOrderRequired := false }
    else if p.willScanTable then
      if p.order.isEmpty || decide (firstElementFieldName p.order = "$natural") then
        Except.ok { p with scanAndOrderRequired := false }
      else Except.ok p
    else
      match idx p.d p.idxNo with
      | none => Except.error QueryError.invalidIndex
      | some index =>
        let p : QueryPlan := { p with index := some index }
        if decide (p.special ≠ "") ||
            (index.special &&
              decide (index.suitability p.originalQuery.obj p.order ≠ Suitability.USELESS)) then
          let special := if p.special = "" then index.getSpecialIndexName else p.special
          if special = "" then Except.error (QueryError.msgasserted 13040)
          else
            Except.ok { p with special := special, scanAndOrderRequired := !p.order.isEmpty }
        else
          Except.ok (p.initIndexed index idxKey originalFrsp startKey endKey)

/-- Source `QueryPlan::make` (queryoptimizer.cpp:72). -/
def QueryPlan.make (d : Option NamespaceDetails) (idxNo : Int) (frsp : FieldRangeSetPair)
    (originalFrsp : Option FieldRangeSetPair) (originalQuery : Query) (order : BSONObj)
    (parsedQuery : Option ParsedQuery) (startKey endKey : BSONObj) (special : String) :
    Except QueryError QueryPlan :=
  (QueryPlan.new d idxNo frsp originalQuery order parsedQuery special).init
    originalFrsp startKey endKey

/-- Source `QueryPlan::isMultiKey` (queryoptimizer.cpp:482). -/
def QueryPlan.isMultiKey (p : QueryPlan) : Bool :=
  if p.idxNo < 0 then false else isMultikey p.d p.idxNo

/-- First loop of `QueryPlan::queryBoundsExactOrderSuffix` (queryoptimizer.cpp:432):
`none` is `return false`, otherwise the count and the two iterator positions. -/
def coveredRanges (frs : FieldRangeSet) :
    List BSONElement → List BSONElement → Int → Option (Int × List BSONElement × List BSONElement)
  | [], order, covered => some (covered, [], order)
  | ie :: index, order, covered =>
    let indexFieldRange := frs.range ie.fieldName
    if !indexFieldRange.isPointIntervalSet then
      if !indexFieldRange.universal then
        if indexFieldRange.nIntervals > 1 then none
        else some (covered + 1, ie :: index, order)
      else some (covered, ie :: index, order)
    else
      match order with
      | oe :: os =>
        if ie.fieldName = oe.fieldName then coveredRanges frs index os (covered + 1)
        else coveredRanges frs index (oe :: os) (covered + 1)
      | [] => coveredRanges frs index [] (covered + 1)

/-- Second loop of `QueryPlan::queryBoundsExactOrderSuffix` (queryoptimizer.cpp:454)
with the final `return !order.more()`. -/
def orderSuffixMatches : List BSONElement → List BSONElement → Bool
  | ie :: index, oe :: order =>
    if ie.fieldName ≠ oe.fieldName then false
    else if decide (elementDirection ie < 0) != decide (elementDirection oe < 0) then false
    else orderSuffixMatches index order
  | _, order => order.isEmpty

/-- Source `QueryPlan::queryBoundsExactOrderSuffix` (queryoptimizer.cpp:422). -/
def QueryPlan.queryBoundsExactOrderSuffix (p : QueryPlan) : Bool :=
  if !p.indexed || !p.frs.matchPossible || !p.frs.mustBeExactMatchRepresentation then false
  else
    match coveredRanges p.frs p.indexKey p.order 0 with
    | none => false
    | some (coveredNonUniversalRanges, index, order) =>
      if coveredNonUniversalRanges ≠ p.frs.numNonUniversalRanges then false
      else orderSuffixMatches index order

/-- Source `QueryPlan::independentRangesSingleIntervalLimit` (queryoptimizer.cpp:355). -/
def QueryPlan.independentRangesSingleIntervalLimit (p : QueryPlan) : Except QueryError Int :=
  match p.parsedQuery with
  | some parsedQuery =>
    if p.scanAndOrderRequired && !parsedQuery.wantMore && !p.isMultiKey &&
        p.queryBoundsExactOrderSuffix then
      if p.direction = 0 then Except.ok (parsedQuery.skip + parsedQuery.numToReturn)
      else Except.error QueryError.verifyFailed
    else Except.ok 0
  | none => Except.ok 0

/-- Substring test (`strstr`, `str::contains`). -/
def strContains (s sub : String) : Bool := decide (sub.toList <:+: s.toList)

/-- Source `str::startsWith`. -/
def strStartsWith (s pre : String) : Bool := pre.toList.isPrefixOf s.toList

/-- Source `QueryPlan::checkTableScanAllowed` (queryoptimizer.cpp:335). -/
def QueryPlan.checkTableScanAllowed (db : Database) (p : QueryPlan) : Except QueryError Unit :=
  if !db.noTableScan then Except.ok ()
  else if p.frs.numNonUniversalRanges = 0 then Except.ok ()
  else if strContains p.frs.ns ".system." then Except.ok ()
  else if strStartsWith p.frs.ns "local." then Except.ok ()
  else if (db.nsdetails p.frs.ns).isNone then Except.ok ()
  else if !db.noTableScan then Except.ok ()
  else Except.error (QueryError.uasserted 10111)

/-- Source expression `obj.getField( name ).number()`: 0 when the field is missing or not a number. -/
def getFieldNumber (obj : BSONObj) (name : String) : Int :=
  match obj.find? (fun e => decide (e.fieldName = name)) with
  | some e => (match e.value with | BSONValue.number n => n | _ => 0)
  | none => 0

/-- The cursor `QueryPlan::newCursor` makes, by the factory call that makes it. -/
inductive Cursor where
  /-- Source expression `_index->newCursor( _originalQuery, _order, numWanted )` -/
  | specialIndexCursor (index : IndexDetails) (query : Query) (order : BSONObj) (numWanted : Int)
  /-- Source expression `BasicCursor::make( NULL )`: returns no results -/
  | dummyCursor
  /-- Source expression `BasicCursor::make( d, direction )` -/
  | basicCursor (d : Option NamespaceDetails) (direction : Int)
  /-- Source `IndexCursor::make` with start and end keys -/
  | indexCursorBounds (index : IndexDetails) (startKey endKey : BSONObj)
      (endKeyInclusive : Bool) (direction : Int) (numWanted : Int)
  /-- Source `IndexCursor::make` with a field range vector -/
  | indexCursorFrv (index : IndexDetails) (frv : Option FieldRangeVector)
      (singleIntervalLimit : Int) (direction : Int) (numWanted : Int)

/-- Source `QueryPlan::newCursor` (queryoptimizer.cpp:260). -/
def QueryPlan.newCursor (db : Database) (p : QueryPlan) : Except QueryError Cursor :=
  let numWanted : Int :=
    match p.parsedQuery with
    | some parsedQuery => parsedQuery.skip + parsedQuery.numToReturn
    | none => 0
  match p.index.filter (fun i => i.special) with
  | some index =>
    Except.ok (Cursor.specialIndexCursor index p.originalQuery p.order numWanted)
  | none =>
    if p.utility = Utility.Impossible then Except.ok Cursor.dummyCursor
    else if p.willScanTable then
      match p.checkTableScanAllowed db with
      | Except.error e => Except.error e
      | Except.ok _ =>
        let direction : Int := if getFieldNumber p.order "$natural" ≥ 0 then 1 else -1
        Except.ok (Cursor.basicCursor (db.nsdetails p.frs.ns) direction)
    else
      match p.index with
      | none => Except.error QueryError.verifyFailed
      | some index =>
        let direction : Int := if p.direction ≥ 0 then 1 else -1
        if p.startOrEndSpec then
          Except.ok (Cursor.indexCursorBounds index p.startKey p.endKey p.endKeyInclusive
            direction numWanted)
        else if index.special then
          match p.frv with
          | none => Except.error QueryError.verifyFailed
          | some frv =>
            Except.ok (Cursor.indexCursorBounds index frv.startKey frv.endKey true direction
              numWanted)
        else
          match p.independentRangesSingleIntervalLimit with
          | Except.error e => Except.error e
          | Except.ok limit =>
            Except.ok (Cursor.indexCursorFrv index p.frv limit direction numWanted)

/-! ## The plan cache -/

/-- Source `CandidatePlanCharacter`. -/
structure CandidatePlanCharacter where
  mayRunInOrderPlan : Bool
  mayRunOutOfOrderPlan : Bool
  deriving DecidableEq, Repr

/-- Source `CachedQueryPlan`. -/
structure CachedQueryPlan where
  indexKey : BSONObj
  nScanned : Int
  planCharacter : CandidatePlanCharacter
  deriving DecidableEq, Repr

/-- Source expression `CachedQueryPlan()`: the empty entry. -/
def CachedQueryPlan.empty : CachedQueryPlan :=
  { indexKey := [], nScanned := 0,
    planCharacter := { mayRunInOrderPlan := false, mayRunOutOfOrderPlan := false } }

/-- Modelled from the spec: the plan cache kept in `NamespaceDetails` (namespace_details.h
is not part of the sources): a map from query pattern to cached entry, where a pattern
never registered maps to the empty entry. -/
abbrev QueryCache := QueryPattern → CachedQueryPlan

/-- Modelled from the spec: `NamespaceDetails::cachedQueryPlanForPattern`, the get
operation of the plan cache. -/
def cachedQueryPlanForPattern (cache : QueryCache) (pattern : QueryPattern) : CachedQueryPlan :=
  cache pattern

/-- Modelled from the spec: `NamespaceDetails::registerCachedQueryPlanForPattern`, the
set operation of the plan cache: last writer wins. -/
def registerCachedQueryPlanForPattern (cache : QueryCache) (pattern : QueryPattern)
    (cachedQueryPlan : CachedQueryPlan) : QueryCache :=
  fun q => if q = pattern then cachedQueryPlan else cache q

/-- Source `QueryPlan::registerSelf` (queryoptimizer.cpp:318). -/
def QueryPlan.registerSelf (db : Database) (p : QueryPlan) (nScanned : Int)
    (candidatePlans : CandidatePlanCharacter) (cache : QueryCache) : QueryCache :=
  if p.utility = Utility.Impossible then cache
  else
    match db.nsdetails p.frs.ns with
    | some _ =>
      let queryPattern := p.frs.pattern p.order
      let queryPlanToCache : CachedQueryPlan :=
        { indexKey := p.indexKey, nScanned := nScanned, planCharacter := candidatePlans }
      registerCachedQueryPlanForPattern cache queryPattern queryPlanToCache
    | none => cache

/-- Source `QueryUtilIndexed::clearIndexesForPatterns` (queryoptimizer.cpp:1574). -/
def clearIndexesForPatterns (db : Database) (frsp : FieldRangeSetPair) (order : BSONObj)
    (cache : QueryCache) : QueryCache :=
  match db.nsdetails frsp.ns with
  | some _ =>
    let noCachedPlan := CachedQueryPlan.empty
    registerCachedQueryPlanForPattern
      (registerCachedQueryPlanForPattern cache (frsp.singleKey.pattern order) noCachedPlan)
      (frsp.multiKey.pattern order) noCachedPlan
  | none => cache

/-- Source `QueryUtilIndexed::bestIndexForPatterns` (queryoptimizer.cpp:1584). -/
def bestIndexForPatterns (db : Database) (frsp : FieldRangeSetPair) (order : BSONObj)
    (cache : QueryCache) : CachedQueryPlan :=
  match db.nsdetails frsp.ns with
  | some _ =>
    let cachedQueryPlan := cachedQueryPlanForPattern cache (frsp.singleKey.pattern order)
    if !cachedQueryPlan.indexKey.isEmpty then cachedQueryPlan
    else
      let cachedQueryPlan := cachedQueryPlanForPattern cache (frsp.multiKey.pattern order)
      if !cachedQueryPlan.indexKey.isEmpty then cachedQueryPlan
      else CachedQueryPlan.empty
  | none => CachedQueryPlan.empty

/-- Source `QueryUtilIndexed::indexUseful` (queryoptimizer.cpp:1564). -/
def indexUseful (frsp : FieldRangeSetPair) (d : NamespaceDetails) (idxNo : Nat)
    (order : BSONObj) : Bool :=
  match d.indexes[idxNo]? with
  | none => false
  | some index =>
    let keyPattern := index.keyPattern
    let frs := frsp.frsForIndex (some d) idxNo
    if !frs.matchPossibleForIndex keyPattern then true
    else decide (index.suitability (frs.simplifiedQuery keyPattern) order ≠ Suitability.USELESS)

/-! ## `QueryPlanSet` and `QueryPlanGenerator` -/

/-- The policy on recorded plans (`QueryPlanGenerator::RecordedPlanPolicy`). -/
inductive RecordedPlanPolicy where
  | Ignore
  | UseIfInOrder
  | Use
  deriving DecidableEq, Repr

/-- A `QueryPlanSet` together with the `QueryPlanGenerator` it owns (`_generator`,
whose `_qps` is the set itself). -/
structure QueryPlanSet where
  originalFrsp : Option FieldRangeSetPair
  parsedQuery : Option ParsedQuery
  hint : HintElement
  recordedPlanPolicy : RecordedPlanPolicy
  min : BSONObj
  max : BSONObj
  allowSpecial : Bool
  originalQuery : Query
  frsp : FieldRangeSetPair
  mayRecordPlan : Bool
  usingCachedPlan : Bool
  order : BSONObj
  oldNScanned : Int
  cachedPlanCharacter : CandidatePlanCharacter
  plans : List QueryPlan

/-- Source `QueryPlanSet::QueryPlanSet` (queryoptimizer.cpp:800). -/
def QueryPlanSet.new (frsp : FieldRangeSetPair) (originalFrsp : Option FieldRangeSetPair)
    (originalQuery : Query) (order : BSONObj) (parsedQuery : Option ParsedQuery)
    (hint : HintElement) (recordedPlanPolicy : RecordedPlanPolicy) (min max : BSONObj)
    (allowSpecial : Bool) : QueryPlanSet :=
  { originalFrsp := originalFrsp
    parsedQuery := parsedQuery
    hint := hint
    recordedPlanPolicy := recordedPlanPolicy
    min := min
    max := max
    allowSpecial := allowSpecial
    originalQuery := originalQuery
    frsp := frsp
    mayRecordPlan := false
    usingCachedPlan := false
    order := order
    oldNScanned := 0
    cachedPlanCharacter := { mayRunInOrderPlan := false, mayRunOutOfOrderPlan := false }
    plans := [] }

/-- The number of plans in the set (`QueryPlanSet::nPlans`). -/
def QueryPlanSet.nPlans (s : QueryPlanSet) : Nat := s.plans.length

/-- Source `QueryPlanGenerator::newPlan` (queryoptimizer.cpp:716). -/
def QueryPlanSet.newPlan (s : QueryPlanSet) (d : Option NamespaceDetails) (idxNo : Int)
    (min max : BSONObj) (special : String) : Except QueryError QueryPlan :=
  QueryPlan.make d idxNo s.frsp s.originalFrsp s.originalQuery s.order s.parsedQuery
    min max special

/-- Source `QueryPlanSet::pushPlan` (queryoptimizer.cpp:867). -/
def QueryPlanSet.pushPlan (s : QueryPlanSet) (plan : QueryPlan) : Except QueryError QueryPlanSet :=
  if s.allowSpecial || decide (plan.special = "") then
    Except.ok { s with plans := s.plans ++ [plan] }
  else Except.error QueryError.verifyFailed

/-- Source `QueryPlanSet::setSinglePlan` (queryoptimizer.cpp:837). -/
def QueryPlanSet.setSinglePlan (s : QueryPlanSet) (plan : QueryPlan) :
    Except QueryError QueryPlanSet :=
  if s.nPlans = 0 then s.pushPlan plan else Except.ok s

/-- Source `QueryPlanSet::setCachedPlan` (queryoptimizer.cpp:843). -/
def QueryPlanSet.setCachedPlan (s : QueryPlanSet) (plan : QueryPlan)
    (cachedPlan : CachedQueryPlan) : Except QueryError QueryPlanSet :=
  if s.nPlans = 0 then
    { s with
      usingCachedPlan := true
      oldNScanned := cachedPlan.nScanned
      cachedPlanCharacter := cachedPlan.planCharacter }.pushPlan plan
  else Except.error QueryError.verifyFailed

/-- Source `QueryPlanSet::addCandidatePlan` (queryoptimizer.cpp:852). -/
def QueryPlanSet.addCandidatePlan (s : QueryPlanSet) (plan : QueryPlan) :
    Except QueryError QueryPlanSet :=
  match s.plans with
  | firstPlan :: _ =>
    if plan.indexKey = firstPlan.indexKey then Except.ok s
    else (s.pushPlan plan).map (fun s₁ => { s₁ with mayRecordPlan := true })
  | [] => (s.pushPlan plan).map (fun s₁ => { s₁ with mayRecordPlan := true })

/-- Source `QueryPlanSet::hasPossiblyExcludedPlans` (queryoptimizer.cpp:872). -/
def QueryPlanSet.hasPossiblyExcludedPlans (s : QueryPlanSet) : Bool :=
  s.usingCachedPlan && decide (s.nPlans = 1) &&
    (match s.plans with
     | firstPlan :: _ => decide (firstPlan.utility ≠ Utility.Optimal)
     | [] => false)

/-- Source `QueryPlanSet::haveInOrderPlan` (queryoptimizer.cpp:901). -/
def QueryPlanSet.haveInOrderPlan (s : QueryPlanSet) : Bool :=
  s.plans.any (fun p => !p.scanAndOrderRequired)

/-- Source `QueryPlanSet::possibleInOrderPlan` (queryoptimizer.cpp:910). -/
def QueryPlanSet.possibleInOrderPlan (s : QueryPlanSet) : Bool :=
  if s.haveInOrderPlan then true else s.cachedPlanCharacter.mayRunInOrderPlan

/-- Source `QueryPlanSet::possibleOutOfOrderPlan` (queryoptimizer.cpp:917). -/
def QueryPlanSet.possibleOutOfOrderPlan (s : QueryPlanSet) : Bool :=
  if s.plans.any (fun p => p.scanAndOrderRequired) then true
  else s.cachedPlanCharacter.mayRunOutOfOrderPlan

/-- Source `QueryPlanSet::characterizeCandidatePlans` (queryoptimizer.cpp:926). -/
def QueryPlanSet.characterizeCandidatePlans (s : QueryPlanSet) : CandidatePlanCharacter :=
  { mayRunInOrderPlan := s.possibleInOrderPlan, mayRunOutOfOrderPlan := s.possibleOutOfOrderPlan }

/-- Locals of the index loop of `QueryPlanGenerator::addFallbackPlans`. -/
structure FallbackLocals where
  plans : List QueryPlan
  optimalPlan : Option QueryPlan
  specialPlan : Option QueryPlan

/-- How the index loop of `addFallbackPlans` ends: at an Impossible plan (the early
`return`) or past the last index. -/
inductive FallbackLoopEnd where
  | impossiblePlan (p : QueryPlan)
  | finished (locals : FallbackLocals)

/-- The `for` loop of `QueryPlanGenerator::addFallbackPlans` (queryoptimizer.cpp:539-567)
over the index numbers still to visit. -/
def fallbackLoop (s : QueryPlanSet) (d : NamespaceDetails) :
    List Nat → FallbackLocals → Except QueryError FallbackLoopEnd
  | [], locals => Except.ok (FallbackLoopEnd.finished locals)
  | i :: rest, locals =>
    if !indexUseful s.frsp d i s.order then fallbackLoop s d rest locals
    else
      match s.newPlan (some d) (i : Int) [] [] "" with
      | Except.error e => Except.error e
      | Except.ok p =>
        match p.utility with
        | Utility.Impossible => Except.ok (FallbackLoopEnd.impossiblePlan p)
        | Utility.Optimal =>
          fallbackLoop s d rest
            (if locals.optimalPlan.isNone then { locals with optimalPlan := some p } else locals)
        | Utility.Helpful =>
          if p.special = "" then
            fallbackLoop s d rest { locals with plans := locals.plans ++ [p] }
          else if s.allowSpecial then
            fallbackLoop s d rest { locals with specialPlan := some p }
          else fallbackLoop s d rest locals
        | _ => fallbackLoop s d rest locals

/-- The loop `_qps.addCandidatePlan( *i )` over `plans` (queryoptimizer.cpp:585). -/
def addCandidatePlans (s : QueryPlanSet) : List QueryPlan → Except QueryError QueryPlanSet
  | [] => Except.ok s
  | p :: rest =>
    match s.addCandidatePlan p with
    | Except.error e => Except.error e
    | Except.ok s₁ => addCandidatePlans s₁ rest

/-- Source `QueryPlanGenerator::addFallbackPlans` (queryoptimizer.cpp:531). -/
def QueryPlanGenerator.addFallbackPlans (db : Database) (s : QueryPlanSet) (cache : QueryCache) :
    Except QueryError (QueryPlanSet × QueryCache) :=
  match db.nsdetails s.frsp.ns with
  | none => Except.error QueryError.verifyFailed
  | some d =>
    match fallbackLoop s d (List.range d.nIndexes)
        { plans := [], optimalPlan := none, specialPlan := none } with
    | Except.error e => Except.error e
    | Except.ok (FallbackLoopEnd.impossiblePlan p) =>
      (s.setSinglePlan p).map (fun s₁ => (s₁, cache))
    | Except.ok (FallbackLoopEnd.finished locals) =>
      match locals.optimalPlan with
      | some optimalPlan =>
        (s.setSinglePlan optimalPlan).map (fun s₁ =>
          (s₁, optimalPlan.registerSelf db 0
            { mayRunInOrderPlan := !optimalPlan.scanAndOrderRequired
              mayRunOutOfOrderPlan := optimalPlan.scanAndOrderRequired } cache))
      | none =>
        match (if locals.plans.isEmpty then locals.specialPlan else none) with
        | some specialPlan => (s.setSinglePlan specialPlan).map (fun s₁ => (s₁, cache))
        | none =>
          match addCandidatePlans s locals.plans with
          | Except.error e => Except.error e
          | Except.ok s₁ =>
            match s.newPlan (some d) (-1) [] [] "" with
            | Except.error e => Except.error e
            | Except.ok tableScan => (s₁.addCandidatePlan tableScan).map (fun s₂ => (s₂, cache))

/-- Source `QueryPlanSet::addFallbackPlans` (queryoptimizer.cpp:862). -/
def QueryPlanSet.addFallbackPlans (db : Database) (s : QueryPlanSet) (cache : QueryCache) :
    Except QueryError (QueryPlanSet × QueryCache) :=
  (QueryPlanGenerator.addFallbackPlans db s cache).map
    (fun r => ({ r.1 with mayRecordPlan := true }, r.2))

/-- The index loop of `QueryPlanGenerator::addCachedPlan` (queryoptimizer.cpp:688-695):
`p` is replaced at every index whose key pattern equals `bestIndex`. -/
def cachedPlanLoop (s : QueryPlanSet) (d : NamespaceDetails) (bestIndex : BSONObj) :
    List (Nat × IndexDetails) → Option QueryPlan → Except QueryError (Option QueryPlan)
  | [], p => Except.ok p
  | (j, ii) :: rest, p =>
    if ii.keyPattern = bestIndex then
      match s.newPlan (some d) (j : Int) [] [] "" with
      | Except.error e => Except.error e
      | Except.ok q => cachedPlanLoop s d bestIndex rest (some q)
    else cachedPlanLoop s d bestIndex rest p

/-- Source `QueryPlanGenerator::addCachedPlan` (queryoptimizer.cpp:672), called with the
namespace found (`d` is not null).  The Boolean is the return value. -/
def QueryPlanGenerator.addCachedPlan (db : Database) (s : QueryPlanSet) (d : NamespaceDetails)
    (cache : QueryCache) : Except QueryError (Bool × QueryPlanSet) :=
  if s.recordedPlanPolicy = RecordedPlanPolicy.Ignore then Except.ok (false, s)
  else
    let best := bestIndexForPatterns db s.frsp s.order cache
    let bestIndex := best.indexKey
    if bestIndex.isEmpty then Except.ok (false, s)
    else
      match (if firstElementFieldName bestIndex = "$natural"
             then (s.newPlan (some d) (-1) [] [] "").map some else Except.ok none) with
      | Except.error e => Except.error e
      | Except.ok p₀ =>
        match cachedPlanLoop s d bestIndex d.indexes.enum p₀ with
        | Except.error e => Except.error e
        | Except.ok none => Except.error (QueryError.msgasserted 10368)
        | Except.ok (some p) =>
          if p.utility = Utility.Unhelpful ∨ p.utility = Utility.Disallowed then
            Except.ok (false, s)
          else if s.recordedPlanPolicy = RecordedPlanPolicy.UseIfInOrder ∧
              p.scanAndOrderRequired = true then
            Except.ok (false, s)
          else if s.allowSpecial = false ∧ p.special ≠ "" then Except.ok (false, s)
          else (s.setCachedPlan p best).map (fun s₁ => (true, s₁))

/-! ## `QueryOp` (consumed) -/

/-- Source `ExceptionInfo`. -/
structure ExceptionInfo where
  msg : String
  code : Int
  deriving DecidableEq, Repr

/-- What an implementation of `QueryOp` may throw. -/
inductive Thrown where
  | dbException (info : ExceptionInfo)
  | stdException (what : String)
  | unknown
  deriving DecidableEq, Repr

/-- What one call of the implementation's `_init()` or `next()` does: whether it
called `setComplete()` or `setStop()`, what `nscanned()` and `mayRecordPlan()` report
afterwards, and what it threw, if anything. -/
structure OpEffect where
  setComplete : Bool
  setStop : Bool
  nscanned : Int
  mayRecordPlan : Bool
  throws : Option Thrown
  deriving DecidableEq, Repr

/-- An implementation of `QueryOp`: the effect of its calls on the plan it runs,
call 0 being `_init()` and call `k` the `k`-th `next()`. -/
abbrev OpBehaviour := QueryPlan → Nat → OpEffect

/-- A `QueryOp` object created by the Runner. -/
structure QueryOp where
  queryPlan : QueryPlan
  calls : Nat
  complete : Bool
  stopRequested : Bool
  error : Bool
  exception : Option ExceptionInfo
  nscanned : Int
  mayRecordPlan : Bool

/-- Source expression `_op.createChild()` followed by `op->setQueryPlan( plan )`. -/
def QueryOp.createChild (plan : QueryPlan) : QueryOp :=
  { queryPlan := plan, calls := 0, complete := false, stopRequested := false, error := false,
    exception := none, nscanned := 0, mayRecordPlan := false }

/-- Source `QueryOp::setException`. -/
def QueryOp.setException (op : QueryOp) (info : ExceptionInfo) : QueryOp :=
  { op with error := true, exception := some info }

/-- The `catch` clauses of `GUARD_OP_EXCEPTION` (queryoptimizer.cpp:1104). -/
def guardedInfo : Thrown → ExceptionInfo
  | Thrown.dbException info => info
  | Thrown.stdException what => { msg := what, code := 0 }
  | Thrown.unknown => { msg := "Caught unknown exception", code := 0 }

/-- Source expression `GUARD_OP_EXCEPTION( op, expression )` where the expression is one call into the
implementation. -/
def QueryOp.guardedCall (impl : OpBehaviour) (op : QueryOp) : QueryOp :=
  let eff := impl op.queryPlan op.calls
  let op₁ : QueryOp :=
    { op with
      calls := op.calls + 1
      complete := op.complete || eff.setComplete || eff.setStop
      stopRequested := op.stopRequested || eff.setStop
      nscanned := eff.nscanned
      mayRecordPlan := eff.mayRecordPlan }
  match eff.throws with
  | none => op₁
  | some t => op₁.setException (guardedInfo t)

/-- Source `QueryPlanSet::Runner::initOp` (queryoptimizer.cpp:1119). -/
def initOp (impl : OpBehaviour) (op : QueryOp) : QueryOp :=
  op.guardedCall impl

/-- Source `QueryPlanSet::Runner::nextOp` (queryoptimizer.cpp:1123). -/
def nextOp (impl : OpBehaviour) (op : QueryOp) : QueryOp :=
  if !op.error then op.guardedCall impl else op

/-! ## `QueryPlanSet::Runner` -/

/-- Source `OpHolder`: a shared pointer to an op, here its position in `_ops`, and an offset. -/
structure OpHolder where
  op : Nat
  offset : Int
  deriving DecidableEq, Repr

/-- A `QueryPlanSet::Runner` with the plan set it refers to.  `pick` stands for the
priority queue (declared outside this file): the position in `_queue` of the holder
that `pop` yields. -/
structure Runner where
  op : OpBehaviour
  pick : List QueryOp → List OpHolder → Nat
  plans : QueryPlanSet
  ops : List QueryOp
  queue : List OpHolder
  done : Bool

/-- Source `QueryPlanSet::Runner::Runner` (queryoptimizer.cpp:998). -/
def Runner.new (plans : QueryPlanSet) (op : OpBehaviour)
    (pick : List QueryOp → List OpHolder → Nat) : Runner :=
  { op := op, pick := pick, plans := plans, ops := [], queue := [], done := false }

/-- Source expression `_queue.pop()`: the holder popped and the rest of the queue; `none` when the queue
is empty. -/
def Runner.pop (r : Runner) : Option (OpHolder × List OpHolder) :=
  let i := min (r.pick r.ops r.queue) (r.queue.length - 1)
  match r.queue[i]? with
  | none => none
  | some holder => some (holder, r.queue.eraseIdx i)

/-- Position of the first complete op, from position `i` on. -/
def firstComplete : List QueryOp → Nat → Option Nat
  | [], _ => none
  | op :: rest, i => if op.complete then some i else firstComplete rest (i + 1)

/-- Holders for the ops that are not in error, from position `i` on. -/
def runnableHolders : List QueryOp → Nat → List OpHolder
  | [], _ => []
  | op :: rest, i =>
    if !op.error then { op := i, offset := 0 } :: runnableHolders rest (i + 1)
    else runnableHolders rest (i + 1)

/-- Source `QueryPlanSet::Runner::init` (queryoptimizer.cpp:1004): the op returned, if any,
and the Runner afterwards. -/
def Runner.init (r : Runner) : Except QueryError (Option Nat × Runner) :=
  if r.plans.plans.length > 0 then
    let ops := r.ops ++ r.plans.plans.map QueryOp.createChild
    let ops := ops.map (initOp r.op)
    match firstComplete ops 0 with
    | some i => Except.ok (some i, { r with ops := ops })
    | none =>
      let queue := r.queue ++ runnableHolders ops 0
      if queue.isEmpty then Except.ok (some 0, { r with ops := ops, queue := queue })
      else Except.ok (none, { r with ops := ops, queue := queue })
  else Except.error (QueryError.msgasserted 10369)

/-- The loop of the fallback branch of `_next` (queryoptimizer.cpp:1089-1097) over the
plans after the first: a new op is created and initialised for each; the loop stops
at an op that is complete after `initOp`, which is returned. -/
def fallbackOps (impl : OpBehaviour) :
    List QueryPlan → List QueryOp → List OpHolder → Option Nat × List QueryOp × List OpHolder
  | [], ops, queue => (none, ops, queue)
  | plan :: rest, ops, queue =>
    let op := initOp impl (QueryOp.createChild plan)
    let ops₁ := ops ++ [op]
    if op.complete then (some ops.length, ops₁, queue)
    else fallbackOps impl rest ops₁ (queue ++ [{ op := ops.length, offset := 0 }])

/-- Source `QueryPlanSet::Runner::_next` (queryoptimizer.cpp:1067): the op returned, the
Runner and the plan cache afterwards. -/
def Runner._next (db : Database) (r : Runner) (cache : QueryCache) :
    Except QueryError (Nat × Runner × QueryCache) :=
  match r.pop with
  | none => Except.error QueryError.verifyFailed
  | some (holder, queue) =>
    match r.ops[holder.op]? with
    | none => Except.error QueryError.verifyFailed
    | some op₀ =>
      let op := nextOp r.op op₀
      let r₁ : Runner := { r with queue := queue, ops := r.ops.set holder.op op }
      if op.complete then
        let cache₁ :=
          if r₁.plans.mayRecordPlan && op.mayRecordPlan then
            op.queryPlan.registerSelf db op.nscanned r₁.plans.characterizeCandidatePlans cache
          else cache
        Except.ok (holder.op, { r₁ with done := true }, cache₁)
      else if op.error then Except.ok (holder.op, r₁, cache)
      else if r₁.plans.hasPossiblyExcludedPlans &&
          decide (op.nscanned > r₁.plans.oldNScanned * 10) then
        match r₁.plans.plans with
        | [firstPlan] =>
          if firstPlan.special = "" then
            let holder₁ : OpHolder := { holder with offset := -op.nscanned }
            match r₁.plans.addFallbackPlans db cache with
            | Except.error e => Except.error e
            | Except.ok (plans₁, cache₁) =>
              match fallbackOps r₁.op (plans₁.plans.drop 1) r₁.ops r₁.queue with
              | (some ret, ops₂, queue₂) =>
                Except.ok (ret, { r₁ with plans := plans₁, ops := ops₂, queue := queue₂ }, cache₁)
              | (none, ops₂, queue₂) =>
                Except.ok (holder.op,
                  { r₁ with
                    plans := { plans₁ with usingCachedPlan := false }
                    ops := ops₂
                    queue := queue₂ ++ [holder₁] }, cache₁)
          else Except.error QueryError.verifyFailed
        | _ => Except.error QueryError.verifyFailed
      else Except.ok (holder.op, { r₁ with queue := queue ++ [holder] }, cache)

/-- The `do ... while` loop of `Runner::next` (queryoptimizer.cpp:1056) followed by
the update of `_done`; `fuel` bounds the number of iterations. -/
def Runner.nextLoop (db : Database) :
    Nat → Runner → QueryCache → Except QueryError (Nat × Runner × QueryCache)
  | 0, _, _ => Except.error QueryError.outOfFuel
  | fuel + 1, r, cache =>
    match r._next db cache with
    | Except.error e => Except.error e
    | Except.ok (ret, r₁, cache₁) =>
      if (match r₁.ops[ret]? with | some op => op.error | none => false) &&
          !r₁.queue.isEmpty then
        Runner.nextLoop db fuel r₁ cache₁
      else
        Except.ok (ret, (if r₁.queue.isEmpty then { r₁ with done := true } else r₁), cache₁)

/-- Iterations that always suffice for the loop of `Runner::next`: every iteration but
the last drops an op from the queue, and a fallback expansion, which happens at most
once, adds at most one op per index and one for the table scan. -/
def Runner.loopBound (db : Database) (r : Runner) : Nat :=
  r.queue.length + 2 +
    (match db.nsdetails r.plans.frsp.ns with
     | some d => d.nIndexes
     | none => 0)

/-- Source `QueryPlanSet::Runner::next` (queryoptimizer.cpp:1044). -/
def Runner.next (db : Database) (r : Runner) (cache : QueryCache) :
    Except QueryError (Nat × Runner × QueryCache) :=
  if r.done then Except.error QueryError.verifyFailed
  else if r.ops.isEmpty then
    match r.init with
    | Except.error e => Except.error e
    | Except.ok (some initialRet, r₁) => Except.ok (initialRet, { r₁ with done := true }, cache)
    | Except.ok (none, r₁) => Runner.nextLoop db (r₁.loopBound db) r₁ cache
  else Runner.nextLoop db (r.loopBound db) r cache

/-- The plan `QueryPlan::init` works on: the constructed plan with `_endKeyInclusive`
and `_startOrEndSpec` set. -/
def QueryPlan.started (d : Option NamespaceDetails) (idxNo : Int) (frsp : FieldRangeSetPair)
    (query : Query) (order : BSONObj) (parsedQuery : Option ParsedQuery)
    (startKey endKey : BSONObj) (special : String) : QueryPlan :=
  { QueryPlan.new d idxNo frsp query order parsedQuery special with
    endKeyInclusive := endKey.isEmpty
    startOrEndSpec := !startKey.isEmpty || !endKey.isEmpty }

/-- The plan `QueryPlan::init` works on once `_index` is set. -/
def QueryPlan.withIndex (d : Option NamespaceDetails) (idxNo : Int) (index : IndexDetails)
    (frsp : FieldRangeSetPair) (query : Query) (order : BSONObj)
    (parsedQuery : Option ParsedQuery) (startKey endKey : BSONObj) (special : String) :
    QueryPlan :=
  { QueryPlan.started d idxNo frsp query order parsedQuery startKey endKey special with
    index := some index }

/-! ## Hints, `min` and `max` -/

/-- The loops over `d->ii()` that stop at the first index satisfying a test: its
position (from position `i` on) and the index, `none` when no index passes. -/
def findIndexFrom (test : IndexDetails → Bool) :
    List IndexDetails → Nat → Option (Nat × IndexDetails)
  | [], _ => none
  | ii :: rest, i => if test ii then some (i, ii) else findIndexFrom test rest (i + 1)

/-- Source `parseHint` (queryoptimizer.cpp:42): the hinted index with its number, `none`
for a `$natural` hint. -/
def parseHint (hint : HintElement) (d : NamespaceDetails) :
    Except QueryError (Option (Nat × IndexDetails)) :=
  match hint with
  | HintElement.eoo => Except.error (QueryError.msgasserted 13292)
  | HintElement.string hintstr =>
    match findIndexFrom (fun ii => decide (ii.indexName = hintstr)) d.indexes 0 with
    | some found => Except.ok (some found)
    | none => Except.error (QueryError.uasserted 10113)
  | HintElement.object hintobj =>
    if hintobj.isEmpty then Except.error (QueryError.uasserted 10112)
    else if firstElementFieldName hintobj = "$natural" then Except.ok none
    else
      match findIndexFrom (fun ii => decide (ii.keyPattern = hintobj)) d.indexes 0 with
      | some found => Except.ok (some found)
      | none => Except.error (QueryError.uasserted 10113)
  | HintElement.other => Except.error (QueryError.uasserted 10113)

/-- Source `indexWorks` (queryoptimizer.cpp:1388); the last argument is the loop
counter `i`, 0 at the call. -/
def indexWorks : BSONObj → BSONObj → Int → Int → Int → Bool
  | [], [], _, _, _ => true
  | [], _ :: _, _, _, _ => false
  | _ :: _, [], _, _, _ => false
  | pe :: p, ke :: k, direction, firstSignificantField, i =>
    if pe.fieldName ≠ ke.fieldName then false
    else if i = firstSignificantField ∧
        ¬(decide (direction > 0) = decide (pe.number > 0)) then false
    else indexWorks p k direction firstSignificantField (i + 1)

/-- The value of a `MaxKey` element (BSON type 127). -/
def maxKeyValue : BSONValue := BSONValue.other 127

/-- The value of a `MinKey` element (BSON type -1, the byte 255). -/
def minKeyValue : BSONValue := BSONValue.other 255

/-- Source `extremeKeyForIndex` (queryoptimizer.cpp:1408). -/
def extremeKeyForIndex : BSONObj → Int → Except QueryError BSONObj
  | [], _ => Except.ok []
  | e :: rest, baseDirection =>
    let idxDirection : Int := if e.number ≥ 0 then 1 else -1
    let direction := idxDirection * baseDirection
    if direction = 1 then
      (extremeKeyForIndex rest baseDirection).map
        (fun b => { fieldName := e.fieldName, value := maxKeyValue } :: b)
    else if direction = -1 then
      (extremeKeyForIndex rest baseDirection).map
        (fun b => { fieldName := e.fieldName, value := minKeyValue } :: b)
    else Except.error QueryError.verifyFailed

/-- Source `keyAudit` (queryoptimizer.cpp:1431); the last argument is
`firstSignificantField`, 0 at the call.  `direction` is 0 at the start of every
iteration. -/
def keyAudit (db : Database) : BSONObj → BSONObj → Int → Int × Int
  | [], [], firstSignificantField => (0, firstSignificantField)
  | [], _ :: _, _ => (-1, -1)
  | _ :: _, [], _ => (-1, -1)
  | ie :: i, ae :: a, firstSignificantField =>
    if ie.fieldName ≠ ae.fieldName then (-1, -1)
    else
      let cmp := db.woCompare ie ae
      let direction : Int := if cmp > 0 then -1 else if cmp < 0 then 1 else 0
      if direction ≠ 0 then (direction, firstSignificantField)
      else keyAudit db i a (firstSignificantField + 1)

/-- Source `flexibleKeyAudit` (queryoptimizer.cpp:1456). -/
def flexibleKeyAudit (db : Database) (min max : BSONObj) : Int × Int :=
  if min.isEmpty || max.isEmpty then (1, -1) else keyAudit db min max 0

/-- What `indexDetailsForRange` hands back: the index found with its number (`none`
for the null pointer), `errmsg`, and the final values of the reference parameters
`min`, `max` and `keyPattern`. -/
structure IndexForRange where
  id : Option (Nat × IndexDetails)
  errmsg : String
  min : BSONObj
  max : BSONObj
  keyPattern : BSONObj

/-- Source `indexDetailsForRange` (queryoptimizer.cpp:1466).  The values the source
appends to the last error message are left out. -/
def indexDetailsForRange (db : Database) (ns : String) (min max keyPattern : BSONObj) :
    Except QueryError IndexForRange :=
  if min.isEmpty && max.isEmpty then
    Except.ok { id := none, errmsg := "one of min or max must be specified", min := min,
                max := max, keyPattern := keyPattern }
  else
    match db.nsdetails ns with
    | none =>
      Except.ok { id := none, errmsg := "ns not found", min := min, max := max,
                  keyPattern := keyPattern }
    | some d =>
      let ret := flexibleKeyAudit db min max
      if ret = (-1, -1) then
        Except.ok { id := none, errmsg := "min and max keys do not share pattern", min := min,
                    max := max, keyPattern := keyPattern }
      else
        let sampleKey := if min.isEmpty then max else min
        let search : Option (Option (Nat × IndexDetails) × BSONObj) :=
          if keyPattern.isEmpty then
            match findIndexFrom
                (fun ii => indexWorks ii.keyPattern sampleKey ret.1 ret.2 0 && !ii.special)
                d.indexes 0 with
            | some (j, ii) => some (some (j, ii), ii.keyPattern)
            | none => some (none, keyPattern)
          else if !indexWorks keyPattern sampleKey ret.1 ret.2 0 then none
          else
            some (findIndexFrom
              (fun ii => decide (ii.keyPattern = keyPattern) ||
                (decide (keyPattern.length = 1) && decide (ii.keyPattern.length = 1) &&
                  db.isIdIndexPattern keyPattern && ii.isIdIndex))
              d.indexes 0, keyPattern)
        match search with
        | none =>
          Except.ok { id := none, errmsg := "requested keyPattern does not match specified keys",
                      min := min, max := max, keyPattern := keyPattern }
        | some (id, keyPattern) =>
          match (if min.isEmpty then (extremeKeyForIndex keyPattern (-1)).map (fun m => (m, max))
                 else if max.isEmpty then
                   (extremeKeyForIndex keyPattern 1).map (fun m => (min, m))
                 else Except.ok (min, max)) with
          | Except.error e => Except.error e
          | Except.ok (min, max) =>
            match id with
            | none =>
              Except.ok { id := none, errmsg := "no index found for specified keyPattern",
                          min := min, max := max, keyPattern := keyPattern }
            | some found =>
              Except.ok { id := some found, errmsg := ""
                          min := db.extractFieldsUnDotted min keyPattern
                          max := db.extractFieldsUnDotted max keyPattern
                          keyPattern := keyPattern }

/-! ## `QueryPlanGenerator`: the initial plans -/

/-- Modelled from the spec: `FieldRangeSetPair::getSpecial` (queryutil.h is not part of
the sources): the special index type the clause asks for, empty when there is none. -/
def FieldRangeSetPair.getSpecial (frsp : FieldRangeSetPair) : String :=
  frsp.singleKey.special

/-- Modelled from the spec: `FieldRangeSetPair::hasSpecialThatNeedsIndex` (queryutil.h
is not part of the sources): the special operator cannot be evaluated without its
index. -/
def FieldRangeSetPair.hasSpecialThatNeedsIndex (frsp : FieldRangeSetPair) : Bool :=
  frsp.singleKey.hasSpecialThatNeedsIndex

/-- Source `QueryPlanGenerator::setSingleUnindexedPlan` (queryoptimizer.cpp:734). -/
def QueryPlanGenerator.setSingleUnindexedPlan (s : QueryPlanSet) (d : Option NamespaceDetails) :
    Except QueryError QueryPlanSet :=
  match s.newPlan d (-1) [] [] "" with
  | Except.error e => Except.error e
  | Except.ok plan => s.setSinglePlan plan

/-- Source `QueryPlanGenerator::setUnindexedPlanIf` (queryoptimizer.cpp:727). -/
def QueryPlanGenerator.setUnindexedPlanIf (s : QueryPlanSet) (set : Bool)
    (d : Option NamespaceDetails) : Except QueryError (Bool × QueryPlanSet) :=
  if set then (QueryPlanGenerator.setSingleUnindexedPlan s d).map (fun s₁ => (set, s₁))
  else Except.ok (set, s)

/-- Source `QueryPlanGenerator::validateAndSetHintedPlan` (queryoptimizer.cpp:750). -/
def QueryPlanGenerator.validateAndSetHintedPlan (s : QueryPlanSet) (plan : QueryPlan) :
    Except QueryError QueryPlanSet :=
  if s.allowSpecial || decide (plan.special = "") then s.setSinglePlan plan
  else Except.error (QueryError.uasserted 16331)

/-- Source `QueryPlanGenerator::setHintedPlanForIndex` (queryoptimizer.cpp:738) for the
index `id`, numbered `idxNo` in the collection.  `_min` and `_max` are rewritten by
`indexDetailsForRange`. -/
def QueryPlanGenerator.setHintedPlanForIndex (db : Database) (s : QueryPlanSet) (idxNo : Nat)
    (id : IndexDetails) : Except QueryError QueryPlanSet :=
  match (if !s.min.isEmpty || !s.max.isEmpty then
           match indexDetailsForRange db s.frsp.ns s.min s.max id.keyPattern with
           | Except.error e => Except.error e
           | Except.ok r =>
             if r.id.isSome then Except.ok { s with min := r.min, max := r.max }
             else Except.error (QueryError.msgasserted 10365)
         else Except.ok s) with
  | Except.error e => Except.error e
  | Except.ok s₁ =>
    match db.nsdetails s₁.frsp.ns with
    | none => Except.error QueryError.nullPointer
    | some d =>
      match s₁.newPlan (some d) (idxNo : Int) s₁.min s₁.max "" with
      | Except.error e => Except.error e
      | Except.ok plan => QueryPlanGenerator.validateAndSetHintedPlan s₁ plan

/-- Source `QueryPlanGenerator::addHintPlan` (queryoptimizer.cpp:610), for a namespace
that exists. -/
def QueryPlanGenerator.addHintPlan (db : Database) (s : QueryPlanSet) (d : NamespaceDetails) :
    Except QueryError (Bool × QueryPlanSet) :=
  if s.hint ≠ HintElement.eoo then
    match parseHint s.hint d with
    | Except.error e => Except.error e
    | Except.ok (some (idxNo, id)) =>
      (QueryPlanGenerator.setHintedPlanForIndex db s idxNo id).map (fun s₁ => (true, s₁))
    | Except.ok none =>
      if s.min.isEmpty && s.max.isEmpty then
        (QueryPlanGenerator.setSingleUnindexedPlan s (some d)).map (fun s₁ => (true, s₁))
      else Except.error (QueryError.uasserted 10366)
  else if !s.min.isEmpty || !s.max.isEmpty then
    match indexDetailsForRange db s.frsp.ns s.min s.max [] with
    | Except.error e => Except.error e
    | Except.ok r =>
      match r.id with
      | none => Except.error (QueryError.uasserted 10367)
      | some (idxNo, _) =>
        let s₁ : QueryPlanSet := { s with min := r.min, max := r.max }
        match s₁.newPlan (some d) (idxNo : Int) s₁.min s₁.max "" with
        | Except.error e => Except.error e
        | Except.ok plan =>
          (QueryPlanGenerator.validateAndSetHintedPlan s₁ plan).map (fun s₂ => (true, s₂))
  else Except.ok (false, s)

/-- Source `QueryPlanGenerator::addSpecialPlan` (queryoptimizer.cpp:638), for a namespace
that exists. -/
def QueryPlanGenerator.addSpecialPlan (s : QueryPlanSet) (d : NamespaceDetails) :
    Except QueryError (Bool × QueryPlanSet) :=
  let special := s.frsp.getSpecial
  if special ≠ "" then
    match findIndexFrom
        (fun ii => decide (ii.getSpecialIndexName = special) &&
          decide (ii.suitability s.originalQuery.obj s.order ≠ Suitability.USELESS))
        d.indexes 0 with
    | some (j, _) =>
      if !s.allowSpecial then Except.error (QueryError.uasserted 16330)
      else
        match s.newPlan (some d) (j : Int) [] [] special with
        | Except.error e => Except.error e
        | Except.ok plan => (s.setSinglePlan plan).map (fun s₁ => (true, s₁))
    | none =>
      if !s.frsp.hasSpecialThatNeedsIndex then Except.ok (false, s)
      else Except.error (QueryError.uasserted 13038)
  else Except.ok (false, s)

/-- The operator `||` between two steps of `addShortCircuitPlan`: the second step runs
only when the first returned false. -/
def orElseStep (first : Except QueryError (Bool × QueryPlanSet))
    (second : QueryPlanSet → Except QueryError (Bool × QueryPlanSet)) :
    Except QueryError (Bool × QueryPlanSet) :=
  match first with
  | Except.error e => Except.error e
  | Except.ok (true, s) => Except.ok (true, s)
  | Except.ok (false, s) => second s

/-- Source `QueryPlanGenerator::addShortCircuitPlan` (queryoptimizer.cpp:593).  The steps
after the first run only when `d` is not null. -/
def QueryPlanGenerator.addShortCircuitPlan (db : Database) (s : QueryPlanSet)
    (d : Option NamespaceDetails) : Except QueryError (Bool × QueryPlanSet) :=
  orElseStep (QueryPlanGenerator.setUnindexedPlanIf s d.isNone d) fun s =>
  orElseStep (QueryPlanGenerator.setUnindexedPlanIf s (!s.frsp.matchPossible) d) fun s =>
  match d with
  | none => Except.error QueryError.nullPointer
  | some nsd =>
    orElseStep (QueryPlanGenerator.addHintPlan db s nsd) fun s =>
    orElseStep (QueryPlanGenerator.addSpecialPlan s nsd) fun s =>
    orElseStep
      (QueryPlanGenerator.setUnindexedPlanIf s
        (s.frsp.noNonUniversalRanges && s.order.isEmpty) d) fun s =>
    QueryPlanGenerator.setUnindexedPlanIf s
      (!s.order.isEmpty && decide (firstElementFieldName s.order = "$natural")) d

/-- Source `QueryPlanGenerator::addStandardPlans` (queryoptimizer.cpp:666), for a
namespace that exists. -/
def QueryPlanGenerator.addStandardPlans (db : Database) (s : QueryPlanSet)
    (d : NamespaceDetails) (cache : QueryCache) : Except QueryError (QueryPlanSet × QueryCache) :=
  match QueryPlanGenerator.addCachedPlan db s d cache with
  | Except.error e => Except.error e
  | Except.ok (true, s₁) => Except.ok (s₁, cache)
  | Except.ok (false, s₁) => QueryPlanGenerator.addFallbackPlans db s₁ cache

/-- Source `QueryPlanGenerator::addInitialPlans` (queryoptimizer.cpp:519).
`warnOnCappedIdTableScan` only writes to the log. -/
def QueryPlanGenerator.addInitialPlans (db : Database) (s : QueryPlanSet) (cache : QueryCache) :
    Except QueryError (QueryPlanSet × QueryCache) :=
  let d := db.nsdetails s.frsp.ns
  match QueryPlanGenerator.addShortCircuitPlan db s d with
  | Except.error e => Except.error e
  | Except.ok (true, s₁) => Except.ok (s₁, cache)
  | Except.ok (false, s₁) =>
    match d with
    | none => Except.error QueryError.nullPointer
    | some nsd => QueryPlanGenerator.addStandardPlans db s₁ nsd cache

/-- Source `QueryPlanSet::init` (queryoptimizer.cpp:829). -/
def QueryPlanSet.init (db : Database) (s : QueryPlanSet) (cache : QueryCache) :
    Except QueryError (QueryPlanSet × QueryCache) :=
  QueryPlanGenerator.addInitialPlans db { s with plans := [], usingCachedPlan := false } cache

/-- Source `QueryPlanSet::make` (queryoptimizer.cpp:781). -/
def QueryPlanSet.make (db : Database) (frsp : FieldRangeSetPair)
    (originalFrsp : Option FieldRangeSetPair) (originalQuery : Query) (order : BSONObj)
    (parsedQuery : Option ParsedQuery) (hint : HintElement)
    (recordedPlanPolicy : RecordedPlanPolicy) (min max : BSONObj) (allowSpecial : Bool)
    (cache : QueryCache) : Except QueryError (QueryPlanSet × QueryCache) :=
  (QueryPlanSet.new frsp originalFrsp originalQuery order parsedQuery hint recordedPlanPolicy
    min max allowSpecial).init db cache

/-- Source `QueryPlanSet::getBestGuess` (queryoptimizer.cpp:879): `none` is the null
pointer. -/
def QueryPlanSet.getBestGuess (s : QueryPlanSet) : Except QueryError (Option QueryPlan) :=
  match s.plans with
  | [] => Except.error QueryError.verifyFailed
  | plan₀ :: rest =>
    if plan₀.scanAndOrderRequired then
      Except.ok (rest.find? (fun plan => !plan.scanAndOrderRequired))
    else Except.ok (some plan₀)

/-- Source `QueryPlanSet::prepareToRetryQuery` (queryoptimizer.cpp:930). -/
def QueryPlanSet.prepareToRetryQuery (db : Database) (s : QueryPlanSet) (cache : QueryCache) :
    Except QueryError (Bool × QueryPlanSet × QueryCache) :=
  if !s.hasPossiblyExcludedPlans || decide (s.plans.length > 1) then Except.ok (false, s, cache)
  else
    (s.init db (clearIndexesForPatterns db s.frsp s.order cache)).map
      (fun r => (true, r.1, r.2))

/-! ## `OrRangeGenerator` (consumed) and `MultiPlanScanner` -/

/-- One remaining `$or` clause of an `OrRangeGenerator`: what `topFrsp` and
`topFrspOriginal` return while the clause is the first one, and its entry in
`_originalOrSets`. -/
structure OrClause where
  top : FieldRangeSetPair
  topOriginal : FieldRangeSetPair
  original : FieldRangeSetPair

/-- What the optimizer reads of an `OrRangeGenerator` (queryutil.h, outside this
file): the clauses that remain, and the answers of its member functions. -/
structure OrRangeGenerator where
  special : String
  baseSet : FieldRangeSetPair
  clauses : List OrClause
  /-- Source `popOrClause( nsd, idxNo, keyPattern )`: the clauses that remain after it -/
  popOrClauseImpl : Option NamespaceDetails → Int → BSONObj → List OrClause → List OrClause

/-- Source expression `org.getSpecial()`. -/
def OrRangeGenerator.getSpecial (org : OrRangeGenerator) : String := org.special

/-- Source member `_originalOrSets`. -/
def OrRangeGenerator.originalOrSets (org : OrRangeGenerator) : List FieldRangeSetPair :=
  org.clauses.map (fun c => c.original)

/-- Source expression `_org->popOrClause( nsd, idxNo, keyPattern )`. -/
def OrRangeGenerator.popOrClause (org : OrRangeGenerator) (nsd : Option NamespaceDetails)
    (idxNo : Int) (keyPattern : BSONObj) : OrRangeGenerator :=
  { org with clauses := org.popOrClauseImpl nsd idxNo keyPattern org.clauses }

/-- Source expression `_org->topFrsp()`. -/
def OrRangeGenerator.topFrsp (org : OrRangeGenerator) : FieldRangeSetPair :=
  match org.clauses with
  | c :: _ => c.top
  | [] => org.baseSet

/-- Source expression `_org->topFrspOriginal()`. -/
def OrRangeGenerator.topFrspOriginal (org : OrRangeGenerator) : FieldRangeSetPair :=
  match org.clauses with
  | c :: _ => c.topOriginal
  | [] => org.baseSet

/-- Source `QueryUtilIndexed::uselessOr` (queryoptimizer.cpp:1608): the outer loop
returns true at the first clause that passes the test written here. -/
def uselessOr (org : OrRangeGenerator) (d : NamespaceDetails) (hintIdx : Int) : Bool :=
  org.originalOrSets.any (fun i =>
    if hintIdx ≠ -1 then !indexUseful i d hintIdx.toNat []
    else !(List.range d.nIndexes).any (fun j => indexUseful i d j []))

/-- Modelled from the spec: `QueryOp::completeWithoutStop` (declared in
queryoptimizer.h, not part of the sources): the op reports no more matches without
stopping the whole query. -/
def QueryOp.completeWithoutStop (op : QueryOp) : Bool := op.complete && !op.stopRequested

/-- What a `MultiPlanScanner` takes from outside this file. -/
structure ScannerEnv where
  /-- Source expression `OrRangeGenerator( _ns.c_str(), _query )` -/
  orRangeGenerator : OrRangeGenerator
  /-- Source expression `FieldRangeSetPair( _ns.c_str(), _query, true )` -/
  fieldRangeSetPair : FieldRangeSetPair
  /-- Source expression `e.type() == Array && e.embeddedObject().nFields() > 0` for the `$or` element `e` -/
  orSpecValid : Bool
  /-- The priority queue of the Runners -/
  pick : List QueryOp → List OpHolder → Nat
  /-- The implementation of the ops that `createChild()` makes from a completed op -/
  createChildImpl : QueryOp → OpBehaviour
  /-- Source `MultiPlanScanner::hasMoreClauses` (declared in queryoptimizer.h, outside this file), from
  `_or`, `_i`, `_tableScanned` and the clauses that remain -/
  hasMoreClausesImpl : Bool → Nat → Bool → List OrClause → Bool

/-- The members of a `MultiPlanScanner`.  When `runner` is set, its plan set is
`currentQps` (the Runner holds a reference to it). -/
structure MultiPlanScanner where
  env : ScannerEnv
  ns : String
  or : Bool
  query : Query
  parsedQuery : Option ParsedQuery
  i : Nat
  recordedPlanPolicy : RecordedPlanPolicy
  hint : HintElement
  tableScanned : Bool
  doneOps : Bool
  org : Option OrRangeGenerator
  currentQps : Option QueryPlanSet
  runner : Option Runner
  baseOp : OpBehaviour

/-- Source `MultiPlanScanner::MultiPlanScanner` (queryoptimizer.cpp:1152); `baseOp` is the
op the caller sets before the first `nextOp`. -/
def MultiPlanScanner.new (env : ScannerEnv) (ns : String) (query : Query)
    (parsedQuery : Option ParsedQuery) (hint : HintElement)
    (recordedPlanPolicy : RecordedPlanPolicy) (baseOp : OpBehaviour) : MultiPlanScanner :=
  { env := env
    ns := ns
    or := query.obj.any (fun e => decide (e.fieldName = "$or"))
    query := query
    parsedQuery := parsedQuery
    i := 0
    recordedPlanPolicy := recordedPlanPolicy
    hint := hint
    tableScanned := false
    doneOps := false
    org := none
    currentQps := none
    runner := none
    baseOp := baseOp }

/-- Source expression `hasMoreClauses()`. -/
def MultiPlanScanner.hasMoreClauses (mps : MultiPlanScanner) : Bool :=
  mps.env.hasMoreClausesImpl mps.or mps.i mps.tableScanned
    (match mps.org with
     | some org => org.clauses
     | none => [])

/-- Source `MultiPlanScanner::updateCurrentQps` (queryoptimizer.cpp:993). -/
def MultiPlanScanner.updateCurrentQps (mps : MultiPlanScanner) (qps : QueryPlanSet) :
    MultiPlanScanner :=
  { mps with currentQps := some qps, runner := none }

/-- Source `MultiPlanScanner::haveUselessOr` (queryoptimizer.cpp:1286). -/
def MultiPlanScanner.haveUselessOr (db : Database) (mps : MultiPlanScanner) :
    Except QueryError Bool :=
  match db.nsdetails mps.ns with
  | none => Except.ok true
  | some nsd =>
    match mps.org with
    | none => Except.error QueryError.nullPointer
    | some org =>
      if mps.hint ≠ HintElement.eoo then
        match parseHint mps.hint nsd with
        | Except.error e => Except.error e
        | Except.ok none => Except.ok true
        | Except.ok (some (idxNo, _)) => Except.ok (uselessOr org nsd (idxNo : Int))
      else Except.ok (uselessOr org nsd (-1))

/-- Source `MultiPlanScanner::handleEndOfClause` (queryoptimizer.cpp:1200). -/
def MultiPlanScanner.handleEndOfClause (mps : MultiPlanScanner) (clausePlan : QueryPlan) :
    Except QueryError MultiPlanScanner :=
  if clausePlan.willScanTable then Except.ok { mps with tableScanned := true }
  else
    match mps.org with
    | none => Except.error QueryError.nullPointer
    | some org =>
      Except.ok { mps with
        org := some (org.popOrClause clausePlan.d clausePlan.idxNo
          (if clausePlan.indexed then clausePlan.indexKey else [])) }

/-- Source `MultiPlanScanner::handleBeginningOfClause` (queryoptimizer.cpp:1209);
`assertHasMoreClauses` is `massert( 13271, ..., hasMoreClauses() )`. -/
def MultiPlanScanner.handleBeginningOfClause (db : Database) (mps : MultiPlanScanner)
    (cache : QueryCache) : Except QueryError (MultiPlanScanner × QueryCache) :=
  if !mps.hasMoreClauses then Except.error (QueryError.msgasserted 13271)
  else
    match mps.org with
    | none => Except.error QueryError.nullPointer
    | some org =>
      let mps₁ : MultiPlanScanner := { mps with i := mps.i + 1 }
      match QueryPlanSet.make db org.topFrsp (some org.topFrspOriginal) mps₁.query []
          mps₁.parsedQuery mps₁.hint mps₁.recordedPlanPolicy [] [] false cache with
      | Except.error e => Except.error e
      | Except.ok (qps, cache₁) => Except.ok (mps₁.updateCurrentQps qps, cache₁)

/-- Source `MultiPlanScanner::mayHandleBeginningOfClause` (queryoptimizer.cpp:1221). -/
def MultiPlanScanner.mayHandleBeginningOfClause (db : Database) (mps : MultiPlanScanner)
    (cache : QueryCache) : Except QueryError (Bool × MultiPlanScanner × QueryCache) :=
  if mps.hasMoreClauses then
    (mps.handleBeginningOfClause db cache).map (fun r => (true, r.1, r.2))
  else Except.ok (false, mps, cache)

/-- Source `MultiPlanScanner::init` (queryoptimizer.cpp:1168). -/
def MultiPlanScanner.init (db : Database) (mps : MultiPlanScanner) (order min max : BSONObj)
    (cache : QueryCache) : Except QueryError (MultiPlanScanner × QueryCache) :=
  let mps₁ : MultiPlanScanner :=
    if !order.isEmpty || !min.isEmpty || !max.isEmpty then { mps with or := false } else mps
  match (if mps₁.or then
           let mps₂ : MultiPlanScanner := { mps₁ with org := some mps₁.env.orRangeGenerator }
           if mps₁.env.orRangeGenerator.getSpecial ≠ "" then
             Except.ok { mps₂ with or := false }
           else
             match mps₂.haveUselessOr db with
             | Except.error e => Except.error e
             | Except.ok true => Except.ok { mps₂ with or := false }
             | Except.ok false => Except.ok mps₂
         else Except.ok mps₁) with
  | Except.error e => Except.error e
  | Except.ok mps₃ =>
    if !mps₃.or then
      let mps₄ : MultiPlanScanner := { mps₃ with i := mps₃.i + 1 }
      match QueryPlanSet.make db mps₄.env.fieldRangeSetPair none mps₄.query order
          mps₄.parsedQuery mps₄.hint mps₄.recordedPlanPolicy min max true cache with
      | Except.error e => Except.error e
      | Except.ok (qps, cache₁) => Except.ok (mps₄.updateCurrentQps qps, cache₁)
    else if !mps₃.env.orSpecValid then Except.error (QueryError.msgasserted 13268)
    else mps₃.handleBeginningOfClause db cache

/-- The body of `MultiPlanScanner::iterateRunner` (queryoptimizer.cpp:965); `retry`
stands for its last three statements, `verify( !retried )`, `_runner.reset()` and the
recursive call.  The op returned is given with its value. -/
def MultiPlanScanner.iterateRunnerBody (db : Database) (originalOp : OpBehaviour)
    (retry : MultiPlanScanner → QueryCache →
      Except QueryError (QueryOp × MultiPlanScanner × QueryCache))
    (mps : MultiPlanScanner) (cache : QueryCache) :
    Except QueryError (QueryOp × MultiPlanScanner × QueryCache) :=
  match mps.runner with
  | some runner =>
    match runner.next db cache with
    | Except.error e => Except.error e
    | Except.ok (ret, runner₁, cache₁) =>
      match runner₁.ops[ret]? with
      | none => Except.error QueryError.nullPointer
      | some op =>
        Except.ok (op, { mps with runner := some runner₁, currentQps := some runner₁.plans },
          cache₁)
  | none =>
    match mps.currentQps with
    | none => Except.error QueryError.nullPointer
    | some currentQps =>
      match (Runner.new currentQps originalOp mps.env.pick).next db cache with
      | Except.error e => Except.error e
      | Except.ok (ret, runner₁, cache₁) =>
        match runner₁.ops[ret]? with
        | none => Except.error QueryError.nullPointer
        | some op =>
          let mps₁ : MultiPlanScanner :=
            { mps with runner := some runner₁, currentQps := some runner₁.plans }
          if op.error then
            match runner₁.plans.prepareToRetryQuery db cache₁ with
            | Except.error e => Except.error e
            | Except.ok (true, qps₂, cache₂) =>
              retry { mps₁ with currentQps := some qps₂ } cache₂
            | Except.ok (false, _, _) => Except.ok (op, mps₁, cache₁)
          else Except.ok (op, mps₁, cache₁)

/-- Source `MultiPlanScanner::iterateRunner` (queryoptimizer.cpp:965). -/
def MultiPlanScanner.iterateRunner (db : Database) (originalOp : OpBehaviour) (retried : Bool)
    (mps : MultiPlanScanner) (cache : QueryCache) :
    Except QueryError (QueryOp × MultiPlanScanner × QueryCache) :=
  if retried then
    MultiPlanScanner.iterateRunnerBody db originalOp
      (fun _ _ => Except.error QueryError.verifyFailed) mps cache
  else
    MultiPlanScanner.iterateRunnerBody db originalOp
      (fun mps₁ cache₁ =>
        MultiPlanScanner.iterateRunnerBody db originalOp
          (fun _ _ => Except.error QueryError.verifyFailed)
          { mps₁ with runner := none } cache₁)
      mps cache

/-- Source `MultiPlanScanner::nextOpSimple` (queryoptimizer.cpp:1238). -/
def MultiPlanScanner.nextOpSimple (db : Database) (mps : MultiPlanScanner) (cache : QueryCache) :
    Except QueryError (QueryOp × MultiPlanScanner × QueryCache) :=
  MultiPlanScanner.iterateRunner db mps.baseOp false mps cache

/-- Source `MultiPlanScanner::nextOpOr` (queryoptimizer.cpp:1242); `fuel` bounds the
number of iterations of its loop. -/
def MultiPlanScanner.nextOpOr (db : Database) :
    Nat → MultiPlanScanner → QueryCache →
      Except QueryError (QueryOp × MultiPlanScanner × QueryCache)
  | 0, _, _ => Except.error QueryError.outOfFuel
  | fuel + 1, mps, cache =>
    match mps.nextOpSimple db cache with
    | Except.error e => Except.error e
    | Except.ok (op, mps₁, cache₁) =>
      if !op.completeWithoutStop then Except.ok (op, mps₁, cache₁)
      else
        match mps₁.handleEndOfClause op.queryPlan with
        | Except.error e => Except.error e
        | Except.ok mps₂ =>
          let mps₃ : MultiPlanScanner := { mps₂ with baseOp := mps₂.env.createChildImpl op }
          match mps₃.mayHandleBeginningOfClause db cache₁ with
          | Except.error e => Except.error e
          | Except.ok (true, mps₄, cache₂) => MultiPlanScanner.nextOpOr db fuel mps₄ cache₂
          | Except.ok (false, mps₄, cache₂) => Except.ok (op, mps₄, cache₂)

/-- Source `MultiPlanScanner::nextOp` (queryoptimizer.cpp:1229). -/
def MultiPlanScanner.nextOp (db : Database) (fuel : Nat) (mps : MultiPlanScanner)
    (cache : QueryCache) : Except QueryError (QueryOp × MultiPlanScanner × QueryCache) :=
  if mps.doneOps then Except.error QueryError.verifyFailed
  else
    match (if mps.or then MultiPlanScanner.nextOpOr db fuel mps cache
           else mps.nextOpSimple db cache) with
    | Except.error e => Except.error e
    | Except.ok (ret, mps₁, cache₁) =>
      if ret.error || ret.complete then Except.ok (ret, { mps₁ with doneOps := true }, cache₁)
      else Except.ok (ret, mps₁, cache₁)

/-- Source `MultiPlanScanner::nextClauseBestGuessPlan` (queryoptimizer.cpp:1255): `none`
is the null pointer returned when no clause remains. -/
def MultiPlanScanner.nextClauseBestGuessPlan (db : Database) (mps : MultiPlanScanner)
    (currentPlan : QueryPlan) (cache : QueryCache) :
    Except QueryError (Option QueryPlan × MultiPlanScanner × QueryCache) :=
  if !mps.hasMoreClauses then Except.error (QueryError.msgasserted 13271)
  else
    match mps.handleEndOfClause currentPlan with
    | Except.error e => Except.error e
    | Except.ok mps₁ =>
      if !mps₁.hasMoreClauses then Except.ok (none, mps₁, cache)
      else
        match mps₁.handleBeginningOfClause db cache with
        | Except.error e => Except.error e
        | Except.ok (mps₂, cache₁) =>
          match mps₂.currentQps with
          | none => Except.error QueryError.nullPointer
          | some currentQps =>
            match currentQps.getBestGuess with
            | Except.error e => Except.error e
            | Except.ok none => Except.error QueryError.verifyFailed
            | Except.ok (some bestGuess) => Except.ok (some bestGuess, mps₂, cache₁)

/-- Source `MultiPlanScanner::singlePlan` (queryoptimizer.cpp:1277): `none` is the null
pointer. -/
def MultiPlanScanner.singlePlan (mps : MultiPlanScanner) : Except QueryError (Option QueryPlan) :=
  match mps.currentQps with
  | none => if mps.or then Except.ok none else Except.error QueryError.nullPointer
  | some currentQps =>
    if mps.or || decide (currentQps.nPlans ≠ 1) || currentQps.hasPossiblyExcludedPlans then
      Except.ok none
    else Except.ok currentQps.plans.head?

/-! ## Vocabulary of the statements -/

/-- The enumeration of useful indexes: the plan `newPlan` builds (or the error it
raises) for each of the index numbers `indexNos` that `indexUseful` accepts, in
order. -/
def usefulPlansOf (s : QueryPlanSet) (d : NamespaceDetails) (indexNos : List Nat) :
    List (Except QueryError QueryPlan) :=
  (indexNos.filter (fun i => indexUseful s.frsp d i s.order)).map
    (fun (i : Nat) => s.newPlan (some d) (i : Int) [] [] "")

/-- The enumeration of useful indexes over all indexes of the collection. -/
def usefulPlans (s : QueryPlanSet) (d : NamespaceDetails) : List (Except QueryError QueryPlan) :=
  usefulPlansOf s d (List.range d.nIndexes)

/-- The enumeration yielded a plan here (`newPlan` raised no error). -/
def yieldsPlan : Except QueryError QueryPlan → Bool
  | Except.ok _ => true
  | Except.error _ => false

/-- The enumeration yielded a plan here, and it is not Impossible. -/
def isPossiblePlan : Except QueryError QueryPlan → Bool
  | Except.ok q => decide (q.utility ≠ Utility.Impossible)
  | Except.error _ => false

/-- The enumeration yielded a plan with the given utility here. -/
def hasUtility (u : Utility) : Except QueryError QueryPlan → Bool
  | Except.ok q => decide (q.utility = u)
  | Except.error _ => false

/-- What the index loop of `addFallbackPlans` over `indexNos`, started with `locals`,
may end with: an Impossible plan of the enumeration, or locals whose new entries are
plans of the enumeration with the utility their slot stands for. -/
def fallbackLoopPost (s : QueryPlanSet) (d : NamespaceDetails) (indexNos : List Nat)
    (locals : FallbackLocals) : FallbackLoopEnd → Prop
  | FallbackLoopEnd.impossiblePlan q =>
    Except.ok q ∈ usefulPlansOf s d indexNos ∧ q.utility = Utility.Impossible
  | FallbackLoopEnd.finished locals' =>
    (∀ q ∈ locals'.plans, q ∈ locals.plans ∨
      (Except.ok q ∈ usefulPlansOf s d indexNos ∧ q.utility = Utility.Helpful ∧
        q.special = "")) ∧
    (∀ q, locals'.optimalPlan = some q → locals.optimalPlan = some q ∨
      (Except.ok q ∈ usefulPlansOf s d indexNos ∧ q.utility = Utility.Optimal)) ∧
    (∀ q, locals'.specialPlan = some q → locals.specialPlan = some q ∨
      (Except.ok q ∈ usefulPlansOf s d indexNos ∧ q.utility = Utility.Helpful ∧
        s.allowSpecial = true))

/-- What the claims about a step of the race look at in its result: the op returned
with its `complete` and `error` flags, `done()`, `usingCachedPlan`, the index keys of
the plan set and the queue. -/
def stepSummary (x : Except QueryError (Nat × Runner × QueryCache)) :
    Option (Nat × Option (Bool × Bool) × Bool × Bool × List BSONObj × List OpHolder) :=
  match x with
  | Except.ok (ret, r, _) =>
    some (ret, (r.ops[ret]?).map (fun o => (o.complete, o.error)), r.done,
      r.plans.usingCachedPlan, r.plans.plans.map (fun p => p.indexKey), r.queue)
  | Except.error _ => none

/-- A measure that decreases at every iteration of the loop of `Runner::next` but the
last: the length of the queue, plus, while a fallback expansion may still happen, the
number of ops it can add. -/
def Runner.potential (db : Database) (r : Runner) : Nat :=
  r.queue.length +
    (if r.plans.hasPossiblyExcludedPlans then
      (match db.nsdetails r.plans.frsp.ns with
       | some d => d.nIndexes
       | none => 0) + 1
     else 0)

/-- The index-key prefix that ends at the first non-equality field (the whole key when
every field is an equality). -/
def optimalPrefix (frs : FieldRangeSet) (idxKey : BSONObj) : List BSONElement :=
  idxKey.takeWhile (fun e => (frs.range e.fieldName).equality) ++
    (idxKey.dropWhile (fun e => (frs.range e.fieldName).equality)).take 1

/-- The index key fields after that prefix. -/
def afterOptimalPrefix (frs : FieldRangeSet) (idxKey : BSONObj) : List BSONElement :=
  (idxKey.dropWhile (fun e => (frs.range e.fieldName).equality)).drop 1

/-- The optimal indexed query count in the words of the specification: the number of
non-universal fields in the prefix, and -1 if a field after the prefix is
non-universal. -/
def specOptimalIndexedQueryCount (frs : FieldRangeSet) (idxKey : BSONObj) : Int :=
  if (afterOptimalPrefix frs idxKey).any (fun e => !(frs.range e.fieldName).universal) then -1
  else (((optimalPrefix frs idxKey).filter
    (fun e => !(frs.range e.fieldName).universal)).length : Int)

/-- The decision table of the specification for the utility of a plan on an index that
is not special, with a match possible. -/
def specUtility (sparse existsFalse firstFieldUniversal scanAndOrderRequired orderEmpty : Bool)
    (optimalIndexedQueryCount numNonUniversalRanges : Int) : Utility :=
  if sparse ∧ existsFalse then Utility.Disallowed
  else if firstFieldUniversal ∧ (scanAndOrderRequired ∨ orderEmpty) then Utility.Unhelpful
  else if scanAndOrderRequired = false ∧ optimalIndexedQueryCount = numNonUniversalRanges then
    Utility.Optimal
  else Utility.Helpful

/-- The plan `addCachedPlan` rebuilds for the cached index key `bestIndex` under the
current predicate (queryoptimizer.cpp:684-695): the table-scan plan for `$natural`,
replaced by the plan on every index whose key pattern is `bestIndex`; `none` when no
plan is built. -/
def replayedPlan (s : QueryPlanSet) (d : NamespaceDetails) (bestIndex : BSONObj) :
    Except QueryError (Option QueryPlan) :=
  match (if firstElementFieldName bestIndex = "$natural"
         then (s.newPlan (some d) (-1) [] [] "").map some else Except.ok none) with
  | Except.error e => Except.error e
  | Except.ok p₀ => cachedPlanLoop s d bestIndex d.indexes.enum p₀

/-- The Helpful plans of an enumeration that are not special, in index order. -/
def helpfulPlans (enumeration : List (Except QueryError QueryPlan)) : List QueryPlan :=
  enumeration.filterMap (fun r =>
    match r with
    | Except.ok q => if q.utility = Utility.Helpful ∧ q.special = "" then some q else none
    | Except.error _ => none)

/-- The Helpful plans of an enumeration that are special, in index order. -/
def helpfulSpecialPlans (enumeration : List (Except QueryError QueryPlan)) : List QueryPlan :=
  enumeration.filterMap (fun r =>
    match r with
    | Except.ok q => if q.utility = Utility.Helpful ∧ q.special ≠ "" then some q else none
    | Except.error _ => none)

/-- The candidates that `addCandidatePlan` keeps when they are offered in order to an
empty plan set: the first one, and the later ones whose index key differs from the
first one's. -/
def keptCandidates : List QueryPlan → List QueryPlan
  | [] => []
  | first :: rest => first :: rest.filter (fun q => decide (q.indexKey ≠ first.indexKey))

/-- The enumeration has neither an error, nor an Impossible plan, nor an Optimal plan
here. -/
def isCandidatePlan (r : Except QueryError QueryPlan) : Bool :=
  isPossiblePlan r && !hasUtility Utility.Optimal r

/-- The Runner and the plan cache after `n` successive calls of `Runner::next`, when
each of them returns. -/
def Runner.afterCalls (db : Database) :
    Nat → Runner → QueryCache → Except QueryError (Runner × QueryCache)
  | 0, r, cache => Except.ok (r, cache)
  | n + 1, r, cache =>
    match r.next db cache with
    | Except.error e => Except.error e
    | Except.ok (_, r₁, cache₁) => Runner.afterCalls db n r₁ cache₁

/-- The pair `min`, `max` is self-contradictory for the key pattern: at the first field
where the two keys differ, `min` is greater than `max` on an ascending field or
`min` is less than `max` on a descending field. -/
def selfContradictory (db : Database) : BSONObj → BSONObj → BSONObj → Bool
  | pe :: p, ie :: i, ae :: a =>
    if db.woCompare ie ae = 0 then selfContradictory db p i a
    else
      (decide (db.woCompare ie ae > 0) && decide (pe.number > 0)) ||
        (decide (db.woCompare ie ae < 0) && decide (pe.number < 0))
  | _, _, _ => false

/-- The addresses given by the `visitMatcher` callbacks of a sequence, in order. -/
def visitedMatchers (visits : List MatcherVisit) : List Nat :=
  visits.filterMap (fun v =>
    match v with
    | MatcherVisit.visitMatcher addr => some addr
    | MatcherVisit.visitElementMatcher _ => none)

/-- The matcher under which callback number `i` is made: the one entered by the last
`visitMatcher` among the earlier callbacks, `start` when there is none. -/
def currentMatcherAt (start : Option Nat) (visits : List MatcherVisit) (i : Nat) : Option Nat :=
  match (visitedMatchers (visits.take i)).getLast? with
  | some addr => some addr
  | none => start

/-- Callback number `i` is the visit of an `$exists` element matcher that is either
made under a matcher other than the original one (nested) or is `$exists:false` or
`$not:{$exists:true}`. -/
def flagsExistsFalse (original : Nat) (start : Option Nat) (visits : List MatcherVisit)
    (i : Nat) : Prop :=
  ∃ em, visits[i]? = some (MatcherVisit.visitElementMatcher em) ∧
    em.compareOp = CompareOp.opEXISTS ∧
    (currentMatcherAt start visits i ≠ some original ∨
      (if em.isNot then em.trueValue else !em.trueValue) = true)

/-- Source expression `elementDirection( oe ) == elementDirection( ke ) ? 1 : -1`
(queryoptimizer.cpp:174): the step direction of a sort field against the index field
of the same name. -/
def stepDirection (oe ke : BSONElement) : Int :=
  if elementDirection oe = elementDirection ke then 1 else -1

/-- The step direction in the words of the specification: +1 when the sort field and
the index field are both ascending or both descending, -1 when one is ascending and the
other descending. -/
def specStepDirection (oe ke : BSONElement) : Int :=
  if (elementDirection oe > 0 ↔ elementDirection ke > 0) then 1 else -1

/-- The plan `p` is one that `QueryPlanGenerator::newPlan` makes for the plan set `s`:
a plan that `QueryPlan::make` builds from the clause, the query, the order and the
parsed query of `s`. -/
def madeFor (s : QueryPlanSet) (p : QueryPlan) : Prop :=
  ∃ d idxNo min max special, s.newPlan d idxNo min max special = Except.ok p

/-- The plan set `s'` is `s` later in its planning: it is for the same clause, query,
order and parsed query, and each of its plans was in `s` or is made for `s`. -/
def plannedFrom (s s' : QueryPlanSet) : Prop :=
  s'.frsp = s.frsp ∧ s'.originalFrsp = s.originalFrsp ∧ s'.originalQuery = s.originalQuery ∧
  s'.order = s.order ∧ s'.parsedQuery = s.parsedQuery ∧
  ∀ p ∈ s'.plans, p ∈ s.plans ∨ madeFor s p

/-- The number of leading fields on which `min` and `max` hold equal values: the
position of the first field whose values differ, or the number of fields compared when
none differ. -/
def equalValuePrefix (db : Database) (min max : BSONObj) : Nat :=
  ((min.zip max).takeWhile (fun x => decide (db.woCompare x.1 x.2 = 0))).length

/-- The keys `min` and `max` share the pattern: the same field names in the same order,
hence the same number of fields. -/
def sharePattern (min max : BSONObj) : Prop :=
  min.map (fun e => e.fieldName) = max.map (fun e => e.fieldName)

/-- The keys `min` and `max` share the pattern on the fields up to and including the
first field whose values differ. -/
def sharePatternToFirstDifference (db : Database) (min max : BSONObj) : Prop :=
  (min.take (equalValuePrefix db min max + 1)).map (fun e => e.fieldName) =
    (max.take (equalValuePrefix db min max + 1)).map (fun e => e.fieldName)

/-- The pair the specification gives for keys that share the pattern: the position of
the first field whose values differ (the field count if none differ), with direction +1
if `min` is less than `max` there, -1 if it is greater, 0 if all values are equal. -/
def specKeyAudit (db : Database) (min max : BSONObj) : Int × Int :=
  match (min.zip max)[equalValuePrefix db min max]? with
  | some (ie, ae) =>
    (if db.woCompare ie ae < 0 then 1 else if db.woCompare ie ae > 0 then -1 else 0,
      (equalValuePrefix db min max : Int))
  | none => (0, (equalValuePrefix db min max : Int))

/-- A numeric element `{ name: n }`. -/
def exEl (name : String) (n : Int) : BSONElement :=
  { fieldName := name, value := BSONValue.number n }

/-- A field range set over the given ranges, on namespace `test.c`, for which a match
is possible. -/
def exFrs (ranges : List (String × FieldRange)) : FieldRangeSet :=
  { ns := "test.c"
    ranges := ranges
    matchPossible := true
    matchPossibleForIndex := fun _ => true
    mustBeExactMatchRepresentation := false
    pattern := fun order =>
      { fieldTypes := ranges.map (fun e => (e.1, if e.2.equality then 1 else 2)), sort := order }
    simplifiedQuery := fun _ => []
    frvHasAllIndexedRanges := fun _ _ => true
    frvStartKey := fun _ _ => []
    frvEndKey := fun _ _ => [] }

/-- The same field range set for single-key and multi-key indexes. -/
def exFrsp (ranges : List (String × FieldRange)) : FieldRangeSetPair :=
  { singleKey := exFrs ranges, multiKey := exFrs ranges }

/-- An ordinary (not sparse, not special, not multikey) index. -/
def exIndex (name : String) (key : BSONObj) : IndexDetails :=
  { indexName := name, keyPattern := key, sparse := false, special := false,
    getSpecialIndexName := "", suitability := fun _ _ => Suitability.HELPFUL, multikey := false }

/-- An equality range. -/
def exEquality : FieldRange := { universal := false, equality := true }

/-- A range with a bound, such as `{$gt: 2}`. -/
def exBounded : FieldRange := { universal := false, equality := false }

/-- A query whose matcher holds the given top-level element matchers. -/
def exQuery (ems : List ElementMatcher) : Query :=
  { obj := []
    docMatcher :=
      { addr := 0
        visits := MatcherVisit.visitMatcher 0 :: ems.map MatcherVisit.visitElementMatcher } }

/-- A collection with the single index `{a:1,b:1}`. -/
def exNsdAB : NamespaceDetails :=
  { indexes := [exIndex "a_1_b_1" [exEl "a" 1, exEl "b" 1]] }

/-- The clause of `{a: 5, b: {$gt: 2}}`. -/
def exFrspAB : FieldRangeSetPair := exFrsp [("a", exEquality), ("b", exBounded)]

/-- The order of two elements by value: numbers by size, any other pair equal. -/
def exWoCompare (l r : BSONElement) : Int :=
  match l.value, r.value with
  | BSONValue.number x, BSONValue.number y => if x < y then -1 else if x > y then 1 else 0
  | _, _ => 0

/-- The fields of `obj` named in `pattern`, in the order of `pattern`, under empty
names. -/
def exExtractFields (obj pattern : BSONObj) : BSONObj :=
  pattern.filterMap (fun pe =>
    (obj.find? (fun e => decide (e.fieldName = pe.fieldName))).map
      (fun e => { e with fieldName := "" }))

/-- A database in which every namespace resolves to `d`, table scans allowed. -/
def exDb (d : NamespaceDetails) : Database :=
  { nsdetails := fun _ => some d
    noTableScan := false
    woCompare := exWoCompare
    extractFieldsUnDotted := exExtractFields
    isIdIndexPattern := fun p => decide (p.map (fun e => e.fieldName) = ["_id"]) }

/-- The plan set of the query `{a: 5, b: {$gt: 2}}` sorted by `{b: 1}`, before planning. -/
def exSetAB : QueryPlanSet :=
  QueryPlanSet.new exFrspAB none (exQuery []) [exEl "b" 1] none HintElement.eoo
    RecordedPlanPolicy.Use [] [] true

/-- The plan of that query on the index `{a:1,b:1}`. -/
def exPlanAB : QueryPlan :=
  (QueryPlan.withIndex (some exNsdAB) 0 (exIndex "a_1_b_1" [exEl "a" 1, exEl "b" 1]) exFrspAB
    (exQuery []) [exEl "b" 1] none [] [] "").initIndexed
    (exIndex "a_1_b_1" [exEl "a" 1, exEl "b" 1]) [exEl "a" 1, exEl "b" 1] none [] []

/-- The empty plan cache. -/
def exEmptyCache : QueryCache := fun _ => CachedQueryPlan.empty

/-- A clause `{a: 5, b: {$gt: 2}}` whose field range sets report that no match is
possible, whatever the key pattern. -/
def exFrspNoMatch : FieldRangeSetPair :=
  { singleKey := { exFrs [("a", exEquality), ("b", exBounded)] with
                   matchPossible := false, matchPossibleForIndex := fun _ => false }
    multiKey := { exFrs [("a", exEquality), ("b", exBounded)] with
                  matchPossible := false, matchPossibleForIndex := fun _ => false } }

/-- The element matcher of `{$exists: false}`. -/
def exExistsFalse : ElementMatcher :=
  { compareOp := CompareOp.opEXISTS, isNot := false, trueValue := false }

/-- The sparse index `{x:1}`. -/
def exSparseX : IndexDetails := { exIndex "x_1" [exEl "x" 1] with sparse := true }

/-- A collection with the sparse index `{x:1}` only. -/
def exNsdSparseX : NamespaceDetails := { indexes := [exSparseX] }

/-- The clause of `{x: {$exists: false}}`: `x` is bound to the single value null. -/
def exFrspX : FieldRangeSetPair := exFrsp [("x", exEquality)]

/-- The plan cache after the plan on `{a:1,b:1}` won with 7 documents scanned. -/
def exCacheAB : QueryCache :=
  exPlanAB.registerSelf (exDb exNsdAB) 7
    { mayRunInOrderPlan := true, mayRunOutOfOrderPlan := false } exEmptyCache

/-- A collection with the three indexes `{a:1}`, `{b:1}` and `{c:1}`. -/
def exNsdABC : NamespaceDetails :=
  { indexes := [exIndex "a_1" [exEl "a" 1], exIndex "b_1" [exEl "b" 1], exIndex "c_1" [exEl "c" 1]] }

/-- The clause of `{a: {$gt: 0}, b: 5, c: 7}`. -/
def exFrspABC : FieldRangeSetPair :=
  exFrsp [("a", exBounded), ("b", exEquality), ("c", exEquality)]

/-- The plan set of that query, unsorted, before planning. -/
def exSetABC : QueryPlanSet :=
  QueryPlanSet.new exFrspABC none (exQuery []) [] none HintElement.eoo RecordedPlanPolicy.Use
    [] [] true

/-- A plan cache that recorded, for that query pattern, the index `{a:1}` with one
document scanned. -/
def exCacheA : QueryCache :=
  registerCachedQueryPlanForPattern exEmptyCache (exFrspABC.singleKey.pattern [])
    { indexKey := [exEl "a" 1], nScanned := 1,
      planCharacter := { mayRunInOrderPlan := true, mayRunOutOfOrderPlan := false } }

/-- An op implementation that scans 20 documents per call of `next()` and never
completes, except on the index numbered `completeAtInit`, where `_init()` finds
nothing to scan and completes. -/
def exScanner (completeAtInit : Int) : OpBehaviour := fun plan n =>
  if plan.idxNo = completeAtInit then
    { setComplete := true, setStop := false, nscanned := 0, mayRecordPlan := true, throws := none }
  else
    { setComplete := false, setStop := false, nscanned := 20 * n, mayRecordPlan := true,
      throws := none }

/-- The queue discipline that pops the oldest holder. -/
def exFifo : List QueryOp → List OpHolder → Nat := fun _ _ => 0

/-- The Runner that replays the cached plan of plan set `s`, right after
`Runner::init`: `none` unless `addCachedPlan` replays a plan and no op ends the race
during `init`. -/
def exReplay (d : NamespaceDetails) (s : QueryPlanSet) (cache : QueryCache)
    (impl : OpBehaviour) : Option Runner :=
  match QueryPlanGenerator.addCachedPlan (exDb d) s d cache with
  | Except.ok (true, s₁) =>
    (match (Runner.new s₁ impl exFifo).init with
     | Except.ok (none, r) => some r
     | _ => none)
  | _ => none

/-- The plan of `{a: {$gt: 0}, b: 5, c: 7}` on the index `{a:1}`. -/
def exPlanA : QueryPlan :=
  (QueryPlan.withIndex (some exNsdABC) 0 (exIndex "a_1" [exEl "a" 1]) exFrspABC
    (exQuery []) [] none [] [] "").initIndexed (exIndex "a_1" [exEl "a" 1]) [exEl "a" 1]
    none [] []

/-- The Runner replaying the cached plan on `{a:1}`, right after `Runner::init`, with
ops following `exScanner completeAtInit`. -/
def exRunnerA (completeAtInit : Int) : Runner :=
  { op := exScanner completeAtInit
    pick := exFifo
    plans :=
      { exSetABC with
        usingCachedPlan := true
        oldNScanned := 1
        cachedPlanCharacter := { mayRunInOrderPlan := true, mayRunOutOfOrderPlan := false }
        plans := [exPlanA] }
    ops := [initOp (exScanner completeAtInit) (QueryOp.createChild exPlanA)]
    queue := [{ op := 0, offset := 0 }]
    done := false }

/-- A collection without indexes. -/
def exNsdNoIndex : NamespaceDetails := { indexes := [] }

/-- The clause of `{a: {$gt: 0}}`. -/
def exFrspA : FieldRangeSetPair := exFrsp [("a", exBounded)]

/-- An op implementation whose `next()` throws on the index numbered `failing` and
scans 20 documents per call elsewhere. -/
def exThrower (failing : Int) : OpBehaviour := fun plan n =>
  if plan.idxNo = failing ∧ n ≥ 1 then
    { setComplete := false, setStop := false, nscanned := 0, mayRecordPlan := true,
      throws := some (Thrown.dbException { msg := "throw", code := 10408 }) }
  else
    { setComplete := false, setStop := false, nscanned := 20 * n, mayRecordPlan := true,
      throws := none }

/-- The plan of `{a: {$gt: 0}, b: 5, c: 7}` on the index `{b:1}`. -/
def exPlanB : QueryPlan :=
  (QueryPlan.withIndex (some exNsdABC) 1 (exIndex "b_1" [exEl "b" 1]) exFrspABC
    (exQuery []) [] none [] [] "").initIndexed (exIndex "b_1" [exEl "b" 1]) [exEl "b" 1]
    none [] []

/-- A plan set racing the plans on `{a:1}` and `{b:1}`. -/
def exSetRace : QueryPlanSet :=
  { exSetABC with mayRecordPlan := true, plans := [exPlanA, exPlanB] }

/-- The plan set full enumeration builds for `{a: {$gt: 0}, b: 5, c: 7}` from an empty
cache: `none` if the enumeration raises an error. -/
def exEnumeratedABC : Option QueryPlanSet :=
  match exSetABC.addFallbackPlans (exDb exNsdABC) exEmptyCache with
  | Except.ok (s, _) => some s
  | Except.error _ => none

/-- An op implementation that completes at the second call of `next()`, with 5
documents scanned, and permits recording iff `mayRecord`. -/
def exFinisher (mayRecord : Bool) : OpBehaviour := fun _ n =>
  { setComplete := decide (n ≥ 2), setStop := false, nscanned := 5, mayRecordPlan := mayRecord,
    throws := none }

/-- A Runner racing the plans on `{a:1}` and `{b:1}` whose ops have each made one call
of `next()`; the next call completes the op. -/
def exRunnerFinishing (mayRecord : Bool) : Runner :=
  { op := exFinisher mayRecord
    pick := exFifo
    plans := exSetRace
    ops := [nextOp (exFinisher mayRecord)
              (initOp (exFinisher mayRecord) (QueryOp.createChild exPlanA)),
            nextOp (exFinisher mayRecord)
              (initOp (exFinisher mayRecord) (QueryOp.createChild exPlanB))]
    queue := [{ op := 0, offset := 0 }, { op := 1, offset := 0 }]
    done := false }

/-- The database of `exDb d` run with `--notablescan`. -/
def exDbNoTableScan (d : NamespaceDetails) : Database :=
  { exDb d with noTableScan := true }

/-- The table-scan plan of the query `{a: {$gt: 0}}` on `test.c`. -/
def exTableScanA : QueryPlan :=
  { QueryPlan.started (some exNsdAB) (-1) exFrspA (exQuery []) [] none [] [] "" with
    scanAndOrderRequired := false }

/-- The table-scan plan of the empty query `{}` on `test.c`: no field is constrained. -/
def exTableScanAll : QueryPlan :=
  { QueryPlan.started (some exNsdAB) (-1) (exFrsp []) (exQuery []) [] none [] [] "" with
    scanAndOrderRequired := false }

/-- A special (`2d`) index on `loc` that is suitable for every query. -/
def exGeoIndex : IndexDetails :=
  { exIndex "loc_2d" [{ fieldName := "loc", value := BSONValue.string "2d" }] with
    special := true, getSpecialIndexName := "2d" }

/-- A collection with the `2d` index on `loc` only. -/
def exNsdGeo : NamespaceDetails := { indexes := [exGeoIndex] }

/-- The plan set of a query that constrains `loc`, unsorted, before planning; special
plans are allowed. -/
def exSetGeo : QueryPlanSet :=
  QueryPlanSet.new (exFrsp [("loc", exBounded)]) none (exQuery []) [] none HintElement.eoo
    RecordedPlanPolicy.Use [] [] true

/-- A new Runner on the plan set that replays the cached Optimal plan on `{a:1,b:1}`
with a cached scan count of 0; its op scans 20 documents per call of `next()` and
never completes. -/
def exRunnerOptimal : Runner :=
  Runner.new
    { exSetAB with
      usingCachedPlan := true
      oldNScanned := 0
      cachedPlanCharacter := { mayRunInOrderPlan := true, mayRunOutOfOrderPlan := false }
      plans := [exPlanAB] }
    (exScanner 7) exFifo

/-- A database without any namespace. -/
def exDbEmpty : Database :=
  { exDb exNsdNoIndex with nsdetails := fun _ => none }

/-- The plan set of `{a: {$gt: 0}}` with a hint naming an index that does not exist
and a `min` key, before planning. -/
def exSetBadHint (frsp : FieldRangeSetPair) : QueryPlanSet :=
  QueryPlanSet.new frsp none (exQuery []) [] none (HintElement.string "no_such_index")
    RecordedPlanPolicy.Use [exEl "zz" 1] [] true

/-- An index on `{a:1}` that is useless exactly for a clause whose simplified query on
the index is empty. -/
def exIndexSelective : IndexDetails :=
  { exIndex "a_1" [exEl "a" 1] with
    suitability := fun query _ => if query.isEmpty then Suitability.USELESS
                                  else Suitability.HELPFUL }

/-- A collection with that index only. -/
def exNsdSelective : NamespaceDetails := { indexes := [exIndexSelective] }

/-- The clause `{a: 5}`: its simplified query on `{a:1}` is `{a: 5}`. -/
def exClauseA : FieldRangeSetPair :=
  { singleKey := { exFrs [("a", exEquality)] with simplifiedQuery := fun _ => [exEl "a" 5] }
    multiKey := { exFrs [("a", exEquality)] with simplifiedQuery := fun _ => [exEl "a" 5] } }

/-- The clause `{b: 7}`: its simplified query on `{a:1}` is empty. -/
def exClauseB : FieldRangeSetPair := exFrsp [("b", exEquality)]

/-- The range generator of `{$or: [{a: 5}, {b: 7}]}`; popping a clause drops it. -/
def exOrg : OrRangeGenerator :=
  { special := ""
    baseSet := exFrsp []
    clauses := [{ top := exClauseA, topOriginal := exClauseA, original := exClauseA },
                { top := exClauseB, topOriginal := exClauseB, original := exClauseB }]
    popOrClauseImpl := fun _ _ _ clauses => clauses.drop 1 }

/-- The query `{$or: [{a: 5}, {b: 7}]}`; the `$or` element is an array (BSON type 4). -/
def exOrQuery : Query :=
  { exQuery [] with obj := [{ fieldName := "$or", value := BSONValue.other 4 }] }

/-- The surroundings of a scanner of that query: more clauses remain, in `$or` mode,
while no table scan was made and a clause is left. -/
def exEnv (org : OrRangeGenerator) : ScannerEnv :=
  { orRangeGenerator := org
    fieldRangeSetPair := exFrsp [("a", exEquality), ("b", exEquality)]
    orSpecValid := true
    pick := exFifo
    createChildImpl := fun _ => exScanner 7
    hasMoreClausesImpl := fun or i tableScanned clauses =>
      if or then !tableScanned && !clauses.isEmpty else decide (i = 0) }

/-- The scanner of that query on `test.c`, before `init`. -/
def exScannerOr (org : OrRangeGenerator) : MultiPlanScanner :=
  MultiPlanScanner.new (exEnv org) "test.c" exOrQuery none HintElement.eoo
    RecordedPlanPolicy.Use (exScanner 7)

/-- The scanner of `{$or: [{a: 5}, {b: 7}]}` whose ops complete at their second call
of `next()`, before `init`. -/
def exScannerOrFinishing : MultiPlanScanner :=
  { exScannerOr exOrg with baseOp := exFinisher true }

/-- That scanner and the plan cache after `init` on the collection with the indexes
`{a:1}`, `{b:1}`, `{c:1}` (the scanner as it was if `init` raises an error). -/
def exScannerOrStarted : MultiPlanScanner × QueryCache :=
  match exScannerOrFinishing.init (exDb exNsdABC) [] [] [] exEmptyCache with
  | Except.ok r => r
  | Except.error _ => (exScannerOrFinishing, exEmptyCache)

/-- What the statements about `$or` sequencing look at in a scanner: `_i`,
`_tableScanned`, the number of clauses that remain, and the constrained fields and
the index keys of the current plan set. -/
def exClauseSummary (mps : MultiPlanScanner) :
    Nat × Bool × Option Nat × Option (List String × List BSONObj) :=
  (mps.i, mps.tableScanned, mps.org.map (fun org => org.clauses.length),
    mps.currentQps.map (fun qps =>
      (qps.frsp.singleKey.ranges.map (fun e => e.1), qps.plans.map (fun p => p.indexKey))))

/-- The clause of `{a: {$gt: 0}, b: 5}` whose field ranges represent the query
exactly. -/
def exFrspExact : FieldRangeSetPair :=
  { singleKey := { exFrs [("a", exBounded), ("b", exEquality)] with
                   mustBeExactMatchRepresentation := true }
    multiKey := { exFrs [("a", exBounded), ("b", exEquality)] with
                  mustBeExactMatchRepresentation := true } }

/-- The clause of `{a: 5, b: {$gt: 2}}` whose field ranges represent the query
exactly. -/
def exFrspExactAB : FieldRangeSetPair :=
  { singleKey := { exFrs [("a", exEquality), ("b", exBounded)] with
                   mustBeExactMatchRepresentation := true }
    multiKey := { exFrs [("a", exEquality), ("b", exBounded)] with
                  mustBeExactMatchRepresentation := true } }

/-- The clause of `{a: {$in: [1, 2]}}`: two point intervals on `a`, an exact
representation of the query. -/
def exFrspIn : FieldRangeSetPair :=
  { singleKey :=
      { exFrs [("a", { universal := false, equality := false, isPointIntervalSet := true,
                       nIntervals := 2 })] with mustBeExactMatchRepresentation := true }
    multiKey :=
      { exFrs [("a", { universal := false, equality := false, isPointIntervalSet := true,
                       nIntervals := 2 })] with mustBeExactMatchRepresentation := true } }

/-- The scanner of `{$or: [{a: 5}, {b: 7}]}` after `init` and after the end of its
first clause, run on the index `{a:1}` (the scanner after `init` if the end of the
clause raises an error). -/
def exScannerOrSecond : MultiPlanScanner :=
  match exScannerOrStarted.1.handleEndOfClause exPlanA with
  | Except.ok mps => mps
  | Except.error _ => exScannerOrStarted.1

/-- A scanner of `{a: {$gt: 0}, b: 5, c: 7}` whose plan set replays the cached plan on
`{a:1}`, before the first `nextOp`; the op on `{a:1}` throws at its first `next()`. -/
def exScannerReplay : MultiPlanScanner :=
  { MultiPlanScanner.new (exEnv exOrg) "test.c" (exQuery []) none HintElement.eoo
      RecordedPlanPolicy.Use (exThrower 0) with
    currentQps := some (exRunnerA 7).plans }

/-! # Theorems -/

/-! ## How `QueryPlan::init` ends -/

theorem initIndexed_fixed (p : QueryPlan) (index : IndexDetails) (idxKey : BSONObj)
    (originalFrsp : Option FieldRangeSetPair) (startKey endKey : BSONObj) :
    (p.initIndexed index idxKey originalFrsp startKey endKey).frs = p.frs ∧
    (p.initIndexed index idxKey originalFrsp startKey endKey).order = p.order ∧
    (p.initIndexed index idxKey originalFrsp startKey endKey).idxNo = p.idxNo ∧
    (p.initIndexed index idxKey originalFrsp startKey endKey).d = p.d ∧
    (p.initIndexed index idxKey originalFrsp startKey endKey).special = p.special ∧
    (p.initIndexed index idxKey originalFrsp startKey endKey).index = p.index := by
  unfold QueryPlan.initIndexed
  simp only []
  split <;> simp [QueryPlan.initRanges]

/-- The four ways `QueryPlan::init` ends. -/
theorem make_cases {d : Option NamespaceDetails} {idxNo : Int} {frsp : FieldRangeSetPair}
    {originalFrsp : Option FieldRangeSetPair} {query : Query} {order : BSONObj}
    {parsedQuery : Option ParsedQuery} {startKey endKey : BSONObj} {special : String}
    {p : QueryPlan}
    (h : QueryPlan.make d idxNo frsp originalFrsp query order parsedQuery startKey endKey
      special = Except.ok p) :
    (p = { QueryPlan.started d idxNo frsp query order parsedQuery startKey endKey special with
            utility := Utility.Impossible, scanAndOrderRequired := false }) ∨
    (idxNo < 0 ∧
      p = { QueryPlan.started d idxNo frsp query order parsedQuery startKey endKey special with
            scanAndOrderRequired :=
              !(order.isEmpty || decide (firstElementFieldName order = "$natural")) }) ∨
    (∃ index sp, idx d idxNo = some index ∧ sp ≠ "" ∧
      p = { QueryPlan.withIndex d idxNo index frsp query order parsedQuery startKey endKey
              special with
            special := sp, scanAndOrderRequired := !order.isEmpty }) ∨
    (∃ index, idx d idxNo = some index ∧ special = "" ∧
      (frsp.frsForIndex d idxNo).matchPossibleForIndex index.keyPattern = true ∧
      p = (QueryPlan.withIndex d idxNo index frsp query order parsedQuery startKey endKey
            special).initIndexed index index.keyPattern originalFrsp startKey endKey) := by
  unfold QueryPlan.make QueryPlan.init at h
  by_cases hneg : idxNo < 0
  · simp only [QueryPlan.new, hneg, if_true] at h
    by_cases hm : (frsp.frsForIndex d idxNo).matchPossibleForIndex [] = true
    · right; left
      refine ⟨hneg, ?_⟩
      simp only [hm, QueryPlan.willScanTable, hneg] at h
      by_cases ho : (order.isEmpty || decide (firstElementFieldName order = "$natural")) = true
      · simp [ho] at h
        simp [← h, QueryPlan.started, QueryPlan.new, ho]
      · simp [ho] at h
        simp [← h, QueryPlan.started, QueryPlan.new, ho]
    · left
      simp [hm] at h
      simp [← h, QueryPlan.started, QueryPlan.new]
  · simp only [QueryPlan.new, hneg, if_false] at h
    cases hidx : idx d idxNo with
    | none => simp [hidx] at h
    | some index =>
      simp only [hidx, Option.map_some'] at h
      by_cases hm : (frsp.frsForIndex d idxNo).matchPossibleForIndex index.keyPattern = true
      · simp only [hm, QueryPlan.willScanTable, hneg] at h
        simp at h
        right; right
        by_cases hc : (¬special = "" ∨ index.special = true ∧
            ¬index.suitability query.obj order = Suitability.USELESS)
        · left
          rw [if_pos hc] at h
          by_cases hsp : (if special = "" then index.getSpecialIndexName else special) = ""
          · rw [if_pos hsp] at h
            cases h
          · rw [if_neg hsp] at h
            cases h
            exact ⟨index, _, rfl, hsp, by simp [QueryPlan.withIndex, QueryPlan.started,
              QueryPlan.new]⟩
        · right
          rw [if_neg hc] at h
          have hs : special = "" := by
            by_contra hne
            exact hc (Or.inl hne)
          cases h
          exact ⟨index, rfl, hs, hm, by simp [QueryPlan.withIndex, QueryPlan.started,
            QueryPlan.new]⟩
      · left
        simp [hm] at h
        simp [← h, QueryPlan.started, QueryPlan.new]

/-- The members set by the constructor are those of the plan `make` returns. -/
theorem make_fixed {d : Option NamespaceDetails} {idxNo : Int} {frsp : FieldRangeSetPair}
    {originalFrsp : Option FieldRangeSetPair} {query : Query} {order : BSONObj}
    {parsedQuery : Option ParsedQuery} {startKey endKey : BSONObj} {special : String}
    {p : QueryPlan}
    (h : QueryPlan.make d idxNo frsp originalFrsp query order parsedQuery startKey endKey
      special = Except.ok p) :
    p.frs = frsp.frsForIndex d idxNo ∧ p.order = order ∧ p.idxNo = idxNo ∧ p.d = d := by
  rcases make_cases h with h | ⟨_, h⟩ | ⟨index, sp, _, _, h⟩ | ⟨index, _, _, _, h⟩ <;>
    subst h <;>
    simp [initIndexed_fixed, QueryPlan.withIndex, QueryPlan.started, QueryPlan.new]

/-- A plan made without a special name is special only if it is Helpful; in
particular an Optimal plan never is. -/
theorem make_special_helpful {d : Option NamespaceDetails} {idxNo : Int}
    {frsp : FieldRangeSetPair}
    {originalFrsp : Option FieldRangeSetPair} {query : Query} {order : BSONObj}
    {parsedQuery : Option ParsedQuery} {startKey endKey : BSONObj}
    {p : QueryPlan}
    (h : QueryPlan.make d idxNo frsp originalFrsp query order parsedQuery startKey endKey
      "" = Except.ok p) :
    p.special = "" ∨ p.utility = Utility.Helpful := by
  rcases make_cases h with h | ⟨_, h⟩ | ⟨index, sp, _, _, h⟩ | ⟨index, _, _, _, h⟩ <;>
    subst h <;>
    simp [initIndexed_fixed, QueryPlan.withIndex, QueryPlan.started, QueryPlan.new]

/-- The index key of a plan made for index number `idxNo`. -/
theorem make_table_scan_indexKey {d : Option NamespaceDetails} {idxNo : Int}
    {frsp : FieldRangeSetPair}
    {originalFrsp : Option FieldRangeSetPair} {query : Query} {order : BSONObj}
    {parsedQuery : Option ParsedQuery} {startKey endKey : BSONObj} {special : String}
    {p : QueryPlan}
    (h : QueryPlan.make d idxNo frsp originalFrsp query order parsedQuery startKey endKey
      special = Except.ok p) (hneg : idxNo < 0) :
    p.index = none ∧ p.special = special ∧
      (p.utility = Utility.Helpful ∨ p.utility = Utility.Impossible) := by
  have hidx : idx d idxNo = none := by
    unfold idx
    cases d <;> simp [hneg]
  rcases make_cases h with h | ⟨_, h⟩ | ⟨index, sp, hi, _, h⟩ | ⟨index, hi, _, _, h⟩
  · subst h; simp [QueryPlan.started, QueryPlan.new]
  · subst h; simp [QueryPlan.started, QueryPlan.new]
  · rw [hidx] at hi; cases hi
  · rw [hidx] at hi; cases hi


/-! ## Prefix-optimal plans -/

theorem lookupRange_mem {f : String} {r : FieldRange} :
    ∀ {l : List (String × FieldRange)}, lookupRange f l = some r → (f, r) ∈ l
  | [], h => by simp [lookupRange] at h
  | (k, r₀) :: rest, h => by
    unfold lookupRange at h
    by_cases hk : k = f
    · simp [hk] at h
      simp [hk, h]
    · simp [hk] at h
      exact List.mem_cons_of_mem _ (lookupRange_mem h)

theorem range_nonuniversal_mem {frs : FieldRangeSet} {f : String}
    (h : (frs.range f).universal = false) : (f, frs.range f) ∈ frs.ranges := by
  unfold FieldRangeSet.range at h ⊢
  cases hl : lookupRange f frs.ranges with
  | none => simp [hl, universalFieldRange] at h
  | some r => simpa [hl] using lookupRange_mem hl

/-- The clause constrains exactly the fields `names`. -/
theorem numNonUniversalRanges_eq_length (frs : FieldRangeSet) (names : List String)
    (hmap : (frs.ranges.map Prod.fst).Nodup) (hnames : names.Nodup)
    (hcon : ∀ f ∈ names, (frs.range f).universal = false)
    (hother : ∀ e ∈ frs.ranges, e.2.universal = false → e.1 ∈ names) :
    frs.numNonUniversalRanges = (names.length : Int) := by
  unfold FieldRangeSet.numNonUniversalRanges
  have hnd : ((frs.ranges.filter (fun e => !e.2.universal)).map Prod.fst).Nodup :=
    List.Nodup.sublist (List.Sublist.map _ (List.filter_sublist _)) hmap
  have hperm : ((frs.ranges.filter (fun e => !e.2.universal)).map Prod.fst).Perm names := by
    rw [List.perm_ext_iff_of_nodup hnd hnames]
    intro a
    constructor
    · intro ha
      rcases List.mem_map.1 ha with ⟨e, he, rfl⟩
      rcases List.mem_filter.1 he with ⟨he₁, he₂⟩
      exact hother e he₁ (by simpa using he₂)
    · intro ha
      have h₁ := hcon a ha
      exact List.mem_map.2 ⟨(a, frs.range a),
        List.mem_filter.2 ⟨range_nonuniversal_mem h₁, by simp [h₁]⟩, rfl⟩
  have := hperm.length_eq
  simp only [List.length_map] at this
  rw [this]

theorem nextOrderKey_skip (frs : FieldRangeSet) (name : String) (ke : BSONElement)
    (post : List BSONElement) (hke : name = ke.fieldName) :
    ∀ pre : List BSONElement,
      (∀ e ∈ pre, (frs.range e.fieldName).equality = true ∧ name ≠ e.fieldName) →
      nextOrderKey frs name (pre ++ ke :: post) = some (ke, post)
  | [], _ => by simp [nextOrderKey, hke]
  | e :: pre, h => by
    have he := h e (List.mem_cons_self _ _)
    have ih := nextOrderKey_skip frs name ke post hke pre
      (fun x hx => h x (List.mem_cons_of_mem _ hx))
    simp [nextOrderKey, he.1, he.2, ih]

theorem optimalCount_universal (frs : FieldRangeSet) :
    ∀ (post : List BSONElement) (c : Int),
      (∀ e ∈ post, (frs.range e.fieldName).universal = true) →
      optimalIndexedQueryCountFrom frs post c false = c
  | [], c, _ => by simp [optimalIndexedQueryCountFrom]
  | e :: post, c, h => by
    have he := h e (List.mem_cons_self _ _)
    have ih := optimalCount_universal frs post c (fun x hx => h x (List.mem_cons_of_mem _ hx))
    simp [optimalIndexedQueryCountFrom, he, ih]

theorem optimalCount_universal_awaiting (frs : FieldRangeSet) :
    ∀ (post : List BSONElement) (c : Int) (aw : Bool),
      (∀ e ∈ post, (frs.range e.fieldName).universal = true) →
      optimalIndexedQueryCountFrom frs post c aw = c
  | [], c, _, _ => by simp [optimalIndexedQueryCountFrom]
  | e :: post, c, aw, h => by
    have he := h e (List.mem_cons_self _ _)
    cases aw with
    | false => exact optimalCount_universal frs (e :: post) c h
    | true =>
      cases heq : (frs.range e.fieldName).equality with
      | true =>
        simp [optimalIndexedQueryCountFrom, he, heq]
        exact optimalCount_universal_awaiting frs post c true
          (fun x hx => h x (List.mem_cons_of_mem _ hx))
      | false =>
        simp [optimalIndexedQueryCountFrom, he, heq]
        exact optimalCount_universal frs post c (fun x hx => h x (List.mem_cons_of_mem _ hx))

theorem optimalCount_prefix (frs : FieldRangeSet) (ke : BSONElement) (post : List BSONElement)
    (hke : (frs.range ke.fieldName).universal = false)
    (hpost : ∀ e ∈ post, (frs.range e.fieldName).universal = true) :
    ∀ (pre : List BSONElement) (c : Int),
      (∀ e ∈ pre, (frs.range e.fieldName).equality = true ∧
        (frs.range e.fieldName).universal = false) →
      optimalIndexedQueryCountFrom frs (pre ++ ke :: post) c true = c + pre.length + 1
  | [], c, _ => by
    simp [optimalIndexedQueryCountFrom, hke]
    exact optimalCount_universal_awaiting frs post _ _ hpost
  | e :: pre, c, h => by
    have he := h e (List.mem_cons_self _ _)
    have ih := optimalCount_prefix frs ke post hke hpost pre (c + 1)
      (fun x hx => h x (List.mem_cons_of_mem _ hx))
    simp [optimalIndexedQueryCountFrom, he.1, he.2, ih]
    omega

theorem idx_some {d : NamespaceDetails} {idxNo : Nat} {index : IndexDetails}
    (hidx : d.indexes[idxNo]? = some index) : idx (some d) (idxNo : Int) = some index := by
  simp [idx, hidx]

/-- On an index that is not special for the query, with a match possible, `make`
runs the ordinary analysis. -/
theorem make_eq_initIndexed (d : NamespaceDetails) (idxNo : Nat) (index : IndexDetails)
    (frsp : FieldRangeSetPair) (originalFrsp : Option FieldRangeSetPair) (query : Query)
    (order : BSONObj) (parsedQuery : Option ParsedQuery) (startKey endKey : BSONObj)
    (hidx : d.indexes[idxNo]? = some index)
    (hspecial : index.special = false ∨
      index.suitability query.obj order = Suitability.USELESS)
    (hmatch : (frsp.frsForIndex (some d) idxNo).matchPossibleForIndex index.keyPattern = true) :
    QueryPlan.make (some d) idxNo frsp originalFrsp query order parsedQuery startKey endKey "" =
      Except.ok ((QueryPlan.withIndex (some d) idxNo index frsp query order parsedQuery
        startKey endKey "").initIndexed index index.keyPattern originalFrsp startKey endKey) := by
  have hidx' := idx_some hidx
  have hneg : ¬ ((idxNo : Int) < 0) := by omega
  unfold QueryPlan.make QueryPlan.init
  rcases hspecial with h | h <;>
    simp [QueryPlan.new, hidx', QueryPlan.willScanTable, hmatch, h, QueryPlan.withIndex,
      QueryPlan.started, hneg]

/-- C1: on a non-sparse, non-special index whose key is `pre ++ ke :: post`, for a clause
(match possible) that pins every field of `pre` to an equality, constrains `ke` and
constrains no other field, and for the sort order made of the single field `ke` with
the index's direction value, `QueryPlan::init` yields utility Optimal,
scanAndOrderRequired false and direction +1. -/
theorem init_prefix_optimal_single_sort (d : NamespaceDetails) (idxNo : Nat) (index : IndexDetails)
    (frsp : FieldRangeSetPair) (originalFrsp : Option FieldRangeSetPair) (query : Query)
    (parsedQuery : Option ParsedQuery) (startKey endKey : BSONObj)
    (pre post : List BSONElement) (ke oe : BSONElement)
    (hidx : d.indexes[idxNo]? = some index)
    (hsparse : index.sparse = false) (hspecial : index.special = false)
    (hkey : index.keyPattern = pre ++ ke :: post)
    (hnodup : (index.keyPattern.map (fun e => e.fieldName)).Nodup)
    (hmatch : (frsp.frsForIndex (some d) idxNo).matchPossibleForIndex index.keyPattern = true)
    (hmap : ((frsp.frsForIndex (some d) idxNo).ranges.map Prod.fst).Nodup)
    (hpre : ∀ e ∈ pre, ((frsp.frsForIndex (some d) idxNo).range e.fieldName).equality = true ∧
      ((frsp.frsForIndex (some d) idxNo).range e.fieldName).universal = false)
    (hk : ((frsp.frsForIndex (some d) idxNo).range ke.fieldName).universal = false)
    (hother : ∀ e ∈ (frsp.frsForIndex (some d) idxNo).ranges, e.2.universal = false →
      e.1 ∈ (pre ++ [ke]).map (fun e => e.fieldName))
    (hname : oe.fieldName = ke.fieldName) (hdir : elementDirection oe = elementDirection ke) :
    ∃ p, QueryPlan.make (some d) idxNo frsp originalFrsp query [oe] parsedQuery
        startKey endKey "" = Except.ok p ∧
      p.utility = Utility.Optimal ∧ p.scanAndOrderRequired = false ∧ p.direction = 1 := by
  set frs := frsp.frsForIndex (some d) idxNo with hfrs
  rw [hkey] at hnodup
  have hnd : ((pre.map (fun e => e.fieldName)) ++
      ke.fieldName :: post.map (fun e => e.fieldName)).Nodup := by simpa using hnodup
  have hnd' := List.nodup_append.1 hnd
  have hnd'' := List.nodup_cons.1 hnd'.2.1
  -- the sort field is not among the skipped index fields
  have hskip : ∀ e ∈ pre, (frs.range e.fieldName).equality = true ∧
      oe.fieldName ≠ e.fieldName := by
    intro e he
    refine ⟨(hpre e he).1, ?_⟩
    intro h
    have h₁ : e.fieldName ∈ pre.map (fun e => e.fieldName) := List.mem_map.2 ⟨e, he, rfl⟩
    have h₂ : e.fieldName ∈ ke.fieldName :: post.map (fun e => e.fieldName) := by
      rw [← h, hname]; exact List.mem_cons_self _ _
    exact hnd'.2.2 h₁ h₂
  have hwalk := nextOrderKey_skip frs oe.fieldName ke post hname pre hskip
  -- fields after the prefix are unconstrained
  have hpost : ∀ e ∈ post, (frs.range e.fieldName).universal = true := by
    intro e he
    by_contra hne
    have hu : (frs.range e.fieldName).universal = false := by simpa using hne
    have hm := hother _ (range_nonuniversal_mem hu) hu
    simp only [List.map_append, List.map_cons, List.map_nil, List.mem_append,
      List.mem_singleton, List.mem_map] at hm
    rcases hm with hm | hm
    · rcases hm with ⟨x, hx, hxe⟩
      have h₁ : e.fieldName ∈ pre.map (fun e => e.fieldName) := List.mem_map.2 ⟨x, hx, hxe⟩
      exact hnd'.2.2 h₁ (List.mem_cons_of_mem _ (List.mem_map.2 ⟨e, he, rfl⟩))
    · exact hnd''.1 (hm ▸ List.mem_map.2 ⟨e, he, rfl⟩)
  have hcount := optimalCount_prefix frs ke post hk hpost pre 0 hpre
  have hnames : ((pre ++ [ke]).map (fun e => e.fieldName)).Nodup := by
    have hsub : List.Sublist ((pre ++ [ke]).map (fun e => e.fieldName))
        ((pre.map (fun e => e.fieldName)) ++ ke.fieldName :: post.map (fun e => e.fieldName)) := by
      simp only [List.map_append, List.map_cons, List.map_nil]
      exact List.Sublist.append_left (List.Sublist.cons₂ _ (List.nil_sublist _)) _
    exact List.Nodup.sublist hsub hnd
  have hnum := numNonUniversalRanges_eq_length frs _ hmap hnames (by
    intro f hf
    simp only [List.map_append, List.map_cons, List.map_nil, List.mem_append,
      List.mem_singleton, List.mem_map] at hf
    rcases hf with ⟨e, he, rfl⟩ | rfl
    · exact (hpre e he).2
    · exact hk) hother
  simp only [List.length_append, List.length_map, List.length_singleton, List.length_cons,
    List.length_nil] at hnum
  refine ⟨_, make_eq_initIndexed d idxNo index frsp originalFrsp query [oe] parsedQuery
    startKey endKey hidx (Or.inl hspecial) hmatch, ?_⟩
  simp [QueryPlan.initIndexed, QueryPlan.initRanges, QueryPlan.withIndex, QueryPlan.started,
    QueryPlan.new, ← hfrs, hkey, checkOrder,
    hwalk, hdir, hcount, hnum, hsparse]


/-- Witness of C1: the predicate `{a: 5, b: {$gt: 2}}`, sort `{b: 1}`, index `{a:1,b:1}`. -/
theorem init_prefix_optimal_single_sort_witness :
    ∃ p, QueryPlan.make (some exNsdAB) 0 exFrspAB none (exQuery []) [exEl "b" 1] none [] [] "" =
        Except.ok p ∧
      p.utility = Utility.Optimal ∧ p.scanAndOrderRequired = false ∧ p.direction = 1 :=
  init_prefix_optimal_single_sort exNsdAB 0 (exIndex "a_1_b_1" [exEl "a" 1, exEl "b" 1])
    exFrspAB none (exQuery []) none [] [] [exEl "a" 1] [] (exEl "b" 1) (exEl "b" 1)
    rfl rfl rfl rfl (by decide) rfl (by decide) (by decide) rfl (by decide) rfl rfl

/-! ## Full enumeration with an Optimal plan -/


/-- When the enumeration raises no error and yields no Impossible plan, the index loop
of `addFallbackPlans` runs to the end, and `optimalPlan` is the first Optimal plan. -/
theorem fallbackLoop_optimal (s : QueryPlanSet) (d : NamespaceDetails) :
    ∀ (indexNos : List Nat) (locals : FallbackLocals),
      (usefulPlansOf s d indexNos).all isPossiblePlan = true →
      ∃ locals', fallbackLoop s d indexNos locals = Except.ok (FallbackLoopEnd.finished locals') ∧
        (locals.optimalPlan.isSome → locals'.optimalPlan = locals.optimalPlan) ∧
        (locals.optimalPlan = none →
          locals'.optimalPlan.map Except.ok =
            (usefulPlansOf s d indexNos).find? (hasUtility Utility.Optimal))
  | [], locals, _ => ⟨locals, rfl, fun _ => rfl, fun h => by simp [usefulPlansOf, h]⟩
  | i :: rest, locals, hall => by
    unfold fallbackLoop
    by_cases hu : indexUseful s.frsp d i s.order = true
    · have hall' : isPossiblePlan (s.newPlan (some d) (i : Int) [] [] "") = true ∧
          (usefulPlansOf s d rest).all isPossiblePlan = true := by
        simpa [usefulPlansOf, hu] using hall
      cases hp : s.newPlan (some d) (i : Int) [] [] "" with
      | error e => simp [hp, isPossiblePlan] at hall'
      | ok p =>
        have hne : p.utility ≠ Utility.Impossible := by
          simpa [hp, isPossiblePlan] using hall'.1
        simp only [hu, Bool.not_true, Bool.false_eq_true, if_false]
        cases hut : p.utility with
        | Impossible => exact absurd hut hne
        | Optimal =>
          simp only []
          obtain ⟨l', h₁, h₂, h₃⟩ := fallbackLoop_optimal s d rest
            (if locals.optimalPlan.isNone then { locals with optimalPlan := some p } else locals)
            hall'.2
          refine ⟨l', h₁, ?_, ?_⟩
          · intro hsome
            have : locals.optimalPlan.isNone = false := by
              cases h : locals.optimalPlan <;> simp_all
            simp only [this, Bool.false_eq_true, if_false] at h₂
            exact h₂ hsome
          · intro hnone
            simp only [hnone, Option.isNone_none, if_true] at h₂
            have := h₂ (by simp)
            simp [usefulPlansOf, hu, hp, hasUtility, hut, this]
        | Helpful =>
          simp only []
          have key : ∀ locals₁ : FallbackLocals, locals₁.optimalPlan = locals.optimalPlan →
              ∃ locals', fallbackLoop s d rest locals₁ =
                  Except.ok (FallbackLoopEnd.finished locals') ∧
                (locals.optimalPlan.isSome → locals'.optimalPlan = locals.optimalPlan) ∧
                (locals.optimalPlan = none →
                  locals'.optimalPlan.map Except.ok =
                    (usefulPlansOf s d (i :: rest)).find? (hasUtility Utility.Optimal)) := by
            intro locals₁ heq
            obtain ⟨l', h₁, h₂, h₃⟩ := fallbackLoop_optimal s d rest locals₁ hall'.2
            refine ⟨l', h₁, ?_, ?_⟩
            · intro hsome; rw [heq] at h₂; exact h₂ hsome
            · intro hnone
              rw [heq] at h₃
              simp [usefulPlansOf, hu, hp, hasUtility, hut, h₃ hnone]
          split
          · exact key _ rfl
          · split
            · exact key _ rfl
            · exact key _ rfl
        | Unhelpful =>
          simp only []
          obtain ⟨l', h₁, h₂, h₃⟩ := fallbackLoop_optimal s d rest locals hall'.2
          refine ⟨l', h₁, h₂, ?_⟩
          intro hnone
          simp [usefulPlansOf, hu, hp, hasUtility, hut, h₃ hnone]
        | Disallowed =>
          simp only []
          obtain ⟨l', h₁, h₂, h₃⟩ := fallbackLoop_optimal s d rest locals hall'.2
          refine ⟨l', h₁, h₂, ?_⟩
          intro hnone
          simp [usefulPlansOf, hu, hp, hasUtility, hut, h₃ hnone]
    · have hu' : indexUseful s.frsp d i s.order = false := by simpa using hu
      have hall' : (usefulPlansOf s d rest).all isPossiblePlan = true := by
        simpa [usefulPlansOf, hu'] using hall
      simp only [hu', Bool.not_false, if_true]
      obtain ⟨l', h₁, h₂, h₃⟩ := fallbackLoop_optimal s d rest locals hall'
      refine ⟨l', h₁, h₂, ?_⟩
      intro hnone
      simp [usefulPlansOf, hu', h₃ hnone]


theorem frsForIndex_ns (frsp : FieldRangeSetPair) (d : Option NamespaceDetails) (idxNo : Int)
    (hns : frsp.multiKey.ns = frsp.singleKey.ns) : (frsp.frsForIndex d idxNo).ns = frsp.ns := by
  unfold FieldRangeSetPair.frsForIndex FieldRangeSetPair.ns
  split
  · exact hns
  · split
    · exact hns
    · rfl

theorem usefulPlansOf_mem {s : QueryPlanSet} {d : NamespaceDetails} {indexNos : List Nat}
    {r : Except QueryError QueryPlan} (h : r ∈ usefulPlansOf s d indexNos) :
    ∃ i ∈ indexNos, indexUseful s.frsp d i s.order = true ∧
      s.newPlan (some d) (i : Int) [] [] "" = r := by
  unfold usefulPlansOf at h
  rcases List.mem_map.1 h with ⟨i, hi, rfl⟩
  rcases List.mem_filter.1 hi with ⟨h₁, h₂⟩
  exact ⟨i, h₁, h₂, rfl⟩

/-- C2: `QueryPlanGenerator::addFallbackPlans` on an empty plan set, when the enumeration of
useful indexes raises no error, yields no Impossible plan and `p` is the first Optimal
plan it yields: the plan set becomes exactly `[p]` and nothing else of it changes, and
the plan cache entry of the plan's query pattern is set to the plan's index key, scan
count 0 and character (in order = not scanAndOrderRequired, out of order =
scanAndOrderRequired). -/
theorem addFallbackPlans_optimal (db : Database) (s : QueryPlanSet) (cache : QueryCache)
    (d : NamespaceDetails) (p : QueryPlan)
    (hd : db.nsdetails s.frsp.ns = some d)
    (hns : s.frsp.multiKey.ns = s.frsp.singleKey.ns)
    (hempty : s.plans = [])
    (hall : (usefulPlans s d).all isPossiblePlan = true)
    (hfirst : (usefulPlans s d).find? (hasUtility Utility.Optimal) = some (Except.ok p)) :
    QueryPlanGenerator.addFallbackPlans db s cache =
      Except.ok ({ s with plans := [p] },
        registerCachedQueryPlanForPattern cache (p.frs.pattern p.order)
          { indexKey := p.indexKey, nScanned := 0,
            planCharacter :=
              { mayRunInOrderPlan := !p.scanAndOrderRequired,
                mayRunOutOfOrderPlan := p.scanAndOrderRequired } }) := by
  obtain ⟨locals', hloop, _, hopt⟩ := fallbackLoop_optimal s d (List.range d.nIndexes)
    { plans := [], optimalPlan := none, specialPlan := none } hall
  have hopt' := hopt rfl
  rw [show usefulPlansOf s d (List.range d.nIndexes) = usefulPlans s d from rfl, hfirst] at hopt'
  have hlp : locals'.optimalPlan = some p := by
    cases h : locals'.optimalPlan with
    | none => simp [h] at hopt'
    | some q => simpa [h] using hopt'
  have hutil : p.utility = Utility.Optimal := by
    have := List.find?_some hfirst
    simpa [hasUtility] using this
  obtain ⟨i, _, _, hmake⟩ := usefulPlansOf_mem (List.mem_of_find?_eq_some hfirst)
  have hspecial : p.special = "" := by
    rcases make_special_helpful hmake with h | h
    · exact h
    · rw [hutil] at h; cases h
  have hfrs : p.frs.ns = s.frsp.ns := by
    rw [(make_fixed hmake).1]; exact frsForIndex_ns _ _ _ hns
  unfold QueryPlanGenerator.addFallbackPlans
  simp only [hd, hloop, hlp]
  simp [QueryPlanSet.setSinglePlan, QueryPlanSet.nPlans, hempty, QueryPlanSet.pushPlan, hspecial,
    Except.map, QueryPlan.registerSelf, hutil, hfrs, hd]

/-- Witness of C2: the same query planned by full enumeration on the collection with
the index `{a:1,b:1}`. -/
theorem addFallbackPlans_optimal_witness :
    (usefulPlans exSetAB exNsdAB).find? (hasUtility Utility.Optimal) = some (Except.ok exPlanAB) ∧
    QueryPlanGenerator.addFallbackPlans (exDb exNsdAB) exSetAB exEmptyCache =
      Except.ok ({ exSetAB with plans := [exPlanAB] },
        registerCachedQueryPlanForPattern exEmptyCache (exPlanAB.frs.pattern exPlanAB.order)
          { indexKey := exPlanAB.indexKey, nScanned := 0,
            planCharacter :=
              { mayRunInOrderPlan := !exPlanAB.scanAndOrderRequired,
                mayRunOutOfOrderPlan := exPlanAB.scanAndOrderRequired } }) :=
  ⟨rfl, addFallbackPlans_optimal (exDb exNsdAB) exSetAB exEmptyCache exNsdAB exPlanAB
    rfl rfl rfl (by decide) rfl⟩


/-! ## Impossible plans and table scans -/

/-- C3: for every plan, with an index or without, whose field range set reports that no
match is possible for the index key pattern (the empty pattern for a table scan),
`QueryPlan::init` yields utility Impossible with scanAndOrderRequired false, and
`QueryPlan::newCursor` returns the dummy cursor whatever the database state and the
no-table-scan policy: no special-index cursor, no index or table cursor, no error. -/
theorem impossible_plan_dummy_cursor (d : Option NamespaceDetails) (idxNo : Int)
    (frsp : FieldRangeSetPair) (originalFrsp : Option FieldRangeSetPair) (query : Query)
    (order : BSONObj) (parsedQuery : Option ParsedQuery) (startKey endKey : BSONObj)
    (special : String) (idxKey : BSONObj)
    (hkey : (if idxNo < 0 then some [] else (idx d idxNo).map (fun i => i.keyPattern)) =
      some idxKey)
    (hmatch : (frsp.frsForIndex d idxNo).matchPossibleForIndex idxKey = false) :
    ∃ p, QueryPlan.make d idxNo frsp originalFrsp query order parsedQuery startKey endKey
        special = Except.ok p ∧
      p.utility = Utility.Impossible ∧ p.scanAndOrderRequired = false ∧
      ∀ db : Database, p.newCursor db = Except.ok Cursor.dummyCursor := by
  refine ⟨{ QueryPlan.started d idxNo frsp query order parsedQuery startKey endKey special with
            utility := Utility.Impossible, scanAndOrderRequired := false }, ?_, rfl, rfl, ?_⟩
  · unfold QueryPlan.make QueryPlan.init
    simp only [QueryPlan.new, hkey, hmatch]
    simp [QueryPlan.started, QueryPlan.new]
  · intro db
    simp [QueryPlan.newCursor, QueryPlan.started, QueryPlan.new]

/-- Witness of C3: a clause that can match nothing, on the index `{a:1,b:1}`. -/
theorem impossible_plan_dummy_cursor_witness :
    ∃ p, QueryPlan.make (some exNsdAB) 0 exFrspNoMatch none (exQuery []) [exEl "b" 1] none [] []
        "" = Except.ok p ∧
      p.utility = Utility.Impossible ∧ p.scanAndOrderRequired = false ∧
      ∀ db : Database, p.newCursor db = Except.ok Cursor.dummyCursor :=
  impossible_plan_dummy_cursor (some exNsdAB) 0 exFrspNoMatch none (exQuery []) [exEl "b" 1]
    none [] [] "" [exEl "a" 1, exEl "b" 1] rfl rfl

/-- C4: a plan built with no index (`idxNo < 0`) whose sort order is empty or starts with
`$natural`, as `{$natural: 1}` does, has scanAndOrderRequired false after
`QueryPlan::init`, whatever the field ranges and the other arguments are. -/
theorem table_scan_natural_order_no_scanAndOrder (d : Option NamespaceDetails) (idxNo : Int)
    (frsp : FieldRangeSetPair) (originalFrsp : Option FieldRangeSetPair) (query : Query)
    (order : BSONObj) (parsedQuery : Option ParsedQuery) (startKey endKey : BSONObj)
    (special : String)
    (hidx : idxNo < 0)
    (horder : order = [] ∨ firstElementFieldName order = "$natural") :
    ∃ p, QueryPlan.make d idxNo frsp originalFrsp query order parsedQuery startKey endKey
        special = Except.ok p ∧ p.scanAndOrderRequired = false := by
  unfold QueryPlan.make QueryPlan.init
  simp only [QueryPlan.new, hidx, if_true]
  by_cases hm : (frsp.frsForIndex d idxNo).matchPossibleForIndex [] = true
  · have ho : (order.isEmpty || decide (firstElementFieldName order = "$natural")) = true := by
      rcases horder with h | h <;> simp [h]
    simp [hm, QueryPlan.willScanTable, hidx, ho]
  · simp [hm]

/-- Witness of C4: the table scan plan for the orders `{$natural: 1}` and `{}`. -/
theorem table_scan_natural_order_no_scanAndOrder_witness :
    (∃ p, QueryPlan.make (some exNsdAB) (-1) exFrspAB none (exQuery []) [exEl "$natural" 1] none
        [] [] "" = Except.ok p ∧ p.scanAndOrderRequired = false) ∧
    (∃ p, QueryPlan.make (some exNsdAB) (-1) exFrspAB none (exQuery []) [] none
        [] [] "" = Except.ok p ∧ p.scanAndOrderRequired = false) :=
  ⟨table_scan_natural_order_no_scanAndOrder (some exNsdAB) (-1) exFrspAB none (exQuery [])
      [exEl "$natural" 1] none [] [] "" (by decide) (Or.inr rfl),
   table_scan_natural_order_no_scanAndOrder (some exNsdAB) (-1) exFrspAB none (exQuery [])
      [] none [] [] "" (by decide) (Or.inl rfl)⟩

/-! ## Sparse indexes, and what the generator adds to a plan set -/



theorem accept_found_mono (det : ExistsFalseDetector) (v : MatcherVisit)
    (h : det.foundExistsFalse = true) : (det.accept v).foundExistsFalse = true := by
  cases v with
  | visitMatcher addr => simpa [ExistsFalseDetector.accept, ExistsFalseDetector.visitMatcher] using h
  | visitElementMatcher em =>
    simp only [ExistsFalseDetector.accept, ExistsFalseDetector.visitElementMatcher]
    split
    · exact h
    · split
      · rfl
      · split
        · rfl
        · exact h

theorem foldl_accept_found_mono (vs : List MatcherVisit) :
    ∀ det : ExistsFalseDetector, det.foundExistsFalse = true →
      (vs.foldl ExistsFalseDetector.accept det).foundExistsFalse = true := by
  induction vs with
  | nil => intro det h; exact h
  | cons v vs ih => intro det h; exact ih _ (accept_found_mono det v h)

theorem accept_existsFalse (det : ExistsFalseDetector) (em : ElementMatcher)
    (hop : em.compareOp = CompareOp.opEXISTS) (hfalse : isExistsFalsePredicate em = true) :
    (det.accept (MatcherVisit.visitElementMatcher em)).foundExistsFalse = true := by
  simp only [ExistsFalseDetector.accept, ExistsFalseDetector.visitElementMatcher, hop, hfalse]
  simp

/-- A visited `$exists:false` (or `$not:{$exists:true}`) element matcher is detected. -/
theorem foldl_accept_existsFalse (em : ElementMatcher)
    (hop : em.compareOp = CompareOp.opEXISTS) (hfalse : isExistsFalsePredicate em = true) :
    ∀ (vs : List MatcherVisit) (det : ExistsFalseDetector),
      MatcherVisit.visitElementMatcher em ∈ vs →
      (vs.foldl ExistsFalseDetector.accept det).foundExistsFalse = true := by
  intro vs
  induction vs with
  | nil => intro det h; cases h
  | cons v vs ih =>
    intro det h
    rcases List.mem_cons.1 h with h | h
    · subst h
      exact foldl_accept_found_mono vs _ (accept_existsFalse det em hop hfalse)
    · exact ih _ h

theorem initIndexed_sparse_existsFalse (p : QueryPlan) (index : IndexDetails) (idxKey : BSONObj)
    (originalFrsp : Option FieldRangeSetPair) (startKey endKey : BSONObj)
    (em : ElementMatcher)
    (hsparse : index.sparse = true)
    (hvisit : MatcherVisit.visitElementMatcher em ∈ p.originalQuery.docMatcher.visits)
    (hop : em.compareOp = CompareOp.opEXISTS) (hfalse : isExistsFalsePredicate em = true) :
    (p.initIndexed index idxKey originalFrsp startKey endKey).utility = Utility.Disallowed := by
  have hq : (p.initRanges idxKey originalFrsp startKey endKey).originalQuery = p.originalQuery := by
    simp [QueryPlan.initRanges]
  have hdet : (p.initRanges idxKey originalFrsp startKey
      endKey).hasPossibleExistsFalsePredicate = true := by
    unfold QueryPlan.hasPossibleExistsFalsePredicate Matcher.visit
    rw [hq]
    exact foldl_accept_existsFalse em hop hfalse _ _ hvisit
  unfold QueryPlan.initIndexed
  simp [hsparse, hdet]



theorem pushPlan_ok {s s' : QueryPlanSet} {q : QueryPlan} (h : s.pushPlan q = Except.ok s') :
    s' = { s with plans := s.plans ++ [q] } ∧ (s.allowSpecial = true ∨ q.special = "") := by
  unfold QueryPlanSet.pushPlan at h
  split at h
  · rename_i hc
    cases h
    exact ⟨rfl, by simpa using hc⟩
  · cases h

/-- A candidate is skipped when its index key is that of the first plan, and appended
otherwise. -/
theorem addCandidatePlan_ok {s s' : QueryPlanSet} {q : QueryPlan}
    (h : s.addCandidatePlan q = Except.ok s') :
    (s' = s ∧ ∃ first rest, s.plans = first :: rest ∧ q.indexKey = first.indexKey) ∨
    (s' = { s with plans := s.plans ++ [q], mayRecordPlan := true } ∧
      ∀ first rest, s.plans = first :: rest → q.indexKey ≠ first.indexKey) := by
  unfold QueryPlanSet.addCandidatePlan at h
  split at h
  · rename_i first rest hp
    split at h
    · rename_i hk
      cases h
      exact Or.inl ⟨rfl, first, rest, hp, hk⟩
    · rename_i hk
      cases hpush : s.pushPlan q with
      | error e => simp [hpush, Except.map] at h
      | ok s₁ =>
        simp only [hpush, Except.map] at h
        cases h
        refine Or.inr ⟨by rw [(pushPlan_ok hpush).1], ?_⟩
        intro f r hfr
        rw [hp] at hfr
        cases hfr
        exact hk
  · rename_i hp
    cases hpush : s.pushPlan q with
    | error e => simp [hpush, Except.map] at h
    | ok s₁ =>
      simp only [hpush, Except.map] at h
      cases h
      refine Or.inr ⟨by rw [(pushPlan_ok hpush).1], ?_⟩
      intro f r hfr
      rw [hp] at hfr
      cases hfr

theorem addCandidatePlans_ok :
    ∀ (cands : List QueryPlan) (s s' : QueryPlanSet),
      addCandidatePlans s cands = Except.ok s' →
      ∃ added, (∀ q ∈ added, q ∈ cands) ∧
        s' = { s with plans := s.plans ++ added, mayRecordPlan := s'.mayRecordPlan } ∧
        (∀ first rest, s.plans = first :: rest → ∀ q ∈ added, q.indexKey ≠ first.indexKey)
  | [], s, s', h => by
    simp only [addCandidatePlans] at h
    cases h
    exact ⟨[], by simp, by simp, by simp⟩
  | c :: cands, s, s', h => by
    simp only [addCandidatePlans] at h
    cases hc : s.addCandidatePlan c with
    | error e => simp [hc] at h
    | ok s₁ =>
      simp only [hc] at h
      obtain ⟨added, hsub, heq, hkey⟩ := addCandidatePlans_ok cands s₁ s' h
      rcases addCandidatePlan_ok hc with ⟨h₁, _⟩ | ⟨h₁, hk₁⟩
      · subst h₁
        exact ⟨added, fun q hq => List.mem_cons_of_mem _ (hsub q hq), heq, hkey⟩
      · refine ⟨c :: added, ?_, ?_, ?_⟩
        · intro q hq
          rcases List.mem_cons.1 hq with hq | hq
          · exact hq ▸ List.mem_cons_self _ _
          · exact List.mem_cons_of_mem _ (hsub q hq)
        · rw [heq, h₁]
          simp
        · intro first rest hp q hq
          rcases List.mem_cons.1 hq with hq | hq
          · subst hq; exact hk₁ first rest hp
          · exact hkey first (rest ++ [c]) (by rw [h₁]; simp [hp]) q hq

theorem setSinglePlan_ok {s s' : QueryPlanSet} {q : QueryPlan}
    (h : s.setSinglePlan q = Except.ok s') :
    (s' = s ∧ s.plans ≠ []) ∨ (s' = { s with plans := [q] } ∧ s.plans = []) := by
  unfold QueryPlanSet.setSinglePlan at h
  split at h
  · rename_i hn
    have hnil : s.plans = [] := List.length_eq_zero.1 hn
    refine Or.inr ⟨?_, hnil⟩
    rw [(pushPlan_ok h).1, hnil]
    rfl
  · rename_i hn
    cases h
    exact Or.inl ⟨rfl, fun hnil => hn (by simp [QueryPlanSet.nPlans, hnil])⟩

/-- Where the locals of the index loop of `addFallbackPlans` come from and what their
utilities are. -/
theorem fallbackLoop_inv (s : QueryPlanSet) (d : NamespaceDetails) :
    ∀ (indexNos : List Nat) (locals : FallbackLocals) (r : FallbackLoopEnd),
      fallbackLoop s d indexNos locals = Except.ok r →
      fallbackLoopPost s d indexNos locals r
  | [], locals, r, h => by
    simp only [fallbackLoop] at h
    cases h
    exact ⟨fun q hq => Or.inl hq, fun q hq => Or.inl hq, fun q hq => Or.inl hq⟩
  | i :: rest, locals, r, h => by
    have hmono : ∀ x, x ∈ usefulPlansOf s d rest → x ∈ usefulPlansOf s d (i :: rest) := by
      intro x hx
      obtain ⟨j, hj, hu, hp⟩ := usefulPlansOf_mem hx
      exact List.mem_map.2 ⟨j, List.mem_filter.2 ⟨List.mem_cons_of_mem _ hj, hu⟩, hp⟩
    -- what the recursive call gives, re-rooted at `i :: rest`
    have lift : ∀ locals₁ : FallbackLocals, fallbackLoop s d rest locals₁ = Except.ok r →
        fallbackLoopPost s d (i :: rest) locals₁ r := by
      intro locals₁ h₁
      have ih := fallbackLoop_inv s d rest locals₁ r h₁
      cases r with
      | impossiblePlan q => exact ⟨hmono _ ih.1, ih.2⟩
      | finished locals' =>
        refine ⟨fun q hq => ?_, fun q hq => ?_, fun q hq => ?_⟩
        · exact (ih.1 q hq).imp id (fun h => ⟨hmono _ h.1, h.2⟩)
        · exact (ih.2.1 q hq).imp id (fun h => ⟨hmono _ h.1, h.2⟩)
        · exact (ih.2.2 q hq).imp id (fun h => ⟨hmono _ h.1, h.2⟩)
    unfold fallbackLoop at h
    by_cases hu : indexUseful s.frsp d i s.order = true
    · simp only [hu, Bool.not_true, Bool.false_eq_true, if_false] at h
      cases hp : s.newPlan (some d) (i : Int) [] [] "" with
      | error e => simp [hp] at h
      | ok p =>
        have hmem : Except.ok p ∈ usefulPlansOf s d (i :: rest) :=
          List.mem_map.2 ⟨i, List.mem_filter.2 ⟨List.mem_cons_self _ _, hu⟩, hp⟩
        simp only [hp] at h
        cases hut : p.utility with
        | Impossible =>
          simp only [hut] at h
          cases h
          exact ⟨hmem, hut⟩
        | Optimal =>
          simp only [hut] at h
          have := lift _ h
          cases r with
          | impossiblePlan q => exact this
          | finished locals' =>
            refine ⟨fun q hq => ?_, fun q hq => ?_, fun q hq => ?_⟩
            · rcases this.1 q hq with h' | h'
              · left; split at h' <;> exact h'
              · exact Or.inr h'
            · rcases this.2.1 q hq with h' | h'
              · split at h'
                · simp only [Option.some.injEq] at h'
                  subst h'
                  exact Or.inr ⟨hmem, hut⟩
                · exact Or.inl h'
              · exact Or.inr h'
            · rcases this.2.2 q hq with h' | h'
              · left; split at h' <;> exact h'
              · exact Or.inr h'
        | Helpful =>
          simp only [hut] at h
          by_cases hsp : p.special = ""
          · simp only [hsp, if_true] at h
            have := lift _ h
            cases r with
            | impossiblePlan q => exact this
            | finished locals' =>
              refine ⟨fun q hq => ?_, this.2.1, this.2.2⟩
              rcases this.1 q hq with h' | h'
              · rcases List.mem_append.1 h' with h'' | h''
                · exact Or.inl h''
                · simp only [List.mem_singleton] at h''
                  subst h''
                  exact Or.inr ⟨hmem, hut, hsp⟩
              · exact Or.inr h'
          · simp only [hsp, if_false] at h
            by_cases hal : s.allowSpecial = true
            · simp only [hal, if_true] at h
              have := lift _ h
              cases r with
              | impossiblePlan q => exact this
              | finished locals' =>
                refine ⟨this.1, this.2.1, fun q hq => ?_⟩
                rcases this.2.2 q hq with h' | h'
                · simp only [Option.some.injEq] at h'
                  subst h'
                  exact Or.inr ⟨hmem, hut, hal⟩
                · exact Or.inr h'
            · simp only [hal, Bool.false_eq_true, if_false] at h
              exact lift _ h
        | Unhelpful =>
          simp only [hut] at h
          exact lift _ h
        | Disallowed =>
          simp only [hut] at h
          exact lift _ h
    · have hu' : indexUseful s.frsp d i s.order = false := by simpa using hu
      simp only [hu', Bool.not_false, if_true] at h
      exact lift _ h


/-- Everything `QueryPlanGenerator::addFallbackPlans` adds to the plan set is a plan of
the enumeration of useful indexes or the table scan plan, is Impossible, Optimal or
Helpful, and has an index key other than that of the first plan already in the set;
apart from `_plans` and `_mayRecordPlan` the plan set is unchanged. -/
theorem generator_addFallbackPlans_added {db : Database} {s s' : QueryPlanSet}
    {cache cache' : QueryCache}
    (h : QueryPlanGenerator.addFallbackPlans db s cache = Except.ok (s', cache')) :
    ∃ d added, db.nsdetails s.frsp.ns = some d ∧
      s' = { s with plans := s.plans ++ added, mayRecordPlan := s'.mayRecordPlan } ∧
      (∀ q ∈ added,
        (Except.ok q ∈ usefulPlans s d ∨ s.newPlan (some d) (-1) [] [] "" = Except.ok q) ∧
        (q.utility = Utility.Impossible ∨ q.utility = Utility.Optimal ∨
          q.utility = Utility.Helpful)) ∧
      (∀ first rest, s.plans = first :: rest → ∀ q ∈ added, q.indexKey ≠ first.indexKey) := by
  unfold QueryPlanGenerator.addFallbackPlans at h
  cases hd : db.nsdetails s.frsp.ns with
  | none => simp [hd] at h
  | some d =>
    simp only [hd] at h
    -- a plan set by `setSinglePlan`
    have single : ∀ (q : QueryPlan) (s₁ : QueryPlanSet), s.setSinglePlan q = Except.ok s₁ →
        Except.ok q ∈ usefulPlans s d →
        (q.utility = Utility.Impossible ∨ q.utility = Utility.Optimal ∨
          q.utility = Utility.Helpful) →
        ∃ added,
          s₁ = { s with plans := s.plans ++ added, mayRecordPlan := s₁.mayRecordPlan } ∧
          (∀ q ∈ added,
            (Except.ok q ∈ usefulPlans s d ∨ s.newPlan (some d) (-1) [] [] "" = Except.ok q) ∧
            (q.utility = Utility.Impossible ∨ q.utility = Utility.Optimal ∨
              q.utility = Utility.Helpful)) ∧
          (∀ first rest, s.plans = first :: rest → ∀ q ∈ added,
            q.indexKey ≠ first.indexKey) := by
      intro q s₁ hs hmem hut
      rcases setSinglePlan_ok hs with ⟨h₁, _⟩ | ⟨h₁, hnil⟩
      · exact ⟨[], by simp [h₁], by simp, by simp⟩
      · refine ⟨[q], by simp [h₁, hnil], ?_, ?_⟩
        · intro x hx
          simp only [List.mem_singleton] at hx
          subst hx
          exact ⟨Or.inl hmem, hut⟩
        · intro first rest hp
          rw [hnil] at hp
          cases hp
    cases hloop : fallbackLoop s d (List.range d.nIndexes)
        { plans := [], optimalPlan := none, specialPlan := none } with
    | error e => simp [hloop] at h
    | ok r =>
      have hinv := fallbackLoop_inv s d _ _ r hloop
      simp only [hloop] at h
      cases r with
      | impossiblePlan p =>
        simp only [] at h
        cases hs : s.setSinglePlan p with
        | error e => simp [hs, Except.map] at h
        | ok s₁ =>
          simp only [hs, Except.map, Except.ok.injEq, Prod.mk.injEq] at h
          obtain ⟨rfl, rfl⟩ := h
          obtain ⟨added, h₁, h₂, h₃⟩ := single p s₁ hs hinv.1 (Or.inl hinv.2)
          exact ⟨d, added, rfl, h₁, h₂, h₃⟩
      | finished locals =>
        simp only [] at h
        simp only [fallbackLoopPost] at hinv
        cases hopt : locals.optimalPlan with
        | some optimalPlan =>
          simp only [hopt] at h
          cases hs : s.setSinglePlan optimalPlan with
          | error e => simp [hs, Except.map] at h
          | ok s₁ =>
            simp only [hs, Except.map, Except.ok.injEq, Prod.mk.injEq] at h
            obtain ⟨rfl, _⟩ := h
            have := (hinv.2.1 _ hopt).resolve_left (by simp)
            obtain ⟨added, h₁, h₂, h₃⟩ := single optimalPlan s₁ hs this.1 (Or.inr (Or.inl this.2))
            exact ⟨d, added, rfl, h₁, h₂, h₃⟩
        | none =>
          simp only [hopt] at h
          cases hsp : (if locals.plans.isEmpty then locals.specialPlan else none) with
          | some specialPlan =>
            simp only [hsp] at h
            have hsp' : locals.specialPlan = some specialPlan := by
              split at hsp
              · exact hsp
              · cases hsp
            cases hs : s.setSinglePlan specialPlan with
            | error e => simp [hs, Except.map] at h
            | ok s₁ =>
              simp only [hs, Except.map, Except.ok.injEq, Prod.mk.injEq] at h
              obtain ⟨rfl, _⟩ := h
              have := (hinv.2.2 _ hsp').resolve_left (by simp)
              obtain ⟨added, h₁, h₂, h₃⟩ :=
                single specialPlan s₁ hs this.1 (Or.inr (Or.inr this.2.1))
              exact ⟨d, added, rfl, h₁, h₂, h₃⟩
          | none =>
            simp only [hsp] at h
            cases hc : addCandidatePlans s locals.plans with
            | error e => simp [hc] at h
            | ok s₁ =>
              simp only [hc] at h
              cases ht : s.newPlan (some d) (-1) [] [] "" with
              | error e => simp [ht] at h
              | ok tableScan =>
                simp only [ht] at h
                cases ha : s₁.addCandidatePlan tableScan with
                | error e => simp [ha, Except.map] at h
                | ok s₂ =>
                  simp only [ha, Except.map, Except.ok.injEq, Prod.mk.injEq] at h
                  obtain ⟨rfl, _⟩ := h
                  obtain ⟨added, hsub, heq, hkey⟩ := addCandidatePlans_ok _ _ _ hc
                  have hadded : ∀ q ∈ added,
                      (Except.ok q ∈ usefulPlans s d ∨
                        s.newPlan (some d) (-1) [] [] "" = Except.ok q) ∧
                      (q.utility = Utility.Impossible ∨ q.utility = Utility.Optimal ∨
                        q.utility = Utility.Helpful) := by
                    intro q hq
                    have := (hinv.1 q (hsub q hq)).resolve_left (by simp)
                    exact ⟨Or.inl this.1, Or.inr (Or.inr this.2.1)⟩
                  rcases addCandidatePlan_ok ha with ⟨h₁, _⟩ | ⟨h₁, hk₁⟩
                  · subst h₁
                    exact ⟨d, added, rfl, heq, hadded, hkey⟩
                  · refine ⟨d, added ++ [tableScan], rfl, ?_, ?_, ?_⟩
                    · rw [h₁, heq]; simp
                    · intro q hq
                      rcases List.mem_append.1 hq with hq | hq
                      · exact hadded q hq
                      · simp only [List.mem_singleton] at hq
                        subst hq
                        have := (make_table_scan_indexKey ht (by decide)).2.2
                        exact ⟨Or.inr ht, this.elim (fun h => Or.inr (Or.inr h)) Or.inl⟩
                    · intro first rest hp q hq
                      rcases List.mem_append.1 hq with hq | hq
                      · exact hkey first rest hp q hq
                      · simp only [List.mem_singleton] at hq
                        subst hq
                        exact hk₁ first (rest ++ added) (by rw [heq]; simp [hp])


theorem cachedPlanLoop_ok (s : QueryPlanSet) (d : NamespaceDetails) (bestIndex : BSONObj) :
    ∀ (l : List (Nat × IndexDetails)) (p₀ : Option QueryPlan) (p : QueryPlan),
      cachedPlanLoop s d bestIndex l p₀ = Except.ok (some p) →
      p₀ = some p ∨ ∃ j : Nat, s.newPlan (some d) (j : Int) [] [] "" = Except.ok p
  | [], p₀, p, h => by
    simp only [cachedPlanLoop] at h
    cases h
    exact Or.inl rfl
  | (j, ii) :: rest, p₀, p, h => by
    simp only [cachedPlanLoop] at h
    split at h
    · cases hq : s.newPlan (some d) (j : Int) [] [] "" with
      | error e => simp [hq] at h
      | ok q =>
        simp only [hq] at h
        rcases cachedPlanLoop_ok s d bestIndex rest (some q) p h with h' | h'
        · cases h'
          exact Or.inr ⟨j, hq⟩
        · exact Or.inr h'
    · exact cachedPlanLoop_ok s d bestIndex rest p₀ p h

/-- When `addCachedPlan` returns false the plan set is unchanged; when it returns true
the plan set was empty and now holds the one replayed plan, which is neither Unhelpful
nor Disallowed. -/
theorem addCachedPlan_ok {db : Database} {s s' : QueryPlanSet} {d : NamespaceDetails}
    {cache : QueryCache} {b : Bool}
    (h : QueryPlanGenerator.addCachedPlan db s d cache = Except.ok (b, s')) :
    (b = false ∧ s' = s) ∨
    (b = true ∧ s.plans = [] ∧ ∃ p,
      s' = { s with
             usingCachedPlan := true
             oldNScanned := (bestIndexForPatterns db s.frsp s.order cache).nScanned
             cachedPlanCharacter := (bestIndexForPatterns db s.frsp s.order cache).planCharacter
             plans := [p] } ∧
      p.utility ≠ Utility.Unhelpful ∧ p.utility ≠ Utility.Disallowed ∧
      (s.recordedPlanPolicy = RecordedPlanPolicy.UseIfInOrder → p.scanAndOrderRequired = false) ∧
      (s.allowSpecial = false → p.special = "")) := by
  unfold QueryPlanGenerator.addCachedPlan at h
  split at h
  · cases h; exact Or.inl ⟨rfl, rfl⟩
  · simp only [] at h
    split at h
    · cases h; exact Or.inl ⟨rfl, rfl⟩
    · split at h
      · cases h
      · split at h
        · cases h
        · cases h
        · rename_i p hloop
          split at h
          · cases h; exact Or.inl ⟨rfl, rfl⟩
          · rename_i hu
            split at h
            · cases h; exact Or.inl ⟨rfl, rfl⟩
            · rename_i ho
              split at h
              · cases h; exact Or.inl ⟨rfl, rfl⟩
              · rename_i hsp
                cases hset : s.setCachedPlan p (bestIndexForPatterns db s.frsp s.order cache) with
                | error e => simp [hset, Except.map] at h
                | ok s₁ =>
                  simp only [hset, Except.map, Except.ok.injEq, Prod.mk.injEq] at h
                  obtain ⟨rfl, rfl⟩ := h
                  unfold QueryPlanSet.setCachedPlan at hset
                  split at hset
                  · rename_i hn
                    have hnil : s.plans = [] := List.length_eq_zero.1 hn
                    have hpush := (pushPlan_ok hset).1
                    refine Or.inr ⟨rfl, hnil, p, ?_, ?_, ?_, ?_, ?_⟩
                    · rw [hpush]; simp [hnil]
                    · exact fun h' => hu (Or.inl h')
                    · exact fun h' => hu (Or.inr h')
                    · intro hpol
                      by_contra hne
                      exact ho ⟨hpol, by simpa using hne⟩
                    · intro hal
                      by_contra hne
                      exact hsp ⟨hal, hne⟩
                  · cases hset

/-- C5: on a sparse index that is not special for the query, for a predicate (match
possible) whose matcher holds an `$exists:false` element matcher, `QueryPlan::init`
yields utility Disallowed, whatever the ranges and the sort order are (so also when the
index is otherwise prefix-optimal); and neither `addCachedPlan` nor `addFallbackPlans`
ever adds a Disallowed plan to the plan set. -/
theorem sparse_existsFalse_disallowed (d : NamespaceDetails) (idxNo : Nat) (index : IndexDetails)
    (frsp : FieldRangeSetPair) (originalFrsp : Option FieldRangeSetPair) (query : Query)
    (order : BSONObj) (parsedQuery : Option ParsedQuery) (startKey endKey : BSONObj)
    (em : ElementMatcher)
    (hidx : d.indexes[idxNo]? = some index)
    (hsparse : index.sparse = true) (hspecial : index.special = false)
    (hmatch : (frsp.frsForIndex (some d) idxNo).matchPossibleForIndex index.keyPattern = true)
    (hvisit : MatcherVisit.visitElementMatcher em ∈ query.docMatcher.visits)
    (hop : em.compareOp = CompareOp.opEXISTS)
    (hfalse : em.isNot = false ∧ em.trueValue = false) :
    (∃ p, QueryPlan.make (some d) idxNo frsp originalFrsp query order parsedQuery
        startKey endKey "" = Except.ok p ∧ p.utility = Utility.Disallowed) ∧
    (∀ (db : Database) (s s' : QueryPlanSet) (nsd : NamespaceDetails) (cache : QueryCache)
        (b : Bool),
      QueryPlanGenerator.addCachedPlan db s nsd cache = Except.ok (b, s') →
      ∀ q ∈ s'.plans, q.utility = Utility.Disallowed → q ∈ s.plans) ∧
    (∀ (db : Database) (s s' : QueryPlanSet) (cache cache' : QueryCache),
      QueryPlanGenerator.addFallbackPlans db s cache = Except.ok (s', cache') →
      ∀ q ∈ s'.plans, q.utility = Utility.Disallowed → q ∈ s.plans) := by
  refine ⟨⟨_, make_eq_initIndexed d idxNo index frsp originalFrsp query order parsedQuery
    startKey endKey hidx (Or.inl hspecial) hmatch, ?_⟩, ?_, ?_⟩
  · exact initIndexed_sparse_existsFalse _ index _ _ _ _ em hsparse
      (by simpa [QueryPlan.withIndex, QueryPlan.started, QueryPlan.new] using hvisit) hop
      (by simp [isExistsFalsePredicate, hfalse.1, hfalse.2])
  · intro db s s' nsd cache b h q hq hdis
    rcases addCachedPlan_ok h with ⟨_, rfl⟩ | ⟨_, _, p, rfl, _, hne, _⟩
    · exact hq
    · simp only [List.mem_singleton] at hq
      subst hq
      exact absurd hdis hne
  · intro db s s' cache cache' h q hq hdis
    obtain ⟨d', added, _, heq, hadded, _⟩ := generator_addFallbackPlans_added h
    rw [heq] at hq
    rcases List.mem_append.1 hq with hq | hq
    · exact hq
    · rcases (hadded q hq).2 with hu | hu | hu <;> rw [hu] at hdis <;> cases hdis

/-- Witness of C5: the predicate `{x: {$exists: false}}` on the index `{x:1}`, Optimal when
the index is not sparse and Disallowed when it is. -/
theorem sparse_existsFalse_disallowed_witness :
    ((QueryPlan.make (some { indexes := [exIndex "x_1" [exEl "x" 1]] }) 0 exFrspX none
        (exQuery [exExistsFalse]) [] none [] [] "").toOption.map (fun p => p.utility) =
      some Utility.Optimal) ∧
    (∃ p, QueryPlan.make (some exNsdSparseX) 0 exFrspX none (exQuery [exExistsFalse]) [] none
        [] [] "" = Except.ok p ∧ p.utility = Utility.Disallowed) :=
  ⟨by decide,
   (sparse_existsFalse_disallowed exNsdSparseX 0 exSparseX exFrspX none
      (exQuery [exExistsFalse]) [] none [] [] exExistsFalse rfl rfl rfl rfl (by decide) rfl
      ⟨rfl, rfl⟩).1⟩


/-! ## The plan cache -/

theorem register_idem (cache : QueryCache) (pattern : QueryPattern) (c : CachedQueryPlan) :
    registerCachedQueryPlanForPattern (registerCachedQueryPlanForPattern cache pattern c)
      pattern c = registerCachedQueryPlanForPattern cache pattern c := by
  funext q
  simp only [registerCachedQueryPlanForPattern]
  split <;> rfl

theorem register_same (cache : QueryCache) (pattern : QueryPattern) (c : CachedQueryPlan)
    (h : cache pattern = c) : registerCachedQueryPlanForPattern cache pattern c = cache := by
  funext q
  simp only [registerCachedQueryPlanForPattern]
  split
  · rename_i hq; rw [hq, h]
  · rfl

/-- C6: with the plan cache a map from query pattern to cached entry, (1) calling
`QueryPlan::registerSelf` twice with the same plan, scan count and plan character leaves
the cache as calling it once does; (2) when neither pattern of (field range sets, order)
has an entry, `bestIndexForPatterns` returns the empty entry, with an empty index key,
before and after `clearIndexesForPatterns`, and the call leaves the cache, hence what
`bestIndexForPatterns` returns for every pattern, unchanged. -/
theorem plan_cache_idempotent (db : Database) (frsp : FieldRangeSetPair) (order : BSONObj)
    (cache : QueryCache)
    (hsingle : cachedQueryPlanForPattern cache (frsp.singleKey.pattern order) =
      CachedQueryPlan.empty)
    (hmulti : cachedQueryPlanForPattern cache (frsp.multiKey.pattern order) =
      CachedQueryPlan.empty) :
    (∀ (p : QueryPlan) (nScanned : Int) (candidatePlans : CandidatePlanCharacter)
        (c : QueryCache),
      p.registerSelf db nScanned candidatePlans (p.registerSelf db nScanned candidatePlans c) =
        p.registerSelf db nScanned candidatePlans c) ∧
    bestIndexForPatterns db frsp order cache = CachedQueryPlan.empty ∧
    bestIndexForPatterns db frsp order (clearIndexesForPatterns db frsp order cache) =
      CachedQueryPlan.empty ∧
    CachedQueryPlan.empty.indexKey = [] ∧
    clearIndexesForPatterns db frsp order cache = cache ∧
    (∀ (frsp' : FieldRangeSetPair) (order' : BSONObj),
      bestIndexForPatterns db frsp' order' (clearIndexesForPatterns db frsp order cache) =
        bestIndexForPatterns db frsp' order' cache) := by
  have hclear : clearIndexesForPatterns db frsp order cache = cache := by
    unfold clearIndexesForPatterns
    split
    · simp only []
      rw [register_same cache _ _ hsingle]
      exact register_same cache _ _ hmulti
    · rfl
  have hbest : bestIndexForPatterns db frsp order cache = CachedQueryPlan.empty := by
    unfold bestIndexForPatterns
    split
    · simp [hsingle, hmulti, CachedQueryPlan.empty]
    · rfl
  refine ⟨?_, hbest, by rw [hclear]; exact hbest, rfl, hclear, fun _ _ => by rw [hclear]⟩
  intro p nScanned candidatePlans c
  unfold QueryPlan.registerSelf
  split
  · rfl
  · split
    · exact register_idem _ _ _
    · rfl

/-- Witness of C6: a cache holding an entry for another pattern, cleared for the pattern
of `{x: {$exists: false}}`. -/
theorem plan_cache_idempotent_witness :
    (∀ (p : QueryPlan) (nScanned : Int) (candidatePlans : CandidatePlanCharacter)
        (c : QueryCache),
      p.registerSelf (exDb exNsdAB) nScanned candidatePlans
          (p.registerSelf (exDb exNsdAB) nScanned candidatePlans c) =
        p.registerSelf (exDb exNsdAB) nScanned candidatePlans c) ∧
    bestIndexForPatterns (exDb exNsdAB) exFrspX [] exCacheAB = CachedQueryPlan.empty ∧
    bestIndexForPatterns (exDb exNsdAB) exFrspX []
        (clearIndexesForPatterns (exDb exNsdAB) exFrspX [] exCacheAB) = CachedQueryPlan.empty ∧
    CachedQueryPlan.empty.indexKey = [] ∧
    clearIndexesForPatterns (exDb exNsdAB) exFrspX [] exCacheAB = exCacheAB ∧
    (∀ (frsp' : FieldRangeSetPair) (order' : BSONObj),
      bestIndexForPatterns (exDb exNsdAB) frsp' order'
          (clearIndexesForPatterns (exDb exNsdAB) exFrspX [] exCacheAB) =
        bestIndexForPatterns (exDb exNsdAB) frsp' order' exCacheAB) :=
  plan_cache_idempotent (exDb exNsdAB) exFrspX [] exCacheAB (by decide) (by decide)


/-! ## `addFallbackPlans` returns -/

theorem fallbackLoop_total (s : QueryPlanSet) (d : NamespaceDetails) :
    ∀ (indexNos : List Nat) (locals : FallbackLocals),
      (usefulPlansOf s d indexNos).all yieldsPlan = true →
      ∃ r, fallbackLoop s d indexNos locals = Except.ok r
  | [], locals, _ => ⟨_, rfl⟩
  | i :: rest, locals, hall => by
    unfold fallbackLoop
    by_cases hu : indexUseful s.frsp d i s.order = true
    · have hall' : yieldsPlan (s.newPlan (some d) (i : Int) [] [] "") = true ∧
          (usefulPlansOf s d rest).all yieldsPlan = true := by
        simpa [usefulPlansOf, hu] using hall
      cases hp : s.newPlan (some d) (i : Int) [] [] "" with
      | error e => simp [hp, yieldsPlan] at hall'
      | ok p =>
        simp only [hu, Bool.not_true, Bool.false_eq_true, if_false]
        cases hut : p.utility with
        | Impossible => exact ⟨_, rfl⟩
        | Optimal => exact fallbackLoop_total s d rest _ hall'.2
        | Helpful =>
          simp only []
          split
          · exact fallbackLoop_total s d rest _ hall'.2
          · split
            · exact fallbackLoop_total s d rest _ hall'.2
            · exact fallbackLoop_total s d rest _ hall'.2
        | Unhelpful => exact fallbackLoop_total s d rest _ hall'.2
        | Disallowed => exact fallbackLoop_total s d rest _ hall'.2
    · have hu' : indexUseful s.frsp d i s.order = false := by simpa using hu
      have hall' : (usefulPlansOf s d rest).all yieldsPlan = true := by
        simpa [usefulPlansOf, hu'] using hall
      simp only [hu', Bool.not_false, if_true]
      exact fallbackLoop_total s d rest _ hall'

theorem pushPlan_total (s : QueryPlanSet) (q : QueryPlan)
    (h : s.allowSpecial = true ∨ q.special = "") : ∃ s', s.pushPlan q = Except.ok s' := by
  unfold QueryPlanSet.pushPlan
  rcases h with h | h <;> simp [h]

theorem setSinglePlan_total (s : QueryPlanSet) (q : QueryPlan)
    (h : s.allowSpecial = true ∨ q.special = "") : ∃ s', s.setSinglePlan q = Except.ok s' := by
  unfold QueryPlanSet.setSinglePlan
  split
  · exact pushPlan_total s q h
  · exact ⟨_, rfl⟩

theorem addCandidatePlan_total (s : QueryPlanSet) (q : QueryPlan)
    (h : s.allowSpecial = true ∨ q.special = "") :
    ∃ s', s.addCandidatePlan q = Except.ok s' ∧ s'.allowSpecial = s.allowSpecial := by
  obtain ⟨s₁, hs₁⟩ := pushPlan_total s q h
  have ha : s₁.allowSpecial = s.allowSpecial := by rw [(pushPlan_ok hs₁).1]
  unfold QueryPlanSet.addCandidatePlan
  split
  · split
    · exact ⟨_, rfl, rfl⟩
    · exact ⟨{ s₁ with mayRecordPlan := true }, by simp [hs₁, Except.map], ha⟩
  · exact ⟨{ s₁ with mayRecordPlan := true }, by simp [hs₁, Except.map], ha⟩

theorem addCandidatePlans_total :
    ∀ (cands : List QueryPlan) (s : QueryPlanSet), (∀ q ∈ cands, q.special = "") →
      ∃ s', addCandidatePlans s cands = Except.ok s' ∧ s'.allowSpecial = s.allowSpecial
  | [], s, _ => ⟨s, rfl, rfl⟩
  | c :: cands, s, h => by
    obtain ⟨s₁, hs₁, ha₁⟩ := addCandidatePlan_total s c (Or.inr (h c (List.mem_cons_self _ _)))
    obtain ⟨s₂, hs₂, ha₂⟩ := addCandidatePlans_total cands s₁
      (fun q hq => h q (List.mem_cons_of_mem _ hq))
    exact ⟨s₂, by simp [addCandidatePlans, hs₁, hs₂], by rw [ha₂, ha₁]⟩

/-- A table scan plan can always be made. -/
theorem newPlan_table_scan_total (s : QueryPlanSet) (d : Option NamespaceDetails) :
    ∃ p, s.newPlan d (-1) [] [] "" = Except.ok p := by
  unfold QueryPlanSet.newPlan QueryPlan.make QueryPlan.init
  simp only [QueryPlan.new, show ((-1 : Int) < 0) from by decide, if_true]
  split
  · exact ⟨_, rfl⟩
  · split
    · split <;> exact ⟨_, rfl⟩
    · rename_i h
      simp [QueryPlan.willScanTable] at h

/-- On an existing namespace whose useful indexes all yield a plan,
`QueryPlanGenerator::addFallbackPlans` returns: none of its assertions fails. -/
theorem generator_addFallbackPlans_total (db : Database) (s : QueryPlanSet) (cache : QueryCache)
    (d : NamespaceDetails) (hd : db.nsdetails s.frsp.ns = some d)
    (hall : (usefulPlans s d).all yieldsPlan = true) :
    ∃ s' cache', QueryPlanGenerator.addFallbackPlans db s cache = Except.ok (s', cache') := by
  obtain ⟨r, hloop⟩ := fallbackLoop_total s d (List.range d.nIndexes)
    { plans := [], optimalPlan := none, specialPlan := none } hall
  have hinv := fallbackLoop_inv s d _ _ r hloop
  have enumerated : ∀ q, Except.ok q ∈ usefulPlansOf s d (List.range d.nIndexes) →
      q.special = "" ∨ q.utility = Utility.Helpful := by
    intro q hq
    obtain ⟨i, _, _, hmake⟩ := usefulPlansOf_mem hq
    exact make_special_helpful hmake
  unfold QueryPlanGenerator.addFallbackPlans
  simp only [hd, hloop]
  cases r with
  | impossiblePlan p =>
    simp only []
    have hsp : p.special = "" := by
      rcases enumerated p hinv.1 with h | h
      · exact h
      · rw [hinv.2] at h; cases h
    obtain ⟨s₁, hs₁⟩ := setSinglePlan_total s p (Or.inr hsp)
    rw [hs₁]
    exact ⟨_, _, rfl⟩
  | finished locals =>
    simp only [fallbackLoopPost] at hinv
    simp only []
    cases hopt : locals.optimalPlan with
    | some optimalPlan =>
      simp only []
      have := (hinv.2.1 _ hopt).resolve_left (by simp)
      have hsp : optimalPlan.special = "" := by
        rcases enumerated _ this.1 with h | h
        · exact h
        · rw [this.2] at h; cases h
      obtain ⟨s₁, hs₁⟩ := setSinglePlan_total s optimalPlan (Or.inr hsp)
      rw [hs₁]
      exact ⟨_, _, rfl⟩
    | none =>
      simp only []
      cases hsp : (if locals.plans.isEmpty then locals.specialPlan else none) with
      | some specialPlan =>
        simp only []
        have hsp' : locals.specialPlan = some specialPlan := by
          split at hsp
          · exact hsp
          · cases hsp
        have := (hinv.2.2 _ hsp').resolve_left (by simp)
        obtain ⟨s₁, hs₁⟩ := setSinglePlan_total s specialPlan (Or.inl this.2.2)
        rw [hs₁]
        exact ⟨_, _, rfl⟩
      | none =>
        simp only []
        obtain ⟨s₁, hs₁, ha₁⟩ := addCandidatePlans_total locals.plans s
          (fun q hq => ((hinv.1 q hq).resolve_left (by simp)).2.2)
        obtain ⟨ts, hts⟩ := newPlan_table_scan_total s (some d)
        have htsp : ts.special = "" := (make_table_scan_indexKey hts (by decide)).2.1
        obtain ⟨s₂, hs₂, _⟩ := addCandidatePlan_total s₁ ts (Or.inr htsp)
        simp only [hs₁, hts, hs₂]
        exact ⟨_, _, rfl⟩


/-! ## Fallback expansion in `Runner::_next` -/

/-- The loop over the added plans only appends to `_ops` and to the queue, and returns
an op only if that op is complete after `initOp`. -/
theorem fallbackOps_spec (impl : OpBehaviour) :
    ∀ (plans : List QueryPlan) (ops : List QueryOp) (queue : List OpHolder),
      ∃ newOps newHolders,
        (fallbackOps impl plans ops queue).2.1 = ops ++ newOps ∧
        (fallbackOps impl plans ops queue).2.2 = queue ++ newHolders ∧
        (∀ i, (fallbackOps impl plans ops queue).1 = some i →
          ∃ o ∈ newOps, o.complete = true ∧ (ops ++ newOps)[i]? = some o)
  | [], ops, queue => ⟨[], [], by simp [fallbackOps], by simp [fallbackOps],
      by simp [fallbackOps]⟩
  | plan :: rest, ops, queue => by
    simp only [fallbackOps]
    by_cases hc : (initOp impl (QueryOp.createChild plan)).complete = true
    · simp only [hc, if_true]
      refine ⟨[initOp impl (QueryOp.createChild plan)], [], rfl, by simp, ?_⟩
      intro i hi
      simp only [Option.some.injEq] at hi
      subst hi
      exact ⟨_, List.mem_singleton.2 rfl, hc, by simp⟩
    · simp only [hc, Bool.false_eq_true, if_false]
      obtain ⟨newOps, newHolders, h₁, h₂, h₃⟩ := fallbackOps_spec impl rest
        (ops ++ [initOp impl (QueryOp.createChild plan)])
        (queue ++ [{ op := ops.length, offset := 0 }])
      refine ⟨initOp impl (QueryOp.createChild plan) :: newOps,
        { op := ops.length, offset := 0 } :: newHolders, ?_, ?_, ?_⟩
      · rw [h₁]; simp
      · rw [h₂]; simp
      · intro i hi
        obtain ⟨o, ho, hoc, hoi⟩ := h₃ i hi
        exact ⟨o, List.mem_cons_of_mem _ ho, hoc, by simpa using hoi⟩

theorem planset_addFallbackPlans_eq (db : Database) (s : QueryPlanSet) (cache : QueryCache) :
    s.addFallbackPlans db cache =
      (QueryPlanGenerator.addFallbackPlans db s cache).map
        (fun r => ({ r.1 with mayRecordPlan := true }, r.2)) := rfl


theorem pop_inv {r : Runner} {holder : OpHolder} {queue : List OpHolder}
    (h : r.pop = some (holder, queue)) :
    holder ∈ r.queue ∧ (∀ x ∈ queue, x ∈ r.queue) ∧ queue.length + 1 = r.queue.length := by
  unfold Runner.pop at h
  simp only [] at h
  split at h
  · cases h
  · rename_i hd hget
    cases h
    have hi := (List.getElem?_eq_some_iff.1 hget).1
    refine ⟨List.getElem?_mem hget, fun x hx => (List.eraseIdx_sublist _ _).subset hx, ?_⟩
    rw [List.length_eraseIdx, if_pos hi]
    omega

/-- C9 (amended): when the op popped in a step of the race (`Runner::_next`) is complete
after the step, for a plan that is not Impossible on an existing namespace, the step
returns that op with the Runner done, and the plan cache entry of the plan's query
pattern is set to (the plan's index key, the op's nscanned,
`characterizeCandidatePlans()`) if `_mayRecordPlan` and `op.mayRecordPlan()`, the cache
being left unchanged if either is false; and when `Runner::init` returns an op (one
complete right after init, or the first op when all failed) `Runner::next` returns it
with the plan cache unchanged. -/
theorem next_step_complete_registers (db : Database) (r : Runner) (cache : QueryCache)
    (holder : OpHolder) (queue : List OpHolder) (op₀ : QueryOp) (d : NamespaceDetails)
    (hpop : r.pop = some (holder, queue)) (hop : r.ops[holder.op]? = some op₀)
    (hcomplete : (nextOp r.op op₀).complete = true)
    (hpossible : op₀.queryPlan.utility ≠ Utility.Impossible)
    (hd : db.nsdetails op₀.queryPlan.frs.ns = some d) :
    r._next db cache =
      Except.ok (holder.op,
        { r with queue := queue, ops := r.ops.set holder.op (nextOp r.op op₀), done := true },
        if r.plans.mayRecordPlan = true ∧ (nextOp r.op op₀).mayRecordPlan = true then
          registerCachedQueryPlanForPattern cache
            (op₀.queryPlan.frs.pattern op₀.queryPlan.order)
            { indexKey := op₀.queryPlan.indexKey
              nScanned := (nextOp r.op op₀).nscanned
              planCharacter := r.plans.characterizeCandidatePlans }
        else cache) ∧
    (∀ (r₀ r₁ : Runner) (initialRet : Nat) (c : QueryCache),
      r₀.done = false → r₀.ops = [] → r₀.init = Except.ok (some initialRet, r₁) →
      r₀.next db c = Except.ok (initialRet, { r₁ with done := true }, c)) := by
  have hplan : (nextOp r.op op₀).queryPlan = op₀.queryPlan := by
    unfold nextOp QueryOp.guardedCall
    split
    · simp only []
      split <;> rfl
    · rfl
  refine ⟨?_, ?_⟩
  · unfold Runner._next
    simp only [hpop, hop, hcomplete, if_true, hplan, QueryPlan.registerSelf, hpossible,
      if_false, hd, Bool.and_eq_true]
  · intro r₀ r₁ initialRet c hdone hops hinit
    unfold Runner.next
    simp [hdone, hops, hinit]

/-- Witness of C9: the op on `{a:1}` completes in a step with 5 documents scanned; the
cache entry is written when the op permits recording and stays empty when it does not. -/
theorem next_step_complete_registers_witness :
    stepSummary ((exRunnerFinishing true)._next (exDb exNsdABC) exEmptyCache) =
      some (0, some (true, false), true, false, [[exEl "a" 1], [exEl "b" 1]],
        [{ op := 1, offset := 0 }]) ∧
    ((exRunnerFinishing true)._next (exDb exNsdABC) exEmptyCache).toOption.map
        (fun x => x.2.2 (exPlanA.frs.pattern [])) =
      some { indexKey := [exEl "a" 1], nScanned := 5,
             planCharacter := { mayRunInOrderPlan := true, mayRunOutOfOrderPlan := false } } ∧
    ((exRunnerFinishing false)._next (exDb exNsdABC) exEmptyCache).toOption.map
        (fun x => x.2.2 (exPlanA.frs.pattern [])) = some CachedQueryPlan.empty :=
  ⟨by rw [(next_step_complete_registers (exDb exNsdABC) (exRunnerFinishing true) exEmptyCache
        { op := 0, offset := 0 } [{ op := 1, offset := 0 }]
        (nextOp (exFinisher true) (initOp (exFinisher true) (QueryOp.createChild exPlanA)))
        exNsdABC rfl rfl rfl (by decide) rfl).1]; rfl,
   by rw [(next_step_complete_registers (exDb exNsdABC) (exRunnerFinishing true) exEmptyCache
        { op := 0, offset := 0 } [{ op := 1, offset := 0 }]
        (nextOp (exFinisher true) (initOp (exFinisher true) (QueryOp.createChild exPlanA)))
        exNsdABC rfl rfl rfl (by decide) rfl).1]; rfl,
   by rw [(next_step_complete_registers (exDb exNsdABC) (exRunnerFinishing false) exEmptyCache
        { op := 0, offset := 0 } [{ op := 1, offset := 0 }]
        (nextOp (exFinisher false) (initOp (exFinisher false) (QueryOp.createChild exPlanA)))
        exNsdABC rfl rfl rfl (by decide) rfl).1]; rfl⟩

/-- C9 as stated fails: full enumeration builds the plan set `{a:1}`, `{b:1}`, `{c:1}`,
table scan, which may record plans; the op on `{c:1}` is complete right after init and
permits recording, its plan is Helpful and the namespace exists; `Runner::next`
returns it as the winner and the plan cache entry of the pattern is still empty. -/
theorem next_init_complete_not_recorded :
    (exEnumeratedABC.map (fun s =>
        (s.mayRecordPlan, s.plans.map (fun p => (p.indexKey, p.utility)))) =
      some (true, [([exEl "a" 1], Utility.Helpful), ([exEl "b" 1], Utility.Helpful),
        ([exEl "c" 1], Utility.Helpful), ([exEl "$natural" 1], Utility.Helpful)])) ∧
    (exEnumeratedABC.bind (fun s =>
        ((Runner.new s (exScanner 2) exFifo).next (exDb exNsdABC) exEmptyCache).toOption.map
          (fun x => (x.1, (x.2.1.ops[x.1]?).map (fun o =>
            (o.complete, o.mayRecordPlan, o.queryPlan.indexKey)), x.2.1.done,
            x.2.2 (exFrspABC.singleKey.pattern [])))) =
      some (2, some (true, true, [exEl "c" 1]), true, CachedQueryPlan.empty)) :=
  ⟨rfl, rfl⟩

/-! ## Done after a winner -/

/-- C10 at the failing input: the cached plan on `{a:1}` overruns, fallback expansion
adds the plans on `{b:1}`, `{c:1}` and the table scan, the op on `{b:1}` is queued and
the op on `{c:1}` is complete right after its init: `Runner::next` returns that
complete op and `done()` is false. -/
theorem next_fallback_complete_not_done :
    exReplay exNsdABC exSetABC exCacheA (exScanner 2) = some (exRunnerA 2) ∧
    stepSummary ((exRunnerA 2).next (exDb exNsdABC) exCacheA) =
      some (2, some (true, false), false, true,
        [[exEl "a" 1], [exEl "b" 1], [exEl "c" 1], [exEl "$natural" 1]],
        [{ op := 1, offset := 0 }]) :=
  ⟨rfl, rfl⟩


/-! ## The loop bound of `Runner::next` is never reached -/

theorem make_error {d : Option NamespaceDetails} {idxNo : Int} {frsp : FieldRangeSetPair}
    {originalFrsp : Option FieldRangeSetPair} {query : Query} {order : BSONObj}
    {parsedQuery : Option ParsedQuery} {startKey endKey : BSONObj} {special : String}
    {e : QueryError}
    (h : QueryPlan.make d idxNo frsp originalFrsp query order parsedQuery startKey endKey
      special = Except.error e) :
    e = QueryError.invalidIndex ∨ e = QueryError.msgasserted 13040 := by
  unfold QueryPlan.make QueryPlan.init at h
  simp only [QueryPlan.new] at h
  repeat' split at h
  all_goals first
    | (cases h; first | exact Or.inl rfl | exact Or.inr rfl)
    | cases h

theorem pushPlan_error {s : QueryPlanSet} {q : QueryPlan} {e : QueryError}
    (h : s.pushPlan q = Except.error e) : e = QueryError.verifyFailed := by
  unfold QueryPlanSet.pushPlan at h
  split at h
  · cases h
  · cases h; rfl

theorem setSinglePlan_error {s : QueryPlanSet} {q : QueryPlan} {e : QueryError}
    (h : s.setSinglePlan q = Except.error e) : e = QueryError.verifyFailed := by
  unfold QueryPlanSet.setSinglePlan at h
  split at h
  · exact pushPlan_error h
  · cases h

theorem addCandidatePlan_error {s : QueryPlanSet} {q : QueryPlan} {e : QueryError}
    (h : s.addCandidatePlan q = Except.error e) : e = QueryError.verifyFailed := by
  unfold QueryPlanSet.addCandidatePlan at h
  have key : ∀ x : Except QueryError QueryPlanSet, x = s.pushPlan q →
      x.map (fun s₁ => { s₁ with mayRecordPlan := true }) = Except.error e →
      e = QueryError.verifyFailed := by
    intro x hx hm
    cases x with
    | error e' =>
      simp only [Except.map, Except.error.injEq] at hm
      subst hm
      exact pushPlan_error hx.symm
    | ok s₁ => simp [Except.map] at hm
  split at h
  · split at h
    · cases h
    · exact key _ rfl h
  · exact key _ rfl h

theorem addCandidatePlans_error :
    ∀ (cands : List QueryPlan) (s : QueryPlanSet) (e : QueryError),
      addCandidatePlans s cands = Except.error e → e = QueryError.verifyFailed
  | [], s, e, h => by simp [addCandidatePlans] at h
  | c :: cands, s, e, h => by
    simp only [addCandidatePlans] at h
    cases hc : s.addCandidatePlan c with
    | error e' =>
      simp only [hc, Except.error.injEq] at h
      subst h
      exact addCandidatePlan_error hc
    | ok s₁ =>
      simp only [hc] at h
      exact addCandidatePlans_error cands s₁ e h

theorem fallbackLoop_error (s : QueryPlanSet) (d : NamespaceDetails) :
    ∀ (indexNos : List Nat) (locals : FallbackLocals) (e : QueryError),
      fallbackLoop s d indexNos locals = Except.error e → e ≠ QueryError.outOfFuel
  | [], locals, e, h => by simp [fallbackLoop] at h
  | i :: rest, locals, e, h => by
    unfold fallbackLoop at h
    split at h
    · exact fallbackLoop_error s d rest _ e h
    · split at h
      · rename_i e' hp
        cases h
        rcases make_error hp with h' | h' <;> rw [h'] <;> simp
      · split at h
        · cases h
        · exact fallbackLoop_error s d rest _ e h
        · split at h
          · exact fallbackLoop_error s d rest _ e h
          · split at h
            · exact fallbackLoop_error s d rest _ e h
            · exact fallbackLoop_error s d rest _ e h
        · exact fallbackLoop_error s d rest _ e h


theorem generator_addFallbackPlans_error {db : Database} {s : QueryPlanSet} {cache : QueryCache}
    {e : QueryError} (h : QueryPlanGenerator.addFallbackPlans db s cache = Except.error e) :
    e ≠ QueryError.outOfFuel := by
  have single : ∀ (q : QueryPlan) (f : QueryPlanSet → QueryPlanSet × QueryCache),
      (s.setSinglePlan q).map f = Except.error e → e ≠ QueryError.outOfFuel := by
    intro q f hm
    cases hs : s.setSinglePlan q with
    | error e' =>
      simp only [hs, Except.map, Except.error.injEq] at hm
      subst hm
      rw [setSinglePlan_error hs]; simp
    | ok s₁ => simp [hs, Except.map] at hm
  unfold QueryPlanGenerator.addFallbackPlans at h
  split at h
  · cases h; simp
  · rename_i d hd
    split at h
    · rename_i e' hloop
      cases h
      exact fallbackLoop_error s d _ _ _ hloop
    · exact single _ _ h
    · split at h
      · exact single _ _ h
      · split at h
        · exact single _ _ h
        · split at h
          · rename_i e' hc
            cases h
            rw [addCandidatePlans_error _ _ _ hc]; simp
          · rename_i s₁ hc
            split at h
            · rename_i e' ht
              cases h
              rcases make_error ht with h' | h' <;> rw [h'] <;> simp
            · rename_i ts ht
              cases ha : s₁.addCandidatePlan ts with
              | error e' =>
                simp only [ha, Except.map, Except.error.injEq] at h
                subst h
                rw [addCandidatePlan_error ha]; simp
              | ok s₂ => simp [ha, Except.map] at h

theorem fallbackLoop_length (s : QueryPlanSet) (d : NamespaceDetails) :
    ∀ (indexNos : List Nat) (locals locals' : FallbackLocals),
      fallbackLoop s d indexNos locals = Except.ok (FallbackLoopEnd.finished locals') →
      locals'.plans.length ≤ locals.plans.length + indexNos.length
  | [], locals, locals', h => by
    simp only [fallbackLoop, Except.ok.injEq, FallbackLoopEnd.finished.injEq] at h
    subst h; simp
  | i :: rest, locals, locals', h => by
    unfold fallbackLoop at h
    simp only [List.length_cons]
    split at h
    · have := fallbackLoop_length s d rest _ _ h; omega
    · split at h
      · cases h
      · split at h
        · cases h
        · have := fallbackLoop_length s d rest _ _ h
          split at this
          · simp only [] at this; omega
          · omega
        · split at h
          · have := fallbackLoop_length s d rest _ _ h
            simp only [List.length_append, List.length_singleton] at this
            omega
          · split at h
            · have := fallbackLoop_length s d rest _ _ h
              simp only [] at this
              omega
            · have := fallbackLoop_length s d rest _ _ h; omega
        · have := fallbackLoop_length s d rest _ _ h; omega

theorem addCandidatePlans_length :
    ∀ (cands : List QueryPlan) (s s' : QueryPlanSet),
      addCandidatePlans s cands = Except.ok s' →
      s'.plans.length ≤ s.plans.length + cands.length
  | [], s, s', h => by
    simp only [addCandidatePlans, Except.ok.injEq] at h
    subst h; simp
  | c :: cands, s, s', h => by
    simp only [addCandidatePlans] at h
    cases hc : s.addCandidatePlan c with
    | error e => simp [hc] at h
    | ok s₁ =>
      simp only [hc] at h
      have ih := addCandidatePlans_length cands s₁ s' h
      simp only [List.length_cons]
      rcases addCandidatePlan_ok hc with ⟨h₁, _⟩ | ⟨h₁, _⟩
      · subst h₁; omega
      · rw [h₁] at ih
        simp only [List.length_append, List.length_singleton] at ih
        omega

/-- Full enumeration adds at most one plan per index and the table scan plan. -/
theorem generator_addFallbackPlans_length {db : Database} {s s' : QueryPlanSet}
    {cache cache' : QueryCache} {d : NamespaceDetails}
    (hd : db.nsdetails s.frsp.ns = some d)
    (h : QueryPlanGenerator.addFallbackPlans db s cache = Except.ok (s', cache')) :
    s'.plans.length ≤ s.plans.length + d.nIndexes + 1 := by
  have single : ∀ (q : QueryPlan) (f : QueryPlanSet → QueryCache),
      (s.setSinglePlan q).map (fun s₁ => (s₁, f s₁)) = Except.ok (s', cache') →
      s'.plans.length ≤ s.plans.length + d.nIndexes + 1 := by
    intro q f hm
    cases hs : s.setSinglePlan q with
    | error e => simp [hs, Except.map] at hm
    | ok s₁ =>
      simp only [hs, Except.map, Except.ok.injEq, Prod.mk.injEq] at hm
      obtain ⟨rfl, _⟩ := hm
      rcases setSinglePlan_ok hs with ⟨h₁, _⟩ | ⟨h₁, _⟩
      · rw [h₁]; omega
      · rw [h₁]; simp
  unfold QueryPlanGenerator.addFallbackPlans at h
  simp only [hd] at h
  split at h
  · cases h
  · exact single _ (fun _ => cache) h
  · rename_i locals hloop
    have hlen := fallbackLoop_length s d _ _ _ hloop
    simp only [List.length_nil, List.length_range, Nat.zero_add] at hlen
    split at h
    · exact single _ _ h
    · split at h
      · exact single _ (fun _ => cache) h
      · split at h
        · cases h
        · rename_i s₁ hc
          have hlen₁ := addCandidatePlans_length _ _ _ hc
          split at h
          · cases h
          · rename_i ts ht
            cases ha : s₁.addCandidatePlan ts with
            | error e => simp [ha, Except.map] at h
            | ok s₂ =>
              simp only [ha, Except.map, Except.ok.injEq, Prod.mk.injEq] at h
              obtain ⟨rfl, _⟩ := h
              rcases addCandidatePlan_ok ha with ⟨h₁, _⟩ | ⟨h₁, _⟩
              · subst h₁
                simp only [NamespaceDetails.nIndexes] at *
                omega
              · rw [h₁]
                simp only [List.length_append, List.length_singleton,
                  NamespaceDetails.nIndexes] at *
                omega

/-- The loop over the added plans queues at most one op per plan, and one fewer when
it returns an op. -/
theorem fallbackOps_length (impl : OpBehaviour) :
    ∀ (plans : List QueryPlan) (ops : List QueryOp) (queue : List OpHolder),
      (fallbackOps impl plans ops queue).2.2.length ≤ queue.length + plans.length ∧
      ((fallbackOps impl plans ops queue).1.isSome →
        (fallbackOps impl plans ops queue).2.2.length + 1 ≤ queue.length + plans.length)
  | [], ops, queue => by simp [fallbackOps]
  | plan :: rest, ops, queue => by
    simp only [fallbackOps]
    split
    · simp
    · have ih := fallbackOps_length impl rest
        (ops ++ [initOp impl (QueryOp.createChild plan)])
        (queue ++ [{ op := ops.length, offset := 0 }])
      simp only [List.length_append, List.length_singleton, List.length_cons,
        List.length_nil] at ih ⊢
      exact ⟨by omega, fun h => by have := ih.2 h; omega⟩


theorem hasPossiblyExcludedPlans_of_length (s : QueryPlanSet) (h : s.plans.length ≠ 1) :
    s.hasPossiblyExcludedPlans = false := by
  simp [QueryPlanSet.hasPossiblyExcludedPlans, QueryPlanSet.nPlans, h]

theorem next_step_potential (db : Database) (r : Runner) (cache : QueryCache) :
    (∀ e, r._next db cache = Except.error e → e ≠ QueryError.outOfFuel) ∧
    (∀ ret r₁ cache₁, r._next db cache = Except.ok (ret, r₁, cache₁) →
      (∃ o, r₁.ops[ret]? = some o ∧ o.error = true) →
      r₁.potential db < r.potential db) := by
  unfold Runner._next
  cases hpop : r.pop with
  | none => exact ⟨fun e h => (by cases h; simp), fun _ _ _ h => (by cases h)⟩
  | some x =>
    obtain ⟨holder, queue⟩ := x
    obtain ⟨_, _, hlen⟩ := pop_inv hpop
    simp only []
    cases hop : r.ops[holder.op]? with
    | none => exact ⟨fun e h => (by cases h; simp), fun _ _ _ h => (by cases h)⟩
    | some op₀ =>
      simp only []
      have hlt : holder.op < r.ops.length := by
        rcases Nat.lt_or_ge holder.op r.ops.length with h | h
        · exact h
        · rw [List.getElem?_eq_none h] at hop; cases hop
      have hget : ∀ newOps : List QueryOp,
          (r.ops.set holder.op (nextOp r.op op₀) ++ newOps)[holder.op]? =
            some (nextOp r.op op₀) := by
        intro newOps
        rw [List.getElem?_append_left (by simpa using hlt)]
        simp [List.getElem?_set, hlt]
      by_cases hc : (nextOp r.op op₀).complete = true
      · simp only [hc, if_true]
        refine ⟨fun e h => (by cases h), fun ret r₁ cache₁ h _ => ?_⟩
        simp only [Except.ok.injEq, Prod.mk.injEq] at h
        obtain ⟨_, rfl, _⟩ := h
        simp only [Runner.potential]
        omega
      · simp only [hc, Bool.false_eq_true, if_false]
        by_cases he : (nextOp r.op op₀).error = true
        · simp only [he, if_true]
          refine ⟨fun e h => (by cases h), fun ret r₁ cache₁ h _ => ?_⟩
          simp only [Except.ok.injEq, Prod.mk.injEq] at h
          obtain ⟨_, rfl, _⟩ := h
          simp only [Runner.potential]
          omega
        · simp only [he, Bool.false_eq_true, if_false]
          by_cases hx : (r.plans.hasPossiblyExcludedPlans &&
              decide ((nextOp r.op op₀).nscanned > r.plans.oldNScanned * 10)) = true
          · simp only [hx, if_true]
            have hexcl : r.plans.hasPossiblyExcludedPlans = true := by
              simp only [Bool.and_eq_true] at hx; exact hx.1
            cases hplans : r.plans.plans with
            | nil => exact ⟨fun e h => (by cases h; simp), fun _ _ _ h => (by cases h)⟩
            | cons firstPlan tl =>
              cases tl with
              | cons _ _ => exact ⟨fun e h => (by cases h; simp), fun _ _ _ h => (by cases h)⟩
              | nil =>
                simp only []
                by_cases hsp : firstPlan.special = ""
                · simp only [hsp, if_true, planset_addFallbackPlans_eq]
                  cases hgen : QueryPlanGenerator.addFallbackPlans db r.plans cache with
                  | error e =>
                    simp only [Except.map]
                    exact ⟨fun e' h => by
                      cases h; exact generator_addFallbackPlans_error hgen,
                      fun _ _ _ h => by cases h⟩
                  | ok y =>
                    obtain ⟨s₁, cache₁⟩ := y
                    simp only [Except.map]
                    obtain ⟨d, added, hd, heq, _, _⟩ := generator_addFallbackPlans_added hgen
                    have hglen := generator_addFallbackPlans_length hd hgen
                    have hs₁ : s₁.plans = firstPlan :: added := by rw [heq, hplans]; rfl
                    have hfrsp : s₁.frsp = r.plans.frsp := by rw [heq]
                    rw [hs₁, hplans] at hglen
                    simp only [List.length_cons, List.length_nil] at hglen
                    simp only [hs₁, List.drop_succ_cons, List.drop_zero]
                    obtain ⟨newOps, newHolders, ho₁, _, _⟩ := fallbackOps_spec r.op added
                      (r.ops.set holder.op (nextOp r.op op₀)) queue
                    have hfl := fallbackOps_length r.op added
                      (r.ops.set holder.op (nextOp r.op op₀)) queue
                    rcases hfo : fallbackOps r.op added
                        (r.ops.set holder.op (nextOp r.op op₀)) queue with ⟨ret?, ops₂, queue₂⟩
                    rw [hfo] at ho₁ hfl
                    simp only at ho₁ hfl
                    cases ret? with
                    | some ret' =>
                      simp only []
                      refine ⟨fun e h => (by cases h), fun ret r₁ c₁ h _ => ?_⟩
                      simp only [Except.ok.injEq, Prod.mk.injEq] at h
                      obtain ⟨_, rfl, _⟩ := h
                      have hq := hfl.2 rfl
                      have hadd : added ≠ [] := by
                        intro h
                        rw [h] at hfo
                        simp [fallbackOps] at hfo
                      have hpos : 0 < added.length := List.length_pos.2 hadd
                      simp only [Runner.potential, hexcl, if_true]
                      rw [hasPossiblyExcludedPlans_of_length, hfrsp, hd]
                      · simp only [Bool.false_eq_true, if_false]
                        omega
                      · simp only [List.length_cons]
                        omega
                    | none =>
                      simp only []
                      refine ⟨fun e h => (by cases h), fun ret r₁ c₁ h herr => ?_⟩
                      simp only [Except.ok.injEq, Prod.mk.injEq] at h
                      obtain ⟨rfl, rfl, _⟩ := h
                      obtain ⟨o, ho, hoe⟩ := herr
                      simp only [] at ho
                      rw [ho₁, hget] at ho
                      cases ho
                      exact absurd hoe he
                · simp only [hsp, if_false]
                  exact ⟨fun e h => (by cases h; simp), fun _ _ _ h => (by cases h)⟩
          · simp only [hx, Bool.false_eq_true, if_false]
            refine ⟨fun e h => (by cases h), fun ret r₁ c₁ h herr => ?_⟩
            simp only [Except.ok.injEq, Prod.mk.injEq] at h
            obtain ⟨rfl, rfl, _⟩ := h
            obtain ⟨o, ho, hoe⟩ := herr
            simp only [] at ho
            have := hget []
            simp only [List.append_nil] at this
            rw [this] at ho
            cases ho
            exact absurd hoe he

theorem init_error {r : Runner} {e : QueryError} (h : r.init = Except.error e) :
    e = QueryError.msgasserted 10369 := by
  unfold Runner.init at h
  by_cases hlen : r.plans.plans.length > 0
  · simp only [hlen, if_true] at h
    split at h
    · cases h
    · split at h <;> cases h
  · simp only [hlen, if_false, Except.error.injEq] at h
    exact h.symm

theorem nextLoop_fuel (db : Database) :
    ∀ (fuel : Nat) (r : Runner) (cache : QueryCache), r.potential db < fuel →
      Runner.nextLoop db fuel r cache ≠ Except.error QueryError.outOfFuel
  | 0, r, cache, h => by omega
  | fuel + 1, r, cache, h => by
    obtain ⟨herr, hpot⟩ := next_step_potential db r cache
    simp only [Runner.nextLoop]
    cases hstep : r._next db cache with
    | error e =>
      simp only []
      intro h'
      cases h'
      exact herr _ hstep rfl
    | ok x =>
      obtain ⟨ret, r₁, cache₁⟩ := x
      simp only []
      split
      · rename_i hc
        simp only [Bool.and_eq_true] at hc
        have herr' : ∃ o, r₁.ops[ret]? = some o ∧ o.error = true := by
          cases ho : r₁.ops[ret]? with
          | none => simp [ho] at hc
          | some o => exact ⟨o, rfl, by simpa [ho] using hc.1⟩
        have := hpot ret r₁ cache₁ hstep herr'
        exact nextLoop_fuel db fuel r₁ cache₁ (by omega)
      · intro h'; cases h'

theorem potential_lt_loopBound (db : Database) (r : Runner) :
    r.potential db < r.loopBound db := by
  unfold Runner.potential Runner.loopBound
  split <;> omega

/-- The bound on the loop of `Runner::next` is never reached: the embedding of `next`
never ends for lack of iterations. -/
theorem next_ne_outOfFuel (db : Database) (r : Runner) (cache : QueryCache) :
    r.next db cache ≠ Except.error QueryError.outOfFuel := by
  unfold Runner.next
  split
  · intro h; cases h
  · split
    · cases hinit : r.init with
      | error e =>
        simp only []
        intro h
        cases h
        exact absurd (init_error hinit) (by simp)
      | ok x =>
        obtain ⟨ret?, r₁⟩ := x
        cases ret? with
        | some i => simp only []; intro h; cases h
        | none =>
          simp only []
          exact nextLoop_fuel db _ r₁ cache (potential_lt_loopBound db r₁)
    · exact nextLoop_fuel db _ r cache (potential_lt_loopBound db r)





/-! ## The utility decision table -/

/-- Past the prefix, the key walk yields -1 at a non-universal field and keeps the
count otherwise. -/
theorem optimalCount_after (frs : FieldRangeSet) :
    ∀ (post : List BSONElement) (c : Int), (c = -1 ∨ 0 ≤ c) →
      optimalIndexedQueryCountFrom frs post c false =
        if post.any (fun e => !(frs.range e.fieldName).universal) then -1 else c
  | [], c, _ => by simp [optimalIndexedQueryCountFrom]
  | e :: post, c, hc => by
    cases hu : (frs.range e.fieldName).universal with
    | true =>
      simp [optimalIndexedQueryCountFrom, hu, optimalCount_after frs post c hc]
    | false =>
      simp [optimalIndexedQueryCountFrom, hu, optimalCount_after frs post (-1) (Or.inl rfl)]

/-- The key walk of `QueryPlan::init` computes the count the specification describes. -/
theorem optimalCount_eq_spec (frs : FieldRangeSet) :
    ∀ (idxKey : BSONObj) (c : Int), 0 ≤ c →
      optimalIndexedQueryCountFrom frs idxKey c true =
        if (afterOptimalPrefix frs idxKey).any (fun e => !(frs.range e.fieldName).universal)
        then -1
        else c + (((optimalPrefix frs idxKey).filter
          (fun e => !(frs.range e.fieldName).universal)).length : Int)
  | [], c, _ => by simp [optimalIndexedQueryCountFrom, afterOptimalPrefix, optimalPrefix]
  | e :: rest, c, hc => by
    cases heq : (frs.range e.fieldName).equality with
    | true =>
      cases hu : (frs.range e.fieldName).universal with
      | true =>
        have ih := optimalCount_eq_spec frs rest c hc
        simp [optimalIndexedQueryCountFrom, heq, hu, afterOptimalPrefix, optimalPrefix,
          List.takeWhile, List.dropWhile] at ih ⊢
        exact ih
      | false =>
        have ih := optimalCount_eq_spec frs rest (c + 1) (by omega)
        simp [optimalIndexedQueryCountFrom, heq, hu, afterOptimalPrefix, optimalPrefix,
          List.takeWhile, List.dropWhile] at ih ⊢
        rw [ih]
        split
        · rfl
        · omega
    | false =>
      cases hu : (frs.range e.fieldName).universal with
      | true =>
        have h := optimalCount_after frs rest c (Or.inr hc)
        simp [optimalIndexedQueryCountFrom, heq, hu, afterOptimalPrefix, optimalPrefix,
          List.takeWhile, List.dropWhile] at h ⊢
        exact h
      | false =>
        have h := optimalCount_after frs rest (c + 1) (Or.inr (by omega))
        simp [optimalIndexedQueryCountFrom, heq, hu, afterOptimalPrefix, optimalPrefix,
          List.takeWhile, List.dropWhile] at h ⊢
        exact h

/-- C20: for a plan on an index that is not special, with a match possible,
`QueryPlan::init` returns a plan whose utility is the one the decision table gives:
Disallowed if the index is sparse and the predicate has a possible `$exists:false`;
otherwise Unhelpful if the range of the first index key field is universal and
scan-and-order is required or the sort order is empty; otherwise Optimal if
scan-and-order is not required and the optimal indexed query count equals the number
of non-universal ranges of the clause; otherwise Helpful.  The optimal indexed query
count the code computes is the number of non-universal fields in the key prefix that
ends at the first non-equality field, and -1 if a field after the prefix is
non-universal. -/
theorem init_utility_decision_table (d : NamespaceDetails) (idxNo : Nat) (index : IndexDetails)
    (frsp : FieldRangeSetPair) (originalFrsp : Option FieldRangeSetPair) (query : Query)
    (order : BSONObj) (parsedQuery : Option ParsedQuery) (startKey endKey : BSONObj)
    (hidx : d.indexes[idxNo]? = some index)
    (hspecial : index.special = false)
    (hmatch : (frsp.frsForIndex (some d) idxNo).matchPossibleForIndex index.keyPattern = true) :
    optimalIndexedQueryCountFrom (frsp.frsForIndex (some d) idxNo) index.keyPattern 0 true =
      specOptimalIndexedQueryCount (frsp.frsForIndex (some d) idxNo) index.keyPattern ∧
    ∃ p, QueryPlan.make (some d) idxNo frsp originalFrsp query order parsedQuery startKey
        endKey "" = Except.ok p ∧
      p.utility =
        specUtility index.sparse p.hasPossibleExistsFalsePredicate
          ((frsp.frsForIndex (some d) idxNo).range
            (firstElementFieldName index.keyPattern)).universal
          p.scanAndOrderRequired order.isEmpty
          (specOptimalIndexedQueryCount (frsp.frsForIndex (some d) idxNo) index.keyPattern)
          (frsp.frsForIndex (some d) idxNo).numNonUniversalRanges := by
  have hcount : optimalIndexedQueryCountFrom (frsp.frsForIndex (some d) idxNo)
      index.keyPattern 0 true =
      specOptimalIndexedQueryCount (frsp.frsForIndex (some d) idxNo) index.keyPattern := by
    rw [optimalCount_eq_spec _ _ 0 (le_refl 0)]
    simp [specOptimalIndexedQueryCount]
  refine ⟨hcount, _, make_eq_initIndexed d idxNo index frsp originalFrsp query order parsedQuery
    startKey endKey hidx (Or.inl hspecial) hmatch, ?_⟩
  rw [← hcount]
  simp only [QueryPlan.initIndexed, QueryPlan.initRanges, QueryPlan.withIndex,
    QueryPlan.started, QueryPlan.new, QueryPlan.hasPossibleExistsFalsePredicate, specUtility]
  cases hs : index.sparse <;>
  cases hef : (query.docMatcher.visit (ExistsFalseDetector.new query.docMatcher)).foundExistsFalse <;>
  cases hsao : (checkOrder (frsp.frsForIndex (some d) idxNo) order index.keyPattern 0).1 <;>
  cases hfu : ((frsp.frsForIndex (some d) idxNo).range
    (firstElementFieldName index.keyPattern)).universal <;>
  cases ho : order.isEmpty <;>
  by_cases hc : optimalIndexedQueryCountFrom (frsp.frsForIndex (some d) idxNo)
    index.keyPattern 0 true = (frsp.frsForIndex (some d) idxNo).numNonUniversalRanges <;>
  simp [hs, hef, hsao, hfu, ho, hc]

theorem init_utility_decision_table_witness :
    optimalIndexedQueryCountFrom (exFrspAB.frsForIndex (some exNsdAB) (0 : Nat))
        (exIndex "a_1_b_1" [exEl "a" 1, exEl "b" 1]).keyPattern 0 true =
      specOptimalIndexedQueryCount (exFrspAB.frsForIndex (some exNsdAB) (0 : Nat))
        (exIndex "a_1_b_1" [exEl "a" 1, exEl "b" 1]).keyPattern ∧
    ∃ p, QueryPlan.make (some exNsdAB) (0 : Nat) exFrspAB none (exQuery []) [exEl "b" 1] none
        [] [] "" = Except.ok p ∧
      p.utility =
        specUtility (exIndex "a_1_b_1" [exEl "a" 1, exEl "b" 1]).sparse
          p.hasPossibleExistsFalsePredicate
          ((exFrspAB.frsForIndex (some exNsdAB) (0 : Nat)).range
            (firstElementFieldName (exIndex "a_1_b_1" [exEl "a" 1, exEl "b" 1]).keyPattern)).universal
          p.scanAndOrderRequired ([exEl "b" 1] : BSONObj).isEmpty
          (specOptimalIndexedQueryCount (exFrspAB.frsForIndex (some exNsdAB) (0 : Nat))
            (exIndex "a_1_b_1" [exEl "a" 1, exEl "b" 1]).keyPattern)
          (exFrspAB.frsForIndex (some exNsdAB) (0 : Nat)).numNonUniversalRanges :=
  init_utility_decision_table exNsdAB 0 (exIndex "a_1_b_1" [exEl "a" 1, exEl "b" 1]) exFrspAB
    none (exQuery []) [exEl "b" 1] none [] [] rfl rfl rfl

/-! ## The no-table-scan policy -/

/-- C17 (amended): with the no-table-scan policy on, `QueryPlan::newCursor` of a
table-scan plan (no index, not Impossible) on an existing namespace that is neither a
`.system.` nor a `local.` collection fails with error 10111 when the clause has a
non-universal range, and returns a cursor when the clause has none; with the policy
off, `checkTableScanAllowed` never raises. -/
theorem table_scan_policy (db : Database) (p : QueryPlan)
    (hscan : p.willScanTable = true) (hindex : p.index = none)
    (hsystem : strContains p.frs.ns ".system." = false)
    (hlocal : strStartsWith p.frs.ns "local." = false)
    (hexists : (db.nsdetails p.frs.ns).isSome = true) :
    (db.noTableScan = true → p.frs.numNonUniversalRanges ≠ 0 →
      p.newCursor db = Except.error (QueryError.uasserted 10111)) ∧
    (db.noTableScan = true → p.frs.numNonUniversalRanges = 0 →
      p.checkTableScanAllowed db = Except.ok () ∧
      p.newCursor db = Except.ok (Cursor.basicCursor (db.nsdetails p.frs.ns)
        (if getFieldNumber p.order "$natural" ≥ 0 then 1 else -1))) ∧
    (db.noTableScan = false → ∀ q : QueryPlan, q.checkTableScanAllowed db = Except.ok ()) := by
  have hu : p.utility ≠ Utility.Impossible := by
    simp [QueryPlan.willScanTable] at hscan
    exact hscan.2
  have hsome : (db.nsdetails p.frs.ns).isNone = false := by
    cases h : db.nsdetails p.frs.ns with
    | none => simp [h] at hexists
    | some _ => rfl
  refine ⟨fun hpol hn => ?_, fun hpol hn => ?_, fun hpol q => ?_⟩
  · simp [QueryPlan.newCursor, hindex, hu, hscan, QueryPlan.checkTableScanAllowed, hpol, hn,
      hsystem, hlocal, hsome]
  · simp [QueryPlan.newCursor, hindex, hu, hscan, QueryPlan.checkTableScanAllowed, hpol, hn]
  · simp [QueryPlan.checkTableScanAllowed, hpol]

theorem table_scan_policy_witness :
    ((exDbNoTableScan exNsdAB).noTableScan = true → exTableScanA.frs.numNonUniversalRanges ≠ 0 →
      exTableScanA.newCursor (exDbNoTableScan exNsdAB) =
        Except.error (QueryError.uasserted 10111)) ∧
    ((exDbNoTableScan exNsdAB).noTableScan = true → exTableScanA.frs.numNonUniversalRanges = 0 →
      exTableScanA.checkTableScanAllowed (exDbNoTableScan exNsdAB) = Except.ok () ∧
      exTableScanA.newCursor (exDbNoTableScan exNsdAB) =
        Except.ok (Cursor.basicCursor ((exDbNoTableScan exNsdAB).nsdetails exTableScanA.frs.ns)
          (if getFieldNumber exTableScanA.order "$natural" ≥ 0 then 1 else -1))) ∧
    ((exDbNoTableScan exNsdAB).noTableScan = false →
      ∀ q : QueryPlan, q.checkTableScanAllowed (exDbNoTableScan exNsdAB) = Except.ok ()) :=
  table_scan_policy (exDbNoTableScan exNsdAB) exTableScanA rfl rfl (by decide) (by decide) rfl

/-- C17 (as stated) fails: with the policy on, the table-scan plan of the empty query
on the existing namespace `test.c` is made by `QueryPlan::make`, is a table scan that
is not Impossible, and `newCursor` returns a cursor instead of raising error 10111. -/
theorem table_scan_allowed_without_ranges :
    QueryPlan.make (some exNsdAB) (-1) (exFrsp []) none (exQuery []) [] none [] [] "" =
      Except.ok exTableScanAll ∧
    (exDbNoTableScan exNsdAB).noTableScan = true ∧
    exTableScanAll.willScanTable = true ∧ exTableScanAll.index = none ∧
    exTableScanAll.utility ≠ Utility.Impossible ∧
    strContains exTableScanAll.frs.ns ".system." = false ∧
    strStartsWith exTableScanAll.frs.ns "local." = false ∧
    ((exDbNoTableScan exNsdAB).nsdetails exTableScanAll.frs.ns).isSome = true ∧
    exTableScanAll.newCursor (exDbNoTableScan exNsdAB) =
      Except.ok (Cursor.basicCursor (some exNsdAB) 1) :=
  ⟨rfl, rfl, rfl, rfl, (by decide), (by decide), (by decide), rfl, rfl⟩

/-! ## Replaying a cached plan -/

/-- C11: `QueryPlanGenerator::addCachedPlan` on an empty plan set returns true, with the
plan set holding exactly the replayed plan, usingCachedPlan true, and oldNScanned and
the plan character taken from the cache entry, if and only if the policy is not
Ignore, the cache holds a non-empty index key for the clause, the plan rebuilt for
that key is neither Unhelpful nor Disallowed, the policy UseIfInOrder implies that the
plan needs no scan-and-order, and the plan is not special when specials are not
allowed; when it returns false the plan set is unchanged.  The cache holds a
non-empty key exactly when the namespace exists and the entry of the single-key
pattern or of the multi-key pattern has one. -/
theorem addCachedPlan_iff (db : Database) (s : QueryPlanSet) (d : NamespaceDetails)
    (cache : QueryCache) (hempty : s.plans = []) :
    (∀ s', QueryPlanGenerator.addCachedPlan db s d cache = Except.ok (true, s') ↔
      (s.recordedPlanPolicy ≠ RecordedPlanPolicy.Ignore ∧
       (bestIndexForPatterns db s.frsp s.order cache).indexKey ≠ [] ∧
       ∃ p, replayedPlan s d (bestIndexForPatterns db s.frsp s.order cache).indexKey =
           Except.ok (some p) ∧
         p.utility ≠ Utility.Unhelpful ∧ p.utility ≠ Utility.Disallowed ∧
         (s.recordedPlanPolicy = RecordedPlanPolicy.UseIfInOrder →
           p.scanAndOrderRequired = false) ∧
         (s.allowSpecial = false → p.special = "") ∧
         s' = { s with
                usingCachedPlan := true
                oldNScanned := (bestIndexForPatterns db s.frsp s.order cache).nScanned
                cachedPlanCharacter :=
                  (bestIndexForPatterns db s.frsp s.order cache).planCharacter
                plans := [p] })) ∧
    (∀ s', QueryPlanGenerator.addCachedPlan db s d cache = Except.ok (false, s') → s' = s) ∧
    ((bestIndexForPatterns db s.frsp s.order cache).indexKey ≠ [] ↔
      ((db.nsdetails s.frsp.ns).isSome = true ∧
        ((cache (s.frsp.singleKey.pattern s.order)).indexKey ≠ [] ∨
         (cache (s.frsp.multiKey.pattern s.order)).indexKey ≠ []))) := by
  refine ⟨fun s' => ?_, fun s' h => ?_, ?_⟩
  · unfold QueryPlanGenerator.addCachedPlan replayedPlan
    by_cases hpol : s.recordedPlanPolicy = RecordedPlanPolicy.Ignore
    · simp [hpol]
    · by_cases hkey : (bestIndexForPatterns db s.frsp s.order cache).indexKey = []
      · simp [hpol, hkey]
      · have hkey' : (bestIndexForPatterns db s.frsp s.order cache).indexKey.isEmpty = false := by
          cases hk : (bestIndexForPatterns db s.frsp s.order cache).indexKey with
          | nil => exact absurd hk hkey
          | cons _ _ => rfl
        simp only [hpol, hkey, hkey', if_false, ne_eq, not_false_eq_true, true_and,
          Bool.false_eq_true]
        cases h₀ : (if firstElementFieldName (bestIndexForPatterns db s.frsp s.order cache).indexKey
            = "$natural" then (s.newPlan (some d) (-1) [] [] "").map some
            else Except.ok none) with
        | error e => simp
        | ok p₀ =>
          simp only []
          cases hl : cachedPlanLoop s d (bestIndexForPatterns db s.frsp s.order cache).indexKey
              d.indexes.enum p₀ with
          | error e => simp
          | ok op =>
            cases op with
            | none => simp
            | some p =>
              simp only []
              by_cases hu : p.utility = Utility.Unhelpful ∨ p.utility = Utility.Disallowed
              · rw [if_pos hu]
                constructor
                · intro h; cases h
                · rintro ⟨q, hq, h1, h2, _⟩
                  cases hq
                  rcases hu with hu | hu
                  · exact absurd hu h1
                  · exact absurd hu h2
              · rw [if_neg hu]
                by_cases ho : s.recordedPlanPolicy = RecordedPlanPolicy.UseIfInOrder ∧
                    p.scanAndOrderRequired = true
                · rw [if_pos ho]
                  constructor
                  · intro h; cases h
                  · rintro ⟨q, hq, _, _, h3, _⟩
                    cases hq
                    have := h3 ho.1
                    rw [ho.2] at this
                    cases this
                · rw [if_neg ho]
                  by_cases hsp : s.allowSpecial = false ∧ p.special ≠ ""
                  · rw [if_pos hsp]
                    constructor
                    · intro h; cases h
                    · rintro ⟨q, hq, _, _, _, h4, _⟩
                      cases hq
                      exact absurd (h4 hsp.1) hsp.2
                  · rw [if_neg hsp]
                    have hpush : s.allowSpecial = true ∨ p.special = "" := by
                      by_cases ha : s.allowSpecial = true
                      · exact Or.inl ha
                      · right
                        by_contra hne
                        exact hsp ⟨by simpa using ha, hne⟩
                    have hset : s.setCachedPlan p (bestIndexForPatterns db s.frsp s.order cache) =
                        Except.ok { s with
                          usingCachedPlan := true
                          oldNScanned := (bestIndexForPatterns db s.frsp s.order cache).nScanned
                          cachedPlanCharacter :=
                            (bestIndexForPatterns db s.frsp s.order cache).planCharacter
                          plans := [p] } := by
                      unfold QueryPlanSet.setCachedPlan QueryPlanSet.pushPlan
                      rcases hpush with ha | ha <;>
                        simp [QueryPlanSet.nPlans, hempty, ha]
                    rw [hset]
                    simp only [Except.map]
                    constructor
                    · intro h
                      cases h
                      refine ⟨p, rfl, fun h => hu (Or.inl h), fun h => hu (Or.inr h), ?_, ?_, rfl⟩
                      · intro hp
                        cases hs : p.scanAndOrderRequired with
                        | false => rfl
                        | true => exact absurd ⟨hp, hs⟩ ho
                      · intro ha
                        rcases hpush with hb | hb
                        · rw [ha] at hb; cases hb
                        · exact hb
                    · rintro ⟨q, hq, _, _, _, _, hs'⟩
                      cases hq
                      rw [hs']
  · have := addCachedPlan_ok h
    simpa using this
  · unfold bestIndexForPatterns cachedQueryPlanForPattern
    cases hd : db.nsdetails s.frsp.ns with
    | none => simp [CachedQueryPlan.empty]
    | some d' =>
      simp only [Option.isSome_some, true_and]
      by_cases h1 : (cache (s.frsp.singleKey.pattern s.order)).indexKey = []
      · by_cases h2 : (cache (s.frsp.multiKey.pattern s.order)).indexKey = []
        · simp [h1, h2, CachedQueryPlan.empty]
        · have h2' : (cache (s.frsp.multiKey.pattern s.order)).indexKey.isEmpty = false := by
            cases hk : (cache (s.frsp.multiKey.pattern s.order)).indexKey with
            | nil => exact absurd hk h2
            | cons _ _ => rfl
          simp [h1, h2, h2']
      · have h1' : (cache (s.frsp.singleKey.pattern s.order)).indexKey.isEmpty = false := by
          cases hk : (cache (s.frsp.singleKey.pattern s.order)).indexKey with
          | nil => exact absurd hk h1
          | cons _ _ => rfl
        simp [h1, h1']

theorem addCachedPlan_iff_witness :
    exSetABC.plans = [] ∧
    QueryPlanGenerator.addCachedPlan (exDb exNsdABC) exSetABC exNsdABC exCacheA =
      Except.ok (true,
        { exSetABC with
          usingCachedPlan := true
          oldNScanned := 1
          cachedPlanCharacter := { mayRunInOrderPlan := true, mayRunOutOfOrderPlan := false }
          plans := [exPlanA] }) :=
  ⟨rfl, ((addCachedPlan_iff (exDb exNsdABC) exSetABC exNsdABC exCacheA rfl).1 _).2
    ⟨(by decide), (by decide), exPlanA, rfl, (by decide), (by decide), (by decide),
      (by decide), rfl⟩⟩

/-! ## Full enumeration without an Impossible or Optimal plan -/

/-- The locals at the end of the index loop of `addFallbackPlans` when the enumeration
has no error, no Impossible plan and no Optimal plan. -/
theorem fallbackLoop_exact (s : QueryPlanSet) (d : NamespaceDetails) :
    ∀ (indexNos : List Nat) (locals : FallbackLocals),
      (usefulPlansOf s d indexNos).all isCandidatePlan = true →
      fallbackLoop s d indexNos locals = Except.ok (FallbackLoopEnd.finished
        { plans := locals.plans ++ helpfulPlans (usefulPlansOf s d indexNos)
          optimalPlan := locals.optimalPlan
          specialPlan :=
            match (if s.allowSpecial then (helpfulSpecialPlans (usefulPlansOf s d indexNos)).getLast?
                   else none) with
            | some specialPlan => some specialPlan
            | none => locals.specialPlan })
  | [], locals, _ => by
    cases ha : s.allowSpecial <;>
      simp [fallbackLoop, usefulPlansOf, helpfulPlans, helpfulSpecialPlans, ha]
  | i :: rest, locals, hall => by
    unfold fallbackLoop
    by_cases hu : indexUseful s.frsp d i s.order = true
    · have hE : usefulPlansOf s d (i :: rest) =
          s.newPlan (some d) (i : Int) [] [] "" :: usefulPlansOf s d rest := by
        simp [usefulPlansOf, List.filter_cons, hu]
      rw [hE] at hall ⊢
      simp only [List.all_cons, Bool.and_eq_true] at hall
      obtain ⟨hi, hrest⟩ := hall
      cases hp : s.newPlan (some d) (i : Int) [] [] "" with
      | error e => simp [hp, isCandidatePlan, isPossiblePlan] at hi
      | ok p =>
        simp only [hu, Bool.not_true, Bool.false_eq_true, if_false]
        simp only [hp, isCandidatePlan, isPossiblePlan, hasUtility, Bool.and_eq_true,
          decide_eq_true_eq, Bool.not_eq_true', decide_eq_false_iff_not] at hi
        cases hut : p.utility with
        | Impossible => exact absurd hut hi.1
        | Optimal => exact absurd hut hi.2
        | Helpful =>
          simp only []
          by_cases hsp : p.special = ""
          · rw [if_pos hsp, fallbackLoop_exact s d rest _ hrest]
            simp [helpfulPlans, helpfulSpecialPlans, hut, hsp]
          · rw [if_neg hsp]
            cases ha : s.allowSpecial with
            | true =>
              simp only [if_true]
              rw [fallbackLoop_exact s d rest _ hrest]
              simp only [helpfulPlans, helpfulSpecialPlans, ha, if_true, List.filterMap_cons,
                hut, hsp, true_and, if_false, ne_eq, not_false_eq_true, and_self, and_false]
              cases hl : (List.filterMap (fun r =>
                  match r with
                  | Except.ok q =>
                    if q.utility = Utility.Helpful ∧ ¬ q.special = "" then some q else none
                  | Except.error _ => none) (usefulPlansOf s d rest)).getLast? with
              | none => simp [List.getLast?_cons, hl]
              | some sp => simp [List.getLast?_cons, hl]
            | false =>
              simp only [Bool.false_eq_true, if_false]
              rw [fallbackLoop_exact s d rest _ hrest]
              simp [helpfulPlans, helpfulSpecialPlans, ha, hut, hsp]
        | Unhelpful =>
          simp only []
          rw [fallbackLoop_exact s d rest _ hrest]
          simp [helpfulPlans, helpfulSpecialPlans, hut]
        | Disallowed =>
          simp only []
          rw [fallbackLoop_exact s d rest _ hrest]
          simp [helpfulPlans, helpfulSpecialPlans, hut]
    · have hE : usefulPlansOf s d (i :: rest) = usefulPlansOf s d rest := by
        simp [usefulPlansOf, List.filter_cons, hu]
      rw [hE] at hall ⊢
      simp only [hu, Bool.not_false, if_true]
      simpa using fallbackLoop_exact s d rest locals hall

/-- Candidates offered to a plan set that has a first plan and may record plans: those
whose index key differs from the first plan's are appended. -/
theorem addCandidatePlans_exact :
    ∀ (cands : List QueryPlan) (s : QueryPlanSet) (first : QueryPlan) (ps : List QueryPlan),
      s.plans = first :: ps → s.mayRecordPlan = true → (∀ q ∈ cands, q.special = "") →
      addCandidatePlans s cands = Except.ok
        { s with plans := s.plans ++
            cands.filter (fun q => decide (q.indexKey ≠ first.indexKey)) }
  | [], s, first, ps, _, _, _ => by simp [addCandidatePlans]
  | c :: cands, s, first, ps, hp, hm, hsp => by
    have hc := hsp c (List.mem_cons_self _ _)
    have hrest : ∀ q ∈ cands, q.special = "" := fun q hq => hsp q (List.mem_cons_of_mem _ hq)
    unfold addCandidatePlans
    by_cases hk : c.indexKey = first.indexKey
    · have h1 : s.addCandidatePlan c = Except.ok s := by
        simp [QueryPlanSet.addCandidatePlan, hp, hk]
      rw [h1]
      simp only []
      rw [addCandidatePlans_exact cands s first ps hp hm hrest]
      simp [List.filter_cons, hk]
    · have h1 : s.addCandidatePlan c = Except.ok { s with plans := s.plans ++ [c] } := by
        simp [QueryPlanSet.addCandidatePlan, hp, hk, QueryPlanSet.pushPlan, hc, Except.map]
        cases s
        simp_all
      rw [h1]
      simp only []
      rw [addCandidatePlans_exact cands { s with plans := s.plans ++ [c] } first (ps ++ [c])
        (by simp [hp]) hm hrest]
      simp [List.filter_cons, hk]

/-- C13 (amended): `QueryPlanGenerator::addFallbackPlans` on an empty plan set of an
existing namespace, when the enumeration of useful indexes yields neither an error, nor
an Impossible plan, nor an Optimal plan.  The table-scan plan can be made.  If the
enumeration has no Helpful plan that is not special, specials are allowed and the
enumeration has a Helpful special plan, the plan set becomes the last such special
plan alone, without the table-scan plan.  In every other case the plan set becomes the
Helpful plans that are not special, in index order, followed by the table-scan plan,
where a candidate with the index key of the first plan of the set is skipped, and the
set may record plans.  The plan cache is unchanged, and every plan of the set other
than the table scan is a Helpful plan of an index for which `indexUseful` holds. -/
theorem addFallbackPlans_candidates (db : Database) (s : QueryPlanSet) (cache : QueryCache)
    (d : NamespaceDetails) (hd : db.nsdetails s.frsp.ns = some d) (hempty : s.plans = [])
    (hall : (usefulPlans s d).all isCandidatePlan = true) :
    ∃ tableScan, s.newPlan (some d) (-1) [] [] "" = Except.ok tableScan ∧
      (∀ specialPlan, helpfulPlans (usefulPlans s d) = [] → s.allowSpecial = true →
        (helpfulSpecialPlans (usefulPlans s d)).getLast? = some specialPlan →
        QueryPlanGenerator.addFallbackPlans db s cache =
          Except.ok ({ s with plans := [specialPlan] }, cache)) ∧
      ((helpfulPlans (usefulPlans s d) ≠ [] ∨ s.allowSpecial = false ∨
          helpfulSpecialPlans (usefulPlans s d) = []) →
        QueryPlanGenerator.addFallbackPlans db s cache =
          Except.ok ({ s with
            plans := keptCandidates (helpfulPlans (usefulPlans s d) ++ [tableScan])
            mayRecordPlan := true }, cache)) ∧
      (∀ s' cache', QueryPlanGenerator.addFallbackPlans db s cache = Except.ok (s', cache') →
        ∀ q ∈ s'.plans, q = tableScan ∨
          (q.utility = Utility.Helpful ∧
            ∃ i, i < d.nIndexes ∧ indexUseful s.frsp d i s.order = true ∧
              s.newPlan (some d) (i : Int) [] [] "" = Except.ok q)) := by
  obtain ⟨tableScan, hts⟩ := newPlan_table_scan_total s (some d)
  have htsSpecial : tableScan.special = "" :=
    (make_table_scan_indexKey hts (by decide)).2.1
  have hloop := fallbackLoop_exact s d (List.range d.nIndexes)
    { plans := [], optimalPlan := none, specialPlan := none } hall
  have hhelpful : ∀ q ∈ helpfulPlans (usefulPlans s d), q.utility = Utility.Helpful ∧
      q.special = "" ∧ Except.ok q ∈ usefulPlans s d := by
    intro q hq
    simp only [helpfulPlans, List.mem_filterMap] at hq
    obtain ⟨r, hr, hrq⟩ := hq
    cases r with
    | error e => simp at hrq
    | ok p =>
      simp only [Option.ite_none_right_eq_some, Option.some.injEq] at hrq
      obtain ⟨⟨h1, h2⟩, h3⟩ := hrq
      subst h3
      exact ⟨h1, h2, hr⟩
  have hspecialMem : ∀ q ∈ helpfulSpecialPlans (usefulPlans s d), q.utility = Utility.Helpful ∧
      Except.ok q ∈ usefulPlans s d := by
    intro q hq
    simp only [helpfulSpecialPlans, List.mem_filterMap] at hq
    obtain ⟨r, hr, hrq⟩ := hq
    cases r with
    | error e => simp at hrq
    | ok p =>
      simp only [Option.ite_none_right_eq_some, Option.some.injEq] at hrq
      obtain ⟨⟨h1, _⟩, h3⟩ := hrq
      subst h3
      exact ⟨h1, hr⟩
  have hfrom : ∀ q, Except.ok q ∈ usefulPlans s d →
      ∃ i, i < d.nIndexes ∧ indexUseful s.frsp d i s.order = true ∧
        s.newPlan (some d) (i : Int) [] [] "" = Except.ok q := by
    intro q hq
    obtain ⟨i, hi, hu, hn⟩ := usefulPlansOf_mem hq
    exact ⟨i, List.mem_range.1 hi, hu, hn⟩
  -- the special plan alone
  have hA : ∀ specialPlan, helpfulPlans (usefulPlans s d) = [] → s.allowSpecial = true →
      (helpfulSpecialPlans (usefulPlans s d)).getLast? = some specialPlan →
      QueryPlanGenerator.addFallbackPlans db s cache =
        Except.ok ({ s with plans := [specialPlan] }, cache) := by
    intro sp hH ha hl
    unfold QueryPlanGenerator.addFallbackPlans
    unfold usefulPlans at hH hl
    rw [hd]
    simp only []
    rw [hloop]
    simp [hH, ha, hl, QueryPlanSet.setSinglePlan, QueryPlanSet.nPlans, hempty,
      QueryPlanSet.pushPlan, Except.map]
  -- the candidates and the table scan
  have hB : (helpfulPlans (usefulPlans s d) ≠ [] ∨ s.allowSpecial = false ∨
        helpfulSpecialPlans (usefulPlans s d) = []) →
      QueryPlanGenerator.addFallbackPlans db s cache =
        Except.ok ({ s with
          plans := keptCandidates (helpfulPlans (usefulPlans s d) ++ [tableScan])
          mayRecordPlan := true }, cache) := by
    intro hcase
    unfold QueryPlanGenerator.addFallbackPlans
    rw [hd]
    simp only []
    rw [hloop]
    simp only [List.nil_append]
    have hnone : (if (helpfulPlans (usefulPlansOf s d (List.range d.nIndexes))).isEmpty = true then
        (match (if s.allowSpecial = true then
            (helpfulSpecialPlans (usefulPlansOf s d (List.range d.nIndexes))).getLast?
            else none) with
          | some specialPlan => some specialPlan
          | none => (none : Option QueryPlan))
        else none) = none := by
      unfold usefulPlans at hcase
      rcases hcase with h | h | h
      · cases hh : helpfulPlans (usefulPlansOf s d (List.range d.nIndexes)) with
        | nil => exact absurd hh h
        | cons _ _ => simp
      · simp [h]
      · simp [h]
    rw [hnone]
    simp only []
    cases hH : helpfulPlans (usefulPlansOf s d (List.range d.nIndexes)) with
    | nil =>
      simp [usefulPlans, hH, addCandidatePlans, hts, QueryPlanSet.addCandidatePlan, hempty,
        QueryPlanSet.pushPlan, htsSpecial, Except.map, keptCandidates]
    | cons h t =>
      have hmem : ∀ q ∈ h :: t, q.special = "" := by
        intro q hq
        rw [← hH] at hq
        exact (hhelpful q hq).2.1
      have hstep : s.addCandidatePlan h =
          Except.ok { s with plans := [h], mayRecordPlan := true } := by
        simp [QueryPlanSet.addCandidatePlan, hempty, QueryPlanSet.pushPlan,
          hmem h (List.mem_cons_self _ _), Except.map]
      have hrest := addCandidatePlans_exact t { s with plans := [h], mayRecordPlan := true } h []
        rfl rfl (fun q hq => hmem q (List.mem_cons_of_mem _ hq))
      simp only [addCandidatePlans, hstep, hrest, hts]
      by_cases hk : tableScan.indexKey = h.indexKey
      · simp [QueryPlanSet.addCandidatePlan, hk, usefulPlans, hH, keptCandidates,
          List.filter_append, Except.map]
      · simp [QueryPlanSet.addCandidatePlan, hk, usefulPlans, hH, keptCandidates,
          List.filter_append, Except.map, QueryPlanSet.pushPlan, htsSpecial]
  refine ⟨tableScan, hts, hA, hB, ?_⟩
  intro s' cache' hres q hq
  by_cases hcase : helpfulPlans (usefulPlans s d) ≠ [] ∨ s.allowSpecial = false ∨
      helpfulSpecialPlans (usefulPlans s d) = []
  · rw [hB hcase] at hres
    cases hres
    simp only at hq
    have hsub : ∀ l : List QueryPlan, ∀ x ∈ keptCandidates l, x ∈ l := by
      intro l x hx
      cases l with
      | nil => simp [keptCandidates] at hx
      | cons a l =>
        simp only [keptCandidates, List.mem_cons, List.mem_filter] at hx
        rcases hx with hx | hx
        · exact hx ▸ List.mem_cons_self _ _
        · exact List.mem_cons_of_mem _ hx.1
    have := hsub _ q hq
    rcases List.mem_append.1 this with h | h
    · right
      exact ⟨(hhelpful q h).1, hfrom q (hhelpful q h).2.2⟩
    · left
      simpa using h
  · simp only [not_or, ne_eq, not_not] at hcase
    obtain ⟨hH, ha, hS⟩ := hcase
    have ha' : s.allowSpecial = true := by simpa using ha
    cases hl : (helpfulSpecialPlans (usefulPlans s d)).getLast? with
    | none => exact absurd (List.getLast?_eq_none_iff.1 hl) hS
    | some sp =>
      rw [hA sp hH ha' hl] at hres
      cases hres
      simp only [List.mem_singleton] at hq
      subst hq
      have hmem := List.mem_of_getLast?_eq_some hl
      right
      exact ⟨(hspecialMem q hmem).1, hfrom q (hspecialMem q hmem).2⟩

theorem addFallbackPlans_candidates_witness :
    (exDb exNsdABC).nsdetails exSetABC.frsp.ns = some exNsdABC ∧ exSetABC.plans = [] ∧
    (usefulPlans exSetABC exNsdABC).all isCandidatePlan = true ∧
    ∃ tableScan, exSetABC.newPlan (some exNsdABC) (-1) [] [] "" = Except.ok tableScan ∧
      QueryPlanGenerator.addFallbackPlans (exDb exNsdABC) exSetABC exEmptyCache =
        Except.ok ({ exSetABC with
          plans := keptCandidates (helpfulPlans (usefulPlans exSetABC exNsdABC) ++ [tableScan])
          mayRecordPlan := true }, exEmptyCache) :=
  ⟨rfl, rfl, rfl,
    (addFallbackPlans_candidates (exDb exNsdABC) exSetABC exEmptyCache exNsdABC rfl rfl rfl).elim
      (fun tableScan h => ⟨tableScan, h.1, h.2.2.1 (Or.inr (Or.inr rfl))⟩)⟩

/-- C13 as stated fails: the collection has one index, which is special and yields a
Helpful plan; the enumeration on the empty plan set finds no Impossible and no Optimal
plan, specials are allowed, and `addFallbackPlans` leaves the plan set with the
special plan alone: the table-scan plan is not added. -/
theorem addFallbackPlans_special_without_table_scan :
    (exDb exNsdGeo).nsdetails exSetGeo.frsp.ns = some exNsdGeo ∧ exSetGeo.plans = [] ∧
    exSetGeo.allowSpecial = true ∧
    (usefulPlans exSetGeo exNsdGeo).map (fun r => r.toOption.map (fun p => p.utility)) =
      [some Utility.Helpful] ∧
    (QueryPlanGenerator.addFallbackPlans (exDb exNsdGeo) exSetGeo exEmptyCache).toOption.map
        (fun r => r.1.plans.map (fun p => (p.idxNo, p.special, p.willScanTable))) =
      some [(0, "2d", false)] :=
  ⟨rfl, rfl, rfl, rfl, rfl⟩

/-! ## An Optimal cached plan is never expanded -/

/-- A plan set whose only plan is Optimal has no possibly excluded plans. -/
theorem hasPossiblyExcludedPlans_optimal {s : QueryPlanSet} {p : QueryPlan}
    (hplans : s.plans = [p]) (hopt : p.utility = Utility.Optimal) :
    s.hasPossiblyExcludedPlans = false := by
  simp [QueryPlanSet.hasPossiblyExcludedPlans, hplans, hopt]

/-- A step of the race on a plan set without possibly excluded plans changes neither
the plan set nor the number of ops. -/
theorem next_step_no_expansion {db : Database} {r r' : Runner} {cache cache' : QueryCache}
    {ret : Nat} (hno : r.plans.hasPossiblyExcludedPlans = false)
    (h : r._next db cache = Except.ok (ret, r', cache')) :
    r'.plans = r.plans ∧ r'.ops.length = r.ops.length ∧ r'.op = r.op ∧ r'.pick = r.pick := by
  unfold Runner._next at h
  cases hpop : r.pop with
  | none => simp [hpop] at h
  | some hq =>
    obtain ⟨holder, queue⟩ := hq
    simp only [hpop] at h
    cases hop : r.ops[holder.op]? with
    | none => simp [hop] at h
    | some op₀ =>
      simp only [hop, hno, Bool.false_and, Bool.false_eq_true, if_false] at h
      by_cases hc : (nextOp r.op op₀).complete = true
      · rw [if_pos hc] at h
        cases h
        simp
      · rw [if_neg hc] at h
        by_cases he : (nextOp r.op op₀).error = true
        · rw [if_pos he] at h
          cases h
          simp
        · rw [if_neg he] at h
          cases h
          simp

/-- The loop of `Runner::next` on a plan set without possibly excluded plans changes
neither the plan set nor the number of ops. -/
theorem nextLoop_no_expansion (db : Database) :
    ∀ (fuel : Nat) (r r' : Runner) (cache cache' : QueryCache) (ret : Nat),
      r.plans.hasPossiblyExcludedPlans = false →
      Runner.nextLoop db fuel r cache = Except.ok (ret, r', cache') →
      r'.plans = r.plans ∧ r'.ops.length = r.ops.length ∧ r'.op = r.op ∧ r'.pick = r.pick
  | 0, r, r', cache, cache', ret, _, h => by simp [Runner.nextLoop] at h
  | fuel + 1, r, r', cache, cache', ret, hno, h => by
    unfold Runner.nextLoop at h
    cases hstep : r._next db cache with
    | error e => simp [hstep] at h
    | ok res =>
      obtain ⟨ret₁, r₁, cache₁⟩ := res
      simp only [hstep] at h
      obtain ⟨hp, hl, ho, hk⟩ := next_step_no_expansion hno hstep
      split at h
      · obtain ⟨hp', hl', ho', hk'⟩ :=
          nextLoop_no_expansion db fuel r₁ r' cache₁ cache' ret (by rw [hp]; exact hno) h
        exact ⟨hp'.trans hp, hl'.trans hl, ho'.trans ho, hk'.trans hk⟩
      · cases h
        split <;> simp [hp, hl, ho, hk]

/-- What `Runner::init` leaves unchanged, and the ops it creates. -/
theorem init_ok {r r₁ : Runner} {o : Option Nat} (h : r.init = Except.ok (o, r₁)) :
    r₁.plans = r.plans ∧ r₁.op = r.op ∧ r₁.pick = r.pick ∧
      r₁.ops.length = r.ops.length + r.plans.plans.length := by
  unfold Runner.init at h
  by_cases hlen : r.plans.plans.length > 0
  · simp only [hlen, if_true] at h
    cases hf : firstComplete (List.map (initOp r.op)
        (r.ops ++ List.map QueryOp.createChild r.plans.plans)) 0 with
    | some i =>
      simp only [hf] at h
      cases h
      simp
    | none =>
      simp only [hf] at h
      split at h <;> cases h <;> simp
  · simp [hlen] at h

/-- A call of `Runner::next` on a plan set without possibly excluded plans leaves the
plan set as it is, and the ops are those of `Runner::init`, one per plan. -/
theorem next_no_expansion {db : Database} {r r' : Runner} {cache cache' : QueryCache}
    {ret : Nat} (hno : r.plans.hasPossiblyExcludedPlans = false)
    (h : r.next db cache = Except.ok (ret, r', cache')) :
    r'.plans = r.plans ∧ r'.op = r.op ∧ r'.pick = r.pick ∧
      r'.ops.length = (if r.ops.isEmpty then r.plans.plans.length else r.ops.length) := by
  unfold Runner.next at h
  by_cases hd : r.done = true
  · simp [hd] at h
  · simp only [hd, Bool.false_eq_true, if_false] at h
    by_cases he : r.ops.isEmpty = true
    · simp only [he, if_true] at h ⊢
      have hnil : r.ops = [] := by simpa using he
      cases hinit : r.init with
      | error e => simp [hinit] at h
      | ok res =>
        obtain ⟨o, r₁⟩ := res
        obtain ⟨hp₁, ho₁, hk₁, hl₁⟩ := init_ok hinit
        rw [hnil] at hl₁
        simp only [List.length_nil, Nat.zero_add] at hl₁
        cases o with
        | some initialRet =>
          simp only [hinit] at h
          cases h
          exact ⟨hp₁, ho₁, hk₁, hl₁⟩
        | none =>
          simp only [hinit] at h
          obtain ⟨hp, hl, ho, hk⟩ :=
            nextLoop_no_expansion db _ r₁ r' cache cache' ret (by rw [hp₁]; exact hno) h
          exact ⟨hp.trans hp₁, ho.trans ho₁, hk.trans hk₁, hl.trans hl₁⟩
    · simp only [he, Bool.false_eq_true, if_false] at h ⊢
      obtain ⟨hp, hl, ho, hk⟩ := nextLoop_no_expansion db _ r r' cache cache' ret hno h
      exact ⟨hp, ho, hk, hl⟩

/-- Successive calls of `Runner::next` on a plan set without possibly excluded plans
leave the plan set as it is. -/
theorem afterCalls_no_expansion (db : Database) :
    ∀ (n : Nat) (r r' : Runner) (cache cache' : QueryCache),
      r.plans.hasPossiblyExcludedPlans = false →
      Runner.afterCalls db n r cache = Except.ok (r', cache') →
      r'.plans = r.plans ∧
        (n > 0 → r'.ops.length =
          (if r.ops.isEmpty then r.plans.plans.length else r.ops.length))
  | 0, r, r', cache, cache', _, h => by
    simp only [Runner.afterCalls] at h
    cases h
    exact ⟨rfl, fun h => absurd h (by decide)⟩
  | n + 1, r, r', cache, cache', hno, h => by
    simp only [Runner.afterCalls] at h
    cases hstep : r.next db cache with
    | error e => simp [hstep] at h
    | ok res =>
      obtain ⟨ret₁, r₁, cache₁⟩ := res
      simp only [hstep] at h
      obtain ⟨hp, _, _, hl⟩ := next_no_expansion hno hstep
      obtain ⟨hp', hl'⟩ :=
        afterCalls_no_expansion db n r₁ r' cache₁ cache' (by rw [hp]; exact hno) h
      refine ⟨hp'.trans hp, fun _ => ?_⟩
      cases n with
      | zero =>
        simp only [Runner.afterCalls] at h
        cases h
        exact hl
      | succ m =>
        rw [hl' (Nat.succ_pos m), hp, hl]
        by_cases he : r.ops.isEmpty = true
        · have hne : r.plans.plans.length ≠ 0 := by
            intro h0
            unfold Runner.next Runner.init at hstep
            by_cases hd : r.done = true
            · simp [hd] at hstep
            · simp [hd, he, h0] at hstep
          have : r₁.ops.isEmpty = false := by
            cases ho : r₁.ops with
            | nil => rw [ho] at hl; simp [he] at hl; exact absurd hl.symm hne
            | cons _ _ => rfl
          simp [this, he, hl]
        · have : r₁.ops.isEmpty = false := by
            cases ho : r₁.ops with
            | nil =>
              rw [ho] at hl
              simp only [he, Bool.false_eq_true, if_false, List.length_nil] at hl
              have : r.ops = [] := List.length_eq_zero.1 hl.symm
              simp [this] at he
            | cons _ _ => rfl
          simp [this, he, hl]

/-- C18: when the only plan of the set, such as a replayed cached plan, is Optimal, the
plan set has no possibly excluded plans whatever scan count the cache stored, so that
no number of calls of `Runner::next` performs a fallback expansion: the plan set stays
as it is and the ops are the one op per plan that `Runner::init` created, however many
documents the op scans; and `MultiPlanScanner::singlePlan`, outside `$or` mode,
reports the plan as the single plan. -/
theorem optimal_cached_plan_never_expands (db : Database) (r : Runner) (cache : QueryCache)
    (p : QueryPlan) (hplans : r.plans.plans = [p]) (hopt : p.utility = Utility.Optimal) :
    r.plans.hasPossiblyExcludedPlans = false ∧
    (∀ n r' cache', Runner.afterCalls db n r cache = Except.ok (r', cache') →
      r'.plans = r.plans ∧
      (n > 0 → r'.ops.length = (if r.ops.isEmpty then 1 else r.ops.length))) ∧
    (∀ mps : MultiPlanScanner, mps.or = false → mps.currentQps = some r.plans →
      mps.singlePlan = Except.ok (some p)) := by
  have hno := hasPossiblyExcludedPlans_optimal hplans hopt
  refine ⟨hno, fun n r' cache' h => ?_, fun mps hor hqps => ?_⟩
  · have := afterCalls_no_expansion db n r r' cache cache' hno h
    simpa [hplans] using this
  · simp [MultiPlanScanner.singlePlan, hqps, hor, hno, QueryPlanSet.nPlans, hplans]

theorem optimal_cached_plan_never_expands_witness :
    exRunnerOptimal.plans.plans = [exPlanAB] ∧ exPlanAB.utility = Utility.Optimal ∧
    exRunnerOptimal.plans.usingCachedPlan = true ∧ exRunnerOptimal.plans.oldNScanned = 0 ∧
    (Runner.afterCalls (exDb exNsdAB) 3 exRunnerOptimal exCacheAB).toOption.map
        (fun x => x.1.ops.map (fun o => (o.nscanned, o.complete, o.error))) =
      some [(60, false, false)] ∧
    (∀ r' cache',
      Runner.afterCalls (exDb exNsdAB) 3 exRunnerOptimal exCacheAB = Except.ok (r', cache') →
      r'.plans = exRunnerOptimal.plans ∧
      ((3 : Nat) > 0 → r'.ops.length = (if exRunnerOptimal.ops.isEmpty then 1
        else exRunnerOptimal.ops.length))) :=
  ⟨rfl, rfl, rfl, rfl, rfl,
    (optimal_cached_plan_never_expands (exDb exNsdAB) exRunnerOptimal exCacheAB exPlanAB rfl
      rfl).2.1 3⟩

/-! ## `usingCachedPlan` and the number of plans -/

/-- C19 at the failing input: on the collection with indexes `{a:1}`, `{b:1}`, `{c:1}`
and the plan cache entry `({a:1}, 1)`, `QueryPlanSet::init` replays the cached plan
(usingCachedPlan true, one plan); the first call of `Runner::next` on a new Runner
overruns the cached scan count and expands the plan set, the op on `{c:1}` is complete
right after its init and is returned; in the state reached usingCachedPlan is still
true and the plan set holds four plans. -/
theorem usingCachedPlan_with_several_plans :
    (QueryPlanSet.init (exDb exNsdABC) exSetABC exCacheA).toOption.map
        (fun x => (x.1.usingCachedPlan, x.1.plans.map (fun p => p.indexKey))) =
      some (true, [[exEl "a" 1]]) ∧
    ((QueryPlanSet.init (exDb exNsdABC) exSetABC exCacheA).toOption.bind
        (fun x => ((Runner.new x.1 (exScanner 2) exFifo).next (exDb exNsdABC) x.2).toOption)).map
        (fun y => (y.2.1.plans.usingCachedPlan, y.2.1.plans.plans.map (fun p => p.indexKey),
          (y.2.1.ops[y.1]?).map (fun o => o.complete))) =
      some (true, [[exEl "a" 1], [exEl "b" 1], [exEl "c" 1], [exEl "$natural" 1]],
        some true) :=
  ⟨rfl, rfl⟩

/-! ## Bounds that contradict the index direction -/

/-- Past the significant field, `indexWorks` only compares field names. -/
theorem indexWorks_past (direction firstSignificantField : Int) :
    ∀ (p k : BSONObj) (i : Int), p.map (fun e => e.fieldName) = k.map (fun e => e.fieldName) →
      firstSignificantField < i → indexWorks p k direction firstSignificantField i = true
  | [], [], _, _, _ => by simp [indexWorks]
  | [], _ :: _, _, h, _ => by simp at h
  | _ :: _, [], _, h, _ => by simp at h
  | pe :: p, ke :: k, i, h, hlt => by
    simp only [List.map_cons, List.cons.injEq] at h
    have hne : ¬ i = firstSignificantField := by omega
    simp only [indexWorks, h.1, ne_eq, not_true_eq_false, if_false, hne, false_and]
    exact indexWorks_past direction firstSignificantField p k (i + 1) h.2 (by omega)

/-- On keys with the field names of the pattern, `indexWorks` is the test of the
direction at the significant field. -/
theorem indexWorks_at (direction : Int) :
    ∀ (p k : BSONObj) (i : Int) (j : Nat),
      p.map (fun e => e.fieldName) = k.map (fun e => e.fieldName) →
      indexWorks p k direction (i + j) i =
        (match p[j]? with
         | some pe => decide (decide (direction > 0) = decide (pe.number > 0))
         | none => true)
  | [], [], _, _, _ => by simp [indexWorks]
  | [], _ :: _, _, _, h => by simp at h
  | _ :: _, [], _, _, h => by simp at h
  | pe :: p, ke :: k, i, 0, h => by
    simp only [List.map_cons, List.cons.injEq] at h
    simp only [indexWorks, h.1, ne_eq, not_true_eq_false, if_false, Nat.cast_zero, add_zero,
      true_and, List.getElem?_cons_zero]
    by_cases hd : decide (direction > 0) = decide (pe.number > 0)
    · simp only [hd, not_true_eq_false, if_false, decide_True]
      exact indexWorks_past direction i p k (i + 1) h.2 (by omega)
    · simp [hd]
  | pe :: p, ke :: k, i, j + 1, h => by
    simp only [List.map_cons, List.cons.injEq] at h
    have hne : ¬ i = i + ((j + 1 : Nat) : Int) := by omega
    simp only [indexWorks, h.1, ne_eq, not_true_eq_false, if_false, hne, false_and,
      List.getElem?_cons_succ]
    have := indexWorks_at direction p k (i + 1) j h.2
    rw [show i + ((j + 1 : Nat) : Int) = i + 1 + (j : Int) from by push_cast; ring]
    exact this

/-- What `keyAudit` finds on two keys with the same field names, against the
directions of a key pattern: the significant field is a position from the counter
on, and the direction test at that field passes exactly when the pair is not
self-contradictory. -/
theorem keyAudit_selfContradictory (db : Database) :
    ∀ (p i a : BSONObj) (c : Int), (∀ e ∈ p, e.number ≠ 0) →
      i.map (fun e => e.fieldName) = p.map (fun e => e.fieldName) →
      a.map (fun e => e.fieldName) = p.map (fun e => e.fieldName) →
      ∃ j : Nat, (keyAudit db i a c).2 = c + j ∧
        ((match p[j]? with
          | some pe => decide (decide ((keyAudit db i a c).1 > 0) = decide (pe.number > 0))
          | none => true) = !selfContradictory db p i a)
  | [], [], [], c, _, _, _ => ⟨0, by simp [keyAudit], by simp [selfContradictory]⟩
  | [], _ :: _, _, _, _, h, _ => by simp at h
  | [], [], _ :: _, _, _, _, h => by simp at h
  | _ :: _, [], _, _, _, h, _ => by simp at h
  | _ :: _, _ :: _, [], _, _, _, h => by simp at h
  | pe :: p, ie :: i, ae :: a, c, hdir, hi, ha => by
    simp only [List.map_cons, List.cons.injEq] at hi ha
    have hname : ie.fieldName = ae.fieldName := hi.1.trans ha.1.symm
    have hpe : pe.number ≠ 0 := hdir pe (List.mem_cons_self _ _)
    rcases lt_trichotomy (db.woCompare ie ae) 0 with hlt | heq | hgt
    · refine ⟨0, ?_, ?_⟩
      · have h1 : ¬ db.woCompare ie ae > 0 := by omega
        simp [keyAudit, hname, h1, hlt]
      · have h1 : ¬ db.woCompare ie ae > 0 := by omega
        have h2 : ¬ db.woCompare ie ae = 0 := by omega
        simp only [keyAudit, hname, ne_eq, not_true_eq_false, if_false, h1, hlt, if_true,
          List.getElem?_cons_zero, selfContradictory, h2, decide_False, Bool.false_and,
          decide_True, Bool.true_and, Bool.false_or]
        by_cases hp : pe.number > 0
        · have : ¬ pe.number < 0 := by omega
          simp [hp, this]
        · have : pe.number < 0 := by omega
          simp [hp, this]
    · obtain ⟨j, hj, hcheck⟩ := keyAudit_selfContradictory db p i a (c + 1)
        (fun e he => hdir e (List.mem_cons_of_mem _ he)) hi.2 ha.2
      refine ⟨j + 1, ?_, ?_⟩
      · simp only [keyAudit, hname, ne_eq, not_true_eq_false, if_false, heq, lt_self_iff_false,
          gt_iff_lt]
        simp only [if_false, not_true_eq_false] at *
        rw [hj]
        push_cast
        ring
      · simp only [keyAudit, hname, ne_eq, not_true_eq_false, if_false, heq, lt_self_iff_false,
          gt_iff_lt, List.getElem?_cons_succ, selfContradictory, if_true]
        simp only [if_false, not_true_eq_false] at *
        exact hcheck
    · refine ⟨0, ?_, ?_⟩
      · simp [keyAudit, hname, hgt]
      · have h1 : ¬ db.woCompare ie ae < 0 := by omega
        have h2 : ¬ db.woCompare ie ae = 0 := by omega
        simp only [keyAudit, hname, ne_eq, not_true_eq_false, if_false, gt_iff_lt, hgt, if_true,
          List.getElem?_cons_zero, selfContradictory, h2, decide_True, Bool.true_and, h1,
          decide_False, Bool.false_and, Bool.or_false]
        by_cases hp : pe.number > 0
        · simp [hp]
        · simp [hp]

/-- A loop over the indexes finds an index when one passes its test. -/
theorem findIndexFrom_some (test : IndexDetails → Bool) :
    ∀ (l : List IndexDetails) (n : Nat), (∃ ii ∈ l, test ii = true) →
      ∃ r, findIndexFrom test l n = some r
  | [], _, h => by
    obtain ⟨_, hm, _⟩ := h
    simp at hm
  | ii :: rest, n, h => by
    unfold findIndexFrom
    by_cases ht : test ii = true
    · exact ⟨(n, ii), by simp [ht]⟩
    · obtain ⟨x, hm, hx⟩ := h
      rcases List.mem_cons.1 hm with hm | hm
      · subst hm
        exact absurd hx ht
      · simp only [ht, Bool.false_eq_true, if_false]
        exact findIndexFrom_some test rest (n + 1) ⟨x, hm, hx⟩

/-- A pair of keys that compare equal on every field is not self-contradictory. -/
theorem selfContradictory_equal (db : Database) :
    ∀ (p min max : BSONObj), (∀ x ∈ min.zip max, db.woCompare x.1 x.2 = 0) →
      selfContradictory db p min max = false
  | [], _, _, _ => by simp [selfContradictory]
  | _ :: _, [], _, _ => by simp [selfContradictory]
  | _ :: _, _ :: _, [], _ => by simp [selfContradictory]
  | pe :: p, ie :: i, ae :: a, h => by
    have h0 := h (ie, ae) (by simp)
    simp only at h0
    simp only [selfContradictory, h0, if_true]
    exact selfContradictory_equal db p i a (fun x hx => h x (by simp [hx]))

/-- C16: for a key pattern with numeric non-zero directions of an index of the
collection, and non-empty `min` and `max` keys carrying exactly the field names of the
pattern in order, `indexDetailsForRange` called with that pattern returns; it returns
no index, with an error message, if and only if the pair is self-contradictory for the
pattern (at the first field where the keys differ, `min` is greater on an ascending
field or less on a descending field); a pair whose keys compare equal on every field is
accepted; and when the pair is self-contradictory the generator
(`setHintedPlanForIndex`) raises error 10365 and sets no plan. -/
theorem indexDetailsForRange_fails_iff (db : Database) (ns : String) (d : NamespaceDetails)
    (index : IndexDetails) (min max : BSONObj)
    (hd : db.nsdetails ns = some d) (hmem : index ∈ d.indexes)
    (hdir : ∀ e ∈ index.keyPattern, e.number ≠ 0)
    (hmin : min ≠ []) (hmax : max ≠ [])
    (hminNames : min.map (fun e => e.fieldName) = index.keyPattern.map (fun e => e.fieldName))
    (hmaxNames : max.map (fun e => e.fieldName) = index.keyPattern.map (fun e => e.fieldName)) :
    ∃ r, indexDetailsForRange db ns min max index.keyPattern = Except.ok r ∧
      (r.id = none ↔ selfContradictory db index.keyPattern min max = true) ∧
      (r.id = none → r.errmsg ≠ "") ∧
      ((∀ x ∈ min.zip max, db.woCompare x.1 x.2 = 0) → r.id ≠ none) ∧
      (selfContradictory db index.keyPattern min max = true →
        ∀ (s : QueryPlanSet) (idxNo : Nat), s.frsp.ns = ns → s.min = min → s.max = max →
          QueryPlanGenerator.setHintedPlanForIndex db s idxNo index =
            Except.error (QueryError.msgasserted 10365)) := by
  obtain ⟨j, hj, hcheck⟩ := keyAudit_selfContradictory db index.keyPattern min max 0 hdir
    hminNames hmaxNames
  have hminE : min.isEmpty = false := by
    cases min with
    | nil => exact absurd rfl hmin
    | cons _ _ => rfl
  have hmaxE : max.isEmpty = false := by
    cases max with
    | nil => exact absurd rfl hmax
    | cons _ _ => rfl
  have hkpE : index.keyPattern.isEmpty = false := by
    cases hk : index.keyPattern with
    | nil =>
      rw [hk] at hminNames
      cases min with
      | nil => exact absurd rfl hmin
      | cons _ _ => simp at hminNames
    | cons _ _ => rfl
  have hflex : flexibleKeyAudit db min max = keyAudit db min max 0 := by
    simp [flexibleKeyAudit, hminE, hmaxE]
  have hret : ¬ keyAudit db min max 0 = (-1, -1) := by
    intro h
    rw [h] at hj
    simp only at hj
    omega
  have hworks : indexWorks index.keyPattern min (keyAudit db min max 0).1
      (keyAudit db min max 0).2 0 = !selfContradictory db index.keyPattern min max := by
    rw [hj, indexWorks_at _ _ _ 0 j hminNames.symm]
    exact hcheck
  obtain ⟨found, hfound⟩ := findIndexFrom_some
    (fun ii => decide (ii.keyPattern = index.keyPattern) ||
      (decide (index.keyPattern.length = 1) && decide (ii.keyPattern.length = 1) &&
        db.isIdIndexPattern index.keyPattern && ii.isIdIndex))
    d.indexes 0 ⟨index, hmem, by simp⟩
  have hres : ∀ sc, selfContradictory db index.keyPattern min max = sc →
      indexDetailsForRange db ns min max index.keyPattern =
        Except.ok (if sc then
          { id := none, errmsg := "requested keyPattern does not match specified keys",
            min := min, max := max, keyPattern := index.keyPattern }
        else
          { id := some found, errmsg := ""
            min := db.extractFieldsUnDotted min index.keyPattern
            max := db.extractFieldsUnDotted max index.keyPattern
            keyPattern := index.keyPattern }) := by
    intro sc hsc
    unfold indexDetailsForRange
    simp only [hminE, hmaxE, Bool.and_self, Bool.false_eq_true, if_false, hd, hflex, hret,
      hkpE, hworks, hsc]
    cases sc
    · simp [hfound]
    · simp
  have hzero := selfContradictory_equal db index.keyPattern min max
  cases hsc : selfContradictory db index.keyPattern min max with
  | true =>
    refine ⟨_, hres true hsc, by simp, by simp, ?_, ?_⟩
    · intro h
      rw [hzero h] at hsc
      cases hsc
    · intro _ s idxNo hns hsmin hsmax
      unfold QueryPlanGenerator.setHintedPlanForIndex
      simp [hns, hsmin, hsmax, hminE, hres true hsc]
  | false =>
    refine ⟨_, hres false hsc, by simp, by simp, by simp, ?_⟩
    intro h
    cases h

theorem indexDetailsForRange_fails_iff_witness :
    ∃ r, indexDetailsForRange (exDb exNsdAB) "test.c" [exEl "a" 5, exEl "b" 0]
        [exEl "a" 1, exEl "b" 9] (exIndex "a_1_b_1" [exEl "a" 1, exEl "b" 1]).keyPattern =
        Except.ok r ∧
      (r.id = none ↔
        selfContradictory (exDb exNsdAB) (exIndex "a_1_b_1" [exEl "a" 1, exEl "b" 1]).keyPattern
          [exEl "a" 5, exEl "b" 0] [exEl "a" 1, exEl "b" 9] = true) ∧
      selfContradictory (exDb exNsdAB) (exIndex "a_1_b_1" [exEl "a" 1, exEl "b" 1]).keyPattern
          [exEl "a" 5, exEl "b" 0] [exEl "a" 1, exEl "b" 9] = true :=
  (indexDetailsForRange_fails_iff (exDb exNsdAB) "test.c" exNsdAB
    (exIndex "a_1_b_1" [exEl "a" 1, exEl "b" 1]) [exEl "a" 5, exEl "b" 0]
    [exEl "a" 1, exEl "b" 9] rfl (by simp [exNsdAB]) (by decide) (by simp) (by simp) rfl
    rfl).elim (fun r h => ⟨r, h.1, h.2.1, rfl⟩)

/-! ## The order of the short-circuit cases -/

/-- On an empty plan set `setSingleUnindexedPlan` makes the unindexed plan the only
plan. -/
theorem setSingleUnindexedPlan_empty (s : QueryPlanSet) (d : Option NamespaceDetails)
    (hempty : s.plans = []) :
    ∃ unindexed, s.newPlan d (-1) [] [] "" = Except.ok unindexed ∧ unindexed.idxNo = -1 ∧
      unindexed.index = none ∧
      QueryPlanGenerator.setSingleUnindexedPlan s d =
        Except.ok { s with plans := [unindexed] } := by
  obtain ⟨p, hp⟩ := newPlan_table_scan_total s d
  have hfix := make_fixed hp
  have hts := make_table_scan_indexKey hp (by decide)
  refine ⟨p, hp, hfix.2.2.1, hts.1, ?_⟩
  simp [QueryPlanGenerator.setSingleUnindexedPlan, hp, QueryPlanSet.setSinglePlan,
    QueryPlanSet.nPlans, hempty, QueryPlanSet.pushPlan, hts.2.1]

/-- A step that returns true when it returns does not return false. -/
theorem map_true_ne_false {x : Except QueryError QueryPlanSet} {s' : QueryPlanSet} :
    x.map (fun s₁ => (true, s₁)) ≠ Except.ok (false, s') := by
  cases x <;> simp [Except.map]

/-- When a hint, `min` or `max` is given, `addHintPlan` never returns false. -/
theorem addHintPlan_decides {db : Database} {s s' : QueryPlanSet} {d : NamespaceDetails}
    (hgiven : s.hint ≠ HintElement.eoo ∨ s.min ≠ [] ∨ s.max ≠ []) :
    QueryPlanGenerator.addHintPlan db s d ≠ Except.ok (false, s') := by
  intro h
  unfold QueryPlanGenerator.addHintPlan at h
  by_cases hh : s.hint = HintElement.eoo
  · have hmm : (!s.min.isEmpty || !s.max.isEmpty) = true := by
      rcases hgiven with h1 | h1 | h1
      · exact absurd hh h1
      · cases hm : s.min with
        | nil => exact absurd hm h1
        | cons _ _ => simp
      · cases hm : s.max with
        | nil => exact absurd hm h1
        | cons _ _ => simp
    rw [if_neg (by simp [hh]), if_pos hmm] at h
    cases hr : indexDetailsForRange db s.frsp.ns s.min s.max [] with
    | error e => rw [hr] at h; cases h
    | ok r =>
      rw [hr] at h
      simp only at h
      cases hid : r.id with
      | none => rw [hid] at h; cases h
      | some found =>
        rw [hid] at h
        simp only at h
        split at h
        · cases h
        · exact map_true_ne_false h
  · rw [if_pos hh] at h
    cases hp : parseHint s.hint d with
    | error e => rw [hp] at h; cases h
    | ok o =>
      rw [hp] at h
      cases o with
      | none =>
        simp only at h
        split at h
        · exact map_true_ne_false h
        · cases h
      | some found =>
        obtain ⟨idxNo, id⟩ := found
        simp only at h
        exact map_true_ne_false h

/-- When `addSpecialPlan` returns false the plan set is unchanged. -/
theorem addSpecialPlan_false {s s' : QueryPlanSet} {d : NamespaceDetails}
    (h : QueryPlanGenerator.addSpecialPlan s d = Except.ok (false, s')) : s' = s := by
  unfold QueryPlanGenerator.addSpecialPlan at h
  simp only at h
  split at h
  · split at h
    · split at h
      · cases h
      · split at h
        · cases h
        · exact absurd h map_true_ne_false
    · split at h
      · cases h; rfl
      · cases h
  · cases h; rfl

/-- C12: `QueryPlanGenerator::addShortCircuitPlan` on an empty plan set decides by the
first case that applies, in this order.  If the namespace is missing or no match is
possible, it returns true with the unindexed plan as the only plan, whatever the hint,
`min` and `max` are (none of them is examined, no error is raised for them).
Otherwise, if a hint, `min` or `max` is given, its result is the result of
`addHintPlan`, which is never false.  Otherwise its result is the result of
`addSpecialPlan` unless that is false, which leaves the plan set unchanged and is the
only result when no special operator is requested.  Otherwise, if the clause has no
constrained range and no sort order, or if the sort order starts with `$natural`, it
returns true with the unindexed plan as the only plan; and in the remaining case it
returns false with the plan set unchanged. -/
theorem addShortCircuitPlan_order (db : Database) (s : QueryPlanSet)
    (d : Option NamespaceDetails) (hempty : s.plans = []) :
    ∃ unindexed, s.newPlan d (-1) [] [] "" = Except.ok unindexed ∧ unindexed.idxNo = -1 ∧
      unindexed.index = none ∧
      ((d = none ∨ s.frsp.matchPossible = false) →
        QueryPlanGenerator.addShortCircuitPlan db s d =
          Except.ok (true, { s with plans := [unindexed] })) ∧
      (∀ nsd, d = some nsd → s.frsp.matchPossible = true →
        ((s.hint ≠ HintElement.eoo ∨ s.min ≠ [] ∨ s.max ≠ []) →
          QueryPlanGenerator.addShortCircuitPlan db s d =
            QueryPlanGenerator.addHintPlan db s nsd ∧
          ∀ s', QueryPlanGenerator.addHintPlan db s nsd ≠ Except.ok (false, s')) ∧
        (s.hint = HintElement.eoo → s.min = [] → s.max = [] →
          (s.frsp.getSpecial = "" →
            QueryPlanGenerator.addSpecialPlan s nsd = Except.ok (false, s)) ∧
          (∀ s', QueryPlanGenerator.addSpecialPlan s nsd = Except.ok (false, s') → s' = s) ∧
          (QueryPlanGenerator.addSpecialPlan s nsd ≠ Except.ok (false, s) →
            QueryPlanGenerator.addShortCircuitPlan db s d =
              QueryPlanGenerator.addSpecialPlan s nsd) ∧
          (QueryPlanGenerator.addSpecialPlan s nsd = Except.ok (false, s) →
            (((s.frsp.noNonUniversalRanges = true ∧ s.order = []) ∨
                (s.order ≠ [] ∧ firstElementFieldName s.order = "$natural")) →
              QueryPlanGenerator.addShortCircuitPlan db s d =
                Except.ok (true, { s with plans := [unindexed] })) ∧
            (¬ (s.frsp.noNonUniversalRanges = true ∧ s.order = []) →
              ¬ (s.order ≠ [] ∧ firstElementFieldName s.order = "$natural") →
              QueryPlanGenerator.addShortCircuitPlan db s d = Except.ok (false, s))))) := by
  obtain ⟨unindexed, hnew, hidx, hindex, hset⟩ := setSingleUnindexedPlan_empty s d hempty
  refine ⟨unindexed, hnew, hidx, hindex, ?_, ?_⟩
  · rintro (hd | hm)
    · subst hd
      simp [QueryPlanGenerator.addShortCircuitPlan, orElseStep,
        QueryPlanGenerator.setUnindexedPlanIf, hset, Except.map]
    · cases d with
      | none =>
        simp [QueryPlanGenerator.addShortCircuitPlan, orElseStep,
          QueryPlanGenerator.setUnindexedPlanIf, hset, Except.map]
      | some nsd =>
        simp [QueryPlanGenerator.addShortCircuitPlan, orElseStep,
          QueryPlanGenerator.setUnindexedPlanIf, hset, Except.map, hm]
  · intro nsd hd hm
    subst hd
    have hstart : QueryPlanGenerator.addShortCircuitPlan db s (some nsd) =
        orElseStep (QueryPlanGenerator.addHintPlan db s nsd) fun s =>
        orElseStep (QueryPlanGenerator.addSpecialPlan s nsd) fun s =>
        orElseStep
          (QueryPlanGenerator.setUnindexedPlanIf s
            (s.frsp.noNonUniversalRanges && s.order.isEmpty) (some nsd)) fun s =>
        QueryPlanGenerator.setUnindexedPlanIf s
          (!s.order.isEmpty && decide (firstElementFieldName s.order = "$natural"))
          (some nsd) := by
      simp [QueryPlanGenerator.addShortCircuitPlan, orElseStep,
        QueryPlanGenerator.setUnindexedPlanIf, hm]
    refine ⟨fun hgiven => ⟨?_, fun s' => addHintPlan_decides hgiven⟩, ?_⟩
    · rw [hstart]
      cases hh : QueryPlanGenerator.addHintPlan db s nsd with
      | error e => rfl
      | ok r =>
        obtain ⟨b, s'⟩ := r
        cases b with
        | true => rfl
        | false => exact absurd hh (addHintPlan_decides hgiven)
    · intro hhint hmin hmax
      have hnohint : QueryPlanGenerator.addHintPlan db s nsd = Except.ok (false, s) := by
        simp [QueryPlanGenerator.addHintPlan, hhint, hmin, hmax]
      rw [hstart, hnohint]
      simp only [orElseStep]
      refine ⟨fun hsp => ?_, fun s' h => addSpecialPlan_false h, fun hne => ?_, fun hfalse => ?_⟩
      · simp [QueryPlanGenerator.addSpecialPlan, hsp]
      · cases hsp : QueryPlanGenerator.addSpecialPlan s nsd with
        | error e => rfl
        | ok r =>
          obtain ⟨b, s'⟩ := r
          cases b with
          | true => rfl
          | false =>
            have := addSpecialPlan_false hsp
            subst this
            exact absurd hsp hne
      · rw [hfalse]
        simp only []
        have hemptyOrder : s.order.isEmpty = true ↔ s.order = [] := by
          cases s.order <;> simp
        constructor
        · rintro (⟨h1, h2⟩ | ⟨h1, h2⟩)
          · simp [QueryPlanGenerator.setUnindexedPlanIf, h1, h2, hset, Except.map]
          · have h3 : s.order.isEmpty = false := by
              cases ho : s.order with
              | nil => exact absurd ho h1
              | cons _ _ => rfl
            simp [QueryPlanGenerator.setUnindexedPlanIf, h3, h2, hset, Except.map]
        · intro h1 h2
          have hc1 : (s.frsp.noNonUniversalRanges && s.order.isEmpty) = false := by
            cases hn : s.frsp.noNonUniversalRanges with
            | false => rfl
            | true =>
              cases ho : s.order with
              | nil => exact absurd ⟨hn, ho⟩ h1
              | cons _ _ => rfl
          have hc2 : (!s.order.isEmpty &&
              decide (firstElementFieldName s.order = "$natural")) = false := by
            cases ho : s.order with
            | nil => rfl
            | cons e rest =>
              have : ¬ firstElementFieldName (e :: rest) = "$natural" := by
                intro hf
                exact h2 ⟨by simp [ho], by rw [ho]; exact hf⟩
              simp [this]
          simp [QueryPlanGenerator.setUnindexedPlanIf, hc1, hc2]

theorem addShortCircuitPlan_order_witness :
    (exSetBadHint exFrspA).plans = [] ∧
    (∃ unindexed, (exSetBadHint exFrspA).newPlan none (-1) [] [] "" = Except.ok unindexed ∧
      QueryPlanGenerator.addShortCircuitPlan exDbEmpty (exSetBadHint exFrspA) none =
        Except.ok (true, { exSetBadHint exFrspA with plans := [unindexed] })) ∧
    (QueryPlanGenerator.addHintPlan (exDb exNsdAB) (exSetBadHint exFrspA) exNsdAB).toOption.map
      (fun r => r.1) = none :=
  ⟨rfl,
    (addShortCircuitPlan_order exDbEmpty (exSetBadHint exFrspA) none rfl).elim
      (fun unindexed h => ⟨unindexed, h.1, h.2.2.2.1 (Or.inl rfl)⟩),
    rfl⟩

/-! ## The useless `$or` test -/

/-- `handleBeginningOfClause` leaves `_or` as it is. -/
theorem handleBeginningOfClause_or {db : Database} {mps mps' : MultiPlanScanner}
    {cache cache' : QueryCache}
    (h : mps.handleBeginningOfClause db cache = Except.ok (mps', cache')) :
    mps'.or = mps.or := by
  unfold MultiPlanScanner.handleBeginningOfClause at h
  split at h
  · cases h
  · split at h
    · cases h
    · simp only at h
      split at h
      · cases h
      · cases h
        rfl

/-- C14 (amended): `QueryUtilIndexed::uselessOr` with no hint (`hintIdx` = -1) returns
true exactly when for some `$or` clause no index of the collection is useful, so that
it returns false when there is no clause.  `MultiPlanScanner::init`, when it returns,
leaves `$or` mode exactly when the query has no `$or` field, or an order, `min` or
`max` is given, or the range generator reports a special operator, or
`haveUselessOr` holds (the namespace is missing, the hint is `$natural`, or
`uselessOr` holds for the hinted index or without hint); it then plans the whole
query as a single clause. -/
theorem uselessOr_iff_some_clause (db : Database) (org : OrRangeGenerator)
    (d : NamespaceDetails) :
    (uselessOr org d (-1) = true ↔
      ∃ clause ∈ org.originalOrSets, ∀ j, j < d.nIndexes → indexUseful clause d j [] = false) ∧
    (org.clauses = [] → uselessOr org d (-1) = false) ∧
    (∀ (mps mps' : MultiPlanScanner) (order min max : BSONObj) (cache cache' : QueryCache),
      mps.init db order min max cache = Except.ok (mps', cache') →
      (mps'.or = false ↔
        (mps.or = false ∨ order ≠ [] ∨ min ≠ [] ∨ max ≠ [] ∨
          mps.env.orRangeGenerator.getSpecial ≠ "" ∨
          MultiPlanScanner.haveUselessOr db
            { mps with org := some mps.env.orRangeGenerator } = Except.ok true)) ∧
      (mps'.or = false →
        ∃ qps, QueryPlanSet.make db mps.env.fieldRangeSetPair none mps.query order
            mps.parsedQuery mps.hint mps.recordedPlanPolicy min max true cache =
            Except.ok (qps, cache') ∧
          mps'.currentQps = some qps ∧ mps'.i = mps.i + 1)) := by
  refine ⟨?_, ?_, ?_⟩
  · simp only [uselessOr, ne_eq, not_true_eq_false, if_false, List.any_eq_true,
      Bool.not_eq_true', List.any_eq_false, List.mem_range, Bool.not_eq_true]
  · intro h
    simp [uselessOr, OrRangeGenerator.originalOrSets, h]
  · intro mps mps' order min max cache cache' h
    unfold MultiPlanScanner.init at h
    have hempty : ∀ l : BSONObj, l.isEmpty = true ↔ l = [] := by
      intro l; cases l <;> simp
    by_cases hgiven : (!order.isEmpty || !min.isEmpty || !max.isEmpty) = true
    · have hg : order ≠ [] ∨ min ≠ [] ∨ max ≠ [] := by
        simp only [Bool.or_eq_true, Bool.not_eq_true', ← Bool.not_eq_true, hempty] at hgiven
        tauto
      simp only [hgiven, if_true, Bool.false_eq_true, if_false, Bool.not_false] at h
      split at h
      · cases h
      · rename_i qps cache₁ hmake
        cases h
        refine ⟨⟨fun _ => ?_, fun _ => rfl⟩, fun _ => ⟨qps, hmake, rfl, rfl⟩⟩
        rcases hg with h1 | h1 | h1
        · exact Or.inr (Or.inl h1)
        · exact Or.inr (Or.inr (Or.inl h1))
        · exact Or.inr (Or.inr (Or.inr (Or.inl h1)))
    · have hg : order = [] ∧ min = [] ∧ max = [] := by
        simp only [Bool.or_eq_true, Bool.not_eq_true', ← Bool.not_eq_true, hempty, not_or,
          not_not] at hgiven
        exact ⟨hgiven.1.1, hgiven.1.2, hgiven.2⟩
      simp only [hgiven, Bool.false_eq_true, if_false] at h
      by_cases hor : mps.or = true
      · simp only [hor, if_true] at h
        by_cases hsp : mps.env.orRangeGenerator.getSpecial = ""
        · simp only [hsp, ne_eq, not_true_eq_false, if_false] at h
          cases hu : MultiPlanScanner.haveUselessOr db
              { mps with org := some mps.env.orRangeGenerator } with
          | error e =>
            have hu' := hu
            simp only [hor] at hu'
            simp [hu'] at h
          | ok b =>
            have hu' := hu
            simp only [hor] at hu'
            cases b with
            | true =>
              simp only [hu', Bool.not_false, if_true] at h
              split at h
              · cases h
              · rename_i qps cache₁ hmake
                cases h
                exact ⟨⟨fun _ => by simp, fun _ => rfl⟩, fun _ => ⟨qps, hmake, rfl, rfl⟩⟩
            | false =>
              simp only [hu', hor, Bool.not_true, Bool.false_eq_true, if_false] at h
              split at h
              · cases h
              · have := handleBeginningOfClause_or h
                rw [this]
                refine ⟨⟨fun hc => by simp at hc, ?_⟩, fun hc => by simp at hc⟩
                rintro (h1 | h1 | h1 | h1 | h1 | h1)
                · rw [hor] at h1; cases h1
                · exact absurd hg.1 h1
                · exact absurd hg.2.1 h1
                · exact absurd hg.2.2 h1
                · exact absurd hsp h1
                · cases h1
        · simp only [hsp, ne_eq, not_false_eq_true, if_true, Bool.not_false] at h
          split at h
          · cases h
          · rename_i qps cache₁ hmake
            cases h
            exact ⟨⟨fun _ => by simp [hsp], fun _ => rfl⟩, fun _ => ⟨qps, hmake, rfl, rfl⟩⟩
      · have hor' : mps.or = false := by simpa using hor
        simp only [hor', Bool.false_eq_true, if_false, Bool.not_false, if_true] at h
        split at h
        · cases h
        · rename_i qps cache₁ hmake
          cases h
          exact ⟨⟨fun _ => Or.inl hor', fun _ => rfl⟩, fun _ => ⟨qps, hmake, rfl, rfl⟩⟩

theorem uselessOr_iff_some_clause_witness :
    uselessOr exOrg exNsdSelective (-1) = true ∧
    ∃ clause ∈ exOrg.originalOrSets,
      ∀ j, j < exNsdSelective.nIndexes → indexUseful clause exNsdSelective j [] = false :=
  ⟨rfl, (uselessOr_iff_some_clause (exDb exNsdSelective) exOrg exNsdSelective).1.1 rfl⟩

/-- C14 as stated fails: of the two clauses of `{$or: [{a: 5}, {b: 7}]}` the first has
a useful index, the second has none; `uselessOr` returns true although an index is
useful for a clause, and `MultiPlanScanner::init` leaves `$or` mode. -/
theorem uselessOr_with_useful_clause :
    exOrg.originalOrSets.map (fun clause => indexUseful clause exNsdSelective 0 []) =
      [true, false] ∧
    uselessOr exOrg exNsdSelective (-1) = true ∧
    ((exScannerOr exOrg).init (exDb exNsdSelective) [] [] [] exEmptyCache).toOption.map
        (fun r => (r.1.or, r.1.i)) = some (false, 1) ∧
    (exScannerOr exOrg).or = true :=
  ⟨rfl, rfl, rfl, rfl⟩

/-! ## Sequencing of `$or` clauses -/

/-- What `handleBeginningOfClause` does when it returns: the plan set of the next
clause is made from the first clause of the range generator as it is at the call. -/
theorem handleBeginningOfClause_ok {db : Database} {mps mps' : MultiPlanScanner}
    {cache cache' : QueryCache}
    (h : mps.handleBeginningOfClause db cache = Except.ok (mps', cache')) :
    mps.hasMoreClauses = true ∧
    ∃ org qps, mps.org = some org ∧
      QueryPlanSet.make db org.topFrsp (some org.topFrspOriginal) mps.query []
        mps.parsedQuery mps.hint mps.recordedPlanPolicy [] [] false cache =
        Except.ok (qps, cache') ∧
      mps' = { mps with i := mps.i + 1, currentQps := some qps, runner := none } := by
  unfold MultiPlanScanner.handleBeginningOfClause at h
  by_cases hm : mps.hasMoreClauses = true
  · simp only [hm, Bool.not_true, Bool.false_eq_true, if_false] at h
    cases ho : mps.org with
    | none => simp [ho] at h
    | some org =>
      simp only [ho] at h
      split at h
      · cases h
      · rename_i qps cache₁ hmake
        cases h
        exact ⟨hm, org, qps, rfl, hmake, rfl⟩
  · simp [hm] at h

/-- C15: in `$or` mode the clauses are planned one after another, the bookkeeping of
the finished clause first.  `handleEndOfClause` for a winning plan that is indexed
calls `popOrClause` with the plan's index number and index key and leaves the
tableScanned flag; for a winning table scan it sets the tableScanned flag and pops
nothing.  An iteration of `nextOpOr` whose op is not complete without stop returns
that op and changes no clause; when the op is complete without stop, the bookkeeping
runs on the op's plan and only then, if more clauses remain, the next clause is
planned from the range generator as the bookkeeping left it, and the loop goes on with
the new plan set.  `nextClauseBestGuessPlan` likewise runs the bookkeeping for the
current plan, then plans the next clause from the range generator as the bookkeeping
left it and returns the best guess of the new plan set. -/
theorem or_clauses_in_sequence (db : Database) (mps : MultiPlanScanner) (org : OrRangeGenerator)
    (cache : QueryCache) (horg : mps.org = some org) :
    (∀ plan : QueryPlan, plan.indexed = true → plan.idxNo ≥ 0 →
      mps.handleEndOfClause plan =
        Except.ok { mps with org := some (org.popOrClause plan.d plan.idxNo plan.indexKey) }) ∧
    (∀ plan : QueryPlan, plan.willScanTable = true →
      mps.handleEndOfClause plan = Except.ok { mps with tableScanned := true }) ∧
    (∀ fuel op mps₁ cache₁, mps.nextOpSimple db cache = Except.ok (op, mps₁, cache₁) →
      (op.completeWithoutStop = false →
        MultiPlanScanner.nextOpOr db (fuel + 1) mps cache = Except.ok (op, mps₁, cache₁)) ∧
      (op.completeWithoutStop = true →
        ∀ mps₂, mps₁.handleEndOfClause op.queryPlan = Except.ok mps₂ →
          (mps₂.hasMoreClauses = false →
            MultiPlanScanner.nextOpOr db (fuel + 1) mps cache =
              Except.ok (op, { mps₂ with baseOp := mps₂.env.createChildImpl op }, cache₁)) ∧
          (mps₂.hasMoreClauses = true →
            ∀ mps₄ cache₂,
              MultiPlanScanner.handleBeginningOfClause db
                { mps₂ with baseOp := mps₂.env.createChildImpl op } cache₁ =
                Except.ok (mps₄, cache₂) →
              MultiPlanScanner.nextOpOr db (fuel + 1) mps cache =
                MultiPlanScanner.nextOpOr db fuel mps₄ cache₂ ∧
              ∃ org₂ qps, mps₂.org = some org₂ ∧
                QueryPlanSet.make db org₂.topFrsp (some org₂.topFrspOriginal) mps₂.query []
                  mps₂.parsedQuery mps₂.hint mps₂.recordedPlanPolicy [] [] false cache₁ =
                  Except.ok (qps, cache₂) ∧
                mps₄.currentQps = some qps ∧ mps₄.runner = none ∧ mps₄.i = mps₂.i + 1 ∧
                mps₄.org = some org₂ ∧ mps₄.tableScanned = mps₂.tableScanned))) ∧
    (∀ currentPlan bestGuess mps₃ cache₁,
      mps.nextClauseBestGuessPlan db currentPlan cache =
        Except.ok (some bestGuess, mps₃, cache₁) →
      ∃ mps₁ org₁ qps, mps.handleEndOfClause currentPlan = Except.ok mps₁ ∧
        mps₁.org = some org₁ ∧
        QueryPlanSet.make db org₁.topFrsp (some org₁.topFrspOriginal) mps.query []
          mps.parsedQuery mps.hint mps.recordedPlanPolicy [] [] false cache =
          Except.ok (qps, cache₁) ∧
        mps₃ = { mps₁ with i := mps₁.i + 1, currentQps := some qps, runner := none } ∧
        qps.getBestGuess = Except.ok (some bestGuess)) := by
  refine ⟨?_, ?_, ?_, ?_⟩
  · intro plan hidx hno
    have hw : plan.willScanTable = false := by
      have : ¬ plan.idxNo < 0 := by omega
      simp [QueryPlan.willScanTable, this]
    simp [MultiPlanScanner.handleEndOfClause, hw, horg, hidx]
  · intro plan hw
    simp [MultiPlanScanner.handleEndOfClause, hw]
  · intro fuel op mps₁ cache₁ hstep
    refine ⟨fun hc => ?_, fun hc mps₂ hend => ⟨fun hmore => ?_, fun hmore mps₄ cache₂ hbegin => ?_⟩⟩
    · simp [MultiPlanScanner.nextOpOr, hstep, hc]
    · have hmore' : MultiPlanScanner.hasMoreClauses
          { mps₂ with baseOp := mps₂.env.createChildImpl op } = false := hmore
      simp [MultiPlanScanner.nextOpOr, hstep, hc, hend,
        MultiPlanScanner.mayHandleBeginningOfClause, hmore']
    · have hmore' : MultiPlanScanner.hasMoreClauses
          { mps₂ with baseOp := mps₂.env.createChildImpl op } = true := hmore
      refine ⟨?_, ?_⟩
      · simp [MultiPlanScanner.nextOpOr, hstep, hc, hend,
          MultiPlanScanner.mayHandleBeginningOfClause, hmore', hbegin, Except.map]
      · obtain ⟨_, org₂, qps, ho, hmake, heq⟩ := handleBeginningOfClause_ok hbegin
        refine ⟨org₂, qps, ho, hmake, ?_⟩
        rw [heq]
        exact ⟨rfl, rfl, rfl, ho, rfl⟩
  · intro currentPlan bestGuess mps₃ cache₁ h
    unfold MultiPlanScanner.nextClauseBestGuessPlan at h
    split at h
    · cases h
    · cases hend : mps.handleEndOfClause currentPlan with
      | error e => simp [hend] at h
      | ok mps₁ =>
        simp only [hend] at h
        split at h
        · cases h
        · cases hbegin : mps₁.handleBeginningOfClause db cache with
          | error e => simp [hbegin] at h
          | ok r =>
            obtain ⟨mps₂, cache₂⟩ := r
            simp only [hbegin] at h
            obtain ⟨_, org₁, qps, ho, hmake, heq⟩ := handleBeginningOfClause_ok hbegin
            have hfix : mps₁.query = mps.query ∧ mps₁.parsedQuery = mps.parsedQuery ∧
                mps₁.hint = mps.hint ∧ mps₁.recordedPlanPolicy = mps.recordedPlanPolicy := by
              unfold MultiPlanScanner.handleEndOfClause at hend
              split at hend
              · cases hend
                exact ⟨rfl, rfl, rfl, rfl⟩
              · rw [horg] at hend
                cases hend
                exact ⟨rfl, rfl, rfl, rfl⟩
            have hq : mps₂.currentQps = some qps := by rw [heq]
            rw [hq] at h
            simp only at h
            cases hg : qps.getBestGuess with
            | error e => simp [hg] at h
            | ok o =>
              cases o with
              | none => simp [hg] at h
              | some best =>
                simp only [hg] at h
                cases h
                refine ⟨mps₁, org₁, qps, rfl, ho, ?_, heq, hg⟩
                rw [← hfix.1, ← hfix.2.1, ← hfix.2.2.1, ← hfix.2.2.2]
                exact hmake

theorem or_clauses_in_sequence_witness :
    exScannerOrStarted.1.org = some exOrg ∧
    exClauseSummary exScannerOrStarted.1 = (1, false, some 2, some (["a"], [[exEl "a" 1]])) ∧
    (∀ plan : QueryPlan, plan.indexed = true → plan.idxNo ≥ 0 →
      exScannerOrStarted.1.handleEndOfClause plan =
        Except.ok { exScannerOrStarted.1 with
          org := some (exOrg.popOrClause plan.d plan.idxNo plan.indexKey) }) ∧
    ((MultiPlanScanner.nextOp (exDb exNsdABC) 3 exScannerOrStarted.1
        exScannerOrStarted.2).toOption.map
        (fun r => (r.1.complete, exClauseSummary r.2.1))) =
      some (false, 1, false, some 2, some (["a"], [[exEl "a" 1]])) ∧
    ((MultiPlanScanner.nextOp (exDb exNsdABC) 3 exScannerOrStarted.1
        exScannerOrStarted.2).toOption.bind
        (fun r => (MultiPlanScanner.nextOp (exDb exNsdABC) 3 r.2.1 r.2.2).toOption)).map
        (fun r => (r.1.complete, r.1.queryPlan.indexKey, exClauseSummary r.2.1)) =
      some (false, [exEl "b" 1], 2, false, some 1, some (["b"], [[exEl "b" 1]])) :=
  ⟨rfl, rfl,
    (or_clauses_in_sequence (exDb exNsdABC) exScannerOrStarted.1 exOrg exScannerOrStarted.2
      rfl).1,
    rfl, rfl⟩

/-! ## `usingCachedPlan` through the generator -/

/-- A step that returns a fixed flag with the plan set of an inner step. -/
theorem map_pair_ok {x : Except QueryError QueryPlanSet} {b b' : Bool} {s' : QueryPlanSet}
    (h : x.map (fun s₁ => (b, s₁)) = Except.ok (b', s')) : x = Except.ok s' ∧ b' = b := by
  cases x with
  | error e => cases h
  | ok s₁ =>
    simp only [Except.map, Except.ok.injEq, Prod.mk.injEq] at h
    exact ⟨by rw [h.2], h.1.symm⟩

theorem setSinglePlan_usingCachedPlan {s s' : QueryPlanSet} {q : QueryPlan}
    (h : s.setSinglePlan q = Except.ok s') : s'.usingCachedPlan = s.usingCachedPlan := by
  rcases setSinglePlan_ok h with ⟨h1, _⟩ | ⟨h1, _⟩ <;> rw [h1]

theorem setSingleUnindexedPlan_usingCachedPlan {s s' : QueryPlanSet}
    {d : Option NamespaceDetails}
    (h : QueryPlanGenerator.setSingleUnindexedPlan s d = Except.ok s') :
    s'.usingCachedPlan = s.usingCachedPlan := by
  unfold QueryPlanGenerator.setSingleUnindexedPlan at h
  split at h
  · cases h
  · exact setSinglePlan_usingCachedPlan h

theorem setUnindexedPlanIf_usingCachedPlan {s s' : QueryPlanSet} {set b : Bool}
    {d : Option NamespaceDetails}
    (h : QueryPlanGenerator.setUnindexedPlanIf s set d = Except.ok (b, s')) :
    s'.usingCachedPlan = s.usingCachedPlan := by
  unfold QueryPlanGenerator.setUnindexedPlanIf at h
  split at h
  · exact setSingleUnindexedPlan_usingCachedPlan (map_pair_ok h).1
  · cases h
    rfl

theorem validateAndSetHintedPlan_usingCachedPlan {s s' : QueryPlanSet} {plan : QueryPlan}
    (h : QueryPlanGenerator.validateAndSetHintedPlan s plan = Except.ok s') :
    s'.usingCachedPlan = s.usingCachedPlan := by
  unfold QueryPlanGenerator.validateAndSetHintedPlan at h
  split at h
  · exact setSinglePlan_usingCachedPlan h
  · cases h

theorem setHintedPlanForIndex_usingCachedPlan {db : Database} {s s' : QueryPlanSet}
    {idxNo : Nat} {id : IndexDetails}
    (h : QueryPlanGenerator.setHintedPlanForIndex db s idxNo id = Except.ok s') :
    s'.usingCachedPlan = s.usingCachedPlan := by
  unfold QueryPlanGenerator.setHintedPlanForIndex at h
  split at h
  · cases h
  · rename_i s₁ hs₁
    have h₁ : s₁.usingCachedPlan = s.usingCachedPlan := by
      split at hs₁
      · split at hs₁
        · cases hs₁
        · split at hs₁
          · cases hs₁
            rfl
          · cases hs₁
      · cases hs₁
        rfl
    split at h
    · cases h
    · split at h
      · cases h
      · exact (validateAndSetHintedPlan_usingCachedPlan h).trans h₁

theorem addHintPlan_usingCachedPlan {db : Database} {s s' : QueryPlanSet}
    {d : NamespaceDetails} {b : Bool}
    (h : QueryPlanGenerator.addHintPlan db s d = Except.ok (b, s')) :
    s'.usingCachedPlan = s.usingCachedPlan := by
  unfold QueryPlanGenerator.addHintPlan at h
  split at h
  · split at h
    · cases h
    · exact setHintedPlanForIndex_usingCachedPlan (map_pair_ok h).1
    · split at h
      · exact setSingleUnindexedPlan_usingCachedPlan (map_pair_ok h).1
      · cases h
  · split at h
    · split at h
      · cases h
      · split at h
        · cases h
        · simp only at h
          split at h
          · cases h
          · have := validateAndSetHintedPlan_usingCachedPlan (map_pair_ok h).1
            simpa using this
    · cases h
      rfl

theorem addSpecialPlan_usingCachedPlan {s s' : QueryPlanSet} {d : NamespaceDetails} {b : Bool}
    (h : QueryPlanGenerator.addSpecialPlan s d = Except.ok (b, s')) :
    s'.usingCachedPlan = s.usingCachedPlan := by
  unfold QueryPlanGenerator.addSpecialPlan at h
  simp only at h
  split at h
  · split at h
    · split at h
      · cases h
      · split at h
        · cases h
        · exact setSinglePlan_usingCachedPlan (map_pair_ok h).1
    · split at h
      · cases h; rfl
      · cases h
  · cases h; rfl

/-- The operator `||` of two steps that leave `usingCachedPlan` leaves it. -/
theorem orElseStep_usingCachedPlan {first : Except QueryError (Bool × QueryPlanSet)}
    {second : QueryPlanSet → Except QueryError (Bool × QueryPlanSet)} {s s' : QueryPlanSet}
    {b : Bool}
    (hfirst : ∀ b₁ s₁, first = Except.ok (b₁, s₁) → s₁.usingCachedPlan = s.usingCachedPlan)
    (hsecond : ∀ s₁ b₂ s₂, second s₁ = Except.ok (b₂, s₂) →
      s₂.usingCachedPlan = s₁.usingCachedPlan)
    (h : orElseStep first second = Except.ok (b, s')) :
    s'.usingCachedPlan = s.usingCachedPlan := by
  cases hf : first with
  | error e => simp [orElseStep, hf] at h
  | ok r =>
    obtain ⟨b₁, s₁⟩ := r
    cases b₁ with
    | true =>
      simp only [orElseStep, hf, Except.ok.injEq, Prod.mk.injEq] at h
      rw [← h.2]
      exact hfirst _ _ hf
    | false =>
      simp only [orElseStep, hf] at h
      exact (hsecond _ _ _ h).trans (hfirst _ _ hf)

theorem addShortCircuitPlan_usingCachedPlan {db : Database} {s s' : QueryPlanSet}
    {d : Option NamespaceDetails} {b : Bool}
    (h : QueryPlanGenerator.addShortCircuitPlan db s d = Except.ok (b, s')) :
    s'.usingCachedPlan = s.usingCachedPlan := by
  unfold QueryPlanGenerator.addShortCircuitPlan at h
  refine orElseStep_usingCachedPlan (fun _ _ h₁ => setUnindexedPlanIf_usingCachedPlan h₁)
    (fun s₁ b₂ s₂ h₂ => ?_) h
  refine orElseStep_usingCachedPlan (fun _ _ h₁ => setUnindexedPlanIf_usingCachedPlan h₁)
    (fun s₁ b₂ s₂ h₂ => ?_) h₂
  cases d with
  | none => cases h₂
  | some nsd =>
    simp only at h₂
    refine orElseStep_usingCachedPlan (fun _ _ h₁ => addHintPlan_usingCachedPlan h₁)
      (fun s₁ b₂ s₂ h₂ => ?_) h₂
    refine orElseStep_usingCachedPlan (fun _ _ h₁ => addSpecialPlan_usingCachedPlan h₁)
      (fun s₁ b₂ s₂ h₂ => ?_) h₂
    refine orElseStep_usingCachedPlan (fun _ _ h₁ => setUnindexedPlanIf_usingCachedPlan h₁)
      (fun s₁ b₂ s₂ h₂ => ?_) h₂
    exact setUnindexedPlanIf_usingCachedPlan h₂

/-- Through the generator alone the invariant holds: after `QueryPlanSet::init`,
usingCachedPlan implies that the plan set holds exactly one plan. -/
theorem init_usingCachedPlan_single {db : Database} {s s' : QueryPlanSet}
    {cache cache' : QueryCache}
    (h : s.init db cache = Except.ok (s', cache')) (hu : s'.usingCachedPlan = true) :
    ∃ p, s'.plans = [p] := by
  unfold QueryPlanSet.init QueryPlanGenerator.addInitialPlans at h
  simp only at h
  split at h
  · cases h
  · rename_i s₁ hsc
    cases h
    have := addShortCircuitPlan_usingCachedPlan hsc
    rw [hu] at this
    cases this
  · rename_i s₁ hsc
    have h₁ := addShortCircuitPlan_usingCachedPlan hsc
    simp only at h₁
    split at h
    · cases h
    · rename_i nsd _
      unfold QueryPlanGenerator.addStandardPlans at h
      split at h
      · cases h
      · rename_i s₂ hc
        cases h
        rcases addCachedPlan_ok hc with ⟨hb, _⟩ | ⟨_, _, p, hs₂, _⟩
        · cases hb
        · exact ⟨p, by rw [hs₂]⟩
      · rename_i s₂ hc
        rcases addCachedPlan_ok hc with ⟨_, hs₂⟩ | ⟨hb, _⟩
        · subst hs₂
          obtain ⟨d', added, _, heq, _⟩ := generator_addFallbackPlans_added h
          have : s'.usingCachedPlan = s₂.usingCachedPlan := by rw [heq]
          rw [this, h₁] at hu
          cases hu
        · cases hb

/-! ## What the `$exists:false` detector reports -/

theorem currentMatcherAt_zero (start : Option Nat) (visits : List MatcherVisit) :
    currentMatcherAt start visits 0 = start := by
  simp [currentMatcherAt, visitedMatchers]

theorem currentMatcherAt_visitMatcher (start : Option Nat) (addr : Nat)
    (visits : List MatcherVisit) (i : Nat) :
    currentMatcherAt start (MatcherVisit.visitMatcher addr :: visits) (i + 1) =
      currentMatcherAt (some addr) visits i := by
  simp only [currentMatcherAt, visitedMatchers, List.take_succ_cons, List.filterMap_cons,
    List.getLast?_cons]
  cases (List.filterMap (fun v =>
      match v with
      | MatcherVisit.visitMatcher addr => some addr
      | MatcherVisit.visitElementMatcher _ => none) (List.take i visits)).getLast? <;> rfl

theorem currentMatcherAt_visitElementMatcher (start : Option Nat) (em : ElementMatcher)
    (visits : List MatcherVisit) (i : Nat) :
    currentMatcherAt start (MatcherVisit.visitElementMatcher em :: visits) (i + 1) =
      currentMatcherAt start visits i := by
  simp [currentMatcherAt, visitedMatchers, List.take_succ_cons, List.filterMap_cons]

/-- The visit of an element matcher sets the flag exactly for an `$exists` comparison
that is nested or is `$exists:false` or `$not:{$exists:true}`, and changes nothing
else. -/
theorem visitElementMatcher_spec (det : ExistsFalseDetector) (em : ElementMatcher)
    (hfound : det.foundExistsFalse = false) :
    ((det.visitElementMatcher em).foundExistsFalse = true ↔
      (em.compareOp = CompareOp.opEXISTS ∧
        (det.currentMatcher ≠ some det.originalMatcher ∨
          (if em.isNot then em.trueValue else !em.trueValue) = true))) ∧
    ((det.visitElementMatcher em).foundExistsFalse = false → det.visitElementMatcher em = det) ∧
    (det.visitElementMatcher em).originalMatcher = det.originalMatcher ∧
    (det.visitElementMatcher em).currentMatcher = det.currentMatcher := by
  unfold ExistsFalseDetector.visitElementMatcher isExistsFalsePredicate
  by_cases hop : em.compareOp = CompareOp.opEXISTS
  · by_cases hcur : det.currentMatcher = some det.originalMatcher
    · by_cases hp : (if em.isNot then em.trueValue else !em.trueValue) = true
      · simp [hop, hcur, hp]
      · simp [hop, hcur, hp, hfound]
    · simp [hop, hcur]
  · simp [hop, hfound]

/-- The flag after a sequence of callbacks, started with the flag clear. -/
theorem foldl_accept_iff :
    ∀ (visits : List MatcherVisit) (det : ExistsFalseDetector),
      det.foundExistsFalse = false →
      ((visits.foldl ExistsFalseDetector.accept det).foundExistsFalse = true ↔
        ∃ i, flagsExistsFalse det.originalMatcher det.currentMatcher visits i)
  | [], det, hfound => by
    simp [hfound, flagsExistsFalse]
  | MatcherVisit.visitMatcher addr :: visits, det, hfound => by
    simp only [List.foldl_cons, ExistsFalseDetector.accept]
    rw [foldl_accept_iff visits (det.visitMatcher addr) hfound]
    simp only [ExistsFalseDetector.visitMatcher]
    constructor
    · rintro ⟨i, em, hi, hop, hc⟩
      refine ⟨i + 1, em, by simpa using hi, hop, ?_⟩
      rw [currentMatcherAt_visitMatcher]
      exact hc
    · rintro ⟨i, em, hi, hop, hc⟩
      cases i with
      | zero => simp at hi
      | succ i =>
        rw [currentMatcherAt_visitMatcher] at hc
        exact ⟨i, em, by simpa using hi, hop, hc⟩
  | MatcherVisit.visitElementMatcher em :: visits, det, hfound => by
    simp only [List.foldl_cons, ExistsFalseDetector.accept]
    obtain ⟨hset, hsame, horig, hcur⟩ := visitElementMatcher_spec det em hfound
    cases hf : (det.visitElementMatcher em).foundExistsFalse with
    | true =>
      have := foldl_accept_found_mono visits _ hf
      simp only [this, true_iff]
      exact ⟨0, em, by simp, (hset.1 hf).1, by
        rw [currentMatcherAt_zero]
        exact (hset.1 hf).2⟩
    | false =>
      rw [hsame hf, foldl_accept_iff visits det hfound]
      constructor
      · rintro ⟨i, em', hi, hop, hc⟩
        refine ⟨i + 1, em', by simpa using hi, hop, ?_⟩
        rw [currentMatcherAt_visitElementMatcher]
        exact hc
      · rintro ⟨i, em', hi, hop, hc⟩
        cases i with
        | zero =>
          simp only [List.getElem?_cons_zero, Option.some.injEq,
            MatcherVisit.visitElementMatcher.injEq] at hi
          subst hi
          rw [currentMatcherAt_zero] at hc
          have := hset.2 ⟨hop, hc⟩
          rw [hf] at this
          cases this
        | succ i =>
          rw [currentMatcherAt_visitElementMatcher] at hc
          exact ⟨i, em', by simpa using hi, hop, hc⟩

/-- C23: after `Matcher::visit` has made its callbacks on a new detector,
`hasFoundExistsFalse()` is true if and only if some callback is the visit of an
`$exists` element matcher that is made under a matcher other than the original one
(nested) or is `$exists:false` or `$not:{$exists:true}` (`isNot ? trueValue :
!trueValue`).  Hence a visited `$exists:false` predicate is detected wherever it is, a
predicate without `$exists` is not flagged, an `$exists` element matcher at top level
that is neither `$exists:false` nor `$not:{$exists:true}` does not set the flag, and a
flag that is set stays set. -/
theorem existsFalse_detected_iff (m : Matcher) :
    ((m.visit (ExistsFalseDetector.new m)).foundExistsFalse = true ↔
      ∃ i, flagsExistsFalse m.addr none m.visits i) ∧
    (∀ em, MatcherVisit.visitElementMatcher em ∈ m.visits →
      em.compareOp = CompareOp.opEXISTS → em.isNot = false → em.trueValue = false →
      (m.visit (ExistsFalseDetector.new m)).foundExistsFalse = true) ∧
    ((∀ em, MatcherVisit.visitElementMatcher em ∈ m.visits →
        em.compareOp ≠ CompareOp.opEXISTS) →
      (m.visit (ExistsFalseDetector.new m)).foundExistsFalse = false) ∧
    (∀ (det : ExistsFalseDetector) (em : ElementMatcher), det.foundExistsFalse = false →
      det.currentMatcher = some det.originalMatcher → em.isNot = false →
      em.trueValue = true → (det.visitElementMatcher em).foundExistsFalse = false) ∧
    (∀ (det : ExistsFalseDetector) (visits : List MatcherVisit),
      det.foundExistsFalse = true →
      (visits.foldl ExistsFalseDetector.accept det).foundExistsFalse = true) := by
  have hiff := foldl_accept_iff m.visits (ExistsFalseDetector.new m) rfl
  refine ⟨hiff, ?_, ?_, ?_, fun det visits h => foldl_accept_found_mono visits det h⟩
  · intro em hmem hop hnot htrue
    exact foldl_accept_existsFalse em hop (by simp [isExistsFalsePredicate, hnot, htrue])
      m.visits _ hmem
  · intro hnone
    cases hf : (m.visit (ExistsFalseDetector.new m)).foundExistsFalse with
    | false => rfl
    | true =>
      obtain ⟨i, em, hi, hop, _⟩ := hiff.1 hf
      exact absurd hop (hnone em (List.getElem?_mem hi))
  · intro det em hfound hcur hnot htrue
    cases hf : (det.visitElementMatcher em).foundExistsFalse with
    | false => rfl
    | true =>
      have := ((visitElementMatcher_spec det em hfound).1.1 hf).2
      simp [hcur, hnot, htrue] at this

/-! ## Table scans and the sort order -/

/-- C24 (amended): for a table-scan plan (no index) with a match possible,
`QueryPlan::init` clears scanAndOrderRequired exactly when the sort order is empty or
its first field is `$natural`, whatever fields follow; for every other sort order the
table-scan plan has scanAndOrderRequired true. -/
theorem table_scan_scanAndOrder_iff (d : Option NamespaceDetails) (idxNo : Int)
    (frsp : FieldRangeSetPair) (originalFrsp : Option FieldRangeSetPair) (query : Query)
    (order : BSONObj) (parsedQuery : Option ParsedQuery) (startKey endKey : BSONObj)
    (special : String)
    (hidx : idxNo < 0)
    (hmatch : (frsp.frsForIndex d idxNo).matchPossibleForIndex [] = true) :
    ∃ p, QueryPlan.make d idxNo frsp originalFrsp query order parsedQuery startKey endKey
        special = Except.ok p ∧ p.willScanTable = true ∧ p.index = none ∧
      (p.scanAndOrderRequired = false ↔
        (order = [] ∨ firstElementFieldName order = "$natural")) ∧
      (¬ (order = [] ∨ firstElementFieldName order = "$natural") →
        p.scanAndOrderRequired = true) := by
  unfold QueryPlan.make QueryPlan.init
  simp only [QueryPlan.new, hidx, if_true]
  have hiff : (order.isEmpty || decide (firstElementFieldName order = "$natural")) = true ↔
      (order = [] ∨ firstElementFieldName order = "$natural") := by
    cases order <;> simp
  by_cases ho : (order.isEmpty || decide (firstElementFieldName order = "$natural")) = true
  · have ho' := hiff.1 ho
    simp [hmatch, QueryPlan.willScanTable, hidx, ho, ho']
  · have ho' : ¬ (order = [] ∨ firstElementFieldName order = "$natural") :=
      fun h => ho (hiff.2 h)
    simp only [hmatch, Bool.not_true, Bool.false_eq_true, if_false, QueryPlan.willScanTable,
      hidx, decide_True, Bool.true_and, ne_eq, not_false_eq_true, decide_not, if_true]
    simp [ho, ho', QueryPlan.willScanTable, hidx]

theorem table_scan_scanAndOrder_iff_witness :
    ∃ p, QueryPlan.make (some exNsdAB) (-1) exFrspA none (exQuery []) [exEl "a" 1] none [] []
        "" = Except.ok p ∧ p.willScanTable = true ∧ p.index = none ∧
      (p.scanAndOrderRequired = false ↔
        (([exEl "a" 1] : BSONObj) = [] ∨ firstElementFieldName [exEl "a" 1] = "$natural")) ∧
      (¬ (([exEl "a" 1] : BSONObj) = [] ∨ firstElementFieldName [exEl "a" 1] = "$natural") →
        p.scanAndOrderRequired = true) :=
  table_scan_scanAndOrder_iff (some exNsdAB) (-1) exFrspA none (exQuery []) [exEl "a" 1] none
    [] [] "" (by decide) rfl

/-- C24 as stated fails: for the sort order `{$natural: 1, a: 1}`, which is not empty
and does not consist of the single field `$natural`, the table-scan plan with a match
possible has scanAndOrderRequired false. -/
theorem table_scan_natural_first_no_scanAndOrder :
    (exFrspA.frsForIndex (some exNsdAB) (-1)).matchPossibleForIndex [] = true ∧
    (QueryPlan.make (some exNsdAB) (-1) exFrspA none (exQuery [])
        [exEl "$natural" 1, exEl "a" 1] none [] [] "").toOption.map
        (fun p => (p.willScanTable, p.index.isNone, p.scanAndOrderRequired)) =
      some (true, true, false) :=
  ⟨rfl, rfl⟩

/-! ## When the matcher is necessary -/

/-- The members that the order walk and the Optimal test of `QueryPlan::init` set. -/
theorem initIndexed_walk (p : QueryPlan) (index : IndexDetails) (idxKey : BSONObj)
    (originalFrsp : Option FieldRangeSetPair) (startKey endKey : BSONObj) :
    (p.initIndexed index idxKey originalFrsp startKey endKey).scanAndOrderRequired =
      (checkOrder p.frs p.order idxKey p.direction).1 ∧
    (p.initIndexed index idxKey originalFrsp startKey endKey).direction =
      (if (checkOrder p.frs p.order idxKey p.direction).1 then 0
       else (checkOrder p.frs p.order idxKey p.direction).2) ∧
    (p.initIndexed index idxKey originalFrsp startKey endKey).frv =
      some { frs := p.frs, indexKey := idxKey
             direction := (if (checkOrder p.frs p.order idxKey p.direction).1 then 0
               else (checkOrder p.frs p.order idxKey p.direction).2) } ∧
    (p.initIndexed index idxKey originalFrsp startKey endKey).matcherNecessary =
      (if (!(checkOrder p.frs p.order idxKey p.direction).1 &&
            decide (optimalIndexedQueryCountFrom p.frs idxKey 0 true =
              p.frs.numNonUniversalRanges)) = true then
         (if (p.frs.mustBeExactMatchRepresentation &&
              p.frs.frvHasAllIndexedRanges idxKey
                (if (checkOrder p.frs p.order idxKey p.direction).1 then 0
                 else (checkOrder p.frs p.order idxKey p.direction).2)) = true
          then false else p.matcherNecessary)
       else (if (decide (p.utility = Utility.Optimal) &&
              p.frs.mustBeExactMatchRepresentation &&
              p.frs.frvHasAllIndexedRanges idxKey
                (if (checkOrder p.frs p.order idxKey p.direction).1 then 0
                 else (checkOrder p.frs p.order idxKey p.direction).2)) = true
          then false else p.matcherNecessary)) := by
  unfold QueryPlan.initIndexed
  simp only []
  refine ⟨?_, ?_, ?_, ?_⟩
  · split <;> simp [QueryPlan.initRanges]
  · split <;> simp [QueryPlan.initRanges]
  · split <;> simp [QueryPlan.initRanges]
  · have hm : (p.initRanges idxKey originalFrsp startKey endKey).matcherNecessary = _ := rfl
    split
    · simp only [QueryPlan.initRanges, FieldRangeVector.hasAllIndexedRanges]
      split <;> simp [*]
    · simp only [QueryPlan.initRanges, FieldRangeVector.hasAllIndexedRanges]
      split <;> simp [*]

/-- C22 (amended): for a plan on an index that is not special, with a match possible,
`QueryPlan::init` sets matcherNecessary to false exactly when the plan is Optimal at
that point (scanAndOrderRequired is false and the optimal indexed query count equals the
number of non-universal ranges of the clause), the field ranges are an exact
representation of the query and the field range vector, built for the index key and the
plan's direction, has all indexed ranges; otherwise matcherNecessary is true. -/
theorem matcherNecessary_iff (d : NamespaceDetails) (idxNo : Nat) (index : IndexDetails)
    (frsp : FieldRangeSetPair) (originalFrsp : Option FieldRangeSetPair) (query : Query)
    (order : BSONObj) (parsedQuery : Option ParsedQuery) (startKey endKey : BSONObj)
    (hidx : d.indexes[idxNo]? = some index)
    (hspecial : index.special = false)
    (hmatch : (frsp.frsForIndex (some d) idxNo).matchPossibleForIndex index.keyPattern = true) :
    ∃ p, QueryPlan.make (some d) idxNo frsp originalFrsp query order parsedQuery startKey
        endKey "" = Except.ok p ∧
      p.frv = some { frs := frsp.frsForIndex (some d) idxNo, indexKey := index.keyPattern,
                     direction := p.direction } ∧
      (p.matcherNecessary = false ↔
        (p.scanAndOrderRequired = false ∧
          specOptimalIndexedQueryCount (frsp.frsForIndex (some d) idxNo) index.keyPattern =
            (frsp.frsForIndex (some d) idxNo).numNonUniversalRanges ∧
          (frsp.frsForIndex (some d) idxNo).mustBeExactMatchRepresentation = true ∧
          (frsp.frsForIndex (some d) idxNo).frvHasAllIndexedRanges index.keyPattern
            p.direction = true)) ∧
      (p.matcherNecessary = false ∨ p.matcherNecessary = true) := by
  have hcount : optimalIndexedQueryCountFrom (frsp.frsForIndex (some d) idxNo)
      index.keyPattern 0 true =
      specOptimalIndexedQueryCount (frsp.frsForIndex (some d) idxNo) index.keyPattern := by
    rw [optimalCount_eq_spec _ _ 0 (le_refl 0)]
    simp [specOptimalIndexedQueryCount]
  obtain ⟨hsao, hdir, hfrv, hmn⟩ := initIndexed_walk
    (QueryPlan.withIndex (some d) idxNo index frsp query order parsedQuery startKey endKey "")
    index index.keyPattern originalFrsp startKey endKey
  refine ⟨_, make_eq_initIndexed d idxNo index frsp originalFrsp query order parsedQuery
    startKey endKey hidx (Or.inl hspecial) hmatch, ?_, ?_, ?_⟩
  · rw [hfrv, hdir]
    rfl
  · rw [hmn, hsao, hdir, ← hcount]
    simp only [QueryPlan.withIndex, QueryPlan.started, QueryPlan.new]
    cases hsao' : (checkOrder (frsp.frsForIndex (some d) idxNo) order index.keyPattern 0).1 <;>
    cases hex : (frsp.frsForIndex (some d) idxNo).mustBeExactMatchRepresentation <;>
    cases hall : (frsp.frsForIndex (some d) idxNo).frvHasAllIndexedRanges index.keyPattern
      (checkOrder (frsp.frsForIndex (some d) idxNo) order index.keyPattern 0).2 <;>
    by_cases hc : optimalIndexedQueryCountFrom (frsp.frsForIndex (some d) idxNo)
      index.keyPattern 0 true = (frsp.frsForIndex (some d) idxNo).numNonUniversalRanges <;>
    simp [hsao', hex, hall, hc]
  · cases (QueryPlan.initIndexed _ index index.keyPattern originalFrsp startKey
      endKey).matcherNecessary <;> simp

theorem matcherNecessary_iff_witness :
    ∃ p, QueryPlan.make (some exNsdAB) (0 : Nat) exFrspExactAB none (exQuery []) [] none [] []
        "" = Except.ok p ∧ p.matcherNecessary = false :=
  (matcherNecessary_iff exNsdAB 0 (exIndex "a_1_b_1" [exEl "a" 1, exEl "b" 1]) exFrspExactAB
    none (exQuery []) [] none [] [] rfl rfl rfl).elim
    (fun p h => ⟨p, h.1, h.2.2.1.2 (by
      have hp := h.1
      cases hp
      exact ⟨rfl, by decide, rfl, rfl⟩)⟩)

/-- C22 as stated fails: for `{a: {$gt: 0}, b: 5}` on the index `{a:1}` the field ranges
represent the query exactly and the field range vector has all indexed ranges, yet the
plan is Helpful, not Optimal, since `b` is constrained and not indexed, and
matcherNecessary is true. -/
theorem matcherNecessary_for_helpful_plan :
    (QueryPlan.make (some exNsdABC) (0 : Nat) exFrspExact none (exQuery []) [] none [] []
        "").toOption.map
        (fun p => (p.utility, p.frs.mustBeExactMatchRepresentation,
          p.frv.map (fun v => v.hasAllIndexedRanges), p.matcherNecessary)) =
      some (Utility.Helpful, true, some true, true) :=
  rfl

/-! ## The direction of the order walk -/

/-- What the order walk of `QueryPlan::init` computes on an index that is not special:
the step direction of a sort field against the index field of the same name is +1 when
their direction values are equal and -1 otherwise, which for values +1 and -1 is +1
when both are ascending or both descending and -1 when one is ascending and the other
descending (for other values the comparison of values and the comparison of signs
differ).  For a sort on the first index field alone the plan's direction is that step
direction and scanAndOrderRequired is false.  As soon as a sort field gives a step
direction other than the running direction the walk fails, and a failed walk leaves
scanAndOrderRequired true and direction 0, as for two sort fields on the first two index
fields with opposite step directions. -/
theorem order_walk_direction (d : NamespaceDetails) (idxNo : Nat) (index : IndexDetails)
    (frsp : FieldRangeSetPair) (originalFrsp : Option FieldRangeSetPair) (query : Query)
    (order : BSONObj) (parsedQuery : Option ParsedQuery) (startKey endKey : BSONObj)
    (hidx : d.indexes[idxNo]? = some index)
    (hspecial : index.special = false)
    (hmatch : (frsp.frsForIndex (some d) idxNo).matchPossibleForIndex index.keyPattern = true) :
    (∀ oe ke : BSONElement,
      (elementDirection oe = 1 ∨ elementDirection oe = -1) →
      (elementDirection ke = 1 ∨ elementDirection ke = -1) →
      stepDirection oe ke = specStepDirection oe ke) ∧
    ∃ p, QueryPlan.make (some d) idxNo frsp originalFrsp query order parsedQuery startKey
        endKey "" = Except.ok p ∧
      (∀ oe ke krest, order = [oe] → index.keyPattern = ke :: krest →
        oe.fieldName = ke.fieldName →
        p.scanAndOrderRequired = false ∧ p.direction = stepDirection oe ke) ∧
      (∀ oe os k ke ks direction,
        nextOrderKey (frsp.frsForIndex (some d) idxNo) oe.fieldName k = some (ke, ks) →
        direction ≠ 0 → stepDirection oe ke ≠ direction →
        checkOrder (frsp.frsForIndex (some d) idxNo) (oe :: os) k direction =
          (true, direction)) ∧
      ((checkOrder (frsp.frsForIndex (some d) idxNo) order index.keyPattern 0).1 = true →
        p.scanAndOrderRequired = true ∧ p.direction = 0) ∧
      (∀ oe₁ oe₂ orest ke₁ ke₂ krest, order = oe₁ :: oe₂ :: orest →
        index.keyPattern = ke₁ :: ke₂ :: krest →
        oe₁.fieldName = ke₁.fieldName → oe₂.fieldName = ke₂.fieldName →
        stepDirection oe₁ ke₁ ≠ stepDirection oe₂ ke₂ →
        p.scanAndOrderRequired = true ∧ p.direction = 0) := by
  refine ⟨?_, ?_⟩
  · intro oe ke hoe hke
    unfold stepDirection specStepDirection
    rcases hoe with h1 | h1 <;> rcases hke with h2 | h2 <;> simp [h1, h2]
  · obtain ⟨hsao, hdir, _, _⟩ := initIndexed_walk
      (QueryPlan.withIndex (some d) idxNo index frsp query order parsedQuery startKey endKey "")
      index index.keyPattern originalFrsp startKey endKey
    have hwalk : checkOrder
        (QueryPlan.withIndex (some d) idxNo index frsp query order parsedQuery startKey
          endKey "").frs
        (QueryPlan.withIndex (some d) idxNo index frsp query order parsedQuery startKey
          endKey "").order index.keyPattern
        (QueryPlan.withIndex (some d) idxNo index frsp query order parsedQuery startKey
          endKey "").direction =
        checkOrder (frsp.frsForIndex (some d) idxNo) order index.keyPattern 0 := rfl
    rw [hwalk] at hsao hdir
    have hstep : ∀ dir : Int, dir = 1 ∨ dir = -1 → dir ≠ 0 := by
      intro dir h
      rcases h with h | h <;> omega
    have hstepDir : ∀ oe ke, stepDirection oe ke ≠ 0 := by
      intro oe ke
      unfold stepDirection
      split <;> omega
    refine ⟨_, make_eq_initIndexed d idxNo index frsp originalFrsp query order parsedQuery
      startKey endKey hidx (Or.inl hspecial) hmatch, ?_, ?_, ?_, ?_⟩
    · intro oe ke krest ho hk hname
      rw [hsao, hdir, ho, hk]
      simp [checkOrder, nextOrderKey, hname, stepDirection]
    · intro oe os k ke ks direction hnext hne hd
      unfold stepDirection at hd
      simp only [checkOrder, hnext, hne, if_false]
      simp
      intro h
      exact absurd h.symm hd
    · intro hfail
      rw [hsao, hdir, hfail]
      simp
    · intro oe₁ oe₂ orest ke₁ ke₂ krest ho hk hn₁ hn₂ hopp
      rw [hsao, hdir, ho, hk]
      have h0 := hstepDir oe₁ ke₁
      unfold stepDirection at hopp h0
      have hopp' : ¬ (if elementDirection oe₁ = elementDirection ke₁ then (1 : Int) else -1) =
          (if elementDirection oe₂ = elementDirection ke₂ then 1 else -1) := hopp
      simp [checkOrder, nextOrderKey, hn₁, hn₂, h0, hopp']


theorem order_walk_direction_witness :
    ∃ p, QueryPlan.make (some exNsdAB) 0 exFrspAB none (exQuery []) [exEl "a" (-1)] none [] []
        "" = Except.ok p ∧ p.scanAndOrderRequired = false ∧ p.direction = -1 := by
  obtain ⟨_, p, hp, h1, _⟩ := order_walk_direction exNsdAB 0
    (exIndex "a_1_b_1" [exEl "a" 1, exEl "b" 1]) exFrspAB none (exQuery [])
    [exEl "a" (-1)] none [] [] rfl rfl rfl
  have h := h1 (exEl "a" (-1)) (exEl "a" 1) [exEl "b" 1] rfl rfl rfl
  exact ⟨p, hp, h.1, h.2.trans (by decide)⟩

/-- C21 at the failing input: the sort `{a: 2}` and the first field of the index
`{a: 1, b: 1}` are both ascending, with non-zero numeric direction values, so the step
direction is +1 by sign; the order walk compares the two values for equality and takes
-1: the plan on that index has direction -1 with scanAndOrderRequired false, where the
sort `{a: 1}` gives direction 1.  `queryBoundsExactOrderSuffix` compares the same two
fields by sign and finds them in the same direction. -/
theorem order_walk_ascending_pair_reverse :
    elementDirection (exEl "a" 2) > 0 ∧ elementDirection (exEl "a" 1) > 0 ∧
    specStepDirection (exEl "a" 2) (exEl "a" 1) = 1 ∧
    stepDirection (exEl "a" 2) (exEl "a" 1) = -1 ∧
    (QueryPlan.make (some exNsdAB) 0 exFrspAB none (exQuery []) [exEl "a" 2] none [] []
        "").toOption.map (fun p => (p.direction, p.scanAndOrderRequired)) =
      some (-1, false) ∧
    (QueryPlan.make (some exNsdAB) 0 exFrspAB none (exQuery []) [exEl "a" 1] none [] []
        "").toOption.map (fun p => (p.direction, p.scanAndOrderRequired)) =
      some (1, false) ∧
    orderSuffixMatches [exEl "a" 1] [exEl "a" 2] = true := by
  refine ⟨by decide, by decide, by decide, by decide, rfl, rfl, by decide⟩

/-! ## The range of the direction -/

/-- The order walk keeps the running direction within -1, 0, +1. -/
theorem checkOrder_direction (frs : FieldRangeSet) (os k : List BSONElement) (direction : Int)
    (h : direction = -1 ∨ direction = 0 ∨ direction = 1) :
    (checkOrder frs os k direction).2 = -1 ∨ (checkOrder frs os k direction).2 = 0 ∨
      (checkOrder frs os k direction).2 = 1 := by
  induction os generalizing k direction with
  | nil => simpa [checkOrder] using h
  | cons oe os ih =>
    unfold checkOrder
    cases hn : nextOrderKey frs oe.fieldName k with
    | none => simpa using h
    | some r =>
      obtain ⟨ke, ks⟩ := r
      simp only []
      by_cases h0 : direction = 0
      · rw [if_pos h0]
        apply ih
        split
        · exact Or.inr (Or.inr rfl)
        · exact Or.inl rfl
      · rw [if_neg h0]
        by_cases hd : direction ≠
            (if elementDirection oe = elementDirection ke then (1 : Int) else -1)
        · rw [if_pos hd]
          exact h
        · rw [if_neg hd]
          exact ih _ _ h

/-- The direction of a made plan is -1, 0 or +1, and 0 when a scan and order is
required. -/
theorem make_direction {d : Option NamespaceDetails} {idxNo : Int} {frsp : FieldRangeSetPair}
    {originalFrsp : Option FieldRangeSetPair} {query : Query} {order : BSONObj}
    {parsedQuery : Option ParsedQuery} {startKey endKey : BSONObj} {special : String}
    {p : QueryPlan}
    (h : QueryPlan.make d idxNo frsp originalFrsp query order parsedQuery startKey endKey
      special = Except.ok p) :
    (p.direction = -1 ∨ p.direction = 0 ∨ p.direction = 1) ∧
    (p.scanAndOrderRequired = true → p.direction = 0) := by
  rcases make_cases h with h | ⟨_, h⟩ | ⟨index, sp, _, _, h⟩ | ⟨index, _, _, _, h⟩
  · subst h
    exact ⟨Or.inr (Or.inl rfl), fun _ => rfl⟩
  · subst h
    exact ⟨Or.inr (Or.inl rfl), fun _ => rfl⟩
  · subst h
    exact ⟨Or.inr (Or.inl rfl), fun _ => rfl⟩
  · subst h
    obtain ⟨hsao, hdir, _, _⟩ := initIndexed_walk
      (QueryPlan.withIndex d idxNo index frsp query order parsedQuery startKey endKey special)
      index index.keyPattern originalFrsp startKey endKey
    rw [hsao, hdir]
    refine ⟨?_, ?_⟩
    · split
      · exact Or.inr (Or.inl rfl)
      · exact checkOrder_direction _ _ _ _ (Or.inr (Or.inl rfl))
    · intro hs
      rw [if_pos hs]

/-- C26: every plan that `QueryPlan::init` produces has a direction of -1, 0 or +1,
and direction 0 whenever scanAndOrderRequired is true; hence
`independentRangesSingleIntervalLimit` returns (its `verify( _direction == 0 )` does not
fail), and the limit it returns is non-zero only for a plan that requires a scan and
order, on an index that is not multikey. -/
theorem direction_range_and_limit (d : Option NamespaceDetails) (idxNo : Int)
    (frsp : FieldRangeSetPair) (originalFrsp : Option FieldRangeSetPair) (query : Query)
    (order : BSONObj) (parsedQuery : Option ParsedQuery) (startKey endKey : BSONObj)
    (special : String) (p : QueryPlan)
    (h : QueryPlan.make d idxNo frsp originalFrsp query order parsedQuery startKey endKey
      special = Except.ok p) :
    (p.direction = -1 ∨ p.direction = 0 ∨ p.direction = 1) ∧
    (p.scanAndOrderRequired = true → p.direction = 0) ∧
    ∃ limit, p.independentRangesSingleIntervalLimit = Except.ok limit ∧
      (limit ≠ 0 →
        p.scanAndOrderRequired = true ∧ p.indexed = true ∧ p.isMultiKey = false) := by
  obtain ⟨hrange, hzero⟩ := make_direction h
  refine ⟨hrange, hzero, ?_⟩
  unfold QueryPlan.independentRangesSingleIntervalLimit
  cases hpq : p.parsedQuery with
  | none => exact ⟨0, rfl, fun hne => absurd rfl hne⟩
  | some pq =>
    simp only []
    by_cases hc : (p.scanAndOrderRequired && !pq.wantMore && !p.isMultiKey &&
        p.queryBoundsExactOrderSuffix) = true
    · rw [if_pos hc]
      simp only [Bool.and_eq_true, Bool.not_eq_true'] at hc
      obtain ⟨⟨⟨hs, _⟩, hmk⟩, hq⟩ := hc
      rw [if_pos (hzero hs)]
      refine ⟨_, rfl, fun _ => ⟨hs, ?_, hmk⟩⟩
      unfold QueryPlan.queryBoundsExactOrderSuffix at hq
      by_contra hi
      simp [hi] at hq
    · rw [if_neg hc]
      exact ⟨0, rfl, fun hne => absurd rfl hne⟩

theorem direction_range_and_limit_witness :
    ∃ p, QueryPlan.make (some exNsdAB) 0 exFrspIn none (exQuery []) [exEl "b" 1]
        (some { skip := 2, numToReturn := 5, wantMore := false }) [] [] "" = Except.ok p ∧
      p.direction = 0 ∧ p.scanAndOrderRequired = true ∧
      p.independentRangesSingleIntervalLimit = Except.ok 7 :=
  ⟨_, rfl,
    ((direction_range_and_limit (some exNsdAB) 0 exFrspIn none (exQuery []) [exEl "b" 1]
      (some { skip := 2, numToReturn := 5, wantMore := false }) [] [] "" _ rfl).2.1 rfl),
    rfl, rfl⟩

/-! ## The plans of an initialised plan set -/

theorem plannedFrom_refl (s : QueryPlanSet) : plannedFrom s s :=
  ⟨rfl, rfl, rfl, rfl, rfl, fun _ hp => Or.inl hp⟩

theorem madeFor_congr {s s₁ : QueryPlanSet} {p : QueryPlan}
    (h₁ : s₁.frsp = s.frsp) (h₂ : s₁.originalFrsp = s.originalFrsp)
    (h₃ : s₁.originalQuery = s.originalQuery) (h₄ : s₁.order = s.order)
    (h₅ : s₁.parsedQuery = s.parsedQuery) (h : madeFor s₁ p) : madeFor s p := by
  obtain ⟨d, idxNo, min, max, special, hp⟩ := h
  refine ⟨d, idxNo, min, max, special, ?_⟩
  unfold QueryPlanSet.newPlan at hp ⊢
  rw [← h₁, ← h₂, ← h₃, ← h₄, ← h₅]
  exact hp

theorem plannedFrom_trans {s s₁ s₂ : QueryPlanSet} (h₁ : plannedFrom s s₁)
    (h₂ : plannedFrom s₁ s₂) : plannedFrom s s₂ := by
  obtain ⟨a₁, a₂, a₃, a₄, a₅, a₆⟩ := h₁
  obtain ⟨b₁, b₂, b₃, b₄, b₅, b₆⟩ := h₂
  refine ⟨b₁.trans a₁, b₂.trans a₂, b₃.trans a₃, b₄.trans a₄, b₅.trans a₅, ?_⟩
  intro p hp
  rcases b₆ p hp with h | h
  · exact a₆ p h
  · exact Or.inr (madeFor_congr a₁ a₂ a₃ a₄ a₅ h)

theorem setSinglePlan_planned {s s' : QueryPlanSet} {q : QueryPlan}
    (h : s.setSinglePlan q = Except.ok s') (hq : madeFor s q) :
    plannedFrom s s' ∧ s'.plans ≠ [] := by
  rcases setSinglePlan_ok h with ⟨h1, hne⟩ | ⟨h1, _⟩
  · rw [h1]
    exact ⟨plannedFrom_refl s, hne⟩
  · subst h1
    refine ⟨⟨rfl, rfl, rfl, rfl, rfl, ?_⟩, by simp⟩
    intro p hp
    simp only [List.mem_singleton] at hp
    exact Or.inr (hp ▸ hq)

theorem setSingleUnindexedPlan_planned {s s' : QueryPlanSet} {d : Option NamespaceDetails}
    (h : QueryPlanGenerator.setSingleUnindexedPlan s d = Except.ok s') :
    plannedFrom s s' ∧ s'.plans ≠ [] := by
  unfold QueryPlanGenerator.setSingleUnindexedPlan at h
  split at h
  · cases h
  · rename_i plan hplan
    exact setSinglePlan_planned h ⟨_, _, _, _, _, hplan⟩

theorem setUnindexedPlanIf_planned {s s' : QueryPlanSet} {set b : Bool}
    {d : Option NamespaceDetails}
    (h : QueryPlanGenerator.setUnindexedPlanIf s set d = Except.ok (b, s')) :
    plannedFrom s s' ∧ (b = true → s'.plans ≠ []) ∧ (b = false → s' = s) := by
  unfold QueryPlanGenerator.setUnindexedPlanIf at h
  split at h
  · rename_i hset
    obtain ⟨h₁, hb⟩ := map_pair_ok h
    obtain ⟨hp, hne⟩ := setSingleUnindexedPlan_planned h₁
    refine ⟨hp, fun _ => hne, fun hf => ?_⟩
    rw [hb, hset] at hf
    cases hf
  · rename_i hset
    cases h
    exact ⟨plannedFrom_refl s, fun ht => absurd ht hset, fun _ => rfl⟩

theorem validateAndSetHintedPlan_planned {s s' : QueryPlanSet} {plan : QueryPlan}
    (h : QueryPlanGenerator.validateAndSetHintedPlan s plan = Except.ok s')
    (hq : madeFor s plan) : plannedFrom s s' ∧ s'.plans ≠ [] := by
  unfold QueryPlanGenerator.validateAndSetHintedPlan at h
  split at h
  · exact setSinglePlan_planned h hq
  · cases h

theorem setHintedPlanForIndex_planned {db : Database} {s s' : QueryPlanSet}
    {idxNo : Nat} {id : IndexDetails}
    (h : QueryPlanGenerator.setHintedPlanForIndex db s idxNo id = Except.ok s') :
    plannedFrom s s' ∧ s'.plans ≠ [] := by
  unfold QueryPlanGenerator.setHintedPlanForIndex at h
  split at h
  · cases h
  · rename_i s₁ hs₁
    have h₁ : plannedFrom s s₁ := by
      split at hs₁
      · split at hs₁
        · cases hs₁
        · split at hs₁
          · cases hs₁
            exact ⟨rfl, rfl, rfl, rfl, rfl, fun _ hp => Or.inl hp⟩
          · cases hs₁
      · cases hs₁
        exact plannedFrom_refl s
    split at h
    · cases h
    · split at h
      · cases h
      · rename_i plan hplan
        obtain ⟨hp, hne⟩ := validateAndSetHintedPlan_planned h ⟨_, _, _, _, _, hplan⟩
        exact ⟨plannedFrom_trans h₁ hp, hne⟩

theorem addHintPlan_planned {db : Database} {s s' : QueryPlanSet}
    {d : NamespaceDetails} {b : Bool}
    (h : QueryPlanGenerator.addHintPlan db s d = Except.ok (b, s')) :
    plannedFrom s s' ∧ (b = true → s'.plans ≠ []) ∧ (b = false → s' = s) := by
  unfold QueryPlanGenerator.addHintPlan at h
  split at h
  · split at h
    · cases h
    · obtain ⟨h₁, hb⟩ := map_pair_ok h
      obtain ⟨hp, hne⟩ := setHintedPlanForIndex_planned h₁
      exact ⟨hp, fun _ => hne, fun hf => by rw [hb] at hf; cases hf⟩
    · split at h
      · obtain ⟨h₁, hb⟩ := map_pair_ok h
        obtain ⟨hp, hne⟩ := setSingleUnindexedPlan_planned h₁
        exact ⟨hp, fun _ => hne, fun hf => by rw [hb] at hf; cases hf⟩
      · cases h
  · split at h
    · split at h
      · cases h
      · split at h
        · cases h
        · simp only at h
          split at h
          · cases h
          · rename_i plan hplan
            obtain ⟨h₁, hb⟩ := map_pair_ok h
            obtain ⟨hp, hne⟩ := validateAndSetHintedPlan_planned h₁ ⟨_, _, _, _, _, hplan⟩
            refine ⟨plannedFrom_trans ⟨rfl, rfl, rfl, rfl, rfl, fun _ hp => Or.inl hp⟩ hp,
              fun _ => hne, fun hf => by rw [hb] at hf; cases hf⟩
    · cases h
      exact ⟨plannedFrom_refl s, fun ht => Bool.noConfusion ht, fun _ => rfl⟩

theorem addSpecialPlan_planned {s s' : QueryPlanSet} {d : NamespaceDetails} {b : Bool}
    (h : QueryPlanGenerator.addSpecialPlan s d = Except.ok (b, s')) :
    plannedFrom s s' ∧ (b = true → s'.plans ≠ []) ∧ (b = false → s' = s) := by
  unfold QueryPlanGenerator.addSpecialPlan at h
  simp only at h
  split at h
  · split at h
    · split at h
      · cases h
      · split at h
        · cases h
        · rename_i plan hplan
          obtain ⟨h₁, hb⟩ := map_pair_ok h
          obtain ⟨hp, hne⟩ := setSinglePlan_planned h₁ ⟨_, _, _, _, _, hplan⟩
          exact ⟨hp, fun _ => hne, fun hf => by rw [hb] at hf; cases hf⟩
    · split at h
      · cases h
        exact ⟨plannedFrom_refl s, fun ht => Bool.noConfusion ht, fun _ => rfl⟩
      · cases h
  · cases h
    exact ⟨plannedFrom_refl s, fun ht => Bool.noConfusion ht, fun _ => rfl⟩

/-- The operator `||` of two planning steps is a planning step: when it returns true
the plan set is not empty, when it returns false the plan set is unchanged. -/
theorem orElseStep_planned {first : Except QueryError (Bool × QueryPlanSet)}
    {second : QueryPlanSet → Except QueryError (Bool × QueryPlanSet)} {s s' : QueryPlanSet}
    {b : Bool}
    (hfirst : ∀ b₁ s₁, first = Except.ok (b₁, s₁) →
      plannedFrom s s₁ ∧ (b₁ = true → s₁.plans ≠ []) ∧ (b₁ = false → s₁ = s))
    (hsecond : ∀ s₁ b₂ s₂, second s₁ = Except.ok (b₂, s₂) →
      plannedFrom s₁ s₂ ∧ (b₂ = true → s₂.plans ≠ []) ∧ (b₂ = false → s₂ = s₁))
    (h : orElseStep first second = Except.ok (b, s')) :
    plannedFrom s s' ∧ (b = true → s'.plans ≠ []) ∧ (b = false → s' = s) := by
  cases hf : first with
  | error e => simp [orElseStep, hf] at h
  | ok r =>
    obtain ⟨b₁, s₁⟩ := r
    cases b₁ with
    | true =>
      simp only [orElseStep, hf, Except.ok.injEq, Prod.mk.injEq] at h
      obtain ⟨hb, hs⟩ := h
      subst hb hs
      exact hfirst _ _ hf
    | false =>
      simp only [orElseStep, hf] at h
      obtain ⟨hp₁, _, he₁⟩ := hfirst _ _ hf
      obtain ⟨hp₂, hn₂, he₂⟩ := hsecond _ _ _ h
      have hs₁ := he₁ rfl
      subst hs₁
      exact ⟨hp₂, hn₂, he₂⟩

theorem addShortCircuitPlan_planned {db : Database} {s s' : QueryPlanSet}
    {d : Option NamespaceDetails} {b : Bool}
    (h : QueryPlanGenerator.addShortCircuitPlan db s d = Except.ok (b, s')) :
    plannedFrom s s' ∧ (b = true → s'.plans ≠ []) ∧ (b = false → s' = s) := by
  unfold QueryPlanGenerator.addShortCircuitPlan at h
  refine orElseStep_planned (fun _ _ h₁ => setUnindexedPlanIf_planned h₁)
    (fun s₁ b₂ s₂ h₂ => ?_) h
  refine orElseStep_planned (fun _ _ h₁ => setUnindexedPlanIf_planned h₁)
    (fun s₁ b₂ s₂ h₂ => ?_) h₂
  cases d with
  | none => cases h₂
  | some nsd =>
    simp only at h₂
    refine orElseStep_planned (fun _ _ h₁ => addHintPlan_planned h₁)
      (fun s₁ b₂ s₂ h₂ => ?_) h₂
    refine orElseStep_planned (fun _ _ h₁ => addSpecialPlan_planned h₁)
      (fun s₁ b₂ s₂ h₂ => ?_) h₂
    refine orElseStep_planned (fun _ _ h₁ => setUnindexedPlanIf_planned h₁)
      (fun s₁ b₂ s₂ h₂ => ?_) h₂
    exact setUnindexedPlanIf_planned h₂

/-- A step that returns the plan set of an inner step with a cache. -/
theorem map_with_cache_ok {x : Except QueryError QueryPlanSet} {c c' : QueryCache}
    {s' : QueryPlanSet}
    (h : x.map (fun s₁ => (s₁, c)) = Except.ok (s', c')) : x = Except.ok s' := by
  cases x with
  | error e => cases h
  | ok s₁ =>
    simp only [Except.map, Except.ok.injEq, Prod.mk.injEq] at h
    rw [h.1]

/-- The plan that `addCachedPlan` replays is made for the plan set. -/
theorem addCachedPlan_planned {db : Database} {s s' : QueryPlanSet} {d : NamespaceDetails}
    {cache : QueryCache} {b : Bool}
    (h : QueryPlanGenerator.addCachedPlan db s d cache = Except.ok (b, s')) :
    plannedFrom s s' ∧ (b = true → s'.plans ≠ []) ∧ (b = false → s' = s) := by
  have hsame : plannedFrom s s ∧ (false = true → s.plans ≠ []) ∧ (false = false → s = s) :=
    ⟨plannedFrom_refl s, fun ht => Bool.noConfusion ht, fun _ => rfl⟩
  unfold QueryPlanGenerator.addCachedPlan at h
  split at h
  · cases h; exact hsame
  · simp only [] at h
    split at h
    · cases h; exact hsame
    · split at h
      · cases h
      · rename_i p₀ hp₀
        split at h
        · cases h
        · cases h
        · rename_i p hloop
          have hmade : madeFor s p := by
            rcases cachedPlanLoop_ok s d _ _ _ _ hloop with h₀ | ⟨j, hj⟩
            · subst h₀
              split at hp₀
              · cases hn : s.newPlan (some d) (-1) [] [] "" with
                | error e => simp [hn, Except.map] at hp₀
                | ok q =>
                  simp only [hn, Except.map, Except.ok.injEq, Option.some.injEq] at hp₀
                  subst hp₀
                  exact ⟨_, _, _, _, _, hn⟩
              · cases hp₀
            · exact ⟨_, _, _, _, _, hj⟩
          split at h
          · cases h; exact hsame
          · split at h
            · cases h; exact hsame
            · split at h
              · cases h; exact hsame
              · obtain ⟨hset, hb⟩ := map_pair_ok h
                unfold QueryPlanSet.setCachedPlan at hset
                split at hset
                · rename_i hn
                  have hnil : s.plans = [] := List.length_eq_zero.1 hn
                  have hpush := (pushPlan_ok hset).1
                  subst hpush
                  refine ⟨⟨rfl, rfl, rfl, rfl, rfl, ?_⟩, fun _ => by simp,
                    fun hf => by rw [hb] at hf; cases hf⟩
                  intro q hq
                  simp only [hnil, List.nil_append, List.mem_singleton] at hq
                  exact Or.inr (hq ▸ hmade)
                · cases hset

/-- The plans that `addFallbackPlans` adds are made for the plan set, and it leaves the
plan set with a plan. -/
theorem generator_addFallbackPlans_planned {db : Database} {s s' : QueryPlanSet}
    {cache cache' : QueryCache}
    (h : QueryPlanGenerator.addFallbackPlans db s cache = Except.ok (s', cache')) :
    plannedFrom s s' ∧ s'.plans ≠ [] := by
  refine ⟨?_, ?_⟩
  · obtain ⟨d, added, _, heq, hadded, _⟩ := generator_addFallbackPlans_added h
    rw [heq]
    refine ⟨rfl, rfl, rfl, rfl, rfl, ?_⟩
    intro p hp
    simp only [List.mem_append] at hp
    rcases hp with hp | hp
    · exact Or.inl hp
    · rcases (hadded p hp).1 with hu | hn
      · obtain ⟨i, _, _, hi⟩ := usefulPlansOf_mem hu
        exact Or.inr ⟨_, _, _, _, _, hi⟩
      · exact Or.inr ⟨_, _, _, _, _, hn⟩
  · unfold QueryPlanGenerator.addFallbackPlans at h
    split at h
    · cases h
    · split at h
      · cases h
      · rcases setSinglePlan_ok (map_with_cache_ok h) with ⟨h1, hne⟩ | ⟨h1, _⟩
        · rw [h1]; exact hne
        · rw [h1]; simp
      · split at h
        · rcases setSinglePlan_ok (map_with_cache_ok h) with ⟨h1, hne⟩ | ⟨h1, _⟩
          · rw [h1]; exact hne
          · rw [h1]; simp
        · split at h
          · rcases setSinglePlan_ok (map_with_cache_ok h) with ⟨h1, hne⟩ | ⟨h1, _⟩
            · rw [h1]; exact hne
            · rw [h1]; simp
          · split at h
            · cases h
            · rename_i s₁ _
              split at h
              · cases h
              · rename_i tableScan _
                rcases addCandidatePlan_ok (map_with_cache_ok h) with
                  ⟨h1, first, rest, hp, _⟩ | ⟨h1, _⟩
                · rw [h1, hp]; simp
                · rw [h1]; simp

/-- After `QueryPlanSet::init` the plan set holds at least one plan, each of its plans
is made for the plan set, and it is for the same clause, query and order. -/
theorem init_planned {db : Database} {s s' : QueryPlanSet} {cache cache' : QueryCache}
    (h : s.init db cache = Except.ok (s', cache')) :
    s'.plans ≠ [] ∧ (∀ p ∈ s'.plans, madeFor s p) ∧ s'.order = s.order ∧
      s'.frsp = s.frsp := by
  have key : plannedFrom { s with plans := [], usingCachedPlan := false } s' ∧
      s'.plans ≠ [] := by
    unfold QueryPlanSet.init QueryPlanGenerator.addInitialPlans at h
    simp only at h
    split at h
    · cases h
    · rename_i s₁ hsc
      cases h
      obtain ⟨hp, hne, _⟩ := addShortCircuitPlan_planned hsc
      exact ⟨hp, hne rfl⟩
    · rename_i s₁ hsc
      obtain ⟨hp, _, _⟩ := addShortCircuitPlan_planned hsc
      split at h
      · cases h
      · unfold QueryPlanGenerator.addStandardPlans at h
        split at h
        · cases h
        · rename_i s₂ hc
          cases h
          obtain ⟨hp₂, hne, _⟩ := addCachedPlan_planned hc
          exact ⟨plannedFrom_trans hp hp₂, hne rfl⟩
        · rename_i s₂ hc
          obtain ⟨hp₂, _, _⟩ := addCachedPlan_planned hc
          obtain ⟨hp₃, hne⟩ := generator_addFallbackPlans_planned h
          exact ⟨plannedFrom_trans hp (plannedFrom_trans hp₂ hp₃), hne⟩
  obtain ⟨⟨h₁, h₂, h₃, h₄, h₅, h₆⟩, hne⟩ := key
  refine ⟨hne, ?_, h₄, h₁⟩
  intro p hp
  rcases h₆ p hp with hm | hm
  · simp at hm
  · exact madeFor_congr rfl rfl rfl rfl rfl hm


/-- C30: after `QueryPlanSet::init` (`QueryPlanGenerator::addInitialPlans`) returns
without an error, whatever the namespace, hint, `min`, `max`, policy and plan cache, the
plan set holds at least one plan, and each of its plans is made by `newPlan` for the
plan set; hence `Runner::init` on a Runner for that plan set returns (assertion 10369
does not fail) and `getBestGuess` returns (its `verify( _plans.size() )` does not
fail). -/
theorem init_leaves_a_plan (db : Database) (s s' : QueryPlanSet) (cache cache' : QueryCache)
    (h : s.init db cache = Except.ok (s', cache')) :
    s'.plans ≠ [] ∧ (∀ p ∈ s'.plans, madeFor s p) ∧
    (∀ (op : OpBehaviour) (pick : List QueryOp → List OpHolder → Nat),
      ∃ r, (Runner.new s' op pick).init = Except.ok r) ∧
    (∃ g, s'.getBestGuess = Except.ok g) := by
  obtain ⟨hne, hmade, _, _⟩ := init_planned h
  refine ⟨hne, hmade, ?_, ?_⟩
  · intro op pick
    have hlen : (Runner.new s' op pick).plans.plans.length > 0 :=
      List.length_pos.2 hne
    unfold Runner.init
    rw [if_pos hlen]
    simp only []
    split
    · exact ⟨_, rfl⟩
    · split
      · exact ⟨_, rfl⟩
      · exact ⟨_, rfl⟩
  · unfold QueryPlanSet.getBestGuess
    cases hp : s'.plans with
    | nil => exact absurd hp hne
    | cons plan₀ rest =>
      simp only []
      split
      · exact ⟨_, rfl⟩
      · exact ⟨_, rfl⟩

theorem init_leaves_a_plan_witness :
    ∃ r, exSetAB.init (exDb exNsdAB) exEmptyCache = Except.ok r ∧ r.1.plans ≠ [] ∧
      ∃ g, r.1.getBestGuess = Except.ok g :=
  ⟨_, rfl,
    (init_leaves_a_plan (exDb exNsdAB) exSetAB _ exEmptyCache _ rfl).1,
    (init_leaves_a_plan (exDb exNsdAB) exSetAB _ exEmptyCache _ rfl).2.2.2⟩

/-! ## Plans without a sort order -/

/-- A plan made with an empty sort order does not require a scan and order. -/
theorem make_empty_order {d : Option NamespaceDetails} {idxNo : Int} {frsp : FieldRangeSetPair}
    {originalFrsp : Option FieldRangeSetPair} {query : Query}
    {parsedQuery : Option ParsedQuery} {startKey endKey : BSONObj} {special : String}
    {p : QueryPlan}
    (h : QueryPlan.make d idxNo frsp originalFrsp query [] parsedQuery startKey endKey
      special = Except.ok p) : p.scanAndOrderRequired = false := by
  rcases make_cases h with h | ⟨_, h⟩ | ⟨index, sp, _, _, h⟩ | ⟨index, _, _, _, h⟩
  · subst h; rfl
  · subst h; rfl
  · subst h; rfl
  · subst h
    obtain ⟨hsao, _, _, _⟩ := initIndexed_walk
      (QueryPlan.withIndex d idxNo index frsp query [] parsedQuery startKey endKey special)
      index index.keyPattern originalFrsp startKey endKey
    rw [hsao]
    rfl

/-- C27: every plan that `QueryPlan::init` builds with an empty sort order has
scanAndOrderRequired false, whatever the index, the ranges, the bounds and the special
name.  The plan set of an `$or` clause, which `handleBeginningOfClause` makes with an
empty order, therefore holds a first plan that `getBestGuess` returns, and
`nextClauseBestGuessPlan` returns that plan whenever it reaches its
`verify( bestGuess )`. -/
theorem empty_order_best_guess (db : Database) (mps₁ mps₂ : MultiPlanScanner)
    (cache cache₁ : QueryCache)
    (hbegin : mps₁.handleBeginningOfClause db cache = Except.ok (mps₂, cache₁)) :
    (∀ (d : Option NamespaceDetails) (idxNo : Int) (frsp : FieldRangeSetPair)
        (originalFrsp : Option FieldRangeSetPair) (query : Query)
        (parsedQuery : Option ParsedQuery) (startKey endKey : BSONObj) (special : String)
        (p : QueryPlan),
      QueryPlan.make d idxNo frsp originalFrsp query [] parsedQuery startKey endKey special =
        Except.ok p → p.scanAndOrderRequired = false) ∧
    ∃ qps first rest, mps₂.currentQps = some qps ∧ qps.order = [] ∧
      qps.plans = first :: rest ∧
      (∀ p ∈ qps.plans, p.scanAndOrderRequired = false) ∧
      qps.getBestGuess = Except.ok (some first) ∧
      ∀ (mps : MultiPlanScanner) (currentPlan : QueryPlan),
        mps.hasMoreClauses = true → mps.handleEndOfClause currentPlan = Except.ok mps₁ →
        mps.nextClauseBestGuessPlan db currentPlan cache =
          Except.ok (some first, mps₂, cache₁) := by
  refine ⟨fun _ _ _ _ _ _ _ _ _ _ h => make_empty_order h, ?_⟩
  obtain ⟨hmore₁, org, qps, _, hmake, heq⟩ := handleBeginningOfClause_ok hbegin
  unfold QueryPlanSet.make at hmake
  obtain ⟨hne, hmade, hord, _⟩ := init_planned hmake
  have hord' : qps.order = [] := hord
  have hsao : ∀ p ∈ qps.plans, p.scanAndOrderRequired = false := by
    intro p hp
    obtain ⟨d, idxNo, min, max, special, hnew⟩ := hmade p hp
    exact make_empty_order hnew
  cases hplans : qps.plans with
  | nil => exact absurd hplans hne
  | cons first rest =>
    have hfirst : first.scanAndOrderRequired = false :=
      hsao first (by rw [hplans]; exact List.mem_cons_self _ _)
    have hguess : qps.getBestGuess = Except.ok (some first) := by
      simp [QueryPlanSet.getBestGuess, hplans, hfirst]
    have hq : mps₂.currentQps = some qps := by rw [heq]
    refine ⟨qps, first, rest, hq, hord', hplans, hsao, hguess, ?_⟩
    · intro mps currentPlan hmore hend
      simp [MultiPlanScanner.nextClauseBestGuessPlan, hmore, hend, hmore₁, hbegin, hq, hguess]

theorem empty_order_best_guess_witness :
    (∃ r, exScannerOrSecond.handleBeginningOfClause (exDb exNsdABC) exScannerOrStarted.2 =
        Except.ok r ∧
      ∃ qps first rest, r.1.currentQps = some qps ∧ qps.order = [] ∧
        qps.plans = first :: rest ∧
        (∀ p ∈ qps.plans, p.scanAndOrderRequired = false) ∧
        qps.getBestGuess = Except.ok (some first) ∧
        ∀ (mps : MultiPlanScanner) (currentPlan : QueryPlan),
          mps.hasMoreClauses = true →
          mps.handleEndOfClause currentPlan = Except.ok exScannerOrSecond →
          mps.nextClauseBestGuessPlan (exDb exNsdABC) currentPlan exScannerOrStarted.2 =
            Except.ok (some first, r.1, r.2)) ∧
    (exScannerOrStarted.1.nextClauseBestGuessPlan (exDb exNsdABC) exPlanA
        exScannerOrStarted.2).toOption.map
        (fun r => r.1.map (fun p => (p.indexKey, p.scanAndOrderRequired))) =
      some (some ([exEl "b" 1], false)) :=
  ⟨⟨_, rfl,
    (empty_order_best_guess (exDb exNsdABC) exScannerOrSecond _ exScannerOrStarted.2 _
      rfl).2⟩, rfl⟩

/-! ## One fallback expansion per Runner -/

/-- The loop over the added plans returns an op only if there is an added plan. -/
theorem fallbackOps_some_ne_nil {impl : OpBehaviour} {plans : List QueryPlan}
    {ops : List QueryOp} {queue : List OpHolder} {ret : Nat}
    (h : (fallbackOps impl plans ops queue).1 = some ret) : plans ≠ [] := by
  intro hnil
  subst hnil
  simp [fallbackOps] at h

/-- After the overrun branch of `_next` has run, usingCachedPlan is cleared or the plan
set holds more than one plan. -/
theorem next_overrun_leaves_no_excluded {db : Database} {r r' : Runner}
    {cache cache' : QueryCache} {holder : OpHolder} {queue : List OpHolder} {op₀ : QueryOp}
    {ret : Nat}
    (hpop : r.pop = some (holder, queue))
    (hop : r.ops[holder.op]? = some op₀)
    (hexcl : r.plans.hasPossiblyExcludedPlans = true)
    (hcomplete : (nextOp r.op op₀).complete = false)
    (herror : (nextOp r.op op₀).error = false)
    (hscan : (nextOp r.op op₀).nscanned > r.plans.oldNScanned * 10)
    (h : r._next db cache = Except.ok (ret, r', cache')) :
    r'.plans.usingCachedPlan = false ∨ r'.plans.plans.length > 1 := by
  unfold Runner._next at h
  simp only [hpop, hop, hcomplete, herror, hexcl, hscan, Bool.false_eq_true, if_false,
    decide_True, Bool.and_self, if_true] at h
  split at h
  · rename_i firstPlan hplans
    split at h
    · split at h
      · cases h
      · rename_i plans₁ cache₁ hadd
        split at h
        · rename_i ret₁ ops₂ queue₂ hfb
          cases h
          right
          have hne := fallbackOps_some_ne_nil (congrArg Prod.fst hfb)
          show plans₁.plans.length > 1
          cases hp : plans₁.plans with
          | nil => simp [hp] at hne
          | cons a rest =>
            cases rest with
            | nil => simp [hp] at hne
            | cons b rest₂ => simp
        · cases h
          left
          rfl
    · cases h
  · cases h

/-- C29: within one Runner the fallback expansion happens at most once.  When the
overrun branch of `Runner::_next` has run (the plan set had possibly excluded plans, the
op popped is neither complete nor in error and has scanned more than ten times the
cached count) and the step returned, usingCachedPlan is cleared or the plan set holds
more than one plan, so `hasPossiblyExcludedPlans()` is false; and it is false after
every later step and every later call of `Runner::next`, none of which changes the plan
set or adds an op. -/
theorem fallback_expansion_once (db : Database) (r r' : Runner) (cache cache' : QueryCache)
    (holder : OpHolder) (queue : List OpHolder) (op₀ : QueryOp) (ret : Nat)
    (hpop : r.pop = some (holder, queue))
    (hop : r.ops[holder.op]? = some op₀)
    (hexcl : r.plans.hasPossiblyExcludedPlans = true)
    (hcomplete : (nextOp r.op op₀).complete = false)
    (herror : (nextOp r.op op₀).error = false)
    (hscan : (nextOp r.op op₀).nscanned > r.plans.oldNScanned * 10)
    (h : r._next db cache = Except.ok (ret, r', cache')) :
    (r'.plans.usingCachedPlan = false ∨ r'.plans.plans.length > 1) ∧
    r'.plans.hasPossiblyExcludedPlans = false ∧
    (∀ ret₂ r₂ cache₂, r'._next db cache' = Except.ok (ret₂, r₂, cache₂) →
      r₂.plans = r'.plans ∧ r₂.ops.length = r'.ops.length ∧
        r₂.plans.hasPossiblyExcludedPlans = false) ∧
    (∀ n r₂ cache₂, Runner.afterCalls db n r' cache' = Except.ok (r₂, cache₂) →
      r₂.plans = r'.plans ∧ r₂.plans.hasPossiblyExcludedPlans = false) := by
  have hor := next_overrun_leaves_no_excluded hpop hop hexcl hcomplete herror hscan h
  have hno : r'.plans.hasPossiblyExcludedPlans = false := by
    rcases hor with hu | hl
    · simp [QueryPlanSet.hasPossiblyExcludedPlans, hu]
    · exact hasPossiblyExcludedPlans_of_length _ (by omega)
  refine ⟨hor, hno, ?_, ?_⟩
  · intro ret₂ r₂ cache₂ h₂
    obtain ⟨hp, hl, _, _⟩ := next_step_no_expansion hno h₂
    exact ⟨hp, hl, by rw [hp]; exact hno⟩
  · intro n r₂ cache₂ h₂
    obtain ⟨hp, _⟩ := afterCalls_no_expansion db n r' r₂ cache' cache₂ hno h₂
    exact ⟨hp, by rw [hp]; exact hno⟩

theorem fallback_expansion_once_witness :
    (∃ x, (exRunnerA 2)._next (exDb exNsdABC) exCacheA = Except.ok x ∧
      x.2.1.plans.usingCachedPlan = true ∧ x.2.1.plans.plans.length = 4 ∧
      x.2.1.plans.hasPossiblyExcludedPlans = false) ∧
    (∃ x, (exRunnerA 7)._next (exDb exNsdABC) exCacheA = Except.ok x ∧
      x.2.1.plans.usingCachedPlan = false ∧ x.2.1.plans.plans.length = 4) :=
  ⟨⟨_, rfl, rfl, rfl,
    (fallback_expansion_once (exDb exNsdABC) (exRunnerA 2) _ exCacheA _
      { op := 0, offset := 0 } []
      (initOp (exScanner 2) (QueryOp.createChild exPlanA)) _
      rfl rfl rfl rfl rfl (by decide) rfl).2.1⟩,
   ⟨_, rfl, rfl, rfl⟩⟩

/-! ## One retry of a failed cached plan -/

/-- After `clearIndexesForPatterns` the plan cache holds no plan for the patterns of the
clause. -/
theorem bestIndex_after_clear (db : Database) (frsp : FieldRangeSetPair) (order : BSONObj)
    (cache : QueryCache) :
    bestIndexForPatterns db frsp order (clearIndexesForPatterns db frsp order cache) =
      CachedQueryPlan.empty := by
  unfold bestIndexForPatterns clearIndexesForPatterns
  cases db.nsdetails frsp.ns with
  | none => rfl
  | some d =>
    simp only [cachedQueryPlanForPattern, registerCachedQueryPlanForPattern, if_true]
    by_cases hsm : frsp.singleKey.pattern order = frsp.multiKey.pattern order
    · simp [hsm, CachedQueryPlan.empty]
    · simp [hsm, CachedQueryPlan.empty]

/-- Without a cached plan for the patterns of the clause `addCachedPlan` returns false
and leaves the plan set as it is. -/
theorem addCachedPlan_empty_cache {db : Database} {s : QueryPlanSet} {d : NamespaceDetails}
    {cache : QueryCache}
    (h : bestIndexForPatterns db s.frsp s.order cache = CachedQueryPlan.empty) :
    QueryPlanGenerator.addCachedPlan db s d cache = Except.ok (false, s) := by
  unfold QueryPlanGenerator.addCachedPlan
  split
  · rfl
  · simp [h, CachedQueryPlan.empty]

/-- A plan set initialised on a plan cache without a plan for the patterns of its clause
is not using a cached plan. -/
theorem init_without_cached_plan {db : Database} {s s' : QueryPlanSet}
    {cache cache' : QueryCache}
    (hbest : bestIndexForPatterns db s.frsp s.order cache = CachedQueryPlan.empty)
    (h : s.init db cache = Except.ok (s', cache')) : s'.usingCachedPlan = false := by
  unfold QueryPlanSet.init QueryPlanGenerator.addInitialPlans at h
  simp only at h
  split at h
  · cases h
  · rename_i s₁ hsc
    cases h
    exact addShortCircuitPlan_usingCachedPlan hsc
  · rename_i s₁ hsc
    have hs₁ := (addShortCircuitPlan_planned hsc).2.2 rfl
    subst hs₁
    split at h
    · cases h
    · rename_i nsd _
      unfold QueryPlanGenerator.addStandardPlans at h
      rw [addCachedPlan_empty_cache (by exact hbest)] at h
      simp only at h
      obtain ⟨d', added, _, heq, _⟩ := generator_addFallbackPlans_added h
      rw [heq]

/-- What `prepareToRetryQuery` does when it returns true: the plan set is initialised
again on the plan cache cleared for the patterns of the clause. -/
theorem prepareToRetryQuery_true {db : Database} {s qps₂ : QueryPlanSet}
    {cache cache₂ : QueryCache}
    (h : s.prepareToRetryQuery db cache = Except.ok (true, qps₂, cache₂)) :
    s.hasPossiblyExcludedPlans = true ∧
    s.init db (clearIndexesForPatterns db s.frsp s.order cache) = Except.ok (qps₂, cache₂) := by
  unfold QueryPlanSet.prepareToRetryQuery at h
  split at h
  · cases h
  · rename_i hc
    have hc' : s.hasPossiblyExcludedPlans = true ∧ s.plans.length ≤ 1 := by simpa using hc
    refine ⟨hc'.1, ?_⟩
    cases hi : s.init db (clearIndexesForPatterns db s.frsp s.order cache) with
    | error e => simp [hi, Except.map] at h
    | ok r =>
      simp only [hi, Except.map, Except.ok.injEq, Prod.mk.injEq, true_and] at h
      obtain ⟨h₁, h₂⟩ := h
      rw [← h₁, ← h₂]

/-- Without possibly excluded plans `prepareToRetryQuery` returns false and changes
nothing. -/
theorem prepareToRetryQuery_false (db : Database) (s : QueryPlanSet) (cache : QueryCache)
    (hno : s.hasPossiblyExcludedPlans = false) :
    s.prepareToRetryQuery db cache = Except.ok (false, s, cache) := by
  simp [QueryPlanSet.prepareToRetryQuery, hno]

/-- On a plan set without possibly excluded plans and without a Runner, the body of
`iterateRunner` never reaches its retry. -/
theorem iterateRunnerBody_no_retry (db : Database) (originalOp : OpBehaviour)
    (k₁ k₂ : MultiPlanScanner → QueryCache →
      Except QueryError (QueryOp × MultiPlanScanner × QueryCache))
    (mps : MultiPlanScanner) (qps : QueryPlanSet) (cache : QueryCache)
    (hrunner : mps.runner = none) (hqps : mps.currentQps = some qps)
    (hno : qps.hasPossiblyExcludedPlans = false) :
    MultiPlanScanner.iterateRunnerBody db originalOp k₁ mps cache =
      MultiPlanScanner.iterateRunnerBody db originalOp k₂ mps cache := by
  unfold MultiPlanScanner.iterateRunnerBody
  simp only [hrunner, hqps]
  cases hnext : (Runner.new qps originalOp mps.env.pick).next db cache with
  | error e => rfl
  | ok r =>
    obtain ⟨ret, runner₁, cache₁⟩ := r
    simp only
    have hplans : runner₁.plans = qps :=
      (next_no_expansion (r := Runner.new qps originalOp mps.env.pick) hno hnext).1
    cases hop : runner₁.ops[ret]? with
    | none => rfl
    | some op =>
      simp only
      by_cases he : op.error = true
      · rw [if_pos he, if_pos he, hplans, prepareToRetryQuery_false db qps cache₁ hno]
      · rw [if_neg he, if_neg he]

/-- Two retries that agree on the plan sets `prepareToRetryQuery` hands over give the
same body of `iterateRunner`. -/
theorem iterateRunnerBody_congr (db : Database) (originalOp : OpBehaviour)
    (k₁ k₂ : MultiPlanScanner → QueryCache →
      Except QueryError (QueryOp × MultiPlanScanner × QueryCache))
    (mps : MultiPlanScanner) (cache : QueryCache)
    (hk : ∀ (s qps₂ : QueryPlanSet) (c cache₂ : QueryCache) (mps₁ : MultiPlanScanner),
      s.prepareToRetryQuery db c = Except.ok (true, qps₂, cache₂) →
      k₁ { mps₁ with currentQps := some qps₂ } cache₂ =
        k₂ { mps₁ with currentQps := some qps₂ } cache₂) :
    MultiPlanScanner.iterateRunnerBody db originalOp k₁ mps cache =
      MultiPlanScanner.iterateRunnerBody db originalOp k₂ mps cache := by
  unfold MultiPlanScanner.iterateRunnerBody
  cases hr : mps.runner with
  | some runner => rfl
  | none =>
    simp only
    cases hq : mps.currentQps with
    | none => rfl
    | some qps =>
      simp only
      cases hnext : (Runner.new qps originalOp mps.env.pick).next db cache with
      | error e => rfl
      | ok r =>
        obtain ⟨ret, runner₁, cache₁⟩ := r
        simp only
        cases hop : runner₁.ops[ret]? with
        | none => rfl
        | some op =>
          simp only
          by_cases he : op.error = true
          · rw [if_pos he, if_pos he]
            cases hp : runner₁.plans.prepareToRetryQuery db cache₁ with
            | error e => rfl
            | ok x =>
              obtain ⟨b, qps₂, cache₂⟩ := x
              cases b with
              | true =>
                exact hk _ _ _ _
                  { mps with runner := some runner₁, currentQps := some runner₁.plans } hp
              | false => rfl
          · rw [if_neg he, if_neg he]

/-- C28: `iterateRunner` retries a failed cached plan at most once.  When
`prepareToRetryQuery` returns true, the plan cache it cleared holds no plan for the
patterns of the clause, so the plan set it initialised again is not using a cached plan
and has no possibly excluded plans; on that plan set `prepareToRetryQuery` returns
false, the second pass of `iterateRunner` gives the same result whatever would follow
its `verify( !retried )`, and so does `iterateRunner` as a whole: the assertion is never
reached and the recursion stops at depth two. -/
theorem retry_at_most_once (db : Database) (s qps₂ : QueryPlanSet) (cache cache₂ : QueryCache)
    (hretry : s.prepareToRetryQuery db cache = Except.ok (true, qps₂, cache₂)) :
    bestIndexForPatterns db s.frsp s.order (clearIndexesForPatterns db s.frsp s.order cache) =
      CachedQueryPlan.empty ∧
    qps₂.usingCachedPlan = false ∧
    qps₂.hasPossiblyExcludedPlans = false ∧
    (∀ c, qps₂.prepareToRetryQuery db c = Except.ok (false, qps₂, c)) ∧
    (∀ (originalOp : OpBehaviour) (mps₁ : MultiPlanScanner)
        (k : MultiPlanScanner → QueryCache →
          Except QueryError (QueryOp × MultiPlanScanner × QueryCache)),
      MultiPlanScanner.iterateRunner db originalOp true
          { mps₁ with currentQps := some qps₂, runner := none } cache₂ =
        MultiPlanScanner.iterateRunnerBody db originalOp k
          { mps₁ with currentQps := some qps₂, runner := none } cache₂) ∧
    (∀ (originalOp : OpBehaviour) (mps : MultiPlanScanner) (cache₀ : QueryCache)
        (k : MultiPlanScanner → QueryCache →
          Except QueryError (QueryOp × MultiPlanScanner × QueryCache)),
      MultiPlanScanner.iterateRunner db originalOp false mps cache₀ =
        MultiPlanScanner.iterateRunnerBody db originalOp
          (fun mps₁ cache₁ =>
            MultiPlanScanner.iterateRunnerBody db originalOp k
              { mps₁ with runner := none } cache₁)
          mps cache₀) := by
  have after : ∀ {s qps₂ : QueryPlanSet} {c cache₂ : QueryCache},
      s.prepareToRetryQuery db c = Except.ok (true, qps₂, cache₂) →
      qps₂.usingCachedPlan = false := by
    intro s qps₂ c cache₂ h
    obtain ⟨_, hinit⟩ := prepareToRetryQuery_true h
    exact init_without_cached_plan (bestIndex_after_clear db s.frsp s.order c) hinit
  have hexcl : ∀ {q : QueryPlanSet}, q.usingCachedPlan = false →
      q.hasPossiblyExcludedPlans = false := by
    intro q hq
    simp [QueryPlanSet.hasPossiblyExcludedPlans, hq]
  have hu := after hretry
  refine ⟨bestIndex_after_clear db s.frsp s.order cache, hu, hexcl hu,
    fun c => prepareToRetryQuery_false db qps₂ c (hexcl hu), ?_, ?_⟩
  · intro originalOp mps₁ k
    unfold MultiPlanScanner.iterateRunner
    simp only [if_true]
    exact iterateRunnerBody_no_retry db originalOp _ k _ qps₂ cache₂ rfl rfl (hexcl hu)
  · intro originalOp mps cache₀ k
    unfold MultiPlanScanner.iterateRunner
    simp only [Bool.false_eq_true, if_false]
    apply iterateRunnerBody_congr
    intro s' q₂ c c₂ mps₁ hp
    exact iterateRunnerBody_no_retry db originalOp _ k _ q₂ c₂ rfl rfl (hexcl (after hp))

theorem retry_at_most_once_witness :
    (∃ x, (exRunnerA 7).plans.prepareToRetryQuery (exDb exNsdABC) exCacheA =
        Except.ok (true, x) ∧
      x.1.usingCachedPlan = false ∧
      x.1.plans.map (fun p => p.indexKey) =
        [[exEl "a" 1], [exEl "b" 1], [exEl "c" 1], [exEl "$natural" 1]]) ∧
    (MultiPlanScanner.iterateRunner (exDb exNsdABC) (exThrower 0) false exScannerReplay
        exCacheA).toOption.map
        (fun r => (r.1.error, r.1.queryPlan.indexKey,
          r.2.1.currentQps.map (fun q => (q.usingCachedPlan, q.plans.length)))) =
      some (false, [exEl "b" 1], some (false, 4)) :=
  ⟨⟨_, rfl,
    (retry_at_most_once (exDb exNsdABC) (exRunnerA 7).plans _ exCacheA _ rfl).2.1, rfl⟩,
   rfl⟩

/-! ## Keys that do not share a pattern -/

/-- What `keyAudit` returns, from any value of the counter. -/
theorem keyAudit_spec (db : Database) :
    ∀ (min max : BSONObj) (n : Int),
      ((min.take (equalValuePrefix db min max + 1)).map (fun e => e.fieldName) =
          (max.take (equalValuePrefix db min max + 1)).map (fun e => e.fieldName) →
        keyAudit db min max n =
          ((specKeyAudit db min max).1, n + (specKeyAudit db min max).2)) ∧
      (¬ (min.take (equalValuePrefix db min max + 1)).map (fun e => e.fieldName) =
          (max.take (equalValuePrefix db min max + 1)).map (fun e => e.fieldName) →
        keyAudit db min max n = (-1, -1))
  | [], [], n => by
    simp [keyAudit, specKeyAudit, equalValuePrefix]
  | [], _ :: _, n => by
    simp [keyAudit, equalValuePrefix]
  | _ :: _, [], n => by
    simp [keyAudit, equalValuePrefix]
  | ie :: i, ae :: a, n => by
    by_cases hname : ie.fieldName = ae.fieldName
    · by_cases hcmp : db.woCompare ie ae = 0
      · have hk : equalValuePrefix db (ie :: i) (ae :: a) = equalValuePrefix db i a + 1 := by
          simp [equalValuePrefix, hcmp]
        have hs : specKeyAudit db (ie :: i) (ae :: a) =
            ((specKeyAudit db i a).1, (specKeyAudit db i a).2 + 1) := by
          unfold specKeyAudit
          rw [hk]
          simp only [List.zip_cons_cons, List.getElem?_cons_succ]
          cases (i.zip a)[equalValuePrefix db i a]? with
          | none => simp
          | some x => simp
        obtain ⟨ih₁, ih₂⟩ := keyAudit_spec db i a (n + 1)
        have hka : keyAudit db (ie :: i) (ae :: a) n = keyAudit db i a (n + 1) := by
          simp [keyAudit, hname, hcmp]
        rw [hka, hk, hs]
        simp only [List.take_succ_cons, List.map_cons, List.cons.injEq, hname, true_and]
        refine ⟨fun h => ?_, fun h => ih₂ h⟩
        rw [ih₁ h]
        simp only [Prod.mk.injEq, true_and]
        ring
      · have hk : equalValuePrefix db (ie :: i) (ae :: a) = 0 := by
          simp [equalValuePrefix, hcmp]
        rw [hk]
        refine ⟨fun _ => ?_, fun h => ?_⟩
        · unfold specKeyAudit
          rw [hk]
          simp only [List.zip_cons_cons, List.getElem?_cons_zero, keyAudit, hname, ne_eq,
            not_true_eq_false, if_false]
          by_cases hlt : db.woCompare ie ae < 0
          · have hgt : ¬ db.woCompare ie ae > 0 := by omega
            simp [hlt, hgt]
          · have hgt : db.woCompare ie ae > 0 := by omega
            simp [hlt, hgt]
        · exfalso
          apply h
          simp [hname]
    · refine ⟨fun h => ?_, fun _ => ?_⟩
      · exfalso
        simp only [List.take_succ_cons, List.map_cons, List.cons.injEq] at h
        exact hname h.1
      · simp [keyAudit, hname]

/-- Keys that share the pattern share it up to the first field whose values differ. -/
theorem sharePattern_toFirstDifference (db : Database) (min max : BSONObj)
    (h : sharePattern min max) : sharePatternToFirstDifference db min max := by
  unfold sharePattern at h
  unfold sharePatternToFirstDifference
  rw [List.map_take, List.map_take, h]

/-- What `keyAudit` and `indexDetailsForRange` compute for non-empty keys `min` and
`max`: `keyAudit` returns (-1,-1) exactly when the keys do not share the pattern on the
fields up to and including the first field whose values differ (a field name differs
there, or one key ends before the other does and before any value differs); otherwise,
so in particular when the keys share the whole pattern, it returns the direction (+1 if
`min` is less than `max` at the first field whose values differ, -1 if greater, 0 if all
values are equal) and the position of that field (the field count if none differ).  On
a namespace that exists `indexDetailsForRange` returns, and it fails with "min and max
keys do not share pattern" in exactly that case. -/
theorem keyAudit_share_pattern (db : Database) (ns : String) (d : NamespaceDetails)
    (min max keyPattern : BSONObj)
    (hd : db.nsdetails ns = some d) (hmin : min ≠ []) (hmax : max ≠ []) :
    (keyAudit db min max 0 = (-1, -1) ↔ ¬ sharePatternToFirstDifference db min max) ∧
    (sharePatternToFirstDifference db min max →
      keyAudit db min max 0 = specKeyAudit db min max) ∧
    (sharePattern min max → keyAudit db min max 0 = specKeyAudit db min max) ∧
    ∃ r, indexDetailsForRange db ns min max keyPattern = Except.ok r ∧
      (r.errmsg = "min and max keys do not share pattern" ↔
        ¬ sharePatternToFirstDifference db min max) ∧
      (r.errmsg = "min and max keys do not share pattern" → r.id = none) := by
  obtain ⟨h₁, h₂⟩ := keyAudit_spec db min max 0
  have hspec : specKeyAudit db min max ≠ (-1, -1) := by
    intro h
    have h2 := congrArg Prod.snd h
    unfold specKeyAudit at h2
    split at h2 <;> simp only at h2 <;> omega
  have hshared : sharePatternToFirstDifference db min max →
      keyAudit db min max 0 = specKeyAudit db min max := by
    intro h
    rw [h₁ h]
    simp
  have hiff : keyAudit db min max 0 = (-1, -1) ↔ ¬ sharePatternToFirstDifference db min max := by
    constructor
    · intro h hs
      rw [hshared hs] at h
      exact hspec h
    · exact h₂
  refine ⟨hiff, hshared, fun h => hshared (sharePattern_toFirstDifference db min max h), ?_⟩
  have hminE : min.isEmpty = false := by
    cases min with
    | nil => exact absurd rfl hmin
    | cons _ _ => rfl
  have hmaxE : max.isEmpty = false := by
    cases max with
    | nil => exact absurd rfl hmax
    | cons _ _ => rfl
  have hflex : flexibleKeyAudit db min max = keyAudit db min max 0 := by
    simp [flexibleKeyAudit, hminE, hmaxE]
  unfold indexDetailsForRange
  simp only [hminE, hmaxE, Bool.and_self, Bool.false_eq_true, if_false, hd, hflex]
  by_cases hret : keyAudit db min max 0 = (-1, -1)
  · rw [if_pos hret]
    exact ⟨_, rfl, ⟨fun _ => hiff.1 hret, fun _ => rfl⟩, fun _ => rfl⟩
  · rw [if_neg hret]
    have hns : ¬ ¬ sharePatternToFirstDifference db min max := fun h => hret (hiff.2 h)
    have hs₁ : ("requested keyPattern does not match specified keys" : String) ≠
        "min and max keys do not share pattern" := by decide
    have hs₂ : ("no index found for specified keyPattern" : String) ≠
        "min and max keys do not share pattern" := by decide
    have hs₃ : ("" : String) ≠ "min and max keys do not share pattern" := by decide
    split
    · exact ⟨_, rfl, ⟨fun h => absurd h hs₁, fun h => absurd h hns⟩, fun h => absurd h hs₁⟩
    · split
      · exact ⟨_, rfl, ⟨fun h => absurd h hs₂, fun h => absurd h hns⟩, fun h => absurd h hs₂⟩
      · exact ⟨_, rfl, ⟨fun h => absurd h hs₃, fun h => absurd h hns⟩, fun h => absurd h hs₃⟩

theorem keyAudit_share_pattern_witness :
    keyAudit (exDb exNsdAB) [exEl "a" 1, exEl "b" 1] [exEl "a" 1, exEl "c" 2] 0 = (-1, -1) ∧
    (∃ r, indexDetailsForRange (exDb exNsdAB) "test.c" [exEl "a" 1, exEl "b" 1]
        [exEl "a" 1, exEl "c" 2] [] = Except.ok r ∧
      r.errmsg = "min and max keys do not share pattern" ∧ r.id = none) ∧
    keyAudit (exDb exNsdAB) [exEl "a" 1, exEl "b" 1] [exEl "a" 1, exEl "b" 2] 0 = (1, 1) :=
  ⟨rfl, ⟨_, rfl, rfl, rfl⟩,
    ((keyAudit_share_pattern (exDb exNsdAB) "test.c" exNsdAB [exEl "a" 1, exEl "b" 1]
      [exEl "a" 1, exEl "b" 2] [] rfl (by simp) (by simp)).2.2.1 rfl).trans rfl⟩

/-- C25 at the failing input: `min` `{a: 1, b: 1}` and `max` `{a: 2, c: 1}` are
non-empty and do not share the pattern.  `keyAudit` returns (1, 0), since the values of
`a` differ and its loop leaves there, before the names `b` and `c` are compared, and
`indexDetailsForRange` returns the index `{a:1,b:1}` without an error message, with a
`max` of the single field `a`.  With equal values of `a` the same pair of patterns is
audited and refused: `keyAudit` returns (-1,-1) and `indexDetailsForRange` fails with
"min and max keys do not share pattern". -/
theorem keyAudit_stops_at_first_difference :
    [exEl "a" 1, exEl "b" 1].map (fun e => e.fieldName) ≠
      [exEl "a" 2, exEl "c" 1].map (fun e => e.fieldName) ∧
    keyAudit (exDb exNsdAB) [exEl "a" 1, exEl "b" 1] [exEl "a" 2, exEl "c" 1] 0 = (1, 0) ∧
    (indexDetailsForRange (exDb exNsdAB) "test.c" [exEl "a" 1, exEl "b" 1]
        [exEl "a" 2, exEl "c" 1] []).toOption.map
        (fun r => (r.id.map (fun x => x.2.keyPattern), r.errmsg, r.min, r.max)) =
      some (some [exEl "a" 1, exEl "b" 1], "", [exEl "" 1, exEl "" 1], [exEl "" 2]) ∧
    keyAudit (exDb exNsdAB) [exEl "a" 1, exEl "b" 1] [exEl "a" 1, exEl "c" 1] 0 = (-1, -1) ∧
    (indexDetailsForRange (exDb exNsdAB) "test.c" [exEl "a" 1, exEl "b" 1]
        [exEl "a" 1, exEl "c" 1] []).toOption.map
        (fun r => (r.id.map (fun x => x.2.keyPattern), r.errmsg)) =
      some (none, "min and max keys do not share pattern") :=
  ⟨by decide, rfl, rfl, rfl, rfl⟩

/-! ## The plans a fallback expansion adds -/

end Mongo
